import Mathlib

/-!
# taro.js collision core: a shallow embedding of `System.collision`

The definitions below follow `src/js/core/system.js` (object `System.collision`,
lines 167-596) function by function.  Numbers are taken in an arbitrary linearly
ordered field `K` (the rationals for evaluation, the reals for the exact reading
of the formulas); the square root used by `Vector3.normalize` is a parameter
`sqrt : K → K`.

The source computes on JavaScript numbers, that is on IEEE 754 binary64.  The functions over
`K` give the values of the source's formulas in exact arithmetic, and only where no divisor
is 0: a quotient of the field with the divisor 0 is 0, where the source has `Infinity` or
`NaN`.  Where the rounding or a division by zero decides what the source does, the functions
concerned are given a second time: under `Binary64` on the rationals with every operation
rounded to binary64, and under `Number` with `Infinity` and `NaN` as well.

`THREE.Vector3` methods work in place and return `this`.  The embedding is pure, so
every place where the source keeps an alias to a vector that is later changed in
place is written out as an explicit update of the owning record.
-/

namespace Taro

/-! ## THREE.Vector3 -/

/-- The `THREE.Vector3` triple. -/
structure Vector3 (K : Type) where
  x : K
  y : K
  z : K
deriving DecidableEq, Repr

namespace Vector3

variable {K : Type} [LinearOrderedField K]

/-- The vector `new THREE.Vector3()`. -/
def zero : Vector3 K := ⟨0, 0, 0⟩

/-- The method `add(v)`. -/
def add (a b : Vector3 K) : Vector3 K := ⟨a.x + b.x, a.y + b.y, a.z + b.z⟩

/-- The method `sub(v)`. -/
def sub (a b : Vector3 K) : Vector3 K := ⟨a.x - b.x, a.y - b.y, a.z - b.z⟩

/-- The method `multiply(v)`: component by component. -/
def multiply (a b : Vector3 K) : Vector3 K := ⟨a.x * b.x, a.y * b.y, a.z * b.z⟩

/-- The method `multiplyScalar(s)`. -/
def multiplyScalar (a : Vector3 K) (s : K) : Vector3 K := ⟨a.x * s, a.y * s, a.z * s⟩

/-- The method `divideScalar(s)`, which three.js defines as `multiplyScalar(1 / s)`. -/
def divideScalar (a : Vector3 K) (s : K) : Vector3 K := a.multiplyScalar (1 / s)

/-- The method `negate()`. -/
def negate (a : Vector3 K) : Vector3 K := ⟨-a.x, -a.y, -a.z⟩

/-- The method `dot(v)`. -/
def dot (a b : Vector3 K) : K := a.x * b.x + a.y * b.y + a.z * b.z

/-- The method `cross(v)`: `this × v`. -/
def cross (a b : Vector3 K) : Vector3 K :=
  ⟨a.y * b.z - a.z * b.y, a.z * b.x - a.x * b.z, a.x * b.y - a.y * b.x⟩

/-- The method `length()`, with the square root as a parameter. -/
def length (sqrt : K → K) (a : Vector3 K) : K := sqrt (a.x * a.x + a.y * a.y + a.z * a.z)

/-- The method `normalize()`: `divideScalar(this.length() || 1)`. -/
def normalize (sqrt : K → K) (a : Vector3 K) : Vector3 K :=
  a.divideScalar (if a.length sqrt = 0 then 1 else a.length sqrt)

end Vector3

/-! ## Components -/

/-- The `material` record of a collider. -/
structure Material (K : Type) where
  bounciness : K
  staticFriction : K
  dynamicFriction : K
deriving DecidableEq, Repr

/-- The fields of the `Physics` component that the collision system reads and writes. -/
structure Physics (K : Type) where
  mass : K
  velocity : Vector3 K
  angularVelocity : Vector3 K
  inertiaTensor : Vector3 K
  worldCenterOfMass : Vector3 K
  useGravity : Bool
deriving DecidableEq, Repr

/-- A `THREE.Box3`. -/
structure Box3 (K : Type) where
  min : Vector3 K
  max : Vector3 K
deriving DecidableEq, Repr

/-- The fields of the `Collider` component that the collision system reads.  `Physics` is
`none` when the collider object has no own property `Physics`. -/
structure Collider (K : Type) where
  worldVertices : List (Vector3 K)
  worldAABB : Box3 K
  worldCentroid : Vector3 K
  material : Material K
  Physics : Option (Physics K)
deriving DecidableEq, Repr

/-- The contact record that `EPA` returns. -/
structure Contact (K : Type) where
  dist : K
  point : Vector3 K
  normal : Vector3 K
deriving DecidableEq, Repr

/-- A support pair `[diff, a]`: the Minkowski-difference point and the vertex of hull A. -/
abbrev SupportPair (K : Type) := Vector3 K × Vector3 K

/-- The simplex array of support pairs. -/
abbrev Simplex (K : Type) := List (SupportPair K)

/-- An entry `{a, b, c}` of `simplexFaces`: three indices into the simplex. -/
structure Face where
  a : Nat
  b : Nat
  c : Nat
deriving DecidableEq, Repr

/-- An edge `{a, b}` built in `expand`. -/
structure Edge where
  a : Nat
  b : Nat
deriving DecidableEq, Repr

/-- The record that `findClosestFace` returns once a face has been chosen. -/
structure ClosestFace (K : Type) where
  index : Nat
  dist : K
  normal : Vector3 K
  a : SupportPair K
  b : SupportPair K
  c : SupportPair K
deriving DecidableEq, Repr

/-- How a run of source code ends: with a value, with a JavaScript `TypeError` (a property
read on `undefined`), or with the step budget of the model used up (the source loops
are `while (true)`). -/
inductive Run (α : Type) where
  | ok (a : α)
  | typeError
  | outOfFuel
deriving DecidableEq, Repr

variable {K : Type} [LinearOrderedField K]

/-! ## Impulse resolver -/

/-- Modelled from the spec: `Physics.getPointVelocity` is defined in `Component.js`, which
is not among the sources; the spec gives
`pointVelocity(body, point) = body.velocity + angularVelocity × (point − centerOfMass)`.
It reads the body's current `worldCenterOfMass`. -/
def Physics.getPointVelocity (phys : Physics K) (point : Vector3 K) : Vector3 K :=
  phys.velocity.add (phys.angularVelocity.cross (point.sub phys.worldCenterOfMass))

/-- The function `reflectCollision(movable, contact, mat)` of lines 481-510, on the `Physics`
record of `movable`.  `r` is the object `phys.worldCenterOfMass` itself, changed in place by
`sub` (line 489) and by `cross` (line 508).  The quotients are those of the field: the value
is that of the source's formulas where no divisor is 0. -/
def reflectCollision (phys : Physics K) (contact : Contact K) (mat : Material K) :
    Physics K :=
  let i : Vector3 K :=
    ⟨1 / phys.inertiaTensor.x, 1 / phys.inertiaTensor.y, 1 / phys.inertiaTensor.z⟩
  -- line 489: const r = phys.worldCenterOfMass.sub(contact.point)
  let phys1 := { phys with worldCenterOfMass := phys.worldCenterOfMass.sub contact.point }
  let r := phys1.worldCenterOfMass
  -- lines 491-502
  let j := contact.normal.multiplyScalar
    (((phys1.getPointVelocity contact.point).multiplyScalar (-1 - mat.bounciness)).dot
        contact.normal /
      (1 / phys1.mass + ((i.multiply (r.cross contact.normal)).cross r).dot contact.normal))
  -- lines 504-506
  let phys2 := { phys1 with
    velocity := phys1.velocity.add ((contact.normal.multiply j).divideScalar phys1.mass) }
  -- lines 507-509: r.cross(contact.normal) changes r, that is worldCenterOfMass, in place
  let phys3 := { phys2 with worldCenterOfMass := phys2.worldCenterOfMass.cross contact.normal }
  { phys3 with
    angularVelocity := phys3.angularVelocity.add ((i.multiply j).multiply phys3.worldCenterOfMass) }

/-- The function `resolveCollision(colA, colB, contact, mat)` of lines 511-561, on the two
`Physics` records.  `rA` and `rB` are the objects `worldCenterOfMass` of the two bodies,
changed in place by `sub` (lines 527-528) and by `cross` (lines 556, 559).  The quotients are
those of the field: the value is that of the source's formulas where no divisor (a mass, an
inertia component, the divisor of line 531) is 0; `Number.resolveCollision` is the same text
on JavaScript numbers, with `Infinity` and `NaN`. -/
def resolveCollision (physA physB : Physics K) (contact : Contact K) (mat : Material K) :
    Physics K × Physics K :=
  -- lines 514-516
  let v := (physB.getPointVelocity contact.point).sub (physA.getPointVelocity contact.point)
  let iA : Vector3 K :=
    ⟨1 / physA.inertiaTensor.x, 1 / physA.inertiaTensor.y, 1 / physA.inertiaTensor.z⟩
  let iB : Vector3 K :=
    ⟨1 / physB.inertiaTensor.x, 1 / physB.inertiaTensor.y, 1 / physB.inertiaTensor.z⟩
  -- lines 527-528
  let physA1 := { physA with worldCenterOfMass := physA.worldCenterOfMass.sub contact.point }
  let physB1 := { physB with worldCenterOfMass := physB.worldCenterOfMass.sub contact.point }
  let rA := physA1.worldCenterOfMass
  let rB := physB1.worldCenterOfMass
  -- lines 529-547
  let j := contact.normal.multiplyScalar
    ((v.multiplyScalar (-1 - mat.bounciness)).dot contact.normal /
      (1 / physA1.mass + 1 / physB1.mass +
        contact.normal.dot
          (((iA.multiply (rA.cross contact.normal)).cross rA).add
            ((iB.multiply (rB.cross contact.normal)).cross rB))))
  -- lines 549-554
  let physA2 := { physA1 with
    velocity := physA1.velocity.sub ((contact.normal.multiply j).divideScalar physA1.mass) }
  let physB2 := { physB1 with
    velocity := physB1.velocity.add ((contact.normal.multiply j).divideScalar physB1.mass) }
  -- lines 555-557
  let physA3 := { physA2 with
    worldCenterOfMass := physA2.worldCenterOfMass.cross contact.normal }
  let physA4 := { physA3 with
    angularVelocity :=
      physA3.angularVelocity.sub ((iA.multiply j).multiply physA3.worldCenterOfMass) }
  -- lines 558-560
  let physB3 := { physB2 with
    worldCenterOfMass := physB2.worldCenterOfMass.cross contact.normal }
  let physB4 := { physB3 with
    angularVelocity :=
      physB3.angularVelocity.add ((iB.multiply j).multiply physB3.worldCenterOfMass) }
  (physA4, physB4)

/-- The scalar impulse magnitude of the resolver formula for two bodies: the number
that line 529 multiplies the normal by, written with `rA`, `rB` from each centre of mass to
the contact point. -/
def impulseScalar (physA physB : Physics K) (contact : Contact K) (mat : Material K) : K :=
  let n := contact.normal
  let v := (physB.getPointVelocity contact.point).sub (physA.getPointVelocity contact.point)
  let iA : Vector3 K :=
    ⟨1 / physA.inertiaTensor.x, 1 / physA.inertiaTensor.y, 1 / physA.inertiaTensor.z⟩
  let iB : Vector3 K :=
    ⟨1 / physB.inertiaTensor.x, 1 / physB.inertiaTensor.y, 1 / physB.inertiaTensor.z⟩
  let rA := contact.point.sub physA.worldCenterOfMass
  let rB := contact.point.sub physB.worldCenterOfMass
  let denominator := 1 / physA.mass + 1 / physB.mass +
    n.dot (((iA.multiply (rA.cross n)).cross rA).add ((iB.multiply (rB.cross n)).cross rB))
  (0 - (1 + mat.bounciness)) * v.dot n / denominator

/-! ## Narrow phase: support points and GJK -/

/-- The test `dot > maxDot` of line 426, where `none` is the initial `-Infinity`. -/
def exceeds (dot : K) : Option K → Bool
  | none => true
  | some maxDot => decide (maxDot < dot)

/-- The loop of `getFurthestPointInDirection` (lines 423-430) from position `i` on, with
the current `index` and `maxDot`; it returns the final `index`. -/
def getFurthestPointInDirection.loop (dir : Vector3 K) :
    List (Vector3 K) → Nat → Nat → Option K → Nat
  | [], _, index, _ => index
  | v :: rest, i, index, maxDot =>
    let dot := v.dot dir
    if exceeds dot maxDot then getFurthestPointInDirection.loop dir rest (i + 1) i (some dot)
    else getFurthestPointInDirection.loop dir rest (i + 1) index maxDot

/-- The function `getFurthestPointInDirection(verts, dir)` of lines 419-433: `verts[index]`,
which is `undefined` (here `none`) for an empty array. -/
def getFurthestPointInDirection (verts : List (Vector3 K)) (dir : Vector3 K) :
    Option (Vector3 K) :=
  verts[getFurthestPointInDirection.loop dir verts 0 0 none]?

/-- The function `support(aVerts, bVerts, dir)` of lines 562-573: the pair `[diff, a]`;
`none` when a vertex array is empty and the source throws. -/
def support (aVerts bVerts : List (Vector3 K)) (dir : Vector3 K) : Option (SupportPair K) :=
  match getFurthestPointInDirection aVerts dir,
      getFurthestPointInDirection bVerts dir.negate with
  | some a, some b => some (a.sub b, a)
  | _, _ => none

/-- The function `evaluateAndChangeDir(simplex, dir)` of lines 223-313.  It returns the
boolean result together with the simplex and `dir` as the call leaves them.  The tests
`> 0` and `< 0` are decided on the exact values of the field; the source decides them on
rounded values, for which `Binary64.evaluateAndChangeDir` is the same text with every
operation rounded. -/
def evaluateAndChangeDir (sqrt : K → K) (simplex : Simplex K) (dir : Vector3 K) :
    Bool × Simplex K × Vector3 K :=
  match simplex with
  | [s0, s1] =>
    let ab := s1.1.sub s0.1
    let a0 := s0.1.negate
    (false, simplex, (ab.cross a0).cross ab)
  | [s0, s1, s2] =>
    let ab := s1.1.sub s0.1
    let ac := s2.1.sub s0.1
    let dir := ab.cross ac
    let a0 := s0.1.negate
    (false, simplex, if a0.dot dir < 0 then dir.negate else dir)
  | [s0, s1, s2, s3] =>
    -- face abc
    let ab := s1.1.sub s0.1
    let ac := s2.1.sub s0.1
    let dir := (ab.cross ac).normalize sqrt
    let ad := s3.1.sub s0.1
    let dir := if ad.dot dir > 0 then dir.negate else dir
    let a0 := s0.1.negate
    if a0.dot dir > 0 then (false, simplex.eraseIdx 3, dir)
    else
      -- face abd
      let ab := s1.1.sub s0.1
      let ad := s3.1.sub s0.1
      let dir := (ab.cross ad).normalize sqrt
      let ac := s2.1.sub s0.1
      let dir := if ac.dot dir > 0 then dir.negate else dir
      let a0 := s0.1.negate
      if a0.dot dir > 0 then (false, simplex.eraseIdx 2, dir)
      else
        -- face acd
        let ac := s2.1.sub s0.1
        let ad := s3.1.sub s0.1
        let dir := (ac.cross ad).normalize sqrt
        let ab := s1.1.sub s0.1
        let dir := if ab.dot dir > 0 then dir.negate else dir
        let a0 := s0.1.negate
        if a0.dot dir > 0 then (false, simplex.eraseIdx 1, dir)
        else
          -- face bcd
          let bc := s2.1.sub s1.1
          let bd := s3.1.sub s1.1
          let dir := (bc.cross bd).normalize sqrt
          let ba := s0.1.sub s1.1
          let dir := if ba.dot dir > 0 then dir.negate else dir
          let b0 := s1.1.negate
          if b0.dot dir > 0 then (false, simplex.eraseIdx 0, dir)
          else
            -- origin is in center
            (true, simplex, dir)
  | _ => (false, simplex, dir)

/-- The `while (true)` loop of `GJK` (lines 444-479) up to the point where the narrow phase
is decided: `ok none` is the `return` of line 448 (no contact), `ok (some simplex)` is the
branch of line 450 with the simplex that is handed to `EPA`. -/
def GJK.loop (sqrt : K → K) (vertA vertB : List (Vector3 K)) :
    Nat → Simplex K → Vector3 K → Run (Option (Simplex K))
  | 0, _, _ => Run.outOfFuel
  | fuel + 1, simplex, dir =>
    match support vertA vertB dir with
    | none => Run.typeError
    | some p =>
      let simplex := simplex ++ [p]
      if p.1.dot dir ≤ 0 then Run.ok none
      else
        match evaluateAndChangeDir sqrt simplex dir with
        | (true, simplex, _) => Run.ok (some simplex)
        | (false, simplex, dir) => GJK.loop sqrt vertA vertB fuel simplex dir

/-- Lines 435-479 of `GJK` without the response: the first support point, `dir.negate()`
and the loop. -/
def GJK.intersects (sqrt : K → K) (fuel : Nat) (vertA vertB : List (Vector3 K))
    (dir : Vector3 K) : Run (Option (Simplex K)) :=
  match support vertA vertB dir with
  | none => Run.typeError
  | some p => GJK.loop sqrt vertA vertB fuel [p] dir.negate

/-! ## Narrow phase: EPA -/

/-- The function `edgeInEdges(edges, edge)` of lines 171-176 from position `i` on: the first
index whose edge has the same `a` and `b`; `none` is the result `-1`. -/
def edgeInEdges.loop (edge : Edge) : List Edge → Nat → Option Nat
  | [], _ => none
  | e :: rest, i => if e.a = edge.a ∧ e.b = edge.b then some i else edgeInEdges.loop edge rest (i + 1)

/-- The function `edgeInEdges(edges, edge)` of lines 171-176. -/
def edgeInEdges (edges : List Edge) (edge : Edge) : Option Nat :=
  edgeInEdges.loop edge edges 0

/-- The loop of `findClosestFace` (lines 378-396) from face number `i` on; `closest = none`
is the initial record with `dist: Infinity`. -/
def findClosestFace.loop (sqrt : K → K) (simplex : Simplex K) :
    List Face → Nat → Option (ClosestFace K) → Run (Option (ClosestFace K))
  | [], _, closest => Run.ok closest
  | face :: rest, i, closest =>
    match simplex[face.b]?, simplex[face.a]?, simplex[face.c]? with
    | some b, some a, some c =>
      let ab := b.1.sub a.1
      let ac := c.1.sub a.1
      let normal := (ab.cross ac).normalize sqrt
      let a0 := Vector3.zero.sub a.1
      let normal := if a0.dot normal > 0 then normal.negate else normal
      let dist := a.1.dot normal
      let closer : Bool :=
        match closest with
        | none => true
        | some cl => decide (dist < cl.dist)
      if closer then
        findClosestFace.loop sqrt simplex rest (i + 1) (some ⟨i, dist, normal, a, b, c⟩)
      else findClosestFace.loop sqrt simplex rest (i + 1) closest
    | _, _, _ => Run.typeError

/-- The function `findClosestFace(simplex, simplexFaces)` of lines 373-398. -/
def findClosestFace (sqrt : K → K) (simplex : Simplex K) (simplexFaces : List Face) :
    Run (Option (ClosestFace K)) :=
  findClosestFace.loop sqrt simplex simplexFaces 0 none

/-- The function `getContactPoint(p, a, b, c)` of lines 399-418.  The quotients are those of
the field, so a zero `denom` gives weight 0 here where JavaScript gives NaN or Infinity. -/
def getContactPoint (p : Vector3 K) (a b c : SupportPair K) : Vector3 K :=
  let v0 := b.1.sub a.1
  let v1 := c.1.sub a.1
  let v2 := p.sub a.1
  let d00 := v0.dot v0
  let d01 := v0.dot v1
  let d11 := v1.dot v1
  let d20 := v2.dot v0
  let d21 := v2.dot v1
  let denom := d00 * d11 - d01 * d01
  let v := (d11 * d20 - d01 * d21) / denom
  let w := (d00 * d21 - d01 * d20) / denom
  let u := 1 - v - w
  ((a.2.multiplyScalar u).add (b.2.multiplyScalar v)).add (c.2.multiplyScalar w)

/-- The first loop of `expand` (lines 317-329) from face number `i` on: the indices of the
faces that see `extendPoint`, in increasing order. -/
def expand.removalFaces (sqrt : K → K) (simplex : Simplex K) (extendPoint : Vector3 K) :
    List Face → Nat → Run (List Nat)
  | [], _ => Run.ok []
  | face :: rest, i =>
    match simplex[face.b]?, simplex[face.a]?, simplex[face.c]? with
    | some b, some a, some c =>
      let ab := b.1.sub a.1
      let ac := c.1.sub a.1
      let norm := (ab.cross ac).normalize sqrt
      let a0 := Vector3.zero.sub a.1
      let norm := if a0.dot norm > 0 then norm.negate else norm
      match expand.removalFaces sqrt simplex extendPoint rest (i + 1) with
      | Run.ok later =>
        Run.ok (if norm.dot (extendPoint.sub a.1) > 0 then i :: later else later)
      | Run.typeError => Run.typeError
      | Run.outOfFuel => Run.outOfFuel
    | _, _, _ => Run.typeError

/-- Lines 348-350 (and 352-358) of `expand`: drop the edge if it is already in `edges`,
push it otherwise. -/
def expand.toggle (edges : List Edge) (edge : Edge) : List Edge :=
  match edgeInEdges edges edge with
  | some k => edges.eraseIdx k
  | none => edges ++ [edge]

/-- The second loop of `expand` (lines 333-359) over the remaining removal indices. -/
def expand.edges (simplexFaces : List Face) : List Nat → List Edge → Run (List Edge)
  | [], edges => Run.ok edges
  | k :: rest, edges =>
    match simplexFaces[k]? with
    | none => Run.typeError
    | some face =>
      let edges := expand.toggle edges ⟨face.a, face.b⟩
      let edges := expand.toggle edges ⟨face.a, face.c⟩
      let edges := expand.toggle edges ⟨face.b, face.c⟩
      expand.edges simplexFaces rest edges

/-- The function `expand(simplex, simplexFaces, extendPoint)` of lines 314-372; it returns
the face list as the call leaves it. -/
def expand (sqrt : K → K) (simplex : Simplex K) (simplexFaces : List Face)
    (extendPoint : Vector3 K) : Run (List Face) :=
  match expand.removalFaces sqrt simplex extendPoint simplexFaces 0 with
  | Run.typeError => Run.typeError
  | Run.outOfFuel => Run.outOfFuel
  | Run.ok removalFaces =>
    match expand.edges simplexFaces removalFaces [] with
    | Run.typeError => Run.typeError
    | Run.outOfFuel => Run.outOfFuel
    | Run.ok edges =>
      -- lines 361-363: splice the removal indices, last first
      let kept := removalFaces.foldr (fun k faces => faces.eraseIdx k) simplexFaces
      -- lines 365-371
      Run.ok (kept ++ edges.map (fun e => ⟨e.a, e.b, simplex.length - 1⟩))

/-- The constant `epsilon` of line 200. -/
def epsilon : K := 1 / 100000

/-- The four faces that `EPA` starts from (lines 178-199). -/
def EPA.seedFaces : List Face := [⟨0, 1, 2⟩, ⟨0, 1, 3⟩, ⟨0, 2, 3⟩, ⟨1, 2, 3⟩]

/-- The `while (true)` loop of `EPA` (lines 201-221). -/
def EPA.loop (sqrt : K → K) (vertA vertB : List (Vector3 K)) :
    Nat → Simplex K → List Face → Run (Contact K)
  | 0, _, _ => Run.outOfFuel
  | fuel + 1, simplex, simplexFaces =>
    match findClosestFace sqrt simplex simplexFaces with
    | Run.typeError => Run.typeError
    | Run.outOfFuel => Run.outOfFuel
    | Run.ok none => Run.typeError
    | Run.ok (some face) =>
      match support vertA vertB face.normal with
      | none => Run.typeError
      | some point =>
        let dist := point.1.dot face.normal
        if dist - face.dist < epsilon then
          Run.ok
            { dist := dist
              point := getContactPoint (face.normal.negate.multiplyScalar dist)
                face.a face.b face.c
              normal := face.normal }
        else
          let simplex := simplex ++ [point]
          match expand sqrt simplex simplexFaces point.1 with
          | Run.typeError => Run.typeError
          | Run.outOfFuel => Run.outOfFuel
          | Run.ok simplexFaces => EPA.loop sqrt vertA vertB fuel simplex simplexFaces

/-- The function `EPA(vertA, vertB, simplex)` of lines 177-222. -/
def EPA (sqrt : K → K) (fuel : Nat) (vertA vertB : List (Vector3 K)) (simplex : Simplex K) :
    Run (Contact K) :=
  EPA.loop sqrt vertA vertB fuel simplex EPA.seedFaces

/-! ## GJK: the response to a contact -/

/-- The resolver call that `GJK` makes in lines 469-476, with its arguments. -/
inductive ResolverCall (K : Type) where
  | resolve (physA physB : Physics K) (contact : Contact K) (mat : Material K)
  | reflectA (phys : Physics K) (contact : Contact K) (mat : Material K)
  | reflectB (phys : Physics K) (contact : Contact K) (mat : Material K)
  | nothing
deriving DecidableEq, Repr

/-- The blended material `mat` of lines 455-468. -/
def GJK.mat (colA colB : Collider K) : Material K :=
  { bounciness := (colA.material.bounciness + colB.material.bounciness) / 2
    staticFriction := (colA.material.staticFriction + colB.material.staticFriction) / 2
    dynamicFriction := (colA.material.dynamicFriction + colB.material.dynamicFriction) / 2 }

/-- Lines 452-476 of `GJK`: which resolver is called on the contact that `EPA` returned, and
with which contact (line 472 negates `contact.normal` in place). -/
def GJK.respond (colA colB : Collider K) (contact : Contact K) : ResolverCall K :=
  match colA.Physics, colB.Physics with
  | some physA, some physB => ResolverCall.resolve physA physB contact (GJK.mat colA colB)
  | some physA, none =>
    ResolverCall.reflectA physA { contact with normal := contact.normal.negate }
      (GJK.mat colA colB)
  | none, some physB => ResolverCall.reflectB physB contact (GJK.mat colA colB)
  | none, none => ResolverCall.nothing

/-- The two colliders after the resolver call has run. -/
def ResolverCall.run (colA colB : Collider K) : ResolverCall K → Collider K × Collider K
  | ResolverCall.resolve physA physB contact mat =>
    ({ colA with Physics := some (resolveCollision physA physB contact mat).1 },
     { colB with Physics := some (resolveCollision physA physB contact mat).2 })
  | ResolverCall.reflectA phys contact mat =>
    ({ colA with Physics := some (reflectCollision phys contact mat) }, colB)
  | ResolverCall.reflectB phys contact mat =>
    (colA, { colB with Physics := some (reflectCollision phys contact mat) })
  | ResolverCall.nothing => (colA, colB)

/-- The resolver call of a whole `GJK(colA, colB, dir)` run (lines 434-480); `nothing` when
the run returns at line 448. -/
def GJK.call (sqrt : K → K) (fuel : Nat) (colA colB : Collider K) (dir : Vector3 K) :
    Run (ResolverCall K) :=
  match GJK.intersects sqrt fuel colA.worldVertices colB.worldVertices dir with
  | Run.typeError => Run.typeError
  | Run.outOfFuel => Run.outOfFuel
  | Run.ok none => Run.ok ResolverCall.nothing
  | Run.ok (some simplex) =>
    match EPA sqrt fuel colA.worldVertices colB.worldVertices simplex with
    | Run.typeError => Run.typeError
    | Run.outOfFuel => Run.outOfFuel
    | Run.ok contact => Run.ok (GJK.respond colA colB contact)

/-- The function `GJK(colA, colB, dir)` of lines 434-480: the two colliders as the call
leaves them. -/
def GJK (sqrt : K → K) (fuel : Nat) (colA colB : Collider K) (dir : Vector3 K) :
    Run (Collider K × Collider K) :=
  match GJK.call sqrt fuel colA colB dir with
  | Run.typeError => Run.typeError
  | Run.outOfFuel => Run.outOfFuel
  | Run.ok call => Run.ok (call.run colA colB)

/-! ## The resolver formula as the specification words it -/

/-- The two bodies after the response that the specification describes for
`resolveCollision`: with the scalar `j` of `impulseScalar`, `-j·n/massA` and `+j·n/massB` on the
velocities, `invI·(j·(r × n))` subtracted from A's and added to B's angular velocity, `r`
from the centre of mass to the contact point; every other field as before. -/
def resolveCollisionSpec (physA physB : Physics K) (contact : Contact K) (mat : Material K) :
    Physics K × Physics K :=
  let j := impulseScalar physA physB contact mat
  let n := contact.normal
  let iA : Vector3 K :=
    ⟨1 / physA.inertiaTensor.x, 1 / physA.inertiaTensor.y, 1 / physA.inertiaTensor.z⟩
  let iB : Vector3 K :=
    ⟨1 / physB.inertiaTensor.x, 1 / physB.inertiaTensor.y, 1 / physB.inertiaTensor.z⟩
  let rA := contact.point.sub physA.worldCenterOfMass
  let rB := contact.point.sub physB.worldCenterOfMass
  ({ physA with
      velocity := physA.velocity.sub ((n.multiplyScalar j).divideScalar physA.mass)
      angularVelocity :=
        physA.angularVelocity.sub (iA.multiply ((rA.cross n).multiplyScalar j)) },
   { physB with
      velocity := physB.velocity.add ((n.multiplyScalar j).divideScalar physB.mass)
      angularVelocity :=
        physB.angularVelocity.add (iB.multiply ((rB.cross n).multiplyScalar j)) })

/-- The scalar impulse magnitude of the formula for one moving body:
`j = -(1+e)·(pv·n) / (1/mass + n·[(invI·(r × n)) × r])` with `r = p - centerOfMass` and `pv`
the point velocity at the contact point. -/
def reflectImpulseScalar (phys : Physics K) (contact : Contact K) (mat : Material K) : K :=
  let n := contact.normal
  let i : Vector3 K :=
    ⟨1 / phys.inertiaTensor.x, 1 / phys.inertiaTensor.y, 1 / phys.inertiaTensor.z⟩
  let r := contact.point.sub phys.worldCenterOfMass
  let pv := phys.getPointVelocity contact.point
  let denominator := 1 / phys.mass + n.dot ((i.multiply (r.cross n)).cross r)
  (0 - (1 + mat.bounciness)) * pv.dot n / denominator

/-- The body after the response that the specification describes for `reflectCollision`:
`j·n/mass` added to the velocity and `invI·(j·(r × n))` to the angular velocity; every other
field as before. -/
def reflectCollisionSpec (phys : Physics K) (contact : Contact K) (mat : Material K) :
    Physics K :=
  let j := reflectImpulseScalar phys contact mat
  let n := contact.normal
  let i : Vector3 K :=
    ⟨1 / phys.inertiaTensor.x, 1 / phys.inertiaTensor.y, 1 / phys.inertiaTensor.z⟩
  let r := contact.point.sub phys.worldCenterOfMass
  { phys with
    velocity := phys.velocity.add ((n.multiplyScalar j).divideScalar phys.mass)
    angularVelocity := phys.angularVelocity.add (i.multiply ((r.cross n).multiplyScalar j)) }

/-! ## Notions used in the statements and proofs -/

/-- Hulls `A` and `B` are separated by a positive gap along a coordinate axis: along x, y
or z every vertex of one lies strictly below every vertex of the other. -/
def AxisSeparated (A B : List (Vector3 K)) : Prop :=
  (∀ a ∈ A, ∀ b ∈ B, a.x < b.x) ∨ (∀ a ∈ A, ∀ b ∈ B, b.x < a.x) ∨
  (∀ a ∈ A, ∀ b ∈ B, a.y < b.y) ∨ (∀ a ∈ A, ∀ b ∈ B, b.y < a.y) ∨
  (∀ a ∈ A, ∀ b ∈ B, a.z < b.z) ∨ (∀ a ∈ A, ∀ b ∈ B, b.z < a.z)

/-- The point `p` lies strictly inside the axis-aligned box from `lo` to `hi`. -/
def StrictlyInside (lo hi p : Vector3 K) : Prop :=
  lo.x < p.x ∧ p.x < hi.x ∧ lo.y < p.y ∧ p.y < hi.y ∧ lo.z < p.z ∧ p.z < hi.z

/-- The direction that each face test of case 4 of `evaluateAndChangeDir` builds: the
normalised normal of the face `p q r`, negated when it points at the opposite vertex `opp`
(lines 243-250 for the face abc). -/
def awayNormal (sqrt : K → K) (p q r opp : Vector3 K) : Vector3 K :=
  let dir := ((q.sub p).cross (r.sub p)).normalize sqrt
  if (opp.sub p).dot dir > 0 then dir.negate else dir

/-- The loop invariant of `GJK` for hulls separated along `e`: every simplex point lies on
the strict negative side of `e`, the simplex has 1 to 3 entries at the head of the loop, and
with 3 entries `dir` is a multiple of the triangle normal that does not point at the first
vertex. -/
def GJK.SeparatedInv (e : Vector3 K) (simplex : Simplex K) (dir : Vector3 K) : Prop :=
  (∀ p ∈ simplex, p.1.dot e < 0) ∧
  (simplex.length = 1 ∨ simplex.length = 2 ∨
    ∃ a b c, simplex = [a, b, c] ∧
      (∃ k : K, dir = ((b.1.sub a.1).cross (c.1.sub a.1)).multiplyScalar k) ∧
      a.1.dot dir ≤ 0)

/-! ## Concrete inputs -/

/-- The 8 corners of the axis-aligned box from `lo` to `hi`, in lexicographic order of
`(x, y, z)`. -/
def boxVertices (lo hi : Vector3 K) : List (Vector3 K) :=
  [⟨lo.x, lo.y, lo.z⟩, ⟨lo.x, lo.y, hi.z⟩, ⟨lo.x, hi.y, lo.z⟩, ⟨lo.x, hi.y, hi.z⟩,
   ⟨hi.x, lo.y, lo.z⟩, ⟨hi.x, lo.y, hi.z⟩, ⟨hi.x, hi.y, lo.z⟩, ⟨hi.x, hi.y, hi.z⟩]

/-- A box collider: its corners, its bounding box and its centre as centroid. -/
def boxCollider (lo hi : Vector3 K) (phys : Option (Physics K)) : Collider K :=
  { worldVertices := boxVertices lo hi
    worldAABB := ⟨lo, hi⟩
    worldCentroid := (lo.add hi).multiplyScalar (1 / 2)
    material := ⟨1, 0, 0⟩
    Physics := phys }

/-- The cube of half-extent 1 centred at the origin. -/
def originCube (K : Type) [LinearOrderedField K] : Collider K :=
  boxCollider ⟨-1, -1, -1⟩ ⟨1, 1, 1⟩ none

/-- The cube of half-extent 1 centred at `(1.5, 0, 0)`. -/
def shiftedCubeX (K : Type) [LinearOrderedField K] : Collider K :=
  boxCollider ⟨1 / 2, -1, -1⟩ ⟨5 / 2, 1, 1⟩ none

/-- The cube of half-extent 1 centred at `(0, 1, 0)`. -/
def shiftedCubeY (K : Type) [LinearOrderedField K] : Collider K :=
  boxCollider ⟨-1, 0, -1⟩ ⟨1, 2, 1⟩ none

/-- The cube of half-extent 1 centred at `(3, 0, 0)`: a gap of 1 to `originCube` along x. -/
def farCube (K : Type) [LinearOrderedField K] : Collider K :=
  boxCollider ⟨2, -1, -1⟩ ⟨4, 1, 1⟩ none

/-- The vertices of a tetrahedron with legs 1, 1, 2 along the axes from the corner
`(-1/8, -1/4, -1/4)`; the origin lies inside it, nearest to the face `x = -1/8`. -/
def tetraVertices : List (Vector3 K) :=
  [⟨-1 / 8, -1 / 4, -1 / 4⟩, ⟨7 / 8, -1 / 4, -1 / 4⟩, ⟨-1 / 8, 3 / 4, -1 / 4⟩,
   ⟨-1 / 8, -1 / 4, 7 / 4⟩]

/-- A collider with the vertices `tetraVertices`. -/
def tetraCollider (phys : Option (Physics K)) : Collider K :=
  { worldVertices := tetraVertices
    worldAABB := ⟨⟨-1 / 8, -1 / 4, -1 / 4⟩, ⟨7 / 8, 3 / 4, 7 / 4⟩⟩
    worldCentroid := ⟨1 / 8, 0, 1 / 4⟩
    material := ⟨1, 0, 0⟩
    Physics := phys }

/-- A collider whose only vertex is the origin. -/
def pointCollider (phys : Option (Physics K)) : Collider K :=
  { worldVertices := [⟨0, 0, 0⟩]
    worldAABB := ⟨⟨0, 0, 0⟩, ⟨0, 0, 0⟩⟩
    worldCentroid := ⟨0, 0, 0⟩
    material := ⟨1, 0, 0⟩
    Physics := phys }

/-- The simplex that `GJK` builds for `tetraVertices` against the origin. -/
def tetraSimplex : Simplex K :=
  [(⟨-1 / 8, -1 / 4, 7 / 4⟩, ⟨-1 / 8, -1 / 4, 7 / 4⟩),
   (⟨-1 / 8, -1 / 4, -1 / 4⟩, ⟨-1 / 8, -1 / 4, -1 / 4⟩),
   (⟨-1 / 8, 3 / 4, -1 / 4⟩, ⟨-1 / 8, 3 / 4, -1 / 4⟩),
   (⟨7 / 8, -1 / 4, -1 / 4⟩, ⟨7 / 8, -1 / 4, -1 / 4⟩)]

/-- The contact that `EPA` returns for `tetraSimplex`. -/
def tetraContact : Contact K := ⟨1 / 8, ⟨-1 / 8, 0, 0⟩, ⟨-1, 0, 0⟩⟩

/-- A body of mass 1 and unit inertia at rest at the origin. -/
def restingBody : Physics K := ⟨1, ⟨0, 0, 0⟩, ⟨0, 0, 0⟩, ⟨1, 1, 1⟩, ⟨0, 0, 0⟩, false⟩

/-- The material with bounciness 1 and no friction. -/
def elastic : Material ℚ := ⟨1, 0, 0⟩

/-- Body A of a head-on pair along x: mass 1, centre of mass `(-1, 0, 0)`, velocity
`(1, 0, 0)`, no spin. -/
def headOnA : Physics ℚ := ⟨1, ⟨1, 0, 0⟩, ⟨0, 0, 0⟩, ⟨1, 1, 1⟩, ⟨-1, 0, 0⟩, false⟩

/-- Body B of the head-on pair: mass 1, centre of mass `(1, 0, 0)`, velocity `(-1, 0, 0)`. -/
def headOnB : Physics ℚ := ⟨1, ⟨-1, 0, 0⟩, ⟨0, 0, 0⟩, ⟨1, 1, 1⟩, ⟨1, 0, 0⟩, false⟩

/-- The head-on contact at the origin with the unit normal `(-1, 0, 0)`. -/
def headOnContact : Contact ℚ := ⟨0, ⟨0, 0, 0⟩, ⟨-1, 0, 0⟩⟩

/-- Body A of a head-on pair along the unit vector `(3/5, 4/5, 0)`. -/
def obliqueA : Physics ℚ :=
  ⟨1, ⟨3 / 5, 4 / 5, 0⟩, ⟨0, 0, 0⟩, ⟨1, 1, 1⟩, ⟨-3 / 5, -4 / 5, 0⟩, false⟩

/-- Body B of the pair along `(3/5, 4/5, 0)`. -/
def obliqueB : Physics ℚ :=
  ⟨1, ⟨-3 / 5, -4 / 5, 0⟩, ⟨0, 0, 0⟩, ⟨1, 1, 1⟩, ⟨3 / 5, 4 / 5, 0⟩, false⟩

/-- The contact at the origin with the unit normal `(3/5, 4/5, 0)`. -/
def obliqueContact : Contact ℚ := ⟨0, ⟨0, 0, 0⟩, ⟨3 / 5, 4 / 5, 0⟩⟩

/-- A contact at the origin with the unit normal `(2/3, 2/3, 1/3)`, off the line of the
centres of `headOnA` and `headOnB`. -/
def skewContact : Contact ℚ := ⟨0, ⟨0, 0, 0⟩, ⟨2 / 3, 2 / 3, 1 / 3⟩⟩

/-- A spinning body of mass 2 above a contact point on the floor. -/
def spinningBody : Physics ℚ := ⟨2, ⟨0, -1, 0⟩, ⟨0, 0, 1⟩, ⟨1, 2, 4⟩, ⟨0, 1, 0⟩, true⟩

/-- A contact at `(1, 0, 0)` with the unit normal `(0, 1, 0)`. -/
def floorContact : Contact ℚ := ⟨0, ⟨1, 0, 0⟩, ⟨0, 1, 0⟩⟩

/-- The body `spinningBody` without its spin. -/
def fallingBody : Physics ℚ := ⟨2, ⟨0, -1, 0⟩, ⟨0, 0, 0⟩, ⟨1, 2, 4⟩, ⟨0, 1, 0⟩, true⟩

/-- A contact at `(1, 0, 0)` with the unit normal `(3/5, 4/5, 0)`. -/
def slopeContact : Contact ℚ := ⟨0, ⟨1, 0, 0⟩, ⟨3 / 5, 4 / 5, 0⟩⟩

/-! ## Broad phase: `collision.update` -/

/-- The method `intersectsBox(box)` of `THREE.Box3`: `false` exactly when one box lies
strictly beyond the other along an axis, `true` otherwise. -/
def Box3.intersectsBox (self box : Box3 K) : Bool :=
  if box.max.x < self.min.x ∨ box.min.x > self.max.x ∨
      box.max.y < self.min.y ∨ box.min.y > self.max.y ∨
      box.max.z < self.min.z ∨ box.min.z > self.max.z then false
  else true

/-- What a run of `collision.update` has done: the pairs of array positions on which `GJK`
was invoked, in order, and how the run ended, with the collider array as the run leaves it. -/
structure UpdateResult (K : Type) where
  calls : List (Nat × Nat)
  result : Run (List (Collider K))

/-- The inner loop of `collision.update` (lines 581-593) for a fixed `i`, from position `j`
on with `count = len - j` passes to go.  `GJK` works in place on the `Physics` records
of `colliders[i]` and `colliders[j]`; a `TypeError` or a `GJK` that does not come back ends the
run. -/
def collision.update.inner (sqrt : K → K) (fuel : Nat) (i : Nat) :
    Nat → Nat → List (Collider K) → List (Nat × Nat) → UpdateResult K
  | 0, _, colliders, calls => ⟨calls, Run.ok colliders⟩
  | count + 1, j, colliders, calls =>
    match colliders[i]?, colliders[j]? with
    | some colA, some colB =>
      if colA.worldAABB.intersectsBox colB.worldAABB then
        match GJK sqrt fuel colA colB (colA.worldCentroid.sub colB.worldCentroid) with
        | Run.ok (colA1, colB1) =>
          collision.update.inner sqrt fuel i count (j + 1)
            ((colliders.set i colA1).set j colB1) (calls ++ [(i, j)])
        | Run.typeError => ⟨calls ++ [(i, j)], Run.typeError⟩
        | Run.outOfFuel => ⟨calls ++ [(i, j)], Run.outOfFuel⟩
      else collision.update.inner sqrt fuel i count (j + 1) colliders calls
    | _, _ => ⟨calls, Run.typeError⟩

/-- The outer loop of `collision.update` (lines 580-594) from position `i` on with
`count = len - i` passes to go; `len` is the length of the array, which no pass changes. -/
def collision.update.outer (sqrt : K → K) (fuel : Nat) :
    Nat → Nat → List (Collider K) → List (Nat × Nat) → UpdateResult K
  | 0, _, colliders, calls => ⟨calls, Run.ok colliders⟩
  | count + 1, i, colliders, calls =>
    match collision.update.inner sqrt fuel i (colliders.length - (i + 1)) (i + 1)
        colliders calls with
    | ⟨calls1, Run.ok colliders1⟩ =>
      collision.update.outer sqrt fuel count (i + 1) colliders1 calls1
    | ⟨calls1, Run.typeError⟩ => ⟨calls1, Run.typeError⟩
    | ⟨calls1, Run.outOfFuel⟩ => ⟨calls1, Run.outOfFuel⟩

/-- The function `collision.update()` of lines 574-595 on the array
`Object.values(Collider)`. -/
def collision.update (sqrt : K → K) (fuel : Nat) (colliders : List (Collider K)) :
    UpdateResult K :=
  collision.update.outer sqrt fuel colliders.length 0 colliders []

/-- The pairs `(i, j)` with `j` from `j0` on (`count` of them) whose boxes intersect, in
increasing order of `j`. -/
def intersectingPairs.inner (colliders : List (Collider K)) (i : Nat) :
    Nat → Nat → List (Nat × Nat)
  | 0, _ => []
  | count + 1, j =>
    match colliders[i]?, colliders[j]? with
    | some colA, some colB =>
      if colA.worldAABB.intersectsBox colB.worldAABB then
        (i, j) :: intersectingPairs.inner colliders i count (j + 1)
      else intersectingPairs.inner colliders i count (j + 1)
    | _, _ => intersectingPairs.inner colliders i count (j + 1)

/-- The pairs `(i, j)`, `i < j`, with `i` from `i0` on whose boxes intersect, in
lexicographic order. -/
def intersectingPairs.outer (colliders : List (Collider K)) : Nat → Nat → List (Nat × Nat)
  | 0, _ => []
  | count + 1, i =>
    intersectingPairs.inner colliders i (colliders.length - (i + 1)) (i + 1) ++
      intersectingPairs.outer colliders count (i + 1)

/-- The broad-phase contract: all pairs of positions `i < j` of the array whose world boxes
intersect, each once, in lexicographic order. -/
def intersectingPairs (colliders : List (Collider K)) : List (Nat × Nat) :=
  intersectingPairs.outer colliders colliders.length 0

/-! ## Integrator: `physics.update` -/

/-- The components of `transform.rotation` (a `THREE.Euler`) that `physics.update` writes. -/
structure Euler (K : Type) where
  x : K
  y : K
  z : K
deriving DecidableEq, Repr

/-- The fields of the `Transform` component that `physics.update` writes. -/
structure Transform (K : Type) where
  position : Vector3 K
  rotation : Euler K
deriving DecidableEq, Repr

/-- The vector `this.gravity = new THREE.Vector3(0, -9.8, 0)` of line 730. -/
def physics.gravity : Vector3 K := ⟨0, -(98 / 10), 0⟩

/-- The body of the loop of `physics.update(dt)` (lines 734-750) for one entity; `phys` is the
record `physics` of the source. -/
def physics.update.body (dt : K) (phys : Physics K) (transform : Transform K) :
    Physics K × Transform K :=
  -- lines 737-740
  let phys :=
    if phys.useGravity then
      { phys with velocity := phys.velocity.add (physics.gravity.multiplyScalar dt) }
    else phys
  -- lines 741-743
  let transform :=
    { transform with position := transform.position.add (phys.velocity.multiplyScalar dt) }
  -- lines 745-750
  let angularDelta := phys.angularVelocity.multiplyScalar dt
  (phys,
    { transform with
      rotation := ⟨transform.rotation.x + angularDelta.x, transform.rotation.y + angularDelta.y,
        transform.rotation.z + angularDelta.z⟩ })

/-- The function `physics.update(dt)` of lines 732-752 over the entities that have a `Physics`
component, each with its `Transform` component (`none` when `this.Transform[entity]` is
`undefined`, where line 741 throws). -/
def physics.update (dt : K) :
    List (Physics K × Option (Transform K)) → Run (List (Physics K × Transform K))
  | [] => Run.ok []
  | (_, none) :: _ => Run.typeError
  | (phys, some transform) :: rest =>
    match physics.update dt rest with
    | Run.ok done => Run.ok (physics.update.body dt phys transform :: done)
    | Run.typeError => Run.typeError
    | Run.outOfFuel => Run.outOfFuel

/-! ## Single passes of the narrow-phase loops -/

/-- One pass of a `while (true)` loop: it goes on with a new state or leaves the loop. -/
inductive Pass (σ α : Type) where
  | next (state : σ)
  | leave (result : Run α)

/-- One pass of the loop of `GJK` (lines 445-478) from the simplex and `dir` at the head of
the loop. -/
def GJK.pass (sqrt : K → K) (vertA vertB : List (Vector3 K)) (simplex : Simplex K)
    (dir : Vector3 K) : Pass (Simplex K × Vector3 K) (Option (Simplex K)) :=
  match support vertA vertB dir with
  | none => Pass.leave Run.typeError
  | some p =>
    let simplex := simplex ++ [p]
    if p.1.dot dir ≤ 0 then Pass.leave (Run.ok none)
    else
      match evaluateAndChangeDir sqrt simplex dir with
      | (true, simplex, _) => Pass.leave (Run.ok (some simplex))
      | (false, simplex, dir) => Pass.next (simplex, dir)

/-- One pass of the loop of `EPA` (lines 202-220) from the simplex and the face list at the
head of the loop. -/
def EPA.pass (sqrt : K → K) (vertA vertB : List (Vector3 K)) (simplex : Simplex K)
    (simplexFaces : List Face) : Pass (Simplex K × List Face) (Contact K) :=
  match findClosestFace sqrt simplex simplexFaces with
  | Run.typeError => Pass.leave Run.typeError
  | Run.outOfFuel => Pass.leave Run.outOfFuel
  | Run.ok none => Pass.leave Run.typeError
  | Run.ok (some face) =>
    match support vertA vertB face.normal with
    | none => Pass.leave Run.typeError
    | some point =>
      let dist := point.1.dot face.normal
      if dist - face.dist < epsilon then
        Pass.leave (Run.ok
          { dist := dist
            point := getContactPoint (face.normal.negate.multiplyScalar dist)
              face.a face.b face.c
            normal := face.normal })
      else
        let simplex := simplex ++ [point]
        match expand sqrt simplex simplexFaces point.1 with
        | Run.typeError => Pass.leave Run.typeError
        | Run.outOfFuel => Pass.leave Run.outOfFuel
        | Run.ok simplexFaces => Pass.next (simplex, simplexFaces)

/-- The result of a run with a function applied to its value. -/
def Run.map {α β : Type} (f : α → β) : Run α → Run β
  | Run.ok a => Run.ok (f a)
  | Run.typeError => Run.typeError
  | Run.outOfFuel => Run.outOfFuel

/-! ## Further notions and inputs for the claims C11 to C20 -/

/-- The state of the loop of `getFurthestPointInDirection` at position `i`: before the first
vertex `maxDot` is `-Infinity`; afterwards `index` holds a vertex whose dot product is `maxDot`
and no vertex before `i` has a larger one. -/
def furthestInv (dir : Vector3 K) (all : List (Vector3 K)) (i index : Nat) :
    Option K → Prop
  | none => i = 0
  | some m => ∃ w, all[index]? = some w ∧ w.dot dir = m ∧
      ∀ k v, k < i → all[k]? = some v → v.dot dir ≤ m

/-- The loop invariant of `GJK` at the head of the loop, for a property `P` of support
pairs: every simplex entry has `P`, the simplex has 1 to 3 entries, and with 3 entries `dir`
is a multiple of the triangle normal that does not point at the first vertex. -/
def GJK.HeadInv (P : SupportPair K → Prop) (simplex : Simplex K) (dir : Vector3 K) : Prop :=
  (∀ p ∈ simplex, P p) ∧
  (simplex.length = 1 ∨ simplex.length = 2 ∨
    ∃ a b c, simplex = [a, b, c] ∧
      (∃ k : K, dir = ((b.1.sub a.1).cross (c.1.sub a.1)).multiplyScalar k) ∧
      a.1.dot dir ≤ 0)

/-- The material of a collider with the same average bounciness as two colliders of
bounciness 1, and friction. -/
def roughMaterial : Material K := ⟨1 / 2, 3, 4⟩

/-- A second material: bounciness 3/2 and friction. -/
def bouncyMaterial : Material K := ⟨3 / 2, 5, 6⟩

/-- Four support pairs of a tetrahedron that lies above the origin: the face `z = 1` spanned by
the first three faces the origin. -/
def raisedA : SupportPair K := (⟨0, 0, 1⟩, ⟨0, 0, 1⟩)

def raisedB : SupportPair K := (⟨1, 0, 1⟩, ⟨1, 0, 1⟩)

def raisedC : SupportPair K := (⟨0, 1, 1⟩, ⟨0, 1, 1⟩)

def raisedD : SupportPair K := (⟨0, 0, 2⟩, ⟨0, 0, 2⟩)

/-- The vertices of `tetraVertices` and one more at `(-1/2, 0, 0)`, beyond the face
`x = -1/8`. -/
def spikedVertices : List (Vector3 K) := tetraVertices ++ [⟨-1 / 2, 0, 0⟩]

/-- The face list that `expand` leaves after the first pass of `EPA` on `spikedVertices`. -/
def spikedFaces : List Face :=
  [⟨0, 1, 3⟩, ⟨0, 2, 3⟩, ⟨1, 2, 3⟩, ⟨0, 1, 4⟩, ⟨0, 2, 4⟩, ⟨1, 2, 4⟩]

/-- The calls `collision.update()` made `k` times in a row on the same array; a call that fails
ends the row. -/
def collision.updates (sqrt : K → K) (fuel : Nat) :
    Nat → List (Collider K) → Run (List (Collider K))
  | 0, colliders => Run.ok colliders
  | k + 1, colliders =>
    match (collision.update sqrt fuel colliders).result with
    | Run.ok colliders1 => collision.updates sqrt fuel k colliders1
    | Run.typeError => Run.typeError
    | Run.outOfFuel => Run.outOfFuel

/-- The vertices of a hull of 6 points around the origin; their mean is `(1/6, 1/2, 1)`. -/
def hullVertices : List (Vector3 K) :=
  [⟨-2, 1, 2⟩, ⟨2, 0, 0⟩, ⟨-1, 2, 2⟩, ⟨-1, -2, 0⟩, ⟨1, 2, 0⟩, ⟨2, 0, 2⟩]

/-- A collider with the vertices `hullVertices`, their bounding box and their mean. -/
def hullCollider (phys : Option (Physics K)) : Collider K :=
  { worldVertices := hullVertices
    worldAABB := ⟨⟨-2, -2, 0⟩, ⟨2, 2, 2⟩⟩
    worldCentroid := ⟨1 / 6, 1 / 2, 1⟩
    material := ⟨1, 0, 0⟩
    Physics := phys }

/-- The simplex that `GJK` builds for `hullVertices` against the origin; the origin lies in
the plane of its face 0, 1, 3. -/
def hullSimplex : Simplex K :=
  [(⟨-1, 2, 2⟩, ⟨-1, 2, 2⟩), (⟨-1, -2, 0⟩, ⟨-1, -2, 0⟩), (⟨2, 0, 0⟩, ⟨2, 0, 0⟩),
   (⟨1, 2, 0⟩, ⟨1, 2, 0⟩)]

/-! ## Notions and inputs for claim C13: faces of the polytope of `EPA` -/

/-- The cross product `(b - a) × (c - a)` that `findClosestFace` and `expand` normalise for a
face with the vertices `a`, `b`, `c`. -/
def faceCross (a b c : Vector3 K) : Vector3 K := (b.sub a).cross (c.sub a)

/-- The normal that `findClosestFace` (lines 381-385) and `expand` (lines 320-325) build for
a face with the vertices `a`, `b`, `c`: the normalised cross product, negated when its dot
product with `-a` is positive. -/
def faceNormal (sqrt : K → K) (a b c : Vector3 K) : Vector3 K :=
  let normal := (faceCross a b c).normalize sqrt
  if (Vector3.zero.sub a).dot normal > 0 then normal.negate else normal

/-- The simplex entries that the indices of a face point at. -/
def FaceAt (simplex : Simplex K) (g : Face) (a b c : SupportPair K) : Prop :=
  simplex[g.a]? = some a ∧ simplex[g.b]? = some b ∧ simplex[g.c]? = some c

/-- The face `a`, `b`, `c` does not see the point `v`, in terms of the cross product: the sign
of `faceNormal` is that of `a · N`, turned positive. -/
def Hidden (a b c v : Vector3 K) : Prop :=
  (if a.dot (faceCross a b c) < 0 then -1 else 1) * (faceCross a b c).dot (v.sub a) ≤ 0

/-- Five vertices around the origin: `(-1, -1, 0)` and `(1, 1, 0)` are opposite to each
other, so the segment between them passes through the origin. -/
def wedgeVertices : List (Vector3 K) :=
  [⟨1, 0, 1⟩, ⟨1, 0, -1⟩, ⟨1, 1, 0⟩, ⟨-1, -1, 0⟩, ⟨-1, 0, 0⟩]

/-- A collider with the vertices `wedgeVertices`, their bounding box and their mean. -/
def wedgeCollider (phys : Option (Physics K)) : Collider K :=
  { worldVertices := wedgeVertices
    worldAABB := ⟨⟨-1, -1, -1⟩, ⟨1, 1, 1⟩⟩
    worldCentroid := ⟨1 / 5, 0, 0⟩
    material := ⟨1, 0, 0⟩
    Physics := phys }

/-- The simplex that `GJK` builds for `wedgeVertices` against the origin; the origin lies on
the edge between its entries 1 and 3. -/
def wedgeSimplex : Simplex K :=
  [(⟨1, 0, 1⟩, ⟨1, 0, 1⟩), (⟨-1, -1, 0⟩, ⟨-1, -1, 0⟩), (⟨1, 0, -1⟩, ⟨1, 0, -1⟩),
   (⟨1, 1, 0⟩, ⟨1, 1, 0⟩)]

/-- The states of the loop of `EPA` on `wedgeSimplex`, named after the third point of the
first face through the origin: two passes at the start, then a cycle of three. -/
inductive WedgePhase where
  | start
  | second
  | lower
  | upper
  | left
deriving DecidableEq, Repr

/-- The state after a pass. -/
def WedgePhase.next : WedgePhase → WedgePhase
  | WedgePhase.start => WedgePhase.second
  | WedgePhase.second => WedgePhase.lower
  | WedgePhase.lower => WedgePhase.upper
  | WedgePhase.upper => WedgePhase.left
  | WedgePhase.left => WedgePhase.lower

/-- The vertices of the first face through the origin in the face list. -/
def WedgePhase.first : WedgePhase → Vector3 K × Vector3 K × Vector3 K
  | WedgePhase.start => (⟨1, 0, 1⟩, ⟨-1, -1, 0⟩, ⟨1, 1, 0⟩)
  | WedgePhase.second => (⟨-1, -1, 0⟩, ⟨1, 0, -1⟩, ⟨1, 1, 0⟩)
  | WedgePhase.lower => (⟨-1, -1, 0⟩, ⟨1, 1, 0⟩, ⟨1, 0, -1⟩)
  | WedgePhase.upper => (⟨-1, -1, 0⟩, ⟨1, 1, 0⟩, ⟨1, 0, 1⟩)
  | WedgePhase.left => (⟨-1, -1, 0⟩, ⟨1, 1, 0⟩, ⟨-1, 0, 0⟩)

/-- The vertices of the other face through the origin in the face list. -/
def WedgePhase.other : WedgePhase → Vector3 K × Vector3 K × Vector3 K
  | WedgePhase.start => (⟨-1, -1, 0⟩, ⟨1, 0, -1⟩, ⟨1, 1, 0⟩)
  | WedgePhase.second => (⟨-1, -1, 0⟩, ⟨1, 1, 0⟩, ⟨1, 0, -1⟩)
  | WedgePhase.lower => (⟨-1, -1, 0⟩, ⟨1, 1, 0⟩, ⟨1, 0, 1⟩)
  | WedgePhase.upper => (⟨-1, -1, 0⟩, ⟨1, 1, 0⟩, ⟨-1, 0, 0⟩)
  | WedgePhase.left => (⟨-1, -1, 0⟩, ⟨1, 1, 0⟩, ⟨1, 0, -1⟩)

/-- The support point that the pass pushes. -/
def WedgePhase.point : WedgePhase → Vector3 K
  | WedgePhase.start => ⟨1, 0, -1⟩
  | WedgePhase.second => ⟨1, 0, 1⟩
  | WedgePhase.lower => ⟨-1, 0, 0⟩
  | WedgePhase.upper => ⟨1, 0, -1⟩
  | WedgePhase.left => ⟨1, 0, 1⟩

/-- A face that does not pass through the origin and sees none of the three points that
the passes of `EPA` on `wedgeSimplex` push. -/
def WedgeInert (a b c : Vector3 K) : Prop :=
  0 < (faceCross a b c).dot (faceCross a b c) ∧ a.dot (faceCross a b c) ≠ 0 ∧
    Hidden a b c ⟨1, 0, 1⟩ ∧ Hidden a b c ⟨1, 0, -1⟩ ∧ Hidden a b c ⟨-1, 0, 0⟩

/-- An entry of the face list with increasing indices whose face is `WedgeInert`. -/
def WedgeInertFace (simplex : Simplex K) (g : Face) : Prop :=
  g.a < g.b ∧ g.b < g.c ∧ ∃ a b c, FaceAt simplex g a b c ∧ WedgeInert a.1 b.1 c.1

/-- An entry of the face list with increasing indices and the vertices `t`. -/
def FaceWith (simplex : Simplex K) (g : Face) (t : Vector3 K × Vector3 K × Vector3 K) : Prop :=
  g.a < g.b ∧ g.b < g.c ∧ ∃ a b c, FaceAt simplex g a b c ∧ a.1 = t.1 ∧ b.1 = t.2.1 ∧
    c.1 = t.2.2

/-- The loop invariant of `EPA` on `wedgeSimplex`: the face list holds exactly two faces
through the origin, `first` before `other`, and all its other faces are inert. -/
def WedgeInv (phase : WedgePhase) (simplex : Simplex K) (faces : List Face) : Prop :=
  ∃ pre mid post f1 f2, faces = pre ++ f1 :: (mid ++ f2 :: post) ∧
    (∀ g ∈ pre, WedgeInertFace simplex g) ∧ (∀ g ∈ mid, WedgeInertFace simplex g) ∧
    (∀ g ∈ post, WedgeInertFace simplex g) ∧
    FaceWith simplex f1 (WedgePhase.first phase) ∧ FaceWith simplex f2 (WedgePhase.other phase)

/-- What the invariant needs of a state: the first face through the origin has the support
point `point` at a distance of `epsilon` or more, the other face through the origin does not
see it, and of the three new faces over the edges of the first one is the `other` face of the
next state and two are inert. -/
def WedgePhase.Sound (phase : WedgePhase) : Prop :=
  let t : Vector3 K × Vector3 K × Vector3 K := WedgePhase.first phase
  let u : Vector3 K × Vector3 K × Vector3 K := WedgePhase.other phase
  let v : Vector3 K := WedgePhase.point phase
  let n := faceCross t.1 t.2.1 t.2.2
  (0 < n.dot n ∧ t.1.dot n = 0 ∧ 0 < v.dot n ∧ n.dot n * (epsilon * epsilon) ≤ v.dot n * v.dot n ∧
    v ∈ wedgeVertices ∧ ∀ w ∈ wedgeVertices, w ≠ v → w.dot n < v.dot n) ∧
  (0 < (faceCross u.1 u.2.1 u.2.2).dot (faceCross u.1 u.2.1 u.2.2) ∧ Hidden u.1 u.2.1 u.2.2 v) ∧
  (v = ⟨1, 0, 1⟩ ∨ v = ⟨1, 0, -1⟩ ∨ v = ⟨-1, 0, 0⟩) ∧
  WedgePhase.first (WedgePhase.next phase) = u ∧
  (((t.1, t.2.1, v) = WedgePhase.other (WedgePhase.next phase) ∧
      WedgeInert t.1 t.2.2 v ∧ WedgeInert t.2.1 t.2.2 v) ∨
    (WedgeInert t.1 t.2.1 v ∧ (t.1, t.2.2, v) = WedgePhase.other (WedgePhase.next phase) ∧
      WedgeInert t.2.1 t.2.2 v) ∨
    (WedgeInert t.1 t.2.1 v ∧ WedgeInert t.1 t.2.2 v ∧
      (t.2.1, t.2.2, v) = WedgePhase.other (WedgePhase.next phase)))

/-! ## Notions for the claims C21 to C25 -/

/-- The weights `(u, v, w)` that `getContactPoint(p, a, b, c)` computes in lines 400-411 from
the Minkowski points of the three support pairs. -/
def getContactPoint.weights (p a b c : Vector3 K) : K × K × K :=
  let v0 := b.sub a
  let v1 := c.sub a
  let v2 := p.sub a
  let d00 := v0.dot v0
  let d01 := v0.dot v1
  let d11 := v1.dot v1
  let d20 := v2.dot v0
  let d21 := v2.dot v1
  let denom := d00 * d11 - d01 * d01
  let v := (d11 * d20 - d01 * d21) / denom
  let w := (d00 * d21 - d01 * d20) / denom
  (1 - v - w, v, w)

/-- The combination `u·x + v·y + w·z` in the order of lines 413-417. -/
def combine (t : K × K × K) (x y z : Vector3 K) : Vector3 K :=
  ((x.multiplyScalar t.1).add (y.multiplyScalar t.2.1)).add (z.multiplyScalar t.2.2)

/-- The three edges that `expand` builds for a face in lines 335-346: `edgeAB`, `edgeAC` and
`edgeBC`, in the order in which lines 348-358 toggle them. -/
def Face.edges (g : Face) : List Edge := [⟨g.a, g.b⟩, ⟨g.a, g.c⟩, ⟨g.b, g.c⟩]

/-- The edges that the second loop of `expand` toggles for a list of faces, in that order. -/
def edgesOf : List Face → List Edge
  | [] => []
  | g :: rest => g.edges ++ edgesOf rest

/-- The test of lines 320-328 of `expand`: the face sees `extendPoint`, that is, its normal,
turned away from the origin, has a positive dot product with `extendPoint - a`. -/
def sees (sqrt : K → K) (simplex : Simplex K) (extendPoint : Vector3 K) (face : Face) : Bool :=
  match simplex[face.b]?, simplex[face.a]?, simplex[face.c]? with
  | some b, some a, some c =>
    let ab := b.1.sub a.1
    let ac := c.1.sub a.1
    let norm := (ab.cross ac).normalize sqrt
    let a0 := Vector3.zero.sub a.1
    let norm := if a0.dot norm > 0 then norm.negate else norm
    decide (norm.dot (extendPoint.sub a.1) > 0)
  | _, _, _ => false

/-- The face has the vertices number `i` and `j`, two different ones: the undirected edge
between them is an edge of the face, whatever the order of `i` and `j`. -/
def Face.hasEdge (g : Face) (i j : Nat) : Bool :=
  decide (i ≠ j ∧ (i = g.a ∨ i = g.b ∨ i = g.c) ∧ (j = g.a ∨ j = g.b ∨ j = g.c))

/-- The invariant of the face list: the indices of every face increase and stay below `n`. -/
def FacesOrdered (n : Nat) (faces : List Face) : Prop :=
  ∀ g ∈ faces, g.a < g.b ∧ g.b < g.c ∧ g.c < n

/-- The simplex and the face list at the head of the loop of `EPA` after `n` passes, if the
loop gets that far. -/
def EPA.state (sqrt : K → K) (vertA vertB : List (Vector3 K)) :
    Nat → Simplex K → List Face → Option (Simplex K × List Face)
  | 0, simplex, simplexFaces => some (simplex, simplexFaces)
  | n + 1, simplex, simplexFaces =>
    match EPA.pass sqrt vertA vertB simplex simplexFaces with
    | Pass.next state => EPA.state sqrt vertA vertB n state.1 state.2
    | Pass.leave _ => none

/-! ## JavaScript numbers: binary64 rounding, `Infinity` and `NaN` -/

/-- The position of the leading bit of `n`, with the exponent as the recursion bound: for
`n ≥ 1`, `log2 n n` is the `l` with `2 ^ l ≤ n < 2 ^ (l + 1)`. -/
def Binary64.log2 (n : Nat) : Nat → Nat
  | 0 => 0
  | bound + 1 => if n < 2 then 0 else Binary64.log2 (n / 2) bound + 1

/-- The rounding of every arithmetic operation on a JavaScript number (IEEE 754 binary64,
round to nearest, ties to even), on the rationals: the result is the multiple of `2 ^ e`
nearest to `q`, where `e` is 52 below the exponent of the leading bit of `q`, and not below
`-1074` (the subnormal numbers).  Overflow to `Infinity` (from `2 ^ 1024` on) and the sign of
zero are not modelled. -/
def Binary64.round (q : ℚ) : ℚ :=
  if q.num = 0 then 0
  else
    let n : Nat := q.num.natAbs
    let d : Nat := q.den
    -- the integer `l` with `2 ^ l ≤ n / d < 2 ^ (l + 1)`
    let l0 : Int := (Binary64.log2 n n : Int) - (Binary64.log2 d d : Int)
    let l : Int := if n * 2 ^ (-l0).toNat < d * 2 ^ l0.toNat then l0 - 1 else l0
    let e : Int := max (l - 52) (-1074)
    -- `n / d = (N / D) * 2 ^ e`
    let N : Nat := n * 2 ^ (-e).toNat
    let D : Nat := d * 2 ^ e.toNat
    let m : Nat := N / D
    let r : Nat := N % D
    let m : Nat := if D < 2 * r ∨ (2 * r = D ∧ m % 2 = 1) then m + 1 else m
    mkRat ((if q.num < 0 then -1 else 1) * ((m * 2 ^ e.toNat : Nat) : Int)) (2 ^ (-e).toNat)

/-- The integer square root of `N`, bit by bit from `2 ^ (k - 1)` down: the largest `r` below
`2 ^ k` with `r * r ≤ N`. -/
def Binary64.isqrt (N : Nat) : Nat → Nat → Nat
  | 0, r => r
  | k + 1, r =>
    if (r + 2 ^ k) * (r + 2 ^ k) ≤ N then Binary64.isqrt N k (r + 2 ^ k)
    else Binary64.isqrt N k r

/-- The function `Math.sqrt`, correctly rounded: the integer square root of `q * 4 ^ k` has 64
bits or more, and a last bit is added when the root is not exact, so that `round` sees on
which side of every 53-bit number and every midpoint the root lies.  The root of a negative
number is `NaN` in the source; it is 0 here. -/
def Binary64.sqrt (q : ℚ) : ℚ :=
  if q.num ≤ 0 then 0
  else
    let n : Nat := q.num.natAbs
    let d : Nat := q.den
    let k : Nat := 64 + Binary64.log2 d d
    let N : Nat := n * 4 ^ k / d
    let s : Nat := Binary64.isqrt N (Binary64.log2 N N / 2 + 1) 0
    let sticky : Nat := if s * s = N ∧ n * 4 ^ k % d = 0 then 0 else 1
    Binary64.round (mkRat ((2 * s + sticky : Nat) : Int) (2 ^ (k + 1)))

/-- The operator `+` on numbers. -/
def Binary64.plus (a b : ℚ) : ℚ := Binary64.round (a + b)

/-- The operator `-` on numbers. -/
def Binary64.minus (a b : ℚ) : ℚ := Binary64.round (a - b)

/-- The operator `*` on numbers. -/
def Binary64.times (a b : ℚ) : ℚ := Binary64.round (a * b)

/-- The operator `/` on numbers, for a divisor other than 0. -/
def Binary64.over (a b : ℚ) : ℚ := Binary64.round (a / b)

/-- The method `sub(v)` of `THREE.Vector3`. -/
def Binary64.Vector3.sub (a b : Vector3 ℚ) : Vector3 ℚ :=
  ⟨Binary64.minus a.x b.x, Binary64.minus a.y b.y, Binary64.minus a.z b.z⟩

/-- The method `multiplyScalar(s)`. -/
def Binary64.Vector3.multiplyScalar (a : Vector3 ℚ) (s : ℚ) : Vector3 ℚ :=
  ⟨Binary64.times a.x s, Binary64.times a.y s, Binary64.times a.z s⟩

/-- The method `divideScalar(s)`, which three.js defines as `multiplyScalar(1 / s)`. -/
def Binary64.Vector3.divideScalar (a : Vector3 ℚ) (s : ℚ) : Vector3 ℚ :=
  Binary64.Vector3.multiplyScalar a (Binary64.over 1 s)

/-- The method `dot(v)`: `this.x * v.x + this.y * v.y + this.z * v.z`, from left to right. -/
def Binary64.Vector3.dot (a b : Vector3 ℚ) : ℚ :=
  Binary64.plus (Binary64.plus (Binary64.times a.x b.x) (Binary64.times a.y b.y))
    (Binary64.times a.z b.z)

/-- The method `cross(v)`: `this × v`. -/
def Binary64.Vector3.cross (a b : Vector3 ℚ) : Vector3 ℚ :=
  ⟨Binary64.minus (Binary64.times a.y b.z) (Binary64.times a.z b.y),
    Binary64.minus (Binary64.times a.z b.x) (Binary64.times a.x b.z),
    Binary64.minus (Binary64.times a.x b.y) (Binary64.times a.y b.x)⟩

/-- The method `length()`. -/
def Binary64.Vector3.length (a : Vector3 ℚ) : ℚ :=
  Binary64.sqrt (Binary64.plus (Binary64.plus (Binary64.times a.x a.x) (Binary64.times a.y a.y))
    (Binary64.times a.z a.z))

/-- The method `normalize()`: `divideScalar(this.length() || 1)`. -/
def Binary64.Vector3.normalize (a : Vector3 ℚ) : Vector3 ℚ :=
  Binary64.Vector3.divideScalar a
    (if Binary64.Vector3.length a = 0 then 1 else Binary64.Vector3.length a)

/-- The loop of `getFurthestPointInDirection` (lines 423-430) from position `i` on. -/
def Binary64.getFurthestPointInDirection.loop (dir : Vector3 ℚ) :
    List (Vector3 ℚ) → Nat → Nat → Option ℚ → Nat
  | [], _, index, _ => index
  | v :: rest, i, index, maxDot =>
    let dot := Binary64.Vector3.dot v dir
    if exceeds dot maxDot then
      Binary64.getFurthestPointInDirection.loop dir rest (i + 1) i (some dot)
    else Binary64.getFurthestPointInDirection.loop dir rest (i + 1) index maxDot

/-- The function `getFurthestPointInDirection(verts, dir)` of lines 419-433. -/
def Binary64.getFurthestPointInDirection (verts : List (Vector3 ℚ)) (dir : Vector3 ℚ) :
    Option (Vector3 ℚ) :=
  verts[Binary64.getFurthestPointInDirection.loop dir verts 0 0 none]?

/-- The function `support(aVerts, bVerts, dir)` of lines 562-573. -/
def Binary64.support (aVerts bVerts : List (Vector3 ℚ)) (dir : Vector3 ℚ) :
    Option (SupportPair ℚ) :=
  match Binary64.getFurthestPointInDirection aVerts dir,
      Binary64.getFurthestPointInDirection bVerts dir.negate with
  | some a, some b => some (Binary64.Vector3.sub a b, a)
  | _, _ => none

/-- The function `evaluateAndChangeDir(simplex, dir)` of lines 223-313 in binary64: the text of
`evaluateAndChangeDir` above with every operation rounded. -/
def Binary64.evaluateAndChangeDir (simplex : Simplex ℚ) (dir : Vector3 ℚ) :
    Bool × Simplex ℚ × Vector3 ℚ :=
  match simplex with
  | [s0, s1] =>
    let ab := Binary64.Vector3.sub s1.1 s0.1
    let a0 := s0.1.negate
    (false, simplex, Binary64.Vector3.cross (Binary64.Vector3.cross ab a0) ab)
  | [s0, s1, s2] =>
    let ab := Binary64.Vector3.sub s1.1 s0.1
    let ac := Binary64.Vector3.sub s2.1 s0.1
    let dir := Binary64.Vector3.cross ab ac
    let a0 := s0.1.negate
    (false, simplex, if Binary64.Vector3.dot a0 dir < 0 then dir.negate else dir)
  | [s0, s1, s2, s3] =>
    -- face abc
    let ab := Binary64.Vector3.sub s1.1 s0.1
    let ac := Binary64.Vector3.sub s2.1 s0.1
    let dir := Binary64.Vector3.normalize (Binary64.Vector3.cross ab ac)
    let ad := Binary64.Vector3.sub s3.1 s0.1
    let dir := if Binary64.Vector3.dot ad dir > 0 then dir.negate else dir
    let a0 := s0.1.negate
    if Binary64.Vector3.dot a0 dir > 0 then (false, simplex.eraseIdx 3, dir)
    else
      -- face abd
      let ab := Binary64.Vector3.sub s1.1 s0.1
      let ad := Binary64.Vector3.sub s3.1 s0.1
      let dir := Binary64.Vector3.normalize (Binary64.Vector3.cross ab ad)
      let ac := Binary64.Vector3.sub s2.1 s0.1
      let dir := if Binary64.Vector3.dot ac dir > 0 then dir.negate else dir
      let a0 := s0.1.negate
      if Binary64.Vector3.dot a0 dir > 0 then (false, simplex.eraseIdx 2, dir)
      else
        -- face acd
        let ac := Binary64.Vector3.sub s2.1 s0.1
        let ad := Binary64.Vector3.sub s3.1 s0.1
        let dir := Binary64.Vector3.normalize (Binary64.Vector3.cross ac ad)
        let ab := Binary64.Vector3.sub s1.1 s0.1
        let dir := if Binary64.Vector3.dot ab dir > 0 then dir.negate else dir
        let a0 := s0.1.negate
        if Binary64.Vector3.dot a0 dir > 0 then (false, simplex.eraseIdx 1, dir)
        else
          -- face bcd
          let bc := Binary64.Vector3.sub s2.1 s1.1
          let bd := Binary64.Vector3.sub s3.1 s1.1
          let dir := Binary64.Vector3.normalize (Binary64.Vector3.cross bc bd)
          let ba := Binary64.Vector3.sub s0.1 s1.1
          let dir := if Binary64.Vector3.dot ba dir > 0 then dir.negate else dir
          let b0 := s1.1.negate
          if Binary64.Vector3.dot b0 dir > 0 then (false, simplex.eraseIdx 0, dir)
          else
            -- origin is in center
            (true, simplex, dir)
  | _ => (false, simplex, dir)

/-- The `while (true)` loop of `GJK` (lines 444-479) up to the point where the narrow phase
is decided. -/
def Binary64.GJK.loop (vertA vertB : List (Vector3 ℚ)) :
    Nat → Simplex ℚ → Vector3 ℚ → Run (Option (Simplex ℚ))
  | 0, _, _ => Run.outOfFuel
  | fuel + 1, simplex, dir =>
    match Binary64.support vertA vertB dir with
    | none => Run.typeError
    | some p =>
      let simplex := simplex ++ [p]
      if Binary64.Vector3.dot p.1 dir ≤ 0 then Run.ok none
      else
        match Binary64.evaluateAndChangeDir simplex dir with
        | (true, simplex, _) => Run.ok (some simplex)
        | (false, simplex, dir) => Binary64.GJK.loop vertA vertB fuel simplex dir

/-- Lines 435-479 of `GJK` without the response. -/
def Binary64.GJK.intersects (fuel : Nat) (vertA vertB : List (Vector3 ℚ))
    (dir : Vector3 ℚ) : Run (Option (Simplex ℚ)) :=
  match Binary64.support vertA vertB dir with
  | none => Run.typeError
  | some p => Binary64.GJK.loop vertA vertB fuel [p] dir.negate

/-- A vertex at `(-2, -1, -1)`. -/
def sliverA : Vector3 ℚ := ⟨-2, -1, -1⟩

/-- A vertex at the distance `2 ^ (-55) = 1 / 36028797018963968` from the plane `x = 0`, a
number of binary64. -/
def sliverB : Vector3 ℚ := ⟨-1 / 36028797018963968, 0, 1⟩

/-- A second vertex at the distance `2 ^ (-55)` from the plane `x = 0`. -/
def sliverC : Vector3 ℚ := ⟨-1 / 36028797018963968, 0, -1⟩

/-- A vertex at `(-2, 0, -1)`. -/
def sliverD : Vector3 ℚ := ⟨-2, 0, -1⟩

/-- Four vertices on the side `x < 0` of the origin, in the order of the array
`worldVertices`. -/
def sliverVertices : List (Vector3 ℚ) := [sliverA, sliverC, sliverB, sliverD]

/-- The simplex that `GJK` builds in binary64 from `sliverVertices` against the origin. -/
def sliverSimplex : Simplex ℚ :=
  [(sliverA, sliverA), (sliverB, sliverB), (sliverC, sliverC), (sliverD, sliverD)]

/-- A value of the JavaScript type number: a finite binary64 number, `Infinity` or
`-Infinity` (`negative = true`), or `NaN`.  The sign of zero is not modelled: every zero is
`+0`, so that a quotient with the divisor 0 is the infinity with the sign of the dividend. -/
inductive Number where
  | finite (q : ℚ)
  | infinity (negative : Bool)
  | nan
deriving DecidableEq, Repr

/-- The unary operator `-`. -/
def Number.negate : Number → Number
  | Number.finite q => Number.finite (-q)
  | Number.infinity s => Number.infinity (!s)
  | Number.nan => Number.nan

/-- The operator `+`: `Infinity + -Infinity` is `NaN`. -/
def Number.plus : Number → Number → Number
  | Number.finite a, Number.finite b => Number.finite (Binary64.plus a b)
  | Number.finite _, Number.infinity s => Number.infinity s
  | Number.infinity s, Number.finite _ => Number.infinity s
  | Number.infinity s, Number.infinity t => if s = t then Number.infinity s else Number.nan
  | Number.nan, _ => Number.nan
  | _, Number.nan => Number.nan

/-- The operator `-`. -/
def Number.minus (a b : Number) : Number := Number.plus a (Number.negate b)

/-- The operator `*`: `Infinity * 0` is `NaN`. -/
def Number.times : Number → Number → Number
  | Number.finite a, Number.finite b => Number.finite (Binary64.times a b)
  | Number.finite a, Number.infinity s =>
    if a = 0 then Number.nan else Number.infinity (xor s (decide (a < 0)))
  | Number.infinity s, Number.finite b =>
    if b = 0 then Number.nan else Number.infinity (xor s (decide (b < 0)))
  | Number.infinity s, Number.infinity t => Number.infinity (xor s t)
  | Number.nan, _ => Number.nan
  | _, Number.nan => Number.nan

/-- The operator `/`: `0 / 0` and `Infinity / Infinity` are `NaN`, another number over 0 is
an infinity, a finite number over an infinity is 0. -/
def Number.over : Number → Number → Number
  | Number.finite a, Number.finite b =>
    if b = 0 then (if a = 0 then Number.nan else Number.infinity (decide (a < 0)))
    else Number.finite (Binary64.over a b)
  | Number.finite _, Number.infinity _ => Number.finite 0
  | Number.infinity s, Number.finite b => Number.infinity (xor s (decide (b < 0)))
  | Number.infinity _, Number.infinity _ => Number.nan
  | Number.nan, _ => Number.nan
  | _, Number.nan => Number.nan

/-- The method `add(v)` of `THREE.Vector3` on JavaScript numbers. -/
def Number.Vector3.add (a b : Vector3 Number) : Vector3 Number :=
  ⟨Number.plus a.x b.x, Number.plus a.y b.y, Number.plus a.z b.z⟩

/-- The method `sub(v)`. -/
def Number.Vector3.sub (a b : Vector3 Number) : Vector3 Number :=
  ⟨Number.minus a.x b.x, Number.minus a.y b.y, Number.minus a.z b.z⟩

/-- The method `multiply(v)`: component by component. -/
def Number.Vector3.multiply (a b : Vector3 Number) : Vector3 Number :=
  ⟨Number.times a.x b.x, Number.times a.y b.y, Number.times a.z b.z⟩

/-- The method `multiplyScalar(s)`. -/
def Number.Vector3.multiplyScalar (a : Vector3 Number) (s : Number) : Vector3 Number :=
  ⟨Number.times a.x s, Number.times a.y s, Number.times a.z s⟩

/-- The method `divideScalar(s)`, which three.js defines as `multiplyScalar(1 / s)`. -/
def Number.Vector3.divideScalar (a : Vector3 Number) (s : Number) : Vector3 Number :=
  Number.Vector3.multiplyScalar a (Number.over (Number.finite 1) s)

/-- The method `dot(v)`: `this.x * v.x + this.y * v.y + this.z * v.z`, from left to right. -/
def Number.Vector3.dot (a b : Vector3 Number) : Number :=
  Number.plus (Number.plus (Number.times a.x b.x) (Number.times a.y b.y)) (Number.times a.z b.z)

/-- The method `cross(v)`: `this × v`. -/
def Number.Vector3.cross (a b : Vector3 Number) : Vector3 Number :=
  ⟨Number.minus (Number.times a.y b.z) (Number.times a.z b.y),
    Number.minus (Number.times a.z b.x) (Number.times a.x b.z),
    Number.minus (Number.times a.x b.y) (Number.times a.y b.x)⟩

/-- Modelled from the spec: `Physics.getPointVelocity` on JavaScript numbers, as
`Physics.getPointVelocity` above. -/
def Number.getPointVelocity (phys : Physics Number) (point : Vector3 Number) :
    Vector3 Number :=
  Number.Vector3.add phys.velocity
    (Number.Vector3.cross phys.angularVelocity (Number.Vector3.sub point phys.worldCenterOfMass))

/-- The function `resolveCollision(colA, colB, contact, mat)` of lines 511-561 on JavaScript
numbers: the text of `resolveCollision` above with the operators of `Number`, so that a
quotient with the divisor 0 is an infinity or `NaN` as in the source. -/
def Number.resolveCollision (physA physB : Physics Number) (contact : Contact Number)
    (mat : Material Number) : Physics Number × Physics Number :=
  -- lines 514-516
  let v := Number.Vector3.sub (Number.getPointVelocity physB contact.point)
    (Number.getPointVelocity physA contact.point)
  let iA : Vector3 Number :=
    ⟨Number.over (Number.finite 1) physA.inertiaTensor.x,
      Number.over (Number.finite 1) physA.inertiaTensor.y,
      Number.over (Number.finite 1) physA.inertiaTensor.z⟩
  let iB : Vector3 Number :=
    ⟨Number.over (Number.finite 1) physB.inertiaTensor.x,
      Number.over (Number.finite 1) physB.inertiaTensor.y,
      Number.over (Number.finite 1) physB.inertiaTensor.z⟩
  -- lines 527-528
  let physA1 := { physA with
    worldCenterOfMass := Number.Vector3.sub physA.worldCenterOfMass contact.point }
  let physB1 := { physB with
    worldCenterOfMass := Number.Vector3.sub physB.worldCenterOfMass contact.point }
  let rA := physA1.worldCenterOfMass
  let rB := physB1.worldCenterOfMass
  -- lines 529-547
  let j := Number.Vector3.multiplyScalar contact.normal
    (Number.over
      (Number.Vector3.dot
        (Number.Vector3.multiplyScalar v (Number.minus (Number.finite (-1)) mat.bounciness))
        contact.normal)
      (Number.plus
        (Number.plus (Number.over (Number.finite 1) physA1.mass)
          (Number.over (Number.finite 1) physB1.mass))
        (Number.Vector3.dot contact.normal
          (Number.Vector3.add
            (Number.Vector3.cross
              (Number.Vector3.multiply iA (Number.Vector3.cross rA contact.normal)) rA)
            (Number.Vector3.cross
              (Number.Vector3.multiply iB (Number.Vector3.cross rB contact.normal)) rB)))))
  -- lines 549-554
  let physA2 := { physA1 with
    velocity := Number.Vector3.sub physA1.velocity
      (Number.Vector3.divideScalar (Number.Vector3.multiply contact.normal j) physA1.mass) }
  let physB2 := { physB1 with
    velocity := Number.Vector3.add physB1.velocity
      (Number.Vector3.divideScalar (Number.Vector3.multiply contact.normal j) physB1.mass) }
  -- lines 555-557
  let physA3 := { physA2 with
    worldCenterOfMass := Number.Vector3.cross physA2.worldCenterOfMass contact.normal }
  let physA4 := { physA3 with
    angularVelocity := Number.Vector3.sub physA3.angularVelocity
      (Number.Vector3.multiply (Number.Vector3.multiply iA j) physA3.worldCenterOfMass) }
  -- lines 558-560
  let physB3 := { physB2 with
    worldCenterOfMass := Number.Vector3.cross physB2.worldCenterOfMass contact.normal }
  let physB4 := { physB3 with
    angularVelocity := Number.Vector3.add physB3.angularVelocity
      (Number.Vector3.multiply (Number.Vector3.multiply iB j) physB3.worldCenterOfMass) }
  (physA4, physB4)

/-- A rational number as a JavaScript number. -/
def Number.ofVector3 (v : Vector3 ℚ) : Vector3 Number :=
  ⟨Number.finite v.x, Number.finite v.y, Number.finite v.z⟩

/-- A body with rational fields as a body with JavaScript numbers. -/
def Number.ofPhysics (phys : Physics ℚ) : Physics Number :=
  ⟨Number.finite phys.mass, Number.ofVector3 phys.velocity,
    Number.ofVector3 phys.angularVelocity, Number.ofVector3 phys.inertiaTensor,
    Number.ofVector3 phys.worldCenterOfMass, phys.useGravity⟩

/-- A contact with rational fields as a contact with JavaScript numbers. -/
def Number.ofContact (contact : Contact ℚ) : Contact Number :=
  ⟨Number.finite contact.dist, Number.ofVector3 contact.point, Number.ofVector3 contact.normal⟩

/-- A material with rational fields as a material with JavaScript numbers. -/
def Number.ofMaterial (mat : Material ℚ) : Material Number :=
  ⟨Number.finite mat.bounciness, Number.finite mat.staticFriction,
    Number.finite mat.dynamicFriction⟩

/-- The body `headOnA` with the inertia component `x` set to 0. -/
def zeroInertiaA : Physics ℚ := { headOnA with inertiaTensor := ⟨0, 1, 1⟩ }

/-! ## Theorems -/

/-! ### Vector algebra and the face tests of `evaluateAndChangeDir` -/

theorem evaluateAndChangeDir_four (sqrt : K → K) (s0 s1 s2 s3 : SupportPair K)
    (dir : Vector3 K) :
    evaluateAndChangeDir sqrt [s0, s1, s2, s3] dir =
      if s0.1.negate.dot (awayNormal sqrt s0.1 s1.1 s2.1 s3.1) > 0 then
        (false, [s0, s1, s2], awayNormal sqrt s0.1 s1.1 s2.1 s3.1)
      else if s0.1.negate.dot (awayNormal sqrt s0.1 s1.1 s3.1 s2.1) > 0 then
        (false, [s0, s1, s3], awayNormal sqrt s0.1 s1.1 s3.1 s2.1)
      else if s0.1.negate.dot (awayNormal sqrt s0.1 s2.1 s3.1 s1.1) > 0 then
        (false, [s0, s2, s3], awayNormal sqrt s0.1 s2.1 s3.1 s1.1)
      else if s1.1.negate.dot (awayNormal sqrt s1.1 s2.1 s3.1 s0.1) > 0 then
        (false, [s1, s2, s3], awayNormal sqrt s1.1 s2.1 s3.1 s0.1)
      else (true, [s0, s1, s2, s3], awayNormal sqrt s1.1 s2.1 s3.1 s0.1) := rfl

theorem Vector3.dot_multiplyScalar (a b : Vector3 K) (k : K) :
    a.dot (b.multiplyScalar k) = k * a.dot b := by
  simp only [Vector3.dot, Vector3.multiplyScalar]; ring

theorem Vector3.dot_negate (a b : Vector3 K) : a.dot b.negate = -(a.dot b) := by
  simp only [Vector3.dot, Vector3.negate]; ring

theorem Vector3.negate_dot (a b : Vector3 K) : a.negate.dot b = -(a.dot b) := by
  simp only [Vector3.dot, Vector3.negate]; ring

theorem Vector3.sub_dot (a b c : Vector3 K) : (a.sub b).dot c = a.dot c - b.dot c := by
  simp only [Vector3.dot, Vector3.sub]; ring

theorem Vector3.negate_multiplyScalar (a : Vector3 K) (k : K) :
    (a.multiplyScalar k).negate = a.multiplyScalar (-k) := by
  simp only [Vector3.negate, Vector3.multiplyScalar, Vector3.mk.injEq]
  refine ⟨?_, ?_, ?_⟩ <;> ring

/-- `normalize` multiplies by a non-zero number, whatever `sqrt` is. -/
theorem Vector3.normalize_eq (sqrt : K → K) (a : Vector3 K) :
    ∃ k : K, k ≠ 0 ∧ a.normalize sqrt = a.multiplyScalar k := by
  unfold Vector3.normalize Vector3.divideScalar
  by_cases h : a.length sqrt = 0
  · exact ⟨1 / 1, by norm_num, by rw [if_pos h]⟩
  · exact ⟨1 / a.length sqrt, one_div_ne_zero h, by rw [if_neg h]⟩

theorem awayNormal_spec (sqrt : K → K) (p q r opp : Vector3 K) :
    ∃ k : K, k ≠ 0 ∧
      awayNormal sqrt p q r opp = ((q.sub p).cross (r.sub p)).multiplyScalar k ∧
      (opp.sub p).dot (awayNormal sqrt p q r opp) ≤ 0 := by
  obtain ⟨k, hk, hn⟩ := Vector3.normalize_eq sqrt ((q.sub p).cross (r.sub p))
  unfold awayNormal
  simp only [hn]
  by_cases h : (opp.sub p).dot (((q.sub p).cross (r.sub p)).multiplyScalar k) > 0
  · rw [if_pos h]
    refine ⟨-k, neg_ne_zero.mpr hk, Vector3.negate_multiplyScalar _ _, ?_⟩
    rw [Vector3.dot_negate]; linarith
  · rw [if_neg h]
    exact ⟨k, hk, rfl, not_lt.mp h⟩

/-- The sign fact that one face test of case 4 leaves behind when it does not remove a
vertex. -/
theorem awayNormal_keep (sqrt : K → K) (p q r opp : Vector3 K)
    (hV : (opp.sub p).dot ((q.sub p).cross (r.sub p)) ≠ 0)
    (h : ¬ p.negate.dot (awayNormal sqrt p q r opp) > 0) :
    (opp.sub p).dot ((q.sub p).cross (r.sub p)) * p.dot ((q.sub p).cross (r.sub p)) ≤ 0 := by
  obtain ⟨k, hk, hn, hle⟩ := awayNormal_spec sqrt p q r opp
  rw [hn] at h hle
  rw [Vector3.negate_dot, Vector3.dot_multiplyScalar] at h
  rw [Vector3.dot_multiplyScalar] at hle
  set T := (opp.sub p).dot ((q.sub p).cross (r.sub p)) with hT
  set D := p.dot ((q.sub p).cross (r.sub p)) with hD
  have h1 : 0 ≤ k * D := by
    have := not_lt.mp h
    linarith
  have h2 : k * T < 0 := lt_of_le_of_ne hle (mul_ne_zero hk hV)
  have h3 : (k * T) * (k * D) ≤ 0 := mul_nonpos_of_nonpos_of_nonneg (le_of_lt h2) h1
  have h4 : 0 < k * k := mul_self_pos.mpr hk
  have h5 : (k * k) * (T * D) ≤ 0 := by
    have : (k * k) * (T * D) = (k * T) * (k * D) := by ring
    rw [this]; exact h3
  by_contra hcon
  have := mul_pos h4 (not_le.mp hcon)
  linarith


/-- The scalar core of the separation argument: non-negative weights that sum to `V * V`
cannot combine four negative numbers to zero. -/
theorem weights_contradiction (V D1 D2 D3 D4 A B C E : K)
    (hsum : D4 - D3 + D2 - D1 = V)
    (hdep : D4 * A - D3 * B + D2 * C - D1 * E = 0)
    (ha : A < 0) (hb : B < 0) (hc : C < 0) (hd : E < 0) (hV : V ≠ 0)
    (h1 : V * D1 ≤ 0) (h2 : -V * D2 ≤ 0) (h3 : V * D3 ≤ 0) (h4 : -V * D4 ≤ 0) : False := by
  have w1 : 0 ≤ -(V * D1) := by linarith
  have w2 : 0 ≤ V * D2 := by linarith
  have w3 : 0 ≤ -(V * D3) := by linarith
  have w4 : 0 ≤ V * D4 := by linarith
  have t1 : -(V * D1) * E ≤ 0 := mul_nonpos_of_nonneg_of_nonpos w1 (le_of_lt hd)
  have t2 : V * D2 * C ≤ 0 := mul_nonpos_of_nonneg_of_nonpos w2 (le_of_lt hc)
  have t3 : -(V * D3) * B ≤ 0 := mul_nonpos_of_nonneg_of_nonpos w3 (le_of_lt hb)
  have t4 : V * D4 * A ≤ 0 := mul_nonpos_of_nonneg_of_nonpos w4 (le_of_lt ha)
  have hz : -(V * D1) * E + V * D2 * C + -(V * D3) * B + V * D4 * A = 0 := by
    have : -(V * D1) * E + V * D2 * C + -(V * D3) * B + V * D4 * A =
        V * (D4 * A - D3 * B + D2 * C - D1 * E) := by ring
    rw [this, hdep, mul_zero]
  have z1 : -(V * D1) * E = 0 := by linarith
  have z2 : V * D2 * C = 0 := by linarith
  have z3 : -(V * D3) * B = 0 := by linarith
  have z4 : V * D4 * A = 0 := by linarith
  have y1 : -(V * D1) = 0 := (mul_eq_zero.mp z1).resolve_right (ne_of_lt hd)
  have y2 : V * D2 = 0 := (mul_eq_zero.mp z2).resolve_right (ne_of_lt hc)
  have y3 : -(V * D3) = 0 := (mul_eq_zero.mp z3).resolve_right (ne_of_lt hb)
  have y4 : V * D4 = 0 := (mul_eq_zero.mp z4).resolve_right (ne_of_lt ha)
  have hVV : V * V = 0 := by
    have : V * V = V * D4 + -(V * D3) + V * D2 + -(V * D1) := by
      rw [← hsum]; ring
    rw [this, y1, y2, y3, y4]; norm_num
  exact hV (mul_self_eq_zero.mp hVV)

/-- The signed volume seen from face `abd` is the opposite of the one seen from `abc`. -/
theorem volume_abd (a b c d : Vector3 K) :
    (c.sub a).dot ((b.sub a).cross (d.sub a)) = -(d.sub a).dot ((b.sub a).cross (c.sub a)) := by
  simp only [Vector3.dot, Vector3.sub, Vector3.cross]; ring

/-- The signed volume seen from face `acd` is the one seen from `abc`. -/
theorem volume_acd (a b c d : Vector3 K) :
    (b.sub a).dot ((c.sub a).cross (d.sub a)) = (d.sub a).dot ((b.sub a).cross (c.sub a)) := by
  simp only [Vector3.dot, Vector3.sub, Vector3.cross]; ring

/-- The signed volume seen from face `bcd` is the opposite of the one seen from `abc`. -/
theorem volume_bcd (a b c d : Vector3 K) :
    (a.sub b).dot ((c.sub b).cross (d.sub b)) = -(d.sub a).dot ((b.sub a).cross (c.sub a)) := by
  simp only [Vector3.dot, Vector3.sub, Vector3.cross]; ring

/-- The four face determinants add up to the signed volume. -/
theorem volume_sum (a b c d : Vector3 K) :
    b.dot ((c.sub b).cross (d.sub b)) - a.dot ((c.sub a).cross (d.sub a)) +
        a.dot ((b.sub a).cross (d.sub a)) - a.dot ((b.sub a).cross (c.sub a)) =
      (d.sub a).dot ((b.sub a).cross (c.sub a)) := by
  simp only [Vector3.dot, Vector3.sub, Vector3.cross]; ring

/-- Four vectors of three-space are linearly dependent, with the face determinants as
coefficients. -/
theorem volume_dependency (a b c d e : Vector3 K) :
    b.dot ((c.sub b).cross (d.sub b)) * a.dot e - a.dot ((c.sub a).cross (d.sub a)) * b.dot e +
        a.dot ((b.sub a).cross (d.sub a)) * c.dot e -
        a.dot ((b.sub a).cross (c.sub a)) * d.dot e = 0 := by
  simp only [Vector3.dot, Vector3.sub, Vector3.cross]; ring

/-- Four points on the strict negative side of `e` that span a non-degenerate tetrahedron
cannot pass all four face tests of case 4. -/
theorem no_enclosure_of_separated (a b c d e : Vector3 K)
    (ha : a.dot e < 0) (hb : b.dot e < 0) (hc : c.dot e < 0) (hd : d.dot e < 0)
    (hV : (d.sub a).dot ((b.sub a).cross (c.sub a)) ≠ 0)
    (h1 : (d.sub a).dot ((b.sub a).cross (c.sub a)) * a.dot ((b.sub a).cross (c.sub a)) ≤ 0)
    (h2 : (c.sub a).dot ((b.sub a).cross (d.sub a)) * a.dot ((b.sub a).cross (d.sub a)) ≤ 0)
    (h3 : (b.sub a).dot ((c.sub a).cross (d.sub a)) * a.dot ((c.sub a).cross (d.sub a)) ≤ 0)
    (h4 : (a.sub b).dot ((c.sub b).cross (d.sub b)) * b.dot ((c.sub b).cross (d.sub b)) ≤ 0) :
    False := by
  rw [volume_abd] at h2
  rw [volume_acd] at h3
  rw [volume_bcd] at h4
  exact weights_contradiction _ _ _ _ _ _ _ _ _ (volume_sum a b c d)
    (volume_dependency a b c d e) ha hb hc hd hV h1 h2 h3 h4


theorem Vector3.multiplyScalar_one (a : Vector3 K) : a.multiplyScalar 1 = a := by
  simp only [Vector3.multiplyScalar, mul_one]

/-- One pass of the loop body after a support point has got through the test of line 448:
for separated hulls `evaluateAndChangeDir` answers `false` and re-establishes the invariant. -/
theorem evaluateAndChangeDir_separated (sqrt : K → K) (e : Vector3 K) (simplex : Simplex K)
    (dir : Vector3 K) (p : SupportPair K) (hInv : GJK.SeparatedInv e simplex dir)
    (hp : p.1.dot e < 0) (hpos : 0 < p.1.dot dir) :
    ∃ simplex1 dir1, evaluateAndChangeDir sqrt (simplex ++ [p]) dir = (false, simplex1, dir1) ∧
      GJK.SeparatedInv e simplex1 dir1 := by
  obtain ⟨hmem, hshape⟩ := hInv
  rcases hshape with h1 | h2 | ⟨a, b, c, rfl, ⟨k, hk⟩, hle⟩
  · -- one entry
    obtain ⟨a, rfl⟩ := List.length_eq_one.mp h1
    refine ⟨[a, p], _, rfl, ?_, Or.inr (Or.inl rfl)⟩
    intro q hq
    simp only [List.mem_cons, List.mem_singleton, List.not_mem_nil, or_false] at hq
    rcases hq with rfl | rfl
    · exact hmem _ (List.mem_singleton_self _)
    · exact hp
  · -- two entries
    obtain ⟨a, b, rfl⟩ := List.length_eq_two.mp h2
    refine ⟨[a, b, p], _, rfl, ?_, Or.inr (Or.inr ⟨a, b, p, rfl, ?_, ?_⟩)⟩
    · intro q hq
      simp only [List.mem_cons, List.mem_singleton, List.not_mem_nil, or_false] at hq
      rcases hq with rfl | rfl | rfl
      · exact hmem _ (by simp)
      · exact hmem _ (by simp)
      · exact hp
    · by_cases h : a.1.negate.dot ((b.1.sub a.1).cross (p.1.sub a.1)) < 0
      · exact ⟨-1, by rw [if_pos h, ← Vector3.negate_multiplyScalar,
          Vector3.multiplyScalar_one]⟩
      · exact ⟨1, by rw [if_neg h, Vector3.multiplyScalar_one]⟩
    · by_cases h : a.1.negate.dot ((b.1.sub a.1).cross (p.1.sub a.1)) < 0
      · rw [if_pos h, Vector3.dot_negate]
        rw [Vector3.negate_dot] at h
        linarith
      · rw [if_neg h]
        rw [Vector3.negate_dot] at h
        linarith
  · -- three entries: case 4 of evaluateAndChangeDir
    have ha : a.1.dot e < 0 := hmem _ (by simp)
    have hb : b.1.dot e < 0 := hmem _ (by simp)
    have hc : c.1.dot e < 0 := hmem _ (by simp)
    have hV : (p.1.sub a.1).dot ((b.1.sub a.1).cross (c.1.sub a.1)) ≠ 0 := by
      intro h0
      have : (p.1.sub a.1).dot dir = 0 := by
        rw [hk, Vector3.dot_multiplyScalar, h0, mul_zero]
      rw [Vector3.sub_dot] at this
      linarith
    have hmem3 : ∀ x y z : SupportPair K, x.1.dot e < 0 → y.1.dot e < 0 → z.1.dot e < 0 →
        ∀ q ∈ [x, y, z], q.1.dot e < 0 := by
      intro x y z hx hy hz q hq
      simp only [List.mem_cons, List.mem_singleton, List.not_mem_nil, or_false] at hq
      rcases hq with rfl | rfl | rfl
      · exact hx
      · exact hy
      · exact hz
    have hkeep : ∀ (x y z w : Vector3 K),
        x.negate.dot (awayNormal sqrt x y z w) > 0 →
        (∃ k : K, awayNormal sqrt x y z w = ((y.sub x).cross (z.sub x)).multiplyScalar k) ∧
          x.dot (awayNormal sqrt x y z w) ≤ 0 := by
      intro x y z w h
      obtain ⟨k1, _, hn, _⟩ := awayNormal_spec sqrt x y z w
      refine ⟨⟨k1, hn⟩, ?_⟩
      rw [Vector3.negate_dot] at h
      linarith
    show ∃ simplex1 dir1, evaluateAndChangeDir sqrt [a, b, c, p] dir = (false, simplex1, dir1) ∧
      GJK.SeparatedInv e simplex1 dir1
    rw [evaluateAndChangeDir_four]
    by_cases c1 : a.1.negate.dot (awayNormal sqrt a.1 b.1 c.1 p.1) > 0
    · rw [if_pos c1]
      exact ⟨_, _, rfl, hmem3 a b c ha hb hc,
        Or.inr (Or.inr ⟨a, b, c, rfl, (hkeep _ _ _ _ c1).1, (hkeep _ _ _ _ c1).2⟩)⟩
    rw [if_neg c1]
    by_cases c2 : a.1.negate.dot (awayNormal sqrt a.1 b.1 p.1 c.1) > 0
    · rw [if_pos c2]
      exact ⟨_, _, rfl, hmem3 a b p ha hb hp,
        Or.inr (Or.inr ⟨a, b, p, rfl, (hkeep _ _ _ _ c2).1, (hkeep _ _ _ _ c2).2⟩)⟩
    rw [if_neg c2]
    by_cases c3 : a.1.negate.dot (awayNormal sqrt a.1 c.1 p.1 b.1) > 0
    · rw [if_pos c3]
      exact ⟨_, _, rfl, hmem3 a c p ha hc hp,
        Or.inr (Or.inr ⟨a, c, p, rfl, (hkeep _ _ _ _ c3).1, (hkeep _ _ _ _ c3).2⟩)⟩
    rw [if_neg c3]
    by_cases c4 : b.1.negate.dot (awayNormal sqrt b.1 c.1 p.1 a.1) > 0
    · rw [if_pos c4]
      exact ⟨_, _, rfl, hmem3 b c p hb hc hp,
        Or.inr (Or.inr ⟨b, c, p, rfl, (hkeep _ _ _ _ c4).1, (hkeep _ _ _ _ c4).2⟩)⟩
    exfalso
    have hV2 : (c.1.sub a.1).dot ((b.1.sub a.1).cross (p.1.sub a.1)) ≠ 0 := by
      rw [volume_abd]; exact neg_ne_zero.mpr hV
    have hV3 : (b.1.sub a.1).dot ((c.1.sub a.1).cross (p.1.sub a.1)) ≠ 0 := by
      rw [volume_acd]; exact hV
    have hV4 : (a.1.sub b.1).dot ((c.1.sub b.1).cross (p.1.sub b.1)) ≠ 0 := by
      rw [volume_bcd]; exact neg_ne_zero.mpr hV
    exact no_enclosure_of_separated a.1 b.1 c.1 p.1 e ha hb hc hp hV
      (awayNormal_keep sqrt _ _ _ _ hV c1) (awayNormal_keep sqrt _ _ _ _ hV2 c2)
      (awayNormal_keep sqrt _ _ _ _ hV3 c3) (awayNormal_keep sqrt _ _ _ _ hV4 c4)


/-- The index that the loop of `getFurthestPointInDirection` ends with is the one it started
with or a position it has visited. -/
theorem getFurthestPointInDirection_loop_bound (dir : Vector3 K) :
    ∀ (verts : List (Vector3 K)) (i index : Nat) (maxDot : Option K),
      getFurthestPointInDirection.loop dir verts i index maxDot = index ∨
      (i ≤ getFurthestPointInDirection.loop dir verts i index maxDot ∧
        getFurthestPointInDirection.loop dir verts i index maxDot < i + verts.length) := by
  intro verts
  induction verts with
  | nil => intro i index maxDot; exact Or.inl rfl
  | cons v rest ih =>
    intro i index maxDot
    unfold getFurthestPointInDirection.loop
    simp only [List.length_cons]
    split
    · rcases ih (i + 1) i (some (v.dot dir)) with h | ⟨h1, h2⟩
      · exact Or.inr ⟨by omega, by omega⟩
      · exact Or.inr ⟨by omega, by omega⟩
    · rcases ih (i + 1) index maxDot with h | ⟨h1, h2⟩
      · exact Or.inl h
      · exact Or.inr ⟨by omega, by omega⟩

theorem getFurthestPointInDirection_isSome (verts : List (Vector3 K)) (dir : Vector3 K)
    (h : verts ≠ []) : ∃ v, v ∈ verts ∧ getFurthestPointInDirection verts dir = some v := by
  have hlen : 0 < verts.length := List.length_pos.mpr h
  have hlt : getFurthestPointInDirection.loop dir verts 0 0 none < verts.length := by
    rcases getFurthestPointInDirection_loop_bound dir verts 0 0 none with h0 | ⟨_, h2⟩
    · rw [h0]; exact hlen
    · omega
  refine ⟨verts[getFurthestPointInDirection.loop dir verts 0 0 none], List.getElem_mem _, ?_⟩
  unfold getFurthestPointInDirection
  exact List.getElem?_eq_getElem hlt

theorem getFurthestPointInDirection_mem (verts : List (Vector3 K)) (dir v : Vector3 K)
    (h : getFurthestPointInDirection verts dir = some v) : v ∈ verts := by
  unfold getFurthestPointInDirection at h
  exact List.getElem?_mem h

/-- A support pair is made of a vertex of A and the difference to a vertex of B. -/
theorem support_mem (aVerts bVerts : List (Vector3 K)) (dir : Vector3 K) (p : SupportPair K)
    (h : support aVerts bVerts dir = some p) :
    ∃ a ∈ aVerts, ∃ b ∈ bVerts, p = (a.sub b, a) := by
  unfold support at h
  split at h
  · rename_i a b ha hb
    exact ⟨a, getFurthestPointInDirection_mem _ _ _ ha, b,
      getFurthestPointInDirection_mem _ _ _ hb, (Option.some.inj h).symm⟩
  · exact absurd h (by simp)

theorem support_isSome (aVerts bVerts : List (Vector3 K)) (dir : Vector3 K)
    (hA : aVerts ≠ []) (hB : bVerts ≠ []) : ∃ p, support aVerts bVerts dir = some p := by
  obtain ⟨a, _, ha⟩ := getFurthestPointInDirection_isSome aVerts dir hA
  obtain ⟨b, _, hb⟩ := getFurthestPointInDirection_isSome bVerts dir.negate hB
  exact ⟨(a.sub b, a), by unfold support; rw [ha, hb]⟩

/-- For hulls separated along `e` the loop of `GJK` never takes the branch of line 450. -/
theorem GJK_loop_separated (sqrt : K → K) (e : Vector3 K) (vertA vertB : List (Vector3 K))
    (hA : vertA ≠ []) (hB : vertB ≠ [])
    (hsep : ∀ a ∈ vertA, ∀ b ∈ vertB, (a.sub b).dot e < 0) :
    ∀ (fuel : Nat) (simplex : Simplex K) (dir : Vector3 K), GJK.SeparatedInv e simplex dir →
      GJK.loop sqrt vertA vertB fuel simplex dir = Run.ok none ∨
      GJK.loop sqrt vertA vertB fuel simplex dir = Run.outOfFuel := by
  intro fuel
  induction fuel with
  | zero => intro simplex dir _; exact Or.inr rfl
  | succ fuel ih =>
    intro simplex dir hInv
    obtain ⟨p, hp⟩ := support_isSome vertA vertB dir hA hB
    obtain ⟨a, ha, b, hb, rfl⟩ := support_mem _ _ _ _ hp
    unfold GJK.loop
    simp only [hp]
    by_cases hle : (a.sub b).dot dir ≤ 0
    · rw [if_pos hle]; exact Or.inl rfl
    · rw [if_neg hle]
      obtain ⟨s1, d1, hev, hInv1⟩ := evaluateAndChangeDir_separated sqrt e simplex dir
        (a.sub b, a) hInv (hsep a ha b hb) (not_le.mp hle)
      rw [hev]
      exact ih s1 d1 hInv1

theorem AxisSeparated_direction (A B : List (Vector3 K)) (h : AxisSeparated A B) :
    ∃ e : Vector3 K, ∀ a ∈ A, ∀ b ∈ B, (a.sub b).dot e < 0 := by
  rcases h with h | h | h | h | h | h
  · refine ⟨⟨1, 0, 0⟩, fun a ha b hb => ?_⟩
    have := h a ha b hb
    simp only [Vector3.dot, Vector3.sub]; linarith
  · refine ⟨⟨-1, 0, 0⟩, fun a ha b hb => ?_⟩
    have := h a ha b hb
    simp only [Vector3.dot, Vector3.sub]; linarith
  · refine ⟨⟨0, 1, 0⟩, fun a ha b hb => ?_⟩
    have := h a ha b hb
    simp only [Vector3.dot, Vector3.sub]; linarith
  · refine ⟨⟨0, -1, 0⟩, fun a ha b hb => ?_⟩
    have := h a ha b hb
    simp only [Vector3.dot, Vector3.sub]; linarith
  · refine ⟨⟨0, 0, 1⟩, fun a ha b hb => ?_⟩
    have := h a ha b hb
    simp only [Vector3.dot, Vector3.sub]; linarith
  · refine ⟨⟨0, 0, -1⟩, fun a ha b hb => ?_⟩
    have := h a ha b hb
    simp only [Vector3.dot, Vector3.sub]; linarith

theorem GJK_intersects_separated (sqrt : K → K) (fuel : Nat) (vertA vertB : List (Vector3 K))
    (dir : Vector3 K) (hA : vertA ≠ []) (hB : vertB ≠ []) (hsep : AxisSeparated vertA vertB) :
    GJK.intersects sqrt fuel vertA vertB dir = Run.ok none ∨
    GJK.intersects sqrt fuel vertA vertB dir = Run.outOfFuel := by
  obtain ⟨e, he⟩ := AxisSeparated_direction vertA vertB hsep
  obtain ⟨p, hp⟩ := support_isSome vertA vertB dir hA hB
  obtain ⟨a, ha, b, hb, rfl⟩ := support_mem _ _ _ _ hp
  unfold GJK.intersects
  simp only [hp]
  apply GJK_loop_separated sqrt e vertA vertB hA hB he
  refine ⟨?_, Or.inl rfl⟩
  intro q hq
  rw [List.mem_singleton] at hq
  rw [hq]
  exact he a ha b hb

/-! ### Evaluations of the narrow phase on concrete hulls -/

theorem Real_sqrt_four : Real.sqrt 4 = 2 := by
  rw [show (4 : ℝ) = 2 * 2 by norm_num]
  exact Real.sqrt_mul_self (by norm_num)

theorem Real_sqrt_nine : Real.sqrt 9 = 3 := by
  rw [show (9 : ℝ) = 3 * 3 by norm_num]
  exact Real.sqrt_mul_self (by norm_num)

set_option maxHeartbeats 4000000 in
/-- The narrow-phase loop on `tetraVertices` against the origin, for any square root that is
exact at 1, 4 and 9: three passes, then case 4 finds the origin enclosed. -/
theorem tetra_intersects (sqrt : K → K) (h1 : sqrt 1 = 1) (h4 : sqrt 4 = 2) (h9 : sqrt 9 = 3)
    (n : Nat) :
    GJK.intersects sqrt (n + 3) tetraVertices [(⟨0, 0, 0⟩ : Vector3 K)] ⟨1 / 8, 0, 1 / 4⟩ =
      Run.ok (some tetraSimplex) := by
  norm_num [GJK.intersects, GJK.loop, support, getFurthestPointInDirection,
    getFurthestPointInDirection.loop, exceeds, tetraVertices, tetraSimplex, Vector3.dot,
    Vector3.negate, Vector3.sub, Vector3.cross, Vector3.add, Vector3.multiplyScalar,
    evaluateAndChangeDir, Vector3.normalize, Vector3.length, Vector3.divideScalar, h1, h4, h9]

set_option maxHeartbeats 4000000 in
/-- The polytope loop on `tetraSimplex`: the closest face is `x = -1/8` and the first support
point already lies on it. -/
theorem tetra_EPA (sqrt : K → K) (h1 : sqrt 1 = 1) (h4 : sqrt 4 = 2) (h9 : sqrt 9 = 3)
    (n : Nat) :
    EPA sqrt (n + 1) tetraVertices [(⟨0, 0, 0⟩ : Vector3 K)] tetraSimplex = Run.ok tetraContact := by
  norm_num [EPA, EPA.loop, EPA.seedFaces, findClosestFace, findClosestFace.loop, epsilon,
    getContactPoint, support, getFurthestPointInDirection,
    getFurthestPointInDirection.loop, exceeds, tetraVertices, tetraSimplex, tetraContact,
    Vector3.dot, Vector3.zero,
    Vector3.negate, Vector3.sub, Vector3.cross, Vector3.add, Vector3.multiplyScalar,
    Vector3.normalize, Vector3.length, Vector3.divideScalar, h1, h4, h9]

theorem tetra_intersects_real :
    GJK.intersects Real.sqrt 4 tetraVertices [(⟨0, 0, 0⟩ : Vector3 ℝ)] ⟨1 / 8, 0, 1 / 4⟩ =
      Run.ok (some tetraSimplex) :=
  tetra_intersects Real.sqrt Real.sqrt_one Real_sqrt_four Real_sqrt_nine 1

theorem tetra_EPA_real :
    EPA Real.sqrt 4 tetraVertices [(⟨0, 0, 0⟩ : Vector3 ℝ)] tetraSimplex = Run.ok tetraContact :=
  tetra_EPA Real.sqrt Real.sqrt_one Real_sqrt_four Real_sqrt_nine 3

/-! ### Claims C1 to C3: the narrow phase -/

set_option maxHeartbeats 4000000 in
/-- C1 (code defect): the cubes of half-extent 1 centred at the origin and at `(0, 1, 0)`
overlap (the point `(0, 1/2, 0)` is strictly inside both), yet `GJK` started with the
direction `centroid(A) - centroid(B)` returns at line 448 on its second pass: the first two
support points `(0, -3, 0)` and `(0, 1, 0)` have the origin between them, case 2 sets `dir`
to the zero vector, and the next support point fails the test `p[0].dot(dir) <= 0`.  No
intersection is reported, whatever the square root and the step budget. -/
theorem GJK_overlapping_boxes_no_contact (sqrt : K → K) (n : Nat) :
    StrictlyInside (originCube K).worldAABB.min (originCube K).worldAABB.max ⟨0, 1 / 2, 0⟩ ∧
    StrictlyInside (shiftedCubeY K).worldAABB.min (shiftedCubeY K).worldAABB.max
      ⟨0, 1 / 2, 0⟩ ∧
    GJK.intersects sqrt (n + 2) (originCube K).worldVertices (shiftedCubeY K).worldVertices
      ((originCube K).worldCentroid.sub (shiftedCubeY K).worldCentroid) = Run.ok none ∧
    GJK.call sqrt (n + 2) (originCube K) (shiftedCubeY K)
      ((originCube K).worldCentroid.sub (shiftedCubeY K).worldCentroid) =
        Run.ok ResolverCall.nothing := by
  have h : GJK.intersects sqrt (n + 2) (originCube K).worldVertices
      (shiftedCubeY K).worldVertices
      ((originCube K).worldCentroid.sub (shiftedCubeY K).worldCentroid) = Run.ok none := by
    simp [GJK.intersects, GJK.loop, support, getFurthestPointInDirection,
      getFurthestPointInDirection.loop, exceeds, originCube, shiftedCubeY, boxCollider,
      boxVertices, Vector3.dot, Vector3.negate, Vector3.sub, Vector3.cross, Vector3.add,
      Vector3.multiplyScalar, evaluateAndChangeDir]
    norm_num
  refine ⟨?_, ?_, h, ?_⟩
  · norm_num [StrictlyInside, originCube, boxCollider]
  · norm_num [StrictlyInside, shiftedCubeY, boxCollider]
  · unfold GJK.call
    rw [h]

/-- In exact arithmetic `GJK` is sound on separated sets: for two non-empty vertex sets
separated by a positive gap along a coordinate axis and any initial direction, `GJK` over an
ordered field never reports an intersection: the narrow-phase loop ends at the `return` of
line 448 (or is still running when the step budget ends), no resolver is called and the two
colliders are left as they were.  It does not carry over to binary64: see the run on
`sliverVertices` below. -/
theorem GJK_separated_no_contact (sqrt : K → K) (fuel : Nat) (colA colB : Collider K)
    (dir : Vector3 K) (hA : colA.worldVertices ≠ []) (hB : colB.worldVertices ≠ [])
    (hsep : AxisSeparated colA.worldVertices colB.worldVertices) :
    (GJK.intersects sqrt fuel colA.worldVertices colB.worldVertices dir = Run.ok none ∨
      GJK.intersects sqrt fuel colA.worldVertices colB.worldVertices dir = Run.outOfFuel) ∧
    (GJK.call sqrt fuel colA colB dir = Run.ok ResolverCall.nothing ∨
      GJK.call sqrt fuel colA colB dir = Run.outOfFuel) ∧
    (GJK sqrt fuel colA colB dir = Run.ok (colA, colB) ∨
      GJK sqrt fuel colA colB dir = Run.outOfFuel) := by
  have h := GJK_intersects_separated sqrt fuel colA.worldVertices colB.worldVertices dir hA hB hsep
  refine ⟨h, ?_, ?_⟩
  · unfold GJK.call
    rcases h with h | h <;> rw [h]
    · exact Or.inl rfl
    · exact Or.inr rfl
  · unfold GJK GJK.call
    rcases h with h | h <;> rw [h]
    · exact Or.inl rfl
    · exact Or.inr rfl

/-- A concrete separated pair: the unit cube at the origin and the one centred at
`(3, 0, 0)`, with the direction between their centroids. -/
theorem GJK_separated_no_contact_witness :
    (originCube ℚ).worldVertices ≠ [] ∧ (farCube ℚ).worldVertices ≠ [] ∧
    AxisSeparated (originCube ℚ).worldVertices (farCube ℚ).worldVertices ∧
    (GJK.intersects (fun _ => 1) 8 (originCube ℚ).worldVertices (farCube ℚ).worldVertices
        ⟨-3, 0, 0⟩ = Run.ok none ∨
      GJK.intersects (fun _ => 1) 8 (originCube ℚ).worldVertices (farCube ℚ).worldVertices
        ⟨-3, 0, 0⟩ = Run.outOfFuel) ∧
    (GJK.call (fun _ => 1) 8 (originCube ℚ) (farCube ℚ) ⟨-3, 0, 0⟩ =
        Run.ok ResolverCall.nothing ∨
      GJK.call (fun _ => 1) 8 (originCube ℚ) (farCube ℚ) ⟨-3, 0, 0⟩ = Run.outOfFuel) ∧
    (GJK (fun _ => 1) 8 (originCube ℚ) (farCube ℚ) ⟨-3, 0, 0⟩ =
        Run.ok (originCube ℚ, farCube ℚ) ∨
      GJK (fun _ => 1) 8 (originCube ℚ) (farCube ℚ) ⟨-3, 0, 0⟩ = Run.outOfFuel) :=
  ⟨by decide, by decide, Or.inl (by decide!),
    GJK_separated_no_contact (fun _ => 1) 8 (originCube ℚ) (farCube ℚ) ⟨-3, 0, 0⟩
      (by decide) (by decide) (Or.inl (by decide!))⟩

/-- The rounding and the square root on known binary64 values: `0.1`, `1 / 3`, `0.1 + 0.2`,
a tie that goes down to the even neighbour and a tie that goes up, the difference of line 243
on `sliverSimplex`, `Math.sqrt(2)` and `Math.sqrt(4)`. -/
theorem Binary64_known_values :
    Binary64.round (1 / 10) = 3602879701896397 / 36028797018963968 ∧
    Binary64.over 1 3 = 6004799503160661 / 18014398509481984 ∧
    Binary64.plus (Binary64.round (1 / 10)) (Binary64.round (2 / 10)) =
      1351079888211149 / 4503599627370496 ∧
    Binary64.round (1 + 1 / 9007199254740992) = 1 ∧
    Binary64.round (1 + 3 / 9007199254740992) = 2251799813685249 / 2251799813685248 ∧
    Binary64.round (2 - 1 / 36028797018963968) = 2 ∧
    Binary64.sqrt 2 = 6369051672525773 / 4503599627370496 ∧
    Binary64.sqrt 4 = 2 := by
  decide!

/-- C2 (code defect): in binary64, the arithmetic of the source, `GJK` reports an intersection
of two non-empty vertex sets that are separated by a positive gap along the x axis.  Every
vertex of `sliverVertices` has `x ≤ -2 ^ (-55)` and the other set is the origin alone.
Started with the direction `(-1, -1/4, -1/2)` between the centroids, the loop pushes three
support points after the first, none of them fails the test of line 448, and in the third
pass `evaluateAndChangeDir` returns `true` on `sliverSimplex`, so that `GJK` goes on to call
`EPA` in line 455.  In exact arithmetic the same call never returns a simplex, whatever the
square root and the step budget. -/
theorem GJK_separated_reports_contact :
    sliverVertices ≠ [] ∧ [(⟨0, 0, 0⟩ : Vector3 ℚ)] ≠ [] ∧
    AxisSeparated sliverVertices [(⟨0, 0, 0⟩ : Vector3 ℚ)] ∧
    (∀ a ∈ sliverVertices, a.x ≤ -1 / 36028797018963968) ∧
    Binary64.GJK.intersects 3 sliverVertices [⟨0, 0, 0⟩] ⟨-1, -1 / 4, -1 / 2⟩ =
      Run.ok (some sliverSimplex) ∧
    (∀ (sqrt : ℚ → ℚ) (fuel : Nat) (simplex : Simplex ℚ),
      GJK.intersects sqrt fuel sliverVertices [⟨0, 0, 0⟩] ⟨-1, -1 / 4, -1 / 2⟩ ≠
        Run.ok (some simplex)) := by
  have hsep : AxisSeparated sliverVertices [(⟨0, 0, 0⟩ : Vector3 ℚ)] := Or.inl (by decide!)
  refine ⟨by decide, by decide, hsep, by decide!, by decide!, ?_⟩
  intro sqrt fuel simplex h
  rcases GJK_intersects_separated sqrt fuel sliverVertices [⟨0, 0, 0⟩] ⟨-1, -1 / 4, -1 / 2⟩
    (by decide) (by decide) hsep with h1 | h1
  · rw [h1] at h
    simp at h
  · rw [h1] at h
    simp at h

set_option maxHeartbeats 4000000 in
/-- C3 (code defect): for the cubes of half-extent 1 centred at `(0, 0, 0)` and `(1.5, 0, 0)`,
vertices in lexicographic order, `GJK` started with `centroid(A) - centroid(B)` never reaches
`EPA`: the first two support points are `(-3.5, 0, 0)` and `(0.5, 0, 0)`, the origin lies on
the segment between them, case 2 sets `dir` to the zero vector and the next pass returns at
line 448.  No contact is produced, so there is no `dist` and no `normal`. -/
theorem GJK_unit_cubes_no_contact (sqrt : K → K) (n : Nat) :
    GJK.intersects sqrt (n + 2) (originCube K).worldVertices (shiftedCubeX K).worldVertices
      ((originCube K).worldCentroid.sub (shiftedCubeX K).worldCentroid) = Run.ok none ∧
    GJK.call sqrt (n + 2) (originCube K) (shiftedCubeX K)
      ((originCube K).worldCentroid.sub (shiftedCubeX K).worldCentroid) =
        Run.ok ResolverCall.nothing := by
  have h : GJK.intersects sqrt (n + 2) (originCube K).worldVertices
      (shiftedCubeX K).worldVertices
      ((originCube K).worldCentroid.sub (shiftedCubeX K).worldCentroid) = Run.ok none := by
    simp [GJK.intersects, GJK.loop, support, getFurthestPointInDirection,
      getFurthestPointInDirection.loop, exceeds, originCube, shiftedCubeX, boxCollider,
      boxVertices, Vector3.dot, Vector3.negate, Vector3.sub, Vector3.cross, Vector3.add,
      Vector3.multiplyScalar, evaluateAndChangeDir]
    norm_num
  refine ⟨h, ?_⟩
  unfold GJK.call
  rw [h]

/-! ### Claims C4 to C7, C9, C10: the impulse resolver -/

/-- C4 (code defect): on the head-on pair along the unit normal `n = (3/5, 4/5, 0)` with
bounciness 1 the scalar of the formula is `j = 2`, so the formula moves A's velocity by
`-j·n/massA` to `(-3/5, -4/5, 0)` and B's to `(3/5, 4/5, 0)`; `resolveCollision` multiplies the
normal component by component with the vector `j·n` (lines 549-554) and leaves
`(-3/25, -12/25, 0)` and `(3/25, 12/25, 0)`. -/
theorem resolveCollision_velocity_mismatch :
    obliqueContact.normal.dot obliqueContact.normal = 1 ∧
    impulseScalar obliqueA obliqueB obliqueContact elastic = 2 ∧
    (resolveCollisionSpec obliqueA obliqueB obliqueContact elastic).1.velocity =
      ⟨-3 / 5, -4 / 5, 0⟩ ∧
    (resolveCollisionSpec obliqueA obliqueB obliqueContact elastic).2.velocity =
      ⟨3 / 5, 4 / 5, 0⟩ ∧
    (resolveCollision obliqueA obliqueB obliqueContact elastic).1.velocity =
      ⟨-3 / 25, -12 / 25, 0⟩ ∧
    (resolveCollision obliqueA obliqueB obliqueContact elastic).2.velocity =
      ⟨3 / 25, 12 / 25, 0⟩ := by
  decide!

/-- C5 (code defect): on the pair `headOnA`, `headOnB` with the contact at the origin and the
unit normal `n = (2/3, 2/3, 1/3)` the formula changes both angular velocities from zero to
`(0, 2/7, -4/7)`; `resolveCollision` takes `r` from the contact point to the centre of mass
(lines 527-528) and multiplies component by component with the vector `j·n` (lines 555-560),
and leaves `(0, -4/21, 4/21)`. -/
theorem resolveCollision_angular_mismatch :
    skewContact.normal.dot skewContact.normal = 1 ∧
    (resolveCollisionSpec headOnA headOnB skewContact elastic).1.angularVelocity =
      ⟨0, 2 / 7, -4 / 7⟩ ∧
    (resolveCollisionSpec headOnA headOnB skewContact elastic).2.angularVelocity =
      ⟨0, 2 / 7, -4 / 7⟩ ∧
    (resolveCollision headOnA headOnB skewContact elastic).1.angularVelocity =
      ⟨0, -4 / 21, 4 / 21⟩ ∧
    (resolveCollision headOnA headOnB skewContact elastic).2.angularVelocity =
      ⟨0, -4 / 21, 4 / 21⟩ := by
  decide!

/-- The angular term of the impulse denominator is a weighted sum of squares. -/
theorem angular_term_eq (i r n : Vector3 K) :
    n.dot ((i.multiply (r.cross n)).cross r) =
      i.x * ((r.cross n).x * (r.cross n).x) + i.y * ((r.cross n).y * (r.cross n).y) +
        i.z * ((r.cross n).z * (r.cross n).z) := by
  simp only [Vector3.dot, Vector3.multiply, Vector3.cross]; ring

/-- With positive masses and inertia components the divisor of line 531 (and of line 496,
with one body) is positive, so no quotient of the resolvers has a zero divisor. -/
theorem impulse_denominator_pos (physA physB : Physics K) (n rA rB : Vector3 K)
    (hA : 0 < physA.mass) (hB : 0 < physB.mass)
    (hIA : 0 < physA.inertiaTensor.x ∧ 0 < physA.inertiaTensor.y ∧ 0 < physA.inertiaTensor.z)
    (hIB : 0 < physB.inertiaTensor.x ∧ 0 < physB.inertiaTensor.y ∧ 0 < physB.inertiaTensor.z) :
    0 < 1 / physA.mass + 1 / physB.mass +
      n.dot ((((⟨1 / physA.inertiaTensor.x, 1 / physA.inertiaTensor.y,
          1 / physA.inertiaTensor.z⟩ : Vector3 K).multiply (rA.cross n)).cross rA).add
        (((⟨1 / physB.inertiaTensor.x, 1 / physB.inertiaTensor.y,
          1 / physB.inertiaTensor.z⟩ : Vector3 K).multiply (rB.cross n)).cross rB)) ∧
    0 < 1 / physA.mass +
      (((⟨1 / physA.inertiaTensor.x, 1 / physA.inertiaTensor.y,
          1 / physA.inertiaTensor.z⟩ : Vector3 K).multiply (rA.cross n)).cross rA).dot n := by
  obtain ⟨h1, h2, h3⟩ := hIA
  obtain ⟨h4, h5, h6⟩ := hIB
  have key : ∀ (i r : Vector3 K), 0 < i.x → 0 < i.y → 0 < i.z →
      0 ≤ n.dot (((⟨1 / i.x, 1 / i.y, 1 / i.z⟩ : Vector3 K).multiply (r.cross n)).cross r) := by
    intro i r hx hy hz
    rw [angular_term_eq]
    have a1 := mul_nonneg (le_of_lt (one_div_pos.mpr hx)) (mul_self_nonneg (r.cross n).x)
    have a2 := mul_nonneg (le_of_lt (one_div_pos.mpr hy)) (mul_self_nonneg (r.cross n).y)
    have a3 := mul_nonneg (le_of_lt (one_div_pos.mpr hz)) (mul_self_nonneg (r.cross n).z)
    linarith
  have kA := key physA.inertiaTensor rA h1 h2 h3
  have kB := key physB.inertiaTensor rB h4 h5 h6
  have mA := one_div_pos.mpr hA
  have mB := one_div_pos.mpr hB
  have hadd : ∀ u v : Vector3 K, n.dot (u.add v) = n.dot u + n.dot v := by
    intro u v
    simp only [Vector3.dot, Vector3.add]; ring
  have hcomm : ∀ u : Vector3 K, u.dot n = n.dot u := by
    intro u
    simp only [Vector3.dot]; ring
  constructor
  · rw [hadd]; linarith
  · rw [hcomm]; linarith

/-- Both velocity updates of `resolveCollision` use one vector `j`, and the masses stay. -/
theorem resolveCollision_velocity_shape (physA physB : Physics K) (contact : Contact K)
    (mat : Material K) :
    ∃ j : Vector3 K,
      (resolveCollision physA physB contact mat).1.velocity =
        physA.velocity.sub ((contact.normal.multiply j).divideScalar physA.mass) ∧
      (resolveCollision physA physB contact mat).2.velocity =
        physB.velocity.add ((contact.normal.multiply j).divideScalar physB.mass) ∧
      (resolveCollision physA physB contact mat).1.mass = physA.mass ∧
      (resolveCollision physA physB contact mat).2.mass = physB.mass :=
  ⟨_, rfl, rfl, rfl, rfl⟩

/-- C6, amended: `resolveCollision` conserves total linear momentum: for every contact, every
bounciness and every pair of bodies with positive masses and positive inertia components,
`massA·velocityA + massB·velocityB` is the same vector after the call as before it, in exact
arithmetic.  Under these hypotheses every divisor of lines 517-553 is positive, the six
inertia components and the two masses by hypothesis and the divisor of line 531 by the second
part, so that no quotient of the source is a division by zero and the quotients of the field
are those of the real numbers. -/
theorem resolveCollision_conserves_momentum (physA physB : Physics K) (contact : Contact K)
    (mat : Material K) (hA : 0 < physA.mass) (hB : 0 < physB.mass)
    (hIA : 0 < physA.inertiaTensor.x ∧ 0 < physA.inertiaTensor.y ∧ 0 < physA.inertiaTensor.z)
    (hIB : 0 < physB.inertiaTensor.x ∧ 0 < physB.inertiaTensor.y ∧ 0 < physB.inertiaTensor.z) :
    (((resolveCollision physA physB contact mat).1.velocity.multiplyScalar
        (resolveCollision physA physB contact mat).1.mass).add
      ((resolveCollision physA physB contact mat).2.velocity.multiplyScalar
        (resolveCollision physA physB contact mat).2.mass))
    = (physA.velocity.multiplyScalar physA.mass).add
        (physB.velocity.multiplyScalar physB.mass) ∧
    0 < 1 / physA.mass + 1 / physB.mass +
      contact.normal.dot ((((⟨1 / physA.inertiaTensor.x, 1 / physA.inertiaTensor.y,
          1 / physA.inertiaTensor.z⟩ : Vector3 K).multiply
            ((physA.worldCenterOfMass.sub contact.point).cross contact.normal)).cross
              (physA.worldCenterOfMass.sub contact.point)).add
        (((⟨1 / physB.inertiaTensor.x, 1 / physB.inertiaTensor.y,
          1 / physB.inertiaTensor.z⟩ : Vector3 K).multiply
            ((physB.worldCenterOfMass.sub contact.point).cross contact.normal)).cross
              (physB.worldCenterOfMass.sub contact.point))) := by
  refine ⟨?_, (impulse_denominator_pos physA physB contact.normal
    (physA.worldCenterOfMass.sub contact.point) (physB.worldCenterOfMass.sub contact.point)
    hA hB hIA hIB).1⟩
  have hA0 : physA.mass ≠ 0 := ne_of_gt hA
  have hB0 : physB.mass ≠ 0 := ne_of_gt hB
  obtain ⟨j, h1, h2, h3, h4⟩ := resolveCollision_velocity_shape physA physB contact mat
  rw [h1, h2, h3, h4]
  simp only [Vector3.multiplyScalar, Vector3.add, Vector3.sub,
    Vector3.divideScalar, Vector3.multiply, Vector3.mk.injEq]
  refine ⟨?_, ?_, ?_⟩ <;> field_simp

/-- C6, amended, holds on the pair `spinningBody`, `headOnB` with the skew contact. -/
theorem resolveCollision_conserves_momentum_witness :
    0 < spinningBody.mass ∧ 0 < headOnB.mass ∧
    (0 < spinningBody.inertiaTensor.x ∧ 0 < spinningBody.inertiaTensor.y ∧
      0 < spinningBody.inertiaTensor.z) ∧
    (0 < headOnB.inertiaTensor.x ∧ 0 < headOnB.inertiaTensor.y ∧
      0 < headOnB.inertiaTensor.z) ∧
    (((resolveCollision spinningBody headOnB skewContact elastic).1.velocity.multiplyScalar
        (resolveCollision spinningBody headOnB skewContact elastic).1.mass).add
      ((resolveCollision spinningBody headOnB skewContact elastic).2.velocity.multiplyScalar
        (resolveCollision spinningBody headOnB skewContact elastic).2.mass))
    = (spinningBody.velocity.multiplyScalar spinningBody.mass).add
        (headOnB.velocity.multiplyScalar headOnB.mass) :=
  ⟨by decide!, by decide!, by decide!, by decide!,
    (resolveCollision_conserves_momentum spinningBody headOnB skewContact elastic
      (by decide!) (by decide!) (by decide!) (by decide!)).1⟩

/-- On the head-on pair, where no divisor is 0 and every value is an integer, the function on
JavaScript numbers gives the values of the exact function. -/
theorem Number_resolveCollision_head_on :
    Number.resolveCollision (Number.ofPhysics headOnA) (Number.ofPhysics headOnB)
        (Number.ofContact headOnContact) (Number.ofMaterial elastic) =
      (Number.ofPhysics (resolveCollision headOnA headOnB headOnContact elastic).1,
        Number.ofPhysics (resolveCollision headOnA headOnB headOnContact elastic).2) := by
  decide!

/-- C6 as stated fails when an inertia component is 0: two bodies of mass 1 meet head-on, and
the inertia component `x` of body A is 0.  Line 518 computes `1 / 0 = Infinity`, line 536
multiplies it by the component 0 of `rA × n`, which is `NaN`, and both velocities come out as
`(NaN, NaN, NaN)`: the total linear momentum, `(0, 0, 0)` before the call, is
`(NaN, NaN, NaN)` after it.  Over the field, where `1 / 0 = 0`, the same call gives body A
the velocity `(3, 0, 0)`. -/
theorem resolveCollision_zero_inertia_nan :
    zeroInertiaA.mass = 1 ∧ headOnB.mass = 1 ∧ zeroInertiaA.inertiaTensor = ⟨0, 1, 1⟩ ∧
    Number.Vector3.add
        (Number.Vector3.multiplyScalar (Number.ofPhysics zeroInertiaA).velocity
          (Number.ofPhysics zeroInertiaA).mass)
        (Number.Vector3.multiplyScalar (Number.ofPhysics headOnB).velocity
          (Number.ofPhysics headOnB).mass) =
      ⟨Number.finite 0, Number.finite 0, Number.finite 0⟩ ∧
    (Number.resolveCollision (Number.ofPhysics zeroInertiaA) (Number.ofPhysics headOnB)
        (Number.ofContact headOnContact) (Number.ofMaterial elastic)).1.velocity =
      ⟨Number.nan, Number.nan, Number.nan⟩ ∧
    (Number.resolveCollision (Number.ofPhysics zeroInertiaA) (Number.ofPhysics headOnB)
        (Number.ofContact headOnContact) (Number.ofMaterial elastic)).2.velocity =
      ⟨Number.nan, Number.nan, Number.nan⟩ ∧
    (Number.resolveCollision (Number.ofPhysics zeroInertiaA) (Number.ofPhysics headOnB)
        (Number.ofContact headOnContact) (Number.ofMaterial elastic)).1.mass =
      Number.finite 1 ∧
    (Number.resolveCollision (Number.ofPhysics zeroInertiaA) (Number.ofPhysics headOnB)
        (Number.ofContact headOnContact) (Number.ofMaterial elastic)).2.mass =
      Number.finite 1 ∧
    Number.Vector3.add
        (Number.Vector3.multiplyScalar
          (Number.resolveCollision (Number.ofPhysics zeroInertiaA) (Number.ofPhysics headOnB)
            (Number.ofContact headOnContact) (Number.ofMaterial elastic)).1.velocity
          (Number.resolveCollision (Number.ofPhysics zeroInertiaA) (Number.ofPhysics headOnB)
            (Number.ofContact headOnContact) (Number.ofMaterial elastic)).1.mass)
        (Number.Vector3.multiplyScalar
          (Number.resolveCollision (Number.ofPhysics zeroInertiaA) (Number.ofPhysics headOnB)
            (Number.ofContact headOnContact) (Number.ofMaterial elastic)).2.velocity
          (Number.resolveCollision (Number.ofPhysics zeroInertiaA) (Number.ofPhysics headOnB)
            (Number.ofContact headOnContact) (Number.ofMaterial elastic)).2.mass) =
      ⟨Number.nan, Number.nan, Number.nan⟩ ∧
    (resolveCollision zeroInertiaA headOnB headOnContact elastic).1.velocity = ⟨3, 0, 0⟩ := by
  decide!

/-- C7 (code defect): two bodies of mass 1 without spin meet head-on along x, contact at
the origin between the centres of mass, unit normal `n = (-1, 0, 0)`, bounciness 1.  Before the
call `(vB - vA)·n = 2`; after `resolveCollision` it is 6 instead of -2: the velocities
`(1, 0, 0)` and `(-1, 0, 0)` become `(3, 0, 0)` and `(-3, 0, 0)`. -/
theorem resolveCollision_head_on_not_reversed :
    headOnA.mass = headOnB.mass ∧
    headOnA.angularVelocity = ⟨0, 0, 0⟩ ∧ headOnB.angularVelocity = ⟨0, 0, 0⟩ ∧
    headOnContact.normal.dot headOnContact.normal = 1 ∧
    (headOnB.velocity.sub headOnA.velocity).dot headOnContact.normal = 2 ∧
    (resolveCollision headOnA headOnB headOnContact elastic).1.velocity = ⟨3, 0, 0⟩ ∧
    (resolveCollision headOnA headOnB headOnContact elastic).2.velocity = ⟨-3, 0, 0⟩ ∧
    ((resolveCollision headOnA headOnB headOnContact elastic).2.velocity.sub
      (resolveCollision headOnA headOnB headOnContact elastic).1.velocity).dot
        headOnContact.normal = 6 := by
  decide!

/-- C9 (code defect): two inputs with bounciness 1.  For `fallingBody` (no spin) and the
contact at `(1, 0, 0)` with the unit normal `n = (3/5, 4/5, 0)` the one-body formula changes
the velocity from `(0, -1, 0)` to `(16/33, -35/99, 0)` and the angular velocity from zero to
`(0, 0, 56/99)`; `reflectCollision` multiplies the normal component by component with the
vector `j·n` (lines 504-509) and leaves `(16/55, -239/495, 0)` and no spin.  For
`spinningBody` and the normal `(0, 1, 0)` the point velocity at the contact is `(1, 0, 0)`,
orthogonal to the normal, so the formula gives `j = 0` and no change; `reflectCollision` has
already overwritten the centre of mass with `centerOfMass - point` (line 489) when it calls
`getPointVelocity` (line 493), and changes the velocity from `(0, -1, 0)` to `(0, -7/3, 0)`. -/
theorem reflectCollision_mismatch :
    slopeContact.normal.dot slopeContact.normal = 1 ∧
    (reflectCollisionSpec fallingBody slopeContact elastic).velocity =
      ⟨16 / 33, -35 / 99, 0⟩ ∧
    (reflectCollisionSpec fallingBody slopeContact elastic).angularVelocity =
      ⟨0, 0, 56 / 99⟩ ∧
    (reflectCollision fallingBody slopeContact elastic).velocity =
      ⟨16 / 55, -239 / 495, 0⟩ ∧
    (reflectCollision fallingBody slopeContact elastic).angularVelocity = ⟨0, 0, 0⟩ ∧
    floorContact.normal.dot floorContact.normal = 1 ∧
    spinningBody.getPointVelocity floorContact.point = ⟨1, 0, 0⟩ ∧
    reflectImpulseScalar spinningBody floorContact elastic = 0 ∧
    (reflectCollisionSpec spinningBody floorContact elastic).velocity = ⟨0, -1, 0⟩ ∧
    (reflectCollision spinningBody floorContact elastic).velocity = ⟨0, -7 / 3, 0⟩ := by
  decide!

/-- What both resolvers leave in `worldCenterOfMass`: the cross product of
`centerOfMass - point` with the normal. -/
theorem resolver_worldCenterOfMass (physA physB : Physics K) (contact : Contact K)
    (mat : Material K) :
    (reflectCollision physA contact mat).worldCenterOfMass =
      (physA.worldCenterOfMass.sub contact.point).cross contact.normal ∧
    (resolveCollision physA physB contact mat).1.worldCenterOfMass =
      (physA.worldCenterOfMass.sub contact.point).cross contact.normal ∧
    (resolveCollision physA physB contact mat).2.worldCenterOfMass =
      (physB.worldCenterOfMass.sub contact.point).cross contact.normal :=
  ⟨rfl, rfl, rfl⟩

/-- C10 (code defect): the resolvers overwrite `worldCenterOfMass`.  `reflectCollision`
turns the centre of mass `(0, 1, 0)` of `spinningBody` into `(0, 0, -1)`; `resolveCollision`
turns the centres `(-1, 0, 0)` and `(1, 0, 0)` of the head-on pair into `(0, 1/3, -2/3)` and
`(0, -1/3, 2/3)`.  Mass and inertia tensor stay. -/
theorem resolver_overwrites_worldCenterOfMass :
    spinningBody.worldCenterOfMass = ⟨0, 1, 0⟩ ∧
    (reflectCollision spinningBody floorContact elastic).worldCenterOfMass = ⟨0, 0, -1⟩ ∧
    headOnA.worldCenterOfMass = ⟨-1, 0, 0⟩ ∧ headOnB.worldCenterOfMass = ⟨1, 0, 0⟩ ∧
    (resolveCollision headOnA headOnB skewContact elastic).1.worldCenterOfMass =
      ⟨0, 1 / 3, -2 / 3⟩ ∧
    (resolveCollision headOnA headOnB skewContact elastic).2.worldCenterOfMass =
      ⟨0, -1 / 3, 2 / 3⟩ ∧
    (reflectCollision spinningBody floorContact elastic).mass = spinningBody.mass ∧
    (reflectCollision spinningBody floorContact elastic).inertiaTensor =
      spinningBody.inertiaTensor := by
  decide!

/-! ### Claim C8: the normal handed to `reflectCollision` -/

/-- Once the loop has handed a simplex to `EPA` and `EPA` has returned a contact, the resolver
call of `GJK` is the one that lines 452-476 choose for that contact. -/
theorem GJK_call_of_contact (sqrt : K → K) (fuel : Nat) (colA colB : Collider K)
    (dir : Vector3 K) (simplex : Simplex K) (contact : Contact K)
    (hint : GJK.intersects sqrt fuel colA.worldVertices colB.worldVertices dir =
      Run.ok (some simplex))
    (hepa : EPA sqrt fuel colA.worldVertices colB.worldVertices simplex = Run.ok contact) :
    GJK.call sqrt fuel colA colB dir = Run.ok (GJK.respond colA colB contact) := by
  unfold GJK.call
  rw [hint]
  simp only [hepa]

/-- C8 as stated fails when the second collider is the moving one: for the tetrahedron
without a body against a moving point at the origin, in real arithmetic, `GJK` finds the
intersection, `EPA` returns the normal `(-1, 0, 0)`, and the contact handed to
`reflectCollision` carries that same normal, not its negation `(1, 0, 0)`. -/
theorem GJK_second_moving_keeps_normal :
    (tetraCollider (K := ℝ) none).Physics = none ∧
    (pointCollider (some (restingBody (K := ℝ)))).Physics = some restingBody ∧
    GJK.intersects Real.sqrt 4 (tetraCollider (K := ℝ) none).worldVertices
      (pointCollider (some (restingBody (K := ℝ)))).worldVertices
      ((tetraCollider (K := ℝ) none).worldCentroid.sub
        (pointCollider (some (restingBody (K := ℝ)))).worldCentroid) =
      Run.ok (some tetraSimplex) ∧
    EPA Real.sqrt 4 (tetraCollider (K := ℝ) none).worldVertices
      (pointCollider (some (restingBody (K := ℝ)))).worldVertices tetraSimplex =
      Run.ok tetraContact ∧
    GJK.call Real.sqrt 4 (tetraCollider (K := ℝ) none) (pointCollider (some restingBody))
      ((tetraCollider (K := ℝ) none).worldCentroid.sub
        (pointCollider (some (restingBody (K := ℝ)))).worldCentroid) =
      Run.ok (ResolverCall.reflectB restingBody tetraContact
        (GJK.mat (tetraCollider none) (pointCollider (some restingBody)))) ∧
    (tetraContact (K := ℝ)).normal = ⟨-1, 0, 0⟩ ∧
    (tetraContact (K := ℝ)).normal ≠ (tetraContact (K := ℝ)).normal.negate := by
  have hdir : (tetraCollider (K := ℝ) none).worldCentroid.sub
      (pointCollider (some (restingBody (K := ℝ)))).worldCentroid = ⟨1 / 8, 0, 1 / 4⟩ := by
    simp [tetraCollider, pointCollider, Vector3.sub]
  rw [hdir]
  refine ⟨rfl, rfl, tetra_intersects_real, tetra_EPA_real, ?_, rfl, ?_⟩
  · rw [GJK_call_of_contact Real.sqrt 4 _ _ _ tetraSimplex tetraContact tetra_intersects_real
      tetra_EPA_real]
    rfl
  · simp only [tetraContact, Vector3.negate, ne_eq, Vector3.mk.injEq, not_and]
    norm_num

/-- C8, amended: when `GJK` finds an intersection (the loop hands a simplex to `EPA` and `EPA`
returns a contact) between two colliders of which exactly one has a Physics body, then
`reflectCollision` is called on that body; the contact it gets carries the negation of the
normal `EPA` returned when the moving collider is the first argument, and the normal `EPA`
returned, unchanged, when the moving collider is the second argument. -/
theorem GJK_reflect_normal (sqrt : K → K) (fuel : Nat) (colA colB : Collider K)
    (dir : Vector3 K) (simplex : Simplex K) (contact : Contact K)
    (hint : GJK.intersects sqrt fuel colA.worldVertices colB.worldVertices dir =
      Run.ok (some simplex))
    (hepa : EPA sqrt fuel colA.worldVertices colB.worldVertices simplex = Run.ok contact) :
    (∀ physA, colA.Physics = some physA → colB.Physics = none →
      GJK.call sqrt fuel colA colB dir =
        Run.ok (ResolverCall.reflectA physA { contact with normal := contact.normal.negate }
          (GJK.mat colA colB))) ∧
    (∀ physB, colA.Physics = none → colB.Physics = some physB →
      GJK.call sqrt fuel colA colB dir =
        Run.ok (ResolverCall.reflectB physB contact (GJK.mat colA colB))) := by
  rw [GJK_call_of_contact sqrt fuel colA colB dir simplex contact hint hepa]
  constructor
  · intro physA hA hB
    simp only [GJK.respond, hA, hB]
  · intro physB hA hB
    simp only [GJK.respond, hA, hB]

/-- The amended C8 on the moving tetrahedron against a point without a body, in real
arithmetic: the contact handed to `reflectCollision` carries the normal `(1, 0, 0)`, the
negation of the normal `(-1, 0, 0)` that `EPA` returned. -/
theorem GJK_reflect_normal_witness :
    GJK.intersects Real.sqrt 4 (tetraCollider (some (restingBody (K := ℝ)))).worldVertices
      (pointCollider (K := ℝ) none).worldVertices ⟨1 / 8, 0, 1 / 4⟩ = Run.ok (some tetraSimplex) ∧
    EPA Real.sqrt 4 (tetraCollider (some (restingBody (K := ℝ)))).worldVertices
      (pointCollider (K := ℝ) none).worldVertices tetraSimplex = Run.ok tetraContact ∧
    GJK.call Real.sqrt 4 (tetraCollider (some (restingBody (K := ℝ)))) (pointCollider none)
      ⟨1 / 8, 0, 1 / 4⟩ =
      Run.ok (ResolverCall.reflectA restingBody
        { (tetraContact (K := ℝ)) with normal := (tetraContact (K := ℝ)).normal.negate }
        (GJK.mat (tetraCollider (some (restingBody (K := ℝ)))) (pointCollider none))) :=
  ⟨tetra_intersects_real, tetra_EPA_real,
    (GJK_reflect_normal Real.sqrt 4 (tetraCollider (some (restingBody (K := ℝ))))
      (pointCollider none) ⟨1 / 8, 0, 1 / 4⟩ tetraSimplex tetraContact
      tetra_intersects_real tetra_EPA_real).1 restingBody rfl rfl⟩

/-! ### Claims C12 and C14: coincident centroids, friction -/

theorem Vector3.dot_zero_negate (p : Vector3 K) :
    p.dot (Vector3.negate ⟨0, 0, 0⟩) = 0 := by
  simp only [Vector3.dot, Vector3.negate]; ring

/-- With the zero vector as initial direction the first pass of the loop of `GJK` returns at
line 448. -/
theorem GJK_intersects_zero_dir (sqrt : K → K) (n : Nat) (vertA vertB : List (Vector3 K))
    (hA : vertA ≠ []) (hB : vertB ≠ []) :
    GJK.intersects sqrt (n + 1) vertA vertB ⟨0, 0, 0⟩ = Run.ok none := by
  obtain ⟨p, hp⟩ := support_isSome vertA vertB ⟨0, 0, 0⟩ hA hB
  obtain ⟨q, hq⟩ := support_isSome vertA vertB (Vector3.negate ⟨0, 0, 0⟩) hA hB
  unfold GJK.intersects
  simp only [hp]
  unfold GJK.loop
  simp only [hq]
  rw [if_pos (le_of_eq (Vector3.dot_zero_negate q.1))]

/-- C12: for two colliders with non-empty vertex sets whose centroids coincide, `GJK` started
with `centroid(A) - centroid(B)` (the zero vector) returns on its first pass without a contact:
`EPA` and the resolvers are not called and both colliders, with their velocities and angular
velocities, are as before. -/
theorem GJK_coincident_centroids (sqrt : K → K) (n : Nat) (colA colB : Collider K)
    (hA : colA.worldVertices ≠ []) (hB : colB.worldVertices ≠ [])
    (hc : colA.worldCentroid = colB.worldCentroid) :
    GJK.intersects sqrt (n + 1) colA.worldVertices colB.worldVertices
      (colA.worldCentroid.sub colB.worldCentroid) = Run.ok none ∧
    GJK.call sqrt (n + 1) colA colB (colA.worldCentroid.sub colB.worldCentroid) =
      Run.ok ResolverCall.nothing ∧
    GJK sqrt (n + 1) colA colB (colA.worldCentroid.sub colB.worldCentroid) =
      Run.ok (colA, colB) := by
  have hz : colA.worldCentroid.sub colB.worldCentroid = ⟨0, 0, 0⟩ := by
    rw [hc]
    simp only [Vector3.sub, sub_self]
  rw [hz]
  have h := GJK_intersects_zero_dir sqrt n colA.worldVertices colB.worldVertices hA hB
  refine ⟨h, ?_, ?_⟩
  · simp only [GJK.call, h]
  · simp only [GJK, GJK.call, h, ResolverCall.run]

/-- C12 holds on two coincident single points with a moving body each. -/
theorem GJK_coincident_centroids_witness :
    (pointCollider (some (restingBody (K := ℚ)))).worldVertices ≠ [] ∧
    (pointCollider (some headOnA)).worldVertices ≠ [] ∧
    (pointCollider (some (restingBody (K := ℚ)))).worldCentroid =
      (pointCollider (some headOnA)).worldCentroid ∧
    GJK.intersects (fun _ => 1) 1 (pointCollider (some (restingBody (K := ℚ)))).worldVertices
      (pointCollider (some headOnA)).worldVertices
      ((pointCollider (some (restingBody (K := ℚ)))).worldCentroid.sub
        (pointCollider (some headOnA)).worldCentroid) = Run.ok none ∧
    GJK.call (fun _ => 1) 1 (pointCollider (some (restingBody (K := ℚ))))
      (pointCollider (some headOnA))
      ((pointCollider (some (restingBody (K := ℚ)))).worldCentroid.sub
        (pointCollider (some headOnA)).worldCentroid) = Run.ok ResolverCall.nothing ∧
    GJK (fun _ => 1) 1 (pointCollider (some (restingBody (K := ℚ))))
      (pointCollider (some headOnA))
      ((pointCollider (some (restingBody (K := ℚ)))).worldCentroid.sub
        (pointCollider (some headOnA)).worldCentroid) =
      Run.ok (pointCollider (some restingBody), pointCollider (some headOnA)) :=
  ⟨by decide, by decide, rfl,
    GJK_coincident_centroids (fun _ => 1) 0 (pointCollider (some (restingBody (K := ℚ))))
      (pointCollider (some headOnA)) (by decide) (by decide) rfl⟩

theorem resolveCollision_bounciness (physA physB : Physics K) (contact : Contact K)
    (mat1 mat2 : Material K) (h : mat1.bounciness = mat2.bounciness) :
    resolveCollision physA physB contact mat1 = resolveCollision physA physB contact mat2 := by
  unfold resolveCollision
  rw [h]

theorem reflectCollision_bounciness (phys : Physics K) (contact : Contact K)
    (mat1 mat2 : Material K) (h : mat1.bounciness = mat2.bounciness) :
    reflectCollision phys contact mat1 = reflectCollision phys contact mat2 := by
  unfold reflectCollision
  rw [h]

/-- The bodies that `GJK.respond` leaves depend on the materials only through the blended
bounciness. -/
theorem respond_run_bounciness (colA colB : Collider K) (matA matB : Material K)
    (contact : Contact K)
    (hb : (matA.bounciness + matB.bounciness) / 2 =
      (colA.material.bounciness + colB.material.bounciness) / 2) :
    (((GJK.respond { colA with material := matA } { colB with material := matB } contact).run
        { colA with material := matA } { colB with material := matB }).1.Physics,
      ((GJK.respond { colA with material := matA } { colB with material := matB } contact).run
        { colA with material := matA } { colB with material := matB }).2.Physics) =
    (((GJK.respond colA colB contact).run colA colB).1.Physics,
      ((GJK.respond colA colB contact).run colA colB).2.Physics) := by
  have hm : (GJK.mat { colA with material := matA } { colB with material := matB }).bounciness
      = (GJK.mat colA colB).bounciness := hb
  unfold GJK.respond
  simp only []
  generalize GJK.mat { colA with material := matA } { colB with material := matB } = m1 at hm ⊢
  generalize GJK.mat colA colB = m2 at hm ⊢
  cases hA : colA.Physics <;> cases hB : colB.Physics <;>
    simp only [ResolverCall.run, hA, hB, reflectCollision_bounciness _ _ m1 m2 hm,
      resolveCollision_bounciness _ _ _ m1 m2 hm]

/-- C14: friction has no effect on the collision response and bounciness enters only through
the average.  Two runs of `GJK` on colliders that differ only in their materials, with the same
average bounciness `(bouncinessA + bouncinessB)/2`, end in the same way and leave the same
`Physics` records, velocity and angular velocity included; in particular when only
`staticFriction` and `dynamicFriction` differ. -/
theorem GJK_friction_irrelevant (sqrt : K → K) (fuel : Nat) (colA colB : Collider K)
    (dir : Vector3 K) (matA matB : Material K)
    (hb : (matA.bounciness + matB.bounciness) / 2 =
      (colA.material.bounciness + colB.material.bounciness) / 2) :
    (GJK sqrt fuel { colA with material := matA } { colB with material := matB } dir).map
        (fun r => (r.1.Physics, r.2.Physics)) =
      (GJK sqrt fuel colA colB dir).map (fun r => (r.1.Physics, r.2.Physics)) := by
  unfold GJK GJK.call
  simp only []
  cases GJK.intersects sqrt fuel colA.worldVertices colB.worldVertices dir with
  | typeError => rfl
  | outOfFuel => rfl
  | ok r =>
    cases r with
    | none => rfl
    | some simplex =>
      simp only []
      cases EPA sqrt fuel colA.worldVertices colB.worldVertices simplex with
      | typeError => rfl
      | outOfFuel => rfl
      | ok contact =>
        simp only [Run.map]
        rw [respond_run_bounciness colA colB matA matB contact hb]

/-! ### Claim C15: the integrator -/

theorem Vector3.add_multiplyScalar_zero (a b : Vector3 K) :
    a.add (b.multiplyScalar 0) = a := by
  cases a
  simp only [Vector3.add, Vector3.multiplyScalar, mul_zero, add_zero]

theorem physics_update_body_zero (phys : Physics K) (transform : Transform K) :
    physics.update.body 0 phys transform = (phys, transform) := by
  obtain ⟨m, ⟨vx, vy, vz⟩, w, it, com, g⟩ := phys
  obtain ⟨⟨px, py, pz⟩, ⟨rx, ry, rz⟩⟩ := transform
  cases g <;>
    simp [physics.update.body, Vector3.add, Vector3.multiplyScalar, physics.gravity]

theorem physics_update_zero (bodies : List (Physics K × Transform K)) :
    physics.update 0 (bodies.map (fun e => (e.1, some e.2))) = Run.ok bodies := by
  induction bodies with
  | nil => rfl
  | cons e rest ih =>
    simp only [List.map_cons, physics.update, ih, physics_update_body_zero]

/-- C15: `physics.update(dt)` makes one Euler step per body.  The new velocity is
`velocity + (0, -9.8, 0)·dt` when `useGravity` is set and the old velocity otherwise; the new
position is `position + newVelocity·dt`; each rotation component grows by the matching
component of `angularVelocity` times `dt`; `angularVelocity` and every other field of the body
stay; the bodies are stepped one by one, in order.  With `dt = 0` the state is unchanged. -/
theorem physics_update_euler (dt : K) (phys : Physics K) (transform : Transform K)
    (bodies : List (Physics K × Transform K)) :
    (physics.update.body dt phys transform).1 =
      { phys with velocity :=
          if phys.useGravity then phys.velocity.add (Vector3.multiplyScalar ⟨0, -(98 / 10), 0⟩ dt)
          else phys.velocity } ∧
    (physics.update.body dt phys transform).2.position =
      transform.position.add
        ((physics.update.body dt phys transform).1.velocity.multiplyScalar dt) ∧
    (physics.update.body dt phys transform).2.rotation =
      ⟨transform.rotation.x + phys.angularVelocity.x * dt,
        transform.rotation.y + phys.angularVelocity.y * dt,
        transform.rotation.z + phys.angularVelocity.z * dt⟩ ∧
    (physics.update.body dt phys transform).1.angularVelocity = phys.angularVelocity ∧
    physics.update dt (bodies.map (fun e => (e.1, some e.2))) =
      Run.ok (bodies.map (fun e => physics.update.body dt e.1 e.2)) ∧
    physics.update.body 0 phys transform = (phys, transform) ∧
    physics.update 0 (bodies.map (fun e => (e.1, some e.2))) = Run.ok bodies := by
  refine ⟨?_, ?_, ?_, ?_, ?_, physics_update_body_zero phys transform,
    physics_update_zero bodies⟩
  · obtain ⟨m, v, w, it, com, g⟩ := phys
    cases g <;> simp [physics.update.body, physics.gravity]
  · obtain ⟨m, v, w, it, com, g⟩ := phys
    cases g <;> simp [physics.update.body]
  · obtain ⟨m, v, w, it, com, g⟩ := phys
    cases g <;> simp [physics.update.body, Vector3.multiplyScalar]
  · obtain ⟨m, v, w, it, com, g⟩ := phys
    cases g <;> simp [physics.update.body]
  · induction bodies with
    | nil => rfl
    | cons e rest ih => simp only [List.map_cons, physics.update, ih]

/-- C14 holds on the moving tetrahedron against the point at the origin, in real arithmetic:
other friction values and the bounciness values 1/2 and 3/2 in place of 1 and 1. -/
theorem GJK_friction_irrelevant_witness :
    ((roughMaterial (K := ℝ)).bounciness + (bouncyMaterial (K := ℝ)).bounciness) / 2 =
      ((tetraCollider (some (restingBody (K := ℝ)))).material.bounciness +
        (pointCollider (K := ℝ) none).material.bounciness) / 2 ∧
    (GJK Real.sqrt 4 { tetraCollider (some (restingBody (K := ℝ))) with material := roughMaterial }
        { pointCollider (K := ℝ) none with material := bouncyMaterial } ⟨1 / 8, 0, 1 / 4⟩).map
        (fun r => (r.1.Physics, r.2.Physics)) =
      (GJK Real.sqrt 4 (tetraCollider (some (restingBody (K := ℝ)))) (pointCollider none)
        ⟨1 / 8, 0, 1 / 4⟩).map (fun r => (r.1.Physics, r.2.Physics)) :=
  ⟨by norm_num [roughMaterial, bouncyMaterial, tetraCollider, pointCollider],
    GJK_friction_irrelevant Real.sqrt 4 (tetraCollider (some restingBody)) (pointCollider none)
      ⟨1 / 8, 0, 1 / 4⟩ roughMaterial bouncyMaterial
      (by norm_num [roughMaterial, bouncyMaterial, tetraCollider, pointCollider])⟩

/-! ### Claim C17: support points -/

theorem getFurthestPointInDirection_loop_max (dir : Vector3 K) (all : List (Vector3 K))
    (hne : all ≠ []) :
    ∀ (rest : List (Vector3 K)) (i index : Nat) (maxDot : Option K),
      all.drop i = rest → furthestInv dir all i index maxDot →
      ∃ w, all[getFurthestPointInDirection.loop dir rest i index maxDot]? = some w ∧
        ∀ v ∈ all, v.dot dir ≤ w.dot dir := by
  intro rest
  induction rest with
  | nil =>
    intro i index maxDot hdrop hinv
    have hlen : all.length ≤ i := List.drop_eq_nil_iff.mp hdrop
    cases maxDot with
    | none =>
      have h0 : i = 0 := hinv
      exact absurd (List.length_eq_zero.mp (by omega)) hne
    | some m =>
      obtain ⟨w, hw, hm, hall⟩ := hinv
      refine ⟨w, hw, ?_⟩
      intro v hv
      obtain ⟨k, hk, hkv⟩ := List.getElem_of_mem hv
      rw [hm]
      exact hall k v (by omega) (by rw [List.getElem?_eq_getElem hk, hkv])
  | cons v rest ih =>
    intro i index maxDot hdrop hinv
    have hi : i < all.length := by
      by_contra hcon
      have : all.drop i = [] := List.drop_eq_nil_iff.mpr (by omega)
      rw [this] at hdrop
      exact absurd hdrop (by simp)
    have hcons : all[i] :: all.drop (i + 1) = v :: rest := by
      rw [← List.drop_eq_getElem_cons hi]; exact hdrop
    have hvi : all[i]? = some v := by
      rw [List.getElem?_eq_getElem hi, (List.cons.inj hcons).1]
    have hdrop1 : all.drop (i + 1) = rest := (List.cons.inj hcons).2
    unfold getFurthestPointInDirection.loop
    by_cases hex : exceeds (v.dot dir) maxDot = true
    · simp only [hex, if_true]
      apply ih (i + 1) i (some (v.dot dir)) hdrop1
      refine ⟨v, hvi, rfl, ?_⟩
      intro k u hk hku
      cases maxDot with
      | none =>
        have h0 : i = 0 := hinv
        have hk0 : k = 0 := by omega
        subst h0; subst hk0
        rw [hvi] at hku
        rw [Option.some.inj hku]
      | some m =>
        obtain ⟨w, hw, hm, hall⟩ := hinv
        have hlt : m < v.dot dir := by simpa [exceeds] using hex
        by_cases hki : k < i
        · exact le_trans (hall k u hki hku) (le_of_lt hlt)
        · have : k = i := by omega
          subst this
          rw [hvi] at hku
          rw [Option.some.inj hku]
    · simp only [hex]
      cases maxDot with
      | none => exact absurd rfl hex
      | some m =>
        obtain ⟨w, hw, hm, hall⟩ := hinv
        have hle : v.dot dir ≤ m := by
          have : ¬ m < v.dot dir := by simpa [exceeds] using hex
          exact not_lt.mp this
        apply ih (i + 1) index (some m) hdrop1
        refine ⟨w, hw, hm, ?_⟩
        intro k u hk hku
        by_cases hki : k < i
        · exact hall k u hki hku
        · have : k = i := by omega
          subst this
          rw [hvi] at hku
          rw [← Option.some.inj hku]
          exact hle

/-- On a non-empty array `getFurthestPointInDirection` returns a vertex of the array with
the largest dot product with `dir`. -/
theorem getFurthestPointInDirection_max (verts : List (Vector3 K)) (dir : Vector3 K)
    (h : verts ≠ []) :
    ∃ w, getFurthestPointInDirection verts dir = some w ∧ w ∈ verts ∧
      ∀ v ∈ verts, v.dot dir ≤ w.dot dir := by
  obtain ⟨w, hw, hmax⟩ := getFurthestPointInDirection_loop_max dir verts h verts 0 0 none
    (by simp) rfl
  exact ⟨w, hw, List.getElem?_mem hw, hmax⟩

/-- C17: for non-empty vertex lists `A`, `B` and every direction `d`, `support(A, B, d)` returns
a pair `(p, a)` with `a` a vertex of `A` and `p = a - b` for a vertex `b` of `B`, and `p` is a
furthest point of the Minkowski difference along `d`: `(a' - b')·d ≤ p·d` for all vertices `a'`
of `A` and `b'` of `B`. -/
theorem support_furthest (aVerts bVerts : List (Vector3 K)) (dir : Vector3 K)
    (hA : aVerts ≠ []) (hB : bVerts ≠ []) :
    ∃ a b, support aVerts bVerts dir = some (a.sub b, a) ∧ a ∈ aVerts ∧ b ∈ bVerts ∧
      ∀ a1 ∈ aVerts, ∀ b1 ∈ bVerts, (a1.sub b1).dot dir ≤ (a.sub b).dot dir := by
  obtain ⟨a, ha, haA, hamax⟩ := getFurthestPointInDirection_max aVerts dir hA
  obtain ⟨b, hb, hbB, hbmax⟩ := getFurthestPointInDirection_max bVerts dir.negate hB
  refine ⟨a, b, by unfold support; rw [ha, hb], haA, hbB, ?_⟩
  intro a1 ha1 b1 hb1
  have h1 := hamax a1 ha1
  have h2 := hbmax b1 hb1
  rw [Vector3.dot_negate, Vector3.dot_negate] at h2
  rw [Vector3.sub_dot, Vector3.sub_dot]
  linarith

/-- C17 holds on the unit cube at the origin against the cube shifted along x, in the
direction `(1, 2, 3)`. -/
theorem support_furthest_witness :
    (originCube ℚ).worldVertices ≠ [] ∧ (shiftedCubeX ℚ).worldVertices ≠ [] ∧
    ∃ a b, support (originCube ℚ).worldVertices (shiftedCubeX ℚ).worldVertices ⟨1, 2, 3⟩ =
        some (a.sub b, a) ∧
      a ∈ (originCube ℚ).worldVertices ∧ b ∈ (shiftedCubeX ℚ).worldVertices ∧
      ∀ a1 ∈ (originCube ℚ).worldVertices, ∀ b1 ∈ (shiftedCubeX ℚ).worldVertices,
        (a1.sub b1).dot ⟨1, 2, 3⟩ ≤ (a.sub b).dot ⟨1, 2, 3⟩ :=
  ⟨by decide, by decide,
    support_furthest (originCube ℚ).worldVertices (shiftedCubeX ℚ).worldVertices ⟨1, 2, 3⟩
      (by decide) (by decide)⟩

/-! ### Claim C18: the enclosing tetrahedron -/

/-- The barycentric weights of the origin in a tetrahedron that passes the four face tests. -/
theorem origin_weights (a b c d : Vector3 K)
    (hV : (d.sub a).dot ((b.sub a).cross (c.sub a)) ≠ 0)
    (h1 : (d.sub a).dot ((b.sub a).cross (c.sub a)) * a.dot ((b.sub a).cross (c.sub a)) ≤ 0)
    (h2 : (c.sub a).dot ((b.sub a).cross (d.sub a)) * a.dot ((b.sub a).cross (d.sub a)) ≤ 0)
    (h3 : (b.sub a).dot ((c.sub a).cross (d.sub a)) * a.dot ((c.sub a).cross (d.sub a)) ≤ 0)
    (h4 : (a.sub b).dot ((c.sub b).cross (d.sub b)) * b.dot ((c.sub b).cross (d.sub b)) ≤ 0) :
    ∃ wa wb wc wd : K, 0 ≤ wa ∧ 0 ≤ wb ∧ 0 ≤ wc ∧ 0 ≤ wd ∧ wa + wb + wc + wd = 1 ∧
      (((a.multiplyScalar wa).add (b.multiplyScalar wb)).add (c.multiplyScalar wc)).add
        (d.multiplyScalar wd) = ⟨0, 0, 0⟩ := by
  rw [volume_abd] at h2
  rw [volume_acd] at h3
  rw [volume_bcd] at h4
  have hsum := volume_sum a b c d
  have hx := volume_dependency a b c d ⟨1, 0, 0⟩
  have hy := volume_dependency a b c d ⟨0, 1, 0⟩
  have hz := volume_dependency a b c d ⟨0, 0, 1⟩
  generalize (d.sub a).dot ((b.sub a).cross (c.sub a)) = V at *
  generalize a.dot ((b.sub a).cross (c.sub a)) = D1 at *
  generalize a.dot ((b.sub a).cross (d.sub a)) = D2 at *
  generalize a.dot ((c.sub a).cross (d.sub a)) = D3 at *
  generalize b.dot ((c.sub b).cross (d.sub b)) = D4 at *
  have hVV : 0 < V * V := mul_self_pos.mpr hV
  have hVV0 : V * V ≠ 0 := ne_of_gt hVV
  refine ⟨V * D4 / (V * V), -(V * D3) / (V * V), V * D2 / (V * V), -(V * D1) / (V * V),
    div_nonneg (by linarith) (le_of_lt hVV), div_nonneg (by linarith) (le_of_lt hVV),
    div_nonneg (by linarith) (le_of_lt hVV), div_nonneg (by linarith) (le_of_lt hVV), ?_, ?_⟩
  · rw [← add_div, ← add_div, ← add_div, div_eq_one_iff_eq hVV0, ← hsum]; ring
  · simp only [Vector3.dot, mul_one, mul_zero, add_zero, zero_add] at hx hy hz
    simp only [Vector3.add, Vector3.multiplyScalar, Vector3.mk.injEq]
    refine ⟨?_, ?_, ?_⟩
    · have : a.x * (V * D4 / (V * V)) + b.x * (-(V * D3) / (V * V)) + c.x * (V * D2 / (V * V)) +
          d.x * (-(V * D1) / (V * V)) = V * (D4 * a.x - D3 * b.x + D2 * c.x - D1 * d.x) / (V * V) := by
        field_simp; ring
      rw [this, hx, mul_zero, zero_div]
    · have : a.y * (V * D4 / (V * V)) + b.y * (-(V * D3) / (V * V)) + c.y * (V * D2 / (V * V)) +
          d.y * (-(V * D1) / (V * V)) = V * (D4 * a.y - D3 * b.y + D2 * c.y - D1 * d.y) / (V * V) := by
        field_simp; ring
      rw [this, hy, mul_zero, zero_div]
    · have : a.z * (V * D4 / (V * V)) + b.z * (-(V * D3) / (V * V)) + c.z * (V * D2 / (V * V)) +
          d.z * (-(V * D1) / (V * V)) = V * (D4 * a.z - D3 * b.z + D2 * c.z - D1 * d.z) / (V * V) := by
        field_simp; ring
      rw [this, hz, mul_zero, zero_div]

/-- What the answer `true` of case 4 means for a non-degenerate tetrahedron: no vertex is
removed and each face test leaves its sign fact. -/
theorem evaluateAndChangeDir_true_four (sqrt : K → K) (a b c d : SupportPair K)
    (dir dir1 : Vector3 K) (simplex1 : Simplex K)
    (hV : (d.1.sub a.1).dot ((b.1.sub a.1).cross (c.1.sub a.1)) ≠ 0)
    (h : evaluateAndChangeDir sqrt [a, b, c, d] dir = (true, simplex1, dir1)) :
    simplex1 = [a, b, c, d] ∧
    (d.1.sub a.1).dot ((b.1.sub a.1).cross (c.1.sub a.1)) *
      a.1.dot ((b.1.sub a.1).cross (c.1.sub a.1)) ≤ 0 ∧
    (c.1.sub a.1).dot ((b.1.sub a.1).cross (d.1.sub a.1)) *
      a.1.dot ((b.1.sub a.1).cross (d.1.sub a.1)) ≤ 0 ∧
    (b.1.sub a.1).dot ((c.1.sub a.1).cross (d.1.sub a.1)) *
      a.1.dot ((c.1.sub a.1).cross (d.1.sub a.1)) ≤ 0 ∧
    (a.1.sub b.1).dot ((c.1.sub b.1).cross (d.1.sub b.1)) *
      b.1.dot ((c.1.sub b.1).cross (d.1.sub b.1)) ≤ 0 := by
  rw [evaluateAndChangeDir_four] at h
  have hV2 : (c.1.sub a.1).dot ((b.1.sub a.1).cross (d.1.sub a.1)) ≠ 0 := by
    rw [volume_abd]; exact neg_ne_zero.mpr hV
  have hV3 : (b.1.sub a.1).dot ((c.1.sub a.1).cross (d.1.sub a.1)) ≠ 0 := by
    rw [volume_acd]; exact hV
  have hV4 : (a.1.sub b.1).dot ((c.1.sub b.1).cross (d.1.sub b.1)) ≠ 0 := by
    rw [volume_bcd]; exact neg_ne_zero.mpr hV
  by_cases c1 : a.1.negate.dot (awayNormal sqrt a.1 b.1 c.1 d.1) > 0
  · rw [if_pos c1] at h
    exact absurd (congrArg Prod.fst h) (by simp)
  rw [if_neg c1] at h
  by_cases c2 : a.1.negate.dot (awayNormal sqrt a.1 b.1 d.1 c.1) > 0
  · rw [if_pos c2] at h
    exact absurd (congrArg Prod.fst h) (by simp)
  rw [if_neg c2] at h
  by_cases c3 : a.1.negate.dot (awayNormal sqrt a.1 c.1 d.1 b.1) > 0
  · rw [if_pos c3] at h
    exact absurd (congrArg Prod.fst h) (by simp)
  rw [if_neg c3] at h
  by_cases c4 : b.1.negate.dot (awayNormal sqrt b.1 c.1 d.1 a.1) > 0
  · rw [if_pos c4] at h
    exact absurd (congrArg Prod.fst h) (by simp)
  rw [if_neg c4] at h
  exact ⟨(congrArg (fun r => r.2.1) h).symm, awayNormal_keep sqrt _ _ _ _ hV c1,
    awayNormal_keep sqrt _ _ _ _ hV2 c2, awayNormal_keep sqrt _ _ _ _ hV3 c3,
    awayNormal_keep sqrt _ _ _ _ hV4 c4⟩

/-- One pass of the loop body after a support point has got through the test of line 448:
either `evaluateAndChangeDir` answers `false` and the invariant holds again, or it answers
`true` on a non-degenerate tetrahedron that it leaves as it is. -/
theorem evaluateAndChangeDir_head (sqrt : K → K) (P : SupportPair K → Prop)
    (simplex : Simplex K) (dir : Vector3 K) (p : SupportPair K)
    (hInv : GJK.HeadInv P simplex dir) (hp : P p) (hpos : 0 < p.1.dot dir) :
    (∃ simplex1 dir1, evaluateAndChangeDir sqrt (simplex ++ [p]) dir = (false, simplex1, dir1) ∧
      GJK.HeadInv P simplex1 dir1 ∧ 2 ≤ simplex1.length) ∨
    (∃ a b c dir1, simplex = [a, b, c] ∧
      evaluateAndChangeDir sqrt (simplex ++ [p]) dir = (true, [a, b, c, p], dir1) ∧
      (p.1.sub a.1).dot ((b.1.sub a.1).cross (c.1.sub a.1)) ≠ 0) := by
  obtain ⟨hmem, hshape⟩ := hInv
  rcases hshape with h1 | h2 | ⟨a, b, c, rfl, ⟨k, hk⟩, hle⟩
  · obtain ⟨a, rfl⟩ := List.length_eq_one.mp h1
    refine Or.inl ⟨[a, p], _, rfl, ⟨?_, Or.inr (Or.inl rfl)⟩, by simp⟩
    intro q hq
    simp only [List.mem_cons, List.mem_singleton, List.not_mem_nil, or_false] at hq
    rcases hq with rfl | rfl
    · exact hmem _ (List.mem_singleton_self _)
    · exact hp
  · obtain ⟨a, b, rfl⟩ := List.length_eq_two.mp h2
    refine Or.inl ⟨[a, b, p], _, rfl, ⟨?_, Or.inr (Or.inr ⟨a, b, p, rfl, ?_, ?_⟩)⟩, by simp⟩
    · intro q hq
      simp only [List.mem_cons, List.mem_singleton, List.not_mem_nil, or_false] at hq
      rcases hq with rfl | rfl | rfl
      · exact hmem _ (by simp)
      · exact hmem _ (by simp)
      · exact hp
    · by_cases h : a.1.negate.dot ((b.1.sub a.1).cross (p.1.sub a.1)) < 0
      · exact ⟨-1, by rw [if_pos h, ← Vector3.negate_multiplyScalar,
          Vector3.multiplyScalar_one]⟩
      · exact ⟨1, by rw [if_neg h, Vector3.multiplyScalar_one]⟩
    · by_cases h : a.1.negate.dot ((b.1.sub a.1).cross (p.1.sub a.1)) < 0
      · rw [if_pos h, Vector3.dot_negate]
        rw [Vector3.negate_dot] at h
        linarith
      · rw [if_neg h]
        rw [Vector3.negate_dot] at h
        linarith
  · have ha : P a := hmem _ (by simp)
    have hb : P b := hmem _ (by simp)
    have hc : P c := hmem _ (by simp)
    have hV : (p.1.sub a.1).dot ((b.1.sub a.1).cross (c.1.sub a.1)) ≠ 0 := by
      intro h0
      have : (p.1.sub a.1).dot dir = 0 := by
        rw [hk, Vector3.dot_multiplyScalar, h0, mul_zero]
      rw [Vector3.sub_dot] at this
      linarith
    have hmem3 : ∀ x y z : SupportPair K, P x → P y → P z → ∀ q ∈ [x, y, z], P q := by
      intro x y z hx hy hz q hq
      simp only [List.mem_cons, List.mem_singleton, List.not_mem_nil, or_false] at hq
      rcases hq with rfl | rfl | rfl
      · exact hx
      · exact hy
      · exact hz
    have hkeep : ∀ (x y z w : Vector3 K),
        x.negate.dot (awayNormal sqrt x y z w) > 0 →
        (∃ k : K, awayNormal sqrt x y z w = ((y.sub x).cross (z.sub x)).multiplyScalar k) ∧
          x.dot (awayNormal sqrt x y z w) ≤ 0 := by
      intro x y z w h
      obtain ⟨k1, _, hn, _⟩ := awayNormal_spec sqrt x y z w
      refine ⟨⟨k1, hn⟩, ?_⟩
      rw [Vector3.negate_dot] at h
      linarith
    show (∃ simplex1 dir1, evaluateAndChangeDir sqrt [a, b, c, p] dir =
        (false, simplex1, dir1) ∧ GJK.HeadInv P simplex1 dir1 ∧ 2 ≤ simplex1.length) ∨
      (∃ a1 b1 c1 dir1, [a, b, c] = [a1, b1, c1] ∧
        evaluateAndChangeDir sqrt [a, b, c, p] dir = (true, [a1, b1, c1, p], dir1) ∧
        (p.1.sub a1.1).dot ((b1.1.sub a1.1).cross (c1.1.sub a1.1)) ≠ 0)
    rw [evaluateAndChangeDir_four]
    by_cases c1 : a.1.negate.dot (awayNormal sqrt a.1 b.1 c.1 p.1) > 0
    · rw [if_pos c1]
      exact Or.inl ⟨_, _, rfl, ⟨hmem3 a b c ha hb hc,
        Or.inr (Or.inr ⟨a, b, c, rfl, (hkeep _ _ _ _ c1).1, (hkeep _ _ _ _ c1).2⟩)⟩, by simp⟩
    rw [if_neg c1]
    by_cases c2 : a.1.negate.dot (awayNormal sqrt a.1 b.1 p.1 c.1) > 0
    · rw [if_pos c2]
      exact Or.inl ⟨_, _, rfl, ⟨hmem3 a b p ha hb hp,
        Or.inr (Or.inr ⟨a, b, p, rfl, (hkeep _ _ _ _ c2).1, (hkeep _ _ _ _ c2).2⟩)⟩, by simp⟩
    rw [if_neg c2]
    by_cases c3 : a.1.negate.dot (awayNormal sqrt a.1 c.1 p.1 b.1) > 0
    · rw [if_pos c3]
      exact Or.inl ⟨_, _, rfl, ⟨hmem3 a c p ha hc hp,
        Or.inr (Or.inr ⟨a, c, p, rfl, (hkeep _ _ _ _ c3).1, (hkeep _ _ _ _ c3).2⟩)⟩, by simp⟩
    rw [if_neg c3]
    by_cases c4 : b.1.negate.dot (awayNormal sqrt b.1 c.1 p.1 a.1) > 0
    · rw [if_pos c4]
      exact Or.inl ⟨_, _, rfl, ⟨hmem3 b c p hb hc hp,
        Or.inr (Or.inr ⟨b, c, p, rfl, (hkeep _ _ _ _ c4).1, (hkeep _ _ _ _ c4).2⟩)⟩, by simp⟩
    rw [if_neg c4]
    exact Or.inr ⟨a, b, c, _, rfl, rfl, hV⟩

/-- The simplex that the loop of `GJK` hands to `EPA` has 4 entries with the property `P` of
all support pairs, spans a non-degenerate tetrahedron and is one on which `evaluateAndChangeDir`
answers `true`. -/
theorem GJK_loop_hit (sqrt : K → K) (P : SupportPair K → Prop) (vertA vertB : List (Vector3 K))
    (hP : ∀ dir p, support vertA vertB dir = some p → P p) :
    ∀ (fuel : Nat) (simplex : Simplex K) (dir : Vector3 K) (s : Simplex K),
      GJK.HeadInv P simplex dir →
      GJK.loop sqrt vertA vertB fuel simplex dir = Run.ok (some s) →
      ∃ a b c d dir0 dir1, s = [a, b, c, d] ∧ P a ∧ P b ∧ P c ∧ P d ∧
        (d.1.sub a.1).dot ((b.1.sub a.1).cross (c.1.sub a.1)) ≠ 0 ∧
        evaluateAndChangeDir sqrt [a, b, c, d] dir0 = (true, [a, b, c, d], dir1) := by
  intro fuel
  induction fuel with
  | zero =>
    intro simplex dir s _ h
    exact absurd h (by simp [GJK.loop])
  | succ fuel ih =>
    intro simplex dir s hInv h
    unfold GJK.loop at h
    cases hsup : support vertA vertB dir with
    | none =>
      rw [hsup] at h
      exact absurd h (by simp)
    | some p =>
      rw [hsup] at h
      simp only [] at h
      by_cases hle : p.1.dot dir ≤ 0
      · rw [if_pos hle] at h
        exact absurd h (by simp)
      · rw [if_neg hle] at h
        rcases evaluateAndChangeDir_head sqrt P simplex dir p hInv (hP dir p hsup)
            (not_le.mp hle) with ⟨s1, d1, hev, hInv1, _⟩ | ⟨a, b, c, d1, rfl, hev, hV⟩
        · rw [hev] at h
          exact ih s1 d1 s hInv1 h
        · rw [hev] at h
          simp only [Run.ok.injEq, Option.some.injEq] at h
          subst h
          have hmem := hInv.1
          exact ⟨a, b, c, p, dir, d1, rfl, hmem _ (by simp), hmem _ (by simp),
            hmem _ (by simp), hP dir p hsup, hV, hev⟩

/-- In exact arithmetic case 4 is sound: if `evaluateAndChangeDir` over an ordered field
returns `true` on 4 affinely independent points, the simplex is left as it is and the origin
lies in the closed tetrahedron: for each face it is not strictly on the side away from the
opposite vertex, and it is a convex combination of the 4 points.  Hence `GJK` over an ordered
field hands a simplex to `EPA` only when the origin is a convex combination of 4 points
`a - b` of the Minkowski difference.  It does not carry over to binary64: see the call on
`sliverSimplex` below. -/
theorem evaluateAndChangeDir_true_encloses (sqrt : K → K) :
    (∀ (a b c d : SupportPair K) (dir dir1 : Vector3 K) (simplex1 : Simplex K),
      (d.1.sub a.1).dot ((b.1.sub a.1).cross (c.1.sub a.1)) ≠ 0 →
      evaluateAndChangeDir sqrt [a, b, c, d] dir = (true, simplex1, dir1) →
      simplex1 = [a, b, c, d] ∧
      0 ≤ (d.1.sub a.1).dot ((b.1.sub a.1).cross (c.1.sub a.1)) *
        a.1.negate.dot ((b.1.sub a.1).cross (c.1.sub a.1)) ∧
      0 ≤ (c.1.sub a.1).dot ((b.1.sub a.1).cross (d.1.sub a.1)) *
        a.1.negate.dot ((b.1.sub a.1).cross (d.1.sub a.1)) ∧
      0 ≤ (b.1.sub a.1).dot ((c.1.sub a.1).cross (d.1.sub a.1)) *
        a.1.negate.dot ((c.1.sub a.1).cross (d.1.sub a.1)) ∧
      0 ≤ (a.1.sub b.1).dot ((c.1.sub b.1).cross (d.1.sub b.1)) *
        b.1.negate.dot ((c.1.sub b.1).cross (d.1.sub b.1)) ∧
      ∃ wa wb wc wd : K, 0 ≤ wa ∧ 0 ≤ wb ∧ 0 ≤ wc ∧ 0 ≤ wd ∧ wa + wb + wc + wd = 1 ∧
        (((a.1.multiplyScalar wa).add (b.1.multiplyScalar wb)).add (c.1.multiplyScalar wc)).add
          (d.1.multiplyScalar wd) = ⟨0, 0, 0⟩) ∧
    (∀ (fuel : Nat) (vertA vertB : List (Vector3 K)) (dir : Vector3 K) (s : Simplex K),
      GJK.intersects sqrt fuel vertA vertB dir = Run.ok (some s) →
      ∃ a b c d : SupportPair K, s = [a, b, c, d] ∧
        (∀ q ∈ s, ∃ x ∈ vertA, ∃ y ∈ vertB, q = (x.sub y, x)) ∧
        ∃ wa wb wc wd : K, 0 ≤ wa ∧ 0 ≤ wb ∧ 0 ≤ wc ∧ 0 ≤ wd ∧ wa + wb + wc + wd = 1 ∧
          (((a.1.multiplyScalar wa).add (b.1.multiplyScalar wb)).add
            (c.1.multiplyScalar wc)).add (d.1.multiplyScalar wd) = ⟨0, 0, 0⟩) := by
  constructor
  · intro a b c d dir dir1 simplex1 hV h
    obtain ⟨hs, h1, h2, h3, h4⟩ := evaluateAndChangeDir_true_four sqrt a b c d dir dir1 simplex1 hV h
    refine ⟨hs, ?_, ?_, ?_, ?_, origin_weights a.1 b.1 c.1 d.1 hV h1 h2 h3 h4⟩
    · rw [Vector3.negate_dot]; linarith
    · rw [Vector3.negate_dot]; linarith
    · rw [Vector3.negate_dot]; linarith
    · rw [Vector3.negate_dot]; linarith
  · intro fuel vertA vertB dir s h
    unfold GJK.intersects at h
    cases hsup : support vertA vertB dir with
    | none =>
      rw [hsup] at h
      exact absurd h (by simp)
    | some p =>
      rw [hsup] at h
      simp only [] at h
      have hP : ∀ dir p, support vertA vertB dir = some p →
          ∃ x ∈ vertA, ∃ y ∈ vertB, p = (x.sub y, x) := fun dir p hp => support_mem _ _ _ _ hp
      have hInv : GJK.HeadInv (fun q => ∃ x ∈ vertA, ∃ y ∈ vertB, q = (x.sub y, x)) [p]
          dir.negate := by
        refine ⟨?_, Or.inl rfl⟩
        intro q hq
        rw [List.mem_singleton] at hq
        rw [hq]
        exact hP dir p hsup
      obtain ⟨a, b, c, d, d0, d1, rfl, ha, hb, hc, hd, hV, hev⟩ :=
        GJK_loop_hit sqrt _ vertA vertB hP fuel [p] dir.negate s hInv h
      obtain ⟨_, h1, h2, h3, h4⟩ := evaluateAndChangeDir_true_four sqrt a b c d d0 d1 _ hV hev
      refine ⟨a, b, c, d, rfl, ?_, origin_weights a.1 b.1 c.1 d.1 hV h1 h2 h3 h4⟩
      intro q hq
      simp only [List.mem_cons, List.mem_singleton, List.not_mem_nil, or_false] at hq
      rcases hq with rfl | rfl | rfl | rfl
      · exact ha
      · exact hb
      · exact hc
      · exact hd

set_option maxHeartbeats 4000000 in
/-- Case 4 on `tetraSimplex`: none of the four face tests passes. -/
theorem tetra_evaluate (sqrt : K → K) (h1 : sqrt 1 = 1) (h4 : sqrt 4 = 2) (h9 : sqrt 9 = 3)
    (dir : Vector3 K) :
    evaluateAndChangeDir sqrt
        [(⟨-1 / 8, -1 / 4, 7 / 4⟩, ⟨-1 / 8, -1 / 4, 7 / 4⟩),
         (⟨-1 / 8, -1 / 4, -1 / 4⟩, ⟨-1 / 8, -1 / 4, -1 / 4⟩),
         (⟨-1 / 8, 3 / 4, -1 / 4⟩, ⟨-1 / 8, 3 / 4, -1 / 4⟩),
         (⟨7 / 8, -1 / 4, -1 / 4⟩, ⟨7 / 8, -1 / 4, -1 / 4⟩)] dir =
      (true, tetraSimplex, ⟨0, 0, -1⟩) := by
  norm_num [evaluateAndChangeDir, tetraSimplex, Vector3.dot,
    Vector3.negate, Vector3.sub, Vector3.cross, Vector3.multiplyScalar,
    Vector3.normalize, Vector3.length, Vector3.divideScalar, h1, h4, h9]

theorem evaluateAndChangeDir_true_encloses_witness :
    (evaluateAndChangeDir Real.sqrt
        [(⟨-1 / 8, -1 / 4, 7 / 4⟩, ⟨-1 / 8, -1 / 4, 7 / 4⟩),
         (⟨-1 / 8, -1 / 4, -1 / 4⟩, ⟨-1 / 8, -1 / 4, -1 / 4⟩),
         (⟨-1 / 8, 3 / 4, -1 / 4⟩, ⟨-1 / 8, 3 / 4, -1 / 4⟩),
         (⟨7 / 8, -1 / 4, -1 / 4⟩, ⟨7 / 8, -1 / 4, -1 / 4⟩)] ⟨0, 0, 0⟩ =
      (true, tetraSimplex, ⟨0, 0, -1⟩) ∧
     tetraSimplex (K := ℝ) =
        [(⟨-1 / 8, -1 / 4, 7 / 4⟩, ⟨-1 / 8, -1 / 4, 7 / 4⟩),
         (⟨-1 / 8, -1 / 4, -1 / 4⟩, ⟨-1 / 8, -1 / 4, -1 / 4⟩),
         (⟨-1 / 8, 3 / 4, -1 / 4⟩, ⟨-1 / 8, 3 / 4, -1 / 4⟩),
         (⟨7 / 8, -1 / 4, -1 / 4⟩, ⟨7 / 8, -1 / 4, -1 / 4⟩)]) ∧
    (GJK.intersects Real.sqrt 4 tetraVertices [(⟨0, 0, 0⟩ : Vector3 ℝ)] ⟨1 / 8, 0, 1 / 4⟩ =
        Run.ok (some tetraSimplex) ∧
      ∃ a b c d : SupportPair ℝ, tetraSimplex = [a, b, c, d] ∧
        (∀ q ∈ tetraSimplex (K := ℝ), ∃ x ∈ tetraVertices, ∃ y ∈ [(⟨0, 0, 0⟩ : Vector3 ℝ)],
          q = (x.sub y, x)) ∧
        ∃ wa wb wc wd : ℝ, 0 ≤ wa ∧ 0 ≤ wb ∧ 0 ≤ wc ∧ 0 ≤ wd ∧ wa + wb + wc + wd = 1 ∧
          (((a.1.multiplyScalar wa).add (b.1.multiplyScalar wb)).add
            (c.1.multiplyScalar wc)).add (d.1.multiplyScalar wd) = ⟨0, 0, 0⟩) :=
  ⟨⟨tetra_evaluate Real.sqrt Real.sqrt_one Real_sqrt_four Real_sqrt_nine _,
      ((evaluateAndChangeDir_true_encloses Real.sqrt).1 _ _ _ _ ⟨0, 0, 0⟩ ⟨0, 0, -1⟩ tetraSimplex
        (by norm_num [Vector3.dot, Vector3.sub, Vector3.cross])
        (tetra_evaluate Real.sqrt Real.sqrt_one Real_sqrt_four Real_sqrt_nine _)).1⟩,
    tetra_intersects_real,
    (evaluateAndChangeDir_true_encloses Real.sqrt).2 4 _ _ _ _ tetra_intersects_real⟩

/-- The simplex `sliverSimplex` does not hold the origin: every point of it has `x < 0`, so
no convex combination of its points is the origin. -/
theorem sliver_outside :
    ¬ ∃ wa wb wc wd : ℚ, 0 ≤ wa ∧ 0 ≤ wb ∧ 0 ≤ wc ∧ 0 ≤ wd ∧ wa + wb + wc + wd = 1 ∧
      (((sliverA.multiplyScalar wa).add (sliverB.multiplyScalar wb)).add
        (sliverC.multiplyScalar wc)).add (sliverD.multiplyScalar wd) = ⟨0, 0, 0⟩ := by
  rintro ⟨wa, wb, wc, wd, ha, hb, hc, hd, hsum, h⟩
  simp only [sliverA, sliverB, sliverC, sliverD, Vector3.multiplyScalar, Vector3.add,
    Vector3.mk.injEq] at h
  obtain ⟨hx, _, _⟩ := h
  linarith

/-- C18 (code defect): in binary64, the arithmetic of the source, `evaluateAndChangeDir`
returns `true` on 4 affinely independent points whose tetrahedron does not hold the origin.
The points of `sliverSimplex` all have `x < 0`, so the origin is no convex combination of
them, and in exact arithmetic it lies strictly on the side of the face `a, b, c` away from
`d`.  In binary64 the difference `b - a` of line 243, exactly `(2 - 2 ^ (-55), 1, 2)`, is
rounded to `(2, 1, 2)`; the plane through `a` with the normal computed from it passes through
the origin, the test `a0.dot(dir) > 0` of line 253 gets 0, the other three tests fail as well,
and line 311 returns `true` with the simplex unchanged. -/
theorem evaluateAndChangeDir_true_outside :
    (sliverD.sub sliverA).dot ((sliverB.sub sliverA).cross (sliverC.sub sliverA)) ≠ 0 ∧
    Binary64.evaluateAndChangeDir sliverSimplex ⟨-2, 4, 0⟩ =
      (true, sliverSimplex, ⟨0, 1, 0⟩) ∧
    (∀ q ∈ sliverSimplex, q.1.x < 0) ∧
    (¬ ∃ wa wb wc wd : ℚ, 0 ≤ wa ∧ 0 ≤ wb ∧ 0 ≤ wc ∧ 0 ≤ wd ∧ wa + wb + wc + wd = 1 ∧
      (((sliverA.multiplyScalar wa).add (sliverB.multiplyScalar wb)).add
        (sliverC.multiplyScalar wc)).add (sliverD.multiplyScalar wd) = ⟨0, 0, 0⟩) ∧
    (sliverD.sub sliverA).dot ((sliverB.sub sliverA).cross (sliverC.sub sliverA)) *
      sliverA.negate.dot ((sliverB.sub sliverA).cross (sliverC.sub sliverA)) < 0 ∧
    sliverB.sub sliverA = ⟨2 - 1 / 36028797018963968, 1, 2⟩ ∧
    Binary64.Vector3.sub sliverB sliverA = ⟨2, 1, 2⟩ ∧
    Binary64.Vector3.dot sliverA.negate
      (Binary64.Vector3.normalize (Binary64.Vector3.cross
        (Binary64.Vector3.sub sliverB sliverA) (Binary64.Vector3.sub sliverC sliverA))).negate =
      0 :=
  ⟨by decide!, by decide!, by decide!, sliver_outside, by decide!, by decide!, by decide!,
    by decide!⟩

/-! ### Claim C19: the face that case 4 keeps -/

/-- A direction that passes a face test of case 4 has length 1 when `sqrt` is a square root:
the test fails on the zero vector that `normalize` leaves for a degenerate face. -/
theorem awayNormal_unit (sqrt : K → K) (hs : ∀ x : K, 0 ≤ x → sqrt x * sqrt x = x)
    (p q r opp : Vector3 K) (h : p.negate.dot (awayNormal sqrt p q r opp) > 0) :
    (awayNormal sqrt p q r opp).dot (awayNormal sqrt p q r opp) = 1 := by
  have key : ∀ n : Vector3 K, p.negate.dot (n.normalize sqrt) ≠ 0 →
      (n.normalize sqrt).dot (n.normalize sqrt) = 1 := by
    intro n hn
    have hnn : 0 ≤ n.x * n.x + n.y * n.y + n.z * n.z :=
      add_nonneg (add_nonneg (mul_self_nonneg _) (mul_self_nonneg _)) (mul_self_nonneg _)
    have hsq := hs _ hnn
    by_cases h0 : n.length sqrt = 0
    · exfalso
      apply hn
      have hz : n.x * n.x + n.y * n.y + n.z * n.z = 0 := by
        rw [← hsq]
        unfold Vector3.length at h0
        rw [h0, mul_zero]
      have hx : n.x = 0 := by nlinarith [mul_self_nonneg n.x, mul_self_nonneg n.y, mul_self_nonneg n.z]
      have hy : n.y = 0 := by nlinarith [mul_self_nonneg n.x, mul_self_nonneg n.y, mul_self_nonneg n.z]
      have hz1 : n.z = 0 := by nlinarith [mul_self_nonneg n.x, mul_self_nonneg n.y, mul_self_nonneg n.z]
      simp [Vector3.normalize, Vector3.divideScalar, Vector3.multiplyScalar, Vector3.dot,
        Vector3.negate, hx, hy, hz1]
    · unfold Vector3.normalize
      rw [if_neg h0]
      unfold Vector3.length at h0 ⊢
      simp only [Vector3.divideScalar, Vector3.multiplyScalar, Vector3.dot]
      field_simp
      linear_combination -hsq
  unfold awayNormal at h ⊢
  simp only [] at h ⊢
  by_cases c : (opp.sub p).dot (((q.sub p).cross (r.sub p)).normalize sqrt) > 0
  · rw [if_pos c] at h ⊢
    rw [Vector3.dot_negate] at h
    rw [Vector3.dot_negate, Vector3.negate_dot, neg_neg]
    exact key _ (by intro h0; rw [h0] at h; simp at h)
  · rw [if_neg c] at h ⊢
    exact key _ (ne_of_gt h)

/-- C19: when `evaluateAndChangeDir` answers `false` on a 4-point simplex `[a, b, c, d]`, the
simplex afterwards is the original without the vertex opposite the first face, in the order
abc, abd, acd, bcd, whose test passes (the tests of the faces before it fail), the other three
in their order; the new direction is the normal of that face that the code built: it has a
strictly positive dot product with the vector from the first vertex of the face to the
origin, it has length 1, it does not point at the removed vertex, and it is a multiple of the
cross product of two edges of the face. -/
theorem evaluateAndChangeDir_false_four (sqrt : K → K)
    (hs : ∀ x : K, 0 ≤ x → sqrt x * sqrt x = x) (a b c d : SupportPair K)
    (dir dir1 : Vector3 K) (simplex1 : Simplex K)
    (h : evaluateAndChangeDir sqrt [a, b, c, d] dir = (false, simplex1, dir1)) :
    ∃ p q r opp : SupportPair K,
      ((p = a ∧ q = b ∧ r = c ∧ opp = d ∧ simplex1 = [a, b, c]) ∨
       (p = a ∧ q = b ∧ r = d ∧ opp = c ∧ simplex1 = [a, b, d] ∧
          ¬ a.1.negate.dot (awayNormal sqrt a.1 b.1 c.1 d.1) > 0) ∨
       (p = a ∧ q = c ∧ r = d ∧ opp = b ∧ simplex1 = [a, c, d] ∧
          ¬ a.1.negate.dot (awayNormal sqrt a.1 b.1 c.1 d.1) > 0 ∧
          ¬ a.1.negate.dot (awayNormal sqrt a.1 b.1 d.1 c.1) > 0) ∨
       (p = b ∧ q = c ∧ r = d ∧ opp = a ∧ simplex1 = [b, c, d] ∧
          ¬ a.1.negate.dot (awayNormal sqrt a.1 b.1 c.1 d.1) > 0 ∧
          ¬ a.1.negate.dot (awayNormal sqrt a.1 b.1 d.1 c.1) > 0 ∧
          ¬ a.1.negate.dot (awayNormal sqrt a.1 c.1 d.1 b.1) > 0)) ∧
      dir1 = awayNormal sqrt p.1 q.1 r.1 opp.1 ∧
      p.1.negate.dot dir1 > 0 ∧
      dir1.dot dir1 = 1 ∧
      (opp.1.sub p.1).dot dir1 ≤ 0 ∧
      ∃ k : K, k ≠ 0 ∧ dir1 = ((q.1.sub p.1).cross (r.1.sub p.1)).multiplyScalar k := by
  have fin : ∀ p q r opp : SupportPair K,
      p.1.negate.dot (awayNormal sqrt p.1 q.1 r.1 opp.1) > 0 →
      awayNormal sqrt p.1 q.1 r.1 opp.1 = awayNormal sqrt p.1 q.1 r.1 opp.1 ∧
      p.1.negate.dot (awayNormal sqrt p.1 q.1 r.1 opp.1) > 0 ∧
      (awayNormal sqrt p.1 q.1 r.1 opp.1).dot (awayNormal sqrt p.1 q.1 r.1 opp.1) = 1 ∧
      (opp.1.sub p.1).dot (awayNormal sqrt p.1 q.1 r.1 opp.1) ≤ 0 ∧
      ∃ k : K, k ≠ 0 ∧ awayNormal sqrt p.1 q.1 r.1 opp.1 =
        ((q.1.sub p.1).cross (r.1.sub p.1)).multiplyScalar k := by
    intro p q r opp hpos
    obtain ⟨k, hk, hn, hle⟩ := awayNormal_spec sqrt p.1 q.1 r.1 opp.1
    exact ⟨rfl, hpos, awayNormal_unit sqrt hs _ _ _ _ hpos, hle, k, hk, hn⟩
  rw [evaluateAndChangeDir_four] at h
  by_cases c1 : a.1.negate.dot (awayNormal sqrt a.1 b.1 c.1 d.1) > 0
  · rw [if_pos c1] at h
    simp only [Prod.mk.injEq, true_and] at h
    obtain ⟨rfl, rfl⟩ := h
    exact ⟨a, b, c, d, Or.inl ⟨rfl, rfl, rfl, rfl, rfl⟩, fin a b c d c1⟩
  rw [if_neg c1] at h
  by_cases c2 : a.1.negate.dot (awayNormal sqrt a.1 b.1 d.1 c.1) > 0
  · rw [if_pos c2] at h
    simp only [Prod.mk.injEq, true_and] at h
    obtain ⟨rfl, rfl⟩ := h
    exact ⟨a, b, d, c, Or.inr (Or.inl ⟨rfl, rfl, rfl, rfl, rfl, c1⟩), fin a b d c c2⟩
  rw [if_neg c2] at h
  by_cases c3 : a.1.negate.dot (awayNormal sqrt a.1 c.1 d.1 b.1) > 0
  · rw [if_pos c3] at h
    simp only [Prod.mk.injEq, true_and] at h
    obtain ⟨rfl, rfl⟩ := h
    exact ⟨a, c, d, b, Or.inr (Or.inr (Or.inl ⟨rfl, rfl, rfl, rfl, rfl, c1, c2⟩)),
      fin a c d b c3⟩
  rw [if_neg c3] at h
  by_cases c4 : b.1.negate.dot (awayNormal sqrt b.1 c.1 d.1 a.1) > 0
  · rw [if_pos c4] at h
    simp only [Prod.mk.injEq, true_and] at h
    obtain ⟨rfl, rfl⟩ := h
    exact ⟨b, c, d, a, Or.inr (Or.inr (Or.inr ⟨rfl, rfl, rfl, rfl, rfl, c1, c2, c3⟩)),
      fin b c d a c4⟩
  rw [if_neg c4] at h
  simp at h

/-- Case 4 on the raised tetrahedron: the first face test passes and the top vertex goes. -/
theorem raised_evaluate (sqrt : K → K) (h1 : sqrt 1 = 1) (dir : Vector3 K) :
    evaluateAndChangeDir sqrt [raisedA, raisedB, raisedC, raisedD] dir =
      (false, [raisedA, raisedB, raisedC], ⟨0, 0, -1⟩) := by
  norm_num [evaluateAndChangeDir, raisedA, raisedB, raisedC, raisedD, Vector3.dot,
    Vector3.negate, Vector3.sub, Vector3.cross, Vector3.multiplyScalar,
    Vector3.normalize, Vector3.length, Vector3.divideScalar, h1]

theorem evaluateAndChangeDir_false_four_witness :
    evaluateAndChangeDir Real.sqrt [raisedA, raisedB, raisedC, raisedD] ⟨0, 0, 0⟩ =
      (false, [raisedA, raisedB, raisedC], ⟨0, 0, -1⟩) ∧
    ∃ p q r opp : SupportPair ℝ,
      ((p = raisedA ∧ q = raisedB ∧ r = raisedC ∧ opp = raisedD ∧
          ([raisedA, raisedB, raisedC] : Simplex ℝ) = [raisedA, raisedB, raisedC]) ∨
       (p = raisedA ∧ q = raisedB ∧ r = raisedD ∧ opp = raisedC ∧
          ([raisedA, raisedB, raisedC] : Simplex ℝ) = [raisedA, raisedB, raisedD] ∧
          ¬ raisedA.1.negate.dot
            (awayNormal Real.sqrt raisedA.1 raisedB.1 raisedC.1 raisedD.1) > 0) ∨
       (p = raisedA ∧ q = raisedC ∧ r = raisedD ∧ opp = raisedB ∧
          ([raisedA, raisedB, raisedC] : Simplex ℝ) = [raisedA, raisedC, raisedD] ∧
          ¬ raisedA.1.negate.dot
            (awayNormal Real.sqrt raisedA.1 raisedB.1 raisedC.1 raisedD.1) > 0 ∧
          ¬ raisedA.1.negate.dot
            (awayNormal Real.sqrt raisedA.1 raisedB.1 raisedD.1 raisedC.1) > 0) ∨
       (p = raisedB ∧ q = raisedC ∧ r = raisedD ∧ opp = raisedA ∧
          ([raisedA, raisedB, raisedC] : Simplex ℝ) = [raisedB, raisedC, raisedD] ∧
          ¬ raisedA.1.negate.dot
            (awayNormal Real.sqrt raisedA.1 raisedB.1 raisedC.1 raisedD.1) > 0 ∧
          ¬ raisedA.1.negate.dot
            (awayNormal Real.sqrt raisedA.1 raisedB.1 raisedD.1 raisedC.1) > 0 ∧
          ¬ raisedA.1.negate.dot
            (awayNormal Real.sqrt raisedA.1 raisedC.1 raisedD.1 raisedB.1) > 0)) ∧
      (⟨0, 0, -1⟩ : Vector3 ℝ) = awayNormal Real.sqrt p.1 q.1 r.1 opp.1 ∧
      p.1.negate.dot (⟨0, 0, -1⟩ : Vector3 ℝ) > 0 ∧
      (⟨0, 0, -1⟩ : Vector3 ℝ).dot ⟨0, 0, -1⟩ = 1 ∧
      (opp.1.sub p.1).dot (⟨0, 0, -1⟩ : Vector3 ℝ) ≤ 0 ∧
      ∃ k : ℝ, k ≠ 0 ∧
        (⟨0, 0, -1⟩ : Vector3 ℝ) = ((q.1.sub p.1).cross (r.1.sub p.1)).multiplyScalar k :=
  ⟨raised_evaluate Real.sqrt Real.sqrt_one _,
    evaluateAndChangeDir_false_four Real.sqrt (fun _ hx => Real.mul_self_sqrt hx)
      raisedA raisedB raisedC raisedD ⟨0, 0, 0⟩ ⟨0, 0, -1⟩ [raisedA, raisedB, raisedC]
      (raised_evaluate Real.sqrt Real.sqrt_one _)⟩

/-! ### Claim C20: cases 2 and 3 -/

/-- C20: for a simplex of 2 or 3 points with first point `a`, `evaluateAndChangeDir` returns
`false`, leaves the simplex as it is and sets `dir` to a vector that is orthogonal to every edge
and has a non-negative dot product with `-a`: for 2 points `dir = ((b-a) × (-a)) × (b-a)`,
for 3 points `dir` is `(b-a) × (c-a)` or its negation. -/
theorem evaluateAndChangeDir_line_triangle (sqrt : K → K) (a b c : SupportPair K)
    (dir : Vector3 K) :
    (evaluateAndChangeDir sqrt [a, b] dir =
        (false, [a, b], ((b.1.sub a.1).cross a.1.negate).cross (b.1.sub a.1)) ∧
      (((b.1.sub a.1).cross a.1.negate).cross (b.1.sub a.1)).dot (b.1.sub a.1) = 0 ∧
      0 ≤ (((b.1.sub a.1).cross a.1.negate).cross (b.1.sub a.1)).dot a.1.negate) ∧
    (∃ d : Vector3 K,
      evaluateAndChangeDir sqrt [a, b, c] dir = (false, [a, b, c], d) ∧
      (d = (b.1.sub a.1).cross (c.1.sub a.1) ∨ d = ((b.1.sub a.1).cross (c.1.sub a.1)).negate) ∧
      d.dot (b.1.sub a.1) = 0 ∧ d.dot (c.1.sub a.1) = 0 ∧ d.dot (c.1.sub b.1) = 0 ∧
      0 ≤ d.dot a.1.negate) := by
  refine ⟨⟨rfl, ?_, ?_⟩, ?_⟩
  · simp only [Vector3.dot, Vector3.cross, Vector3.sub, Vector3.negate]; ring
  · have h : (((b.1.sub a.1).cross a.1.negate).cross (b.1.sub a.1)).dot a.1.negate =
        ((b.1.sub a.1).cross a.1.negate).dot ((b.1.sub a.1).cross a.1.negate) := by
      simp only [Vector3.dot, Vector3.cross, Vector3.sub, Vector3.negate]; ring
    rw [h]
    simp only [Vector3.dot]
    have h1 := mul_self_nonneg ((b.1.sub a.1).cross a.1.negate).x
    have h2 := mul_self_nonneg ((b.1.sub a.1).cross a.1.negate).y
    have h3 := mul_self_nonneg ((b.1.sub a.1).cross a.1.negate).z
    linarith
  · have o1 : ((b.1.sub a.1).cross (c.1.sub a.1)).dot (b.1.sub a.1) = 0 := by
      simp only [Vector3.dot, Vector3.cross, Vector3.sub]; ring
    have o2 : ((b.1.sub a.1).cross (c.1.sub a.1)).dot (c.1.sub a.1) = 0 := by
      simp only [Vector3.dot, Vector3.cross, Vector3.sub]; ring
    have o3 : ((b.1.sub a.1).cross (c.1.sub a.1)).dot (c.1.sub b.1) = 0 := by
      simp only [Vector3.dot, Vector3.cross, Vector3.sub]; ring
    have hn : ∀ u v : Vector3 K, u.negate.dot v = -(u.dot v) := Vector3.negate_dot
    have hc : ∀ u v : Vector3 K, u.dot v = v.dot u := by
      intro u v; simp only [Vector3.dot]; ring
    by_cases h : a.1.negate.dot ((b.1.sub a.1).cross (c.1.sub a.1)) < 0
    · refine ⟨((b.1.sub a.1).cross (c.1.sub a.1)).negate, ?_, Or.inr rfl, ?_, ?_, ?_, ?_⟩
      · show (false, [a, b, c], if a.1.negate.dot ((b.1.sub a.1).cross (c.1.sub a.1)) < 0 then
          ((b.1.sub a.1).cross (c.1.sub a.1)).negate else (b.1.sub a.1).cross (c.1.sub a.1)) = _
        rw [if_pos h]
      · rw [hn, o1, neg_zero]
      · rw [hn, o2, neg_zero]
      · rw [hn, o3, neg_zero]
      · rw [hn, hc]; linarith
    · refine ⟨(b.1.sub a.1).cross (c.1.sub a.1), ?_, Or.inl rfl, o1, o2, o3, ?_⟩
      · show (false, [a, b, c], if a.1.negate.dot ((b.1.sub a.1).cross (c.1.sub a.1)) < 0 then
          ((b.1.sub a.1).cross (c.1.sub a.1)).negate else (b.1.sub a.1).cross (c.1.sub a.1)) = _
        rw [if_neg h]
      · rw [hc]; exact not_lt.mp h

/-! ### Claim C16: the length of the simplex -/

/-- A pass of the loop of `GJK` is a pass of `GJK.pass`. -/
theorem GJK_loop_pass (sqrt : K → K) (vertA vertB : List (Vector3 K)) (fuel : Nat)
    (simplex : Simplex K) (dir : Vector3 K) :
    GJK.loop sqrt vertA vertB (fuel + 1) simplex dir =
      match GJK.pass sqrt vertA vertB simplex dir with
      | Pass.next state => GJK.loop sqrt vertA vertB fuel state.1 state.2
      | Pass.leave result => result := by
  conv_lhs => rw [GJK.loop]
  unfold GJK.pass
  cases support vertA vertB dir with
  | none => rfl
  | some p =>
    simp only []
    by_cases h : p.1.dot dir ≤ 0
    · rw [if_pos h, if_pos h]
    · rw [if_neg h, if_neg h]
      rcases evaluateAndChangeDir sqrt (simplex ++ [p]) dir with ⟨_ | _, s, d⟩ <;> rfl

/-- A pass of the loop of `EPA` is a pass of `EPA.pass`. -/
theorem EPA_loop_pass (sqrt : K → K) (vertA vertB : List (Vector3 K)) (fuel : Nat)
    (simplex : Simplex K) (simplexFaces : List Face) :
    EPA.loop sqrt vertA vertB (fuel + 1) simplex simplexFaces =
      match EPA.pass sqrt vertA vertB simplex simplexFaces with
      | Pass.next state => EPA.loop sqrt vertA vertB fuel state.1 state.2
      | Pass.leave result => result := by
  conv_lhs => rw [EPA.loop]
  unfold EPA.pass
  rcases findClosestFace sqrt simplex simplexFaces with (_ | face) | _ | _
  · rfl
  · simp only []
    cases support vertA vertB face.normal with
    | none => rfl
    | some point =>
      simp only []
      by_cases h : point.1.dot face.normal - face.dist < epsilon
      · rw [if_pos h, if_pos h]
      · rw [if_neg h, if_neg h]
        rcases expand sqrt (simplex ++ [point]) simplexFaces point.1 with _ | _ | _ <;> rfl
  · rfl
  · rfl

/-- What `evaluateAndChangeDir` does to the length of a simplex of 2 to 4 entries. -/
theorem evaluateAndChangeDir_length (sqrt : K → K) (simplex : Simplex K) (dir : Vector3 K)
    (h2 : 2 ≤ simplex.length) (h4 : simplex.length ≤ 4) :
    ((evaluateAndChangeDir sqrt simplex dir).1 = false →
      2 ≤ (evaluateAndChangeDir sqrt simplex dir).2.1.length ∧
      (evaluateAndChangeDir sqrt simplex dir).2.1.length ≤ 3) ∧
    ((evaluateAndChangeDir sqrt simplex dir).1 = true →
      (evaluateAndChangeDir sqrt simplex dir).2.1 = simplex ∧ simplex.length = 4) := by
  match simplex, h2, h4 with
  | [a, b], _, _ => exact ⟨fun _ => ⟨le_refl _, by simp [evaluateAndChangeDir]⟩,
      fun h => by simp [evaluateAndChangeDir] at h⟩
  | [a, b, c], _, _ => exact ⟨fun _ => ⟨by simp [evaluateAndChangeDir], le_refl _⟩,
      fun h => by simp [evaluateAndChangeDir] at h⟩
  | [a, b, c, d], _, _ =>
    rw [evaluateAndChangeDir_four]
    split_ifs <;> simp

/-- C16, as the code has it: in `GJK` the simplex holds 1 to 4 support pairs, in `EPA` it grows.
The first push leaves 1 entry; a pass of the loop of `GJK` that starts with 1 to 3 entries
pushes one and goes on with 2 or 3 entries, or hands a simplex of exactly 4 entries to `EPA`;
so `GJK` hands over 4 entries whenever it reaches `EPA`.  Every pass of the loop of `EPA` that
goes on has appended one support pair to the simplex, and none is ever removed there. -/
theorem simplex_length_GJK_then_EPA (sqrt : K → K) (vertA vertB : List (Vector3 K)) :
    (∀ (fuel : Nat) (dir : Vector3 K),
      GJK.intersects sqrt fuel vertA vertB dir =
        match support vertA vertB dir with
        | none => Run.typeError
        | some p => GJK.loop sqrt vertA vertB fuel [p] dir.negate) ∧
    (∀ (fuel : Nat) (simplex : Simplex K) (dir : Vector3 K),
      GJK.loop sqrt vertA vertB (fuel + 1) simplex dir =
        match GJK.pass sqrt vertA vertB simplex dir with
        | Pass.next state => GJK.loop sqrt vertA vertB fuel state.1 state.2
        | Pass.leave result => result) ∧
    (∀ (simplex : Simplex K) (dir : Vector3 K), 1 ≤ simplex.length → simplex.length ≤ 3 →
      (∀ simplex1 dir1, GJK.pass sqrt vertA vertB simplex dir = Pass.next (simplex1, dir1) →
        2 ≤ simplex1.length ∧ simplex1.length ≤ 3) ∧
      (∀ simplex1, GJK.pass sqrt vertA vertB simplex dir = Pass.leave (Run.ok (some simplex1)) →
        simplex1.length = 4)) ∧
    (∀ (fuel : Nat) (dir : Vector3 K) (simplex : Simplex K),
      GJK.intersects sqrt fuel vertA vertB dir = Run.ok (some simplex) → simplex.length = 4) ∧
    (∀ (fuel : Nat) (simplex : Simplex K) (simplexFaces : List Face),
      EPA.loop sqrt vertA vertB (fuel + 1) simplex simplexFaces =
        match EPA.pass sqrt vertA vertB simplex simplexFaces with
        | Pass.next state => EPA.loop sqrt vertA vertB fuel state.1 state.2
        | Pass.leave result => result) ∧
    (∀ (simplex simplex1 : Simplex K) (simplexFaces simplexFaces1 : List Face),
      EPA.pass sqrt vertA vertB simplex simplexFaces = Pass.next (simplex1, simplexFaces1) →
      (∃ point, simplex1 = simplex ++ [point]) ∧ simplex1.length = simplex.length + 1) := by
  refine ⟨fun fuel dir => ?_, GJK_loop_pass sqrt vertA vertB, ?_, ?_,
    EPA_loop_pass sqrt vertA vertB, ?_⟩
  · unfold GJK.intersects
    cases support vertA vertB dir <;> rfl
  · intro simplex dir h1 h3
    have key : ∀ p : SupportPair K,
        ((evaluateAndChangeDir sqrt (simplex ++ [p]) dir).1 = false →
          2 ≤ (evaluateAndChangeDir sqrt (simplex ++ [p]) dir).2.1.length ∧
          (evaluateAndChangeDir sqrt (simplex ++ [p]) dir).2.1.length ≤ 3) ∧
        ((evaluateAndChangeDir sqrt (simplex ++ [p]) dir).1 = true →
          (evaluateAndChangeDir sqrt (simplex ++ [p]) dir).2.1 = simplex ++ [p] ∧
          (simplex ++ [p]).length = 4) := fun p =>
      evaluateAndChangeDir_length sqrt (simplex ++ [p]) dir
        (by rw [List.length_append, List.length_singleton]; omega)
        (by rw [List.length_append, List.length_singleton]; omega)
    unfold GJK.pass
    cases support vertA vertB dir with
    | none => exact ⟨fun _ _ h => by simp at h, fun _ h => by simp at h⟩
    | some p =>
      simp only []
      by_cases hle : p.1.dot dir ≤ 0
      · rw [if_pos hle]
        exact ⟨fun _ _ h => by simp at h, fun _ h => by simp at h⟩
      · rw [if_neg hle]
        have hk := key p
        rcases hev : evaluateAndChangeDir sqrt (simplex ++ [p]) dir with ⟨_ | _, s, d⟩
        · rw [hev] at hk
          refine ⟨fun s1 d1 h => ?_, fun _ h => by simp at h⟩
          simp only [Pass.next.injEq, Prod.mk.injEq] at h
          rw [← h.1]
          exact hk.1 rfl
        · rw [hev] at hk
          refine ⟨fun _ _ h => by simp at h, fun s1 h => ?_⟩
          simp only [Pass.leave.injEq, Run.ok.injEq, Option.some.injEq] at h
          have h4 := hk.2 rfl
          simp only [] at h4
          rw [← h, h4.1]
          exact h4.2
  · intro fuel dir simplex h
    unfold GJK.intersects at h
    cases hsup : support vertA vertB dir with
    | none =>
      rw [hsup] at h
      exact absurd h (by simp)
    | some p =>
      rw [hsup] at h
      simp only [] at h
      obtain ⟨a, b, c, d, _, _, rfl, _⟩ :=
        GJK_loop_hit sqrt (fun _ => True) vertA vertB (fun _ _ _ => trivial) fuel [p] dir.negate
          simplex ⟨fun _ _ => trivial, Or.inl rfl⟩ h
      rfl
  · intro simplex simplex1 simplexFaces simplexFaces1 h
    unfold EPA.pass at h
    rcases hcl : findClosestFace sqrt simplex simplexFaces with (_ | face) | _ | _
    · rw [hcl] at h
      simp at h
    · rw [hcl] at h
      simp only [] at h
      cases hsup : support vertA vertB face.normal with
      | none =>
        rw [hsup] at h
        simp at h
      | some point =>
        rw [hsup] at h
        simp only [] at h
        by_cases hd : point.1.dot face.normal - face.dist < epsilon
        · rw [if_pos hd] at h
          simp at h
        · rw [if_neg hd] at h
          rcases hex : expand sqrt (simplex ++ [point]) simplexFaces point.1 with f | _ | _
          · rw [hex] at h
            simp only [Pass.next.injEq, Prod.mk.injEq] at h
            rw [← h.1]
            exact ⟨⟨point, rfl⟩, by rw [List.length_append, List.length_singleton]⟩
          · rw [hex] at h
            simp at h
          · rw [hex] at h
            simp at h
    · rw [hcl] at h
      simp at h
    · rw [hcl] at h
      simp at h

set_option maxHeartbeats 4000000 in
/-- The narrow-phase loop on `spikedVertices` against the origin: the same three passes as
without the additional vertex. -/
theorem spiked_intersects (sqrt : K → K) (h1 : sqrt 1 = 1) (h4 : sqrt 4 = 2) (h9 : sqrt 9 = 3)
    (n : Nat) :
    GJK.intersects sqrt (n + 3) spikedVertices [(⟨0, 0, 0⟩ : Vector3 K)] ⟨1 / 8, 0, 1 / 4⟩ =
      Run.ok (some tetraSimplex) := by
  norm_num [GJK.intersects, GJK.loop, support, getFurthestPointInDirection,
    getFurthestPointInDirection.loop, exceeds, spikedVertices, tetraVertices, tetraSimplex,
    Vector3.dot,
    Vector3.negate, Vector3.sub, Vector3.cross, Vector3.add, Vector3.multiplyScalar,
    evaluateAndChangeDir, Vector3.normalize, Vector3.length, Vector3.divideScalar, h1, h4, h9]

set_option maxHeartbeats 4000000 in
/-- The first pass of the loop of `EPA` on `spikedVertices`: the closest face is `x = -1/8`,
the support point `(-1/2, 0, 0)` lies beyond it, so it is pushed and `expand` replaces one
face by three. -/
theorem spiked_EPA_pass (sqrt : K → K) (h1 : sqrt 1 = 1) (h4 : sqrt 4 = 2) (h9 : sqrt 9 = 3) :
    EPA.pass sqrt spikedVertices [(⟨0, 0, 0⟩ : Vector3 K)] tetraSimplex EPA.seedFaces =
      Pass.next (tetraSimplex ++ [(⟨-1 / 2, 0, 0⟩, ⟨-1 / 2, 0, 0⟩)], spikedFaces) := by
  norm_num [EPA.pass, EPA.seedFaces, findClosestFace, findClosestFace.loop, epsilon,
    expand, expand.removalFaces, expand.edges, expand.toggle, edgeInEdges, edgeInEdges.loop,
    support, getFurthestPointInDirection,
    getFurthestPointInDirection.loop, exceeds, spikedVertices, tetraVertices, tetraSimplex,
    spikedFaces, Vector3.dot, Vector3.zero,
    Vector3.negate, Vector3.sub, Vector3.cross, Vector3.add, Vector3.multiplyScalar,
    Vector3.normalize, Vector3.length, Vector3.divideScalar, h1, h4, h9]

/-- C16 fails in `EPA`: on `spikedVertices` against the origin `GJK` hands the 4 entries of
`tetraSimplex` to `EPA`, and the first pass of the loop of `EPA` pushes a fifth entry and goes
on with 5 entries. -/
theorem EPA_simplex_five_entries :
    GJK.intersects Real.sqrt 4 spikedVertices [(⟨0, 0, 0⟩ : Vector3 ℝ)] ⟨1 / 8, 0, 1 / 4⟩ =
      Run.ok (some tetraSimplex) ∧
    EPA.pass Real.sqrt spikedVertices [(⟨0, 0, 0⟩ : Vector3 ℝ)] tetraSimplex EPA.seedFaces =
      Pass.next (tetraSimplex ++ [(⟨-1 / 2, 0, 0⟩, ⟨-1 / 2, 0, 0⟩)], spikedFaces) ∧
    EPA Real.sqrt 4 spikedVertices [(⟨0, 0, 0⟩ : Vector3 ℝ)] tetraSimplex =
      EPA.loop Real.sqrt spikedVertices [(⟨0, 0, 0⟩ : Vector3 ℝ)] 3
        (tetraSimplex ++ [(⟨-1 / 2, 0, 0⟩, ⟨-1 / 2, 0, 0⟩)]) spikedFaces ∧
    (tetraSimplex ++ [((⟨-1 / 2, 0, 0⟩ : Vector3 ℝ), (⟨-1 / 2, 0, 0⟩ : Vector3 ℝ))]).length =
      5 ∧
    ¬ (tetraSimplex ++ [((⟨-1 / 2, 0, 0⟩ : Vector3 ℝ), (⟨-1 / 2, 0, 0⟩ : Vector3 ℝ))]).length
      ≤ 4 := by
  refine ⟨spiked_intersects Real.sqrt Real.sqrt_one Real_sqrt_four Real_sqrt_nine 1,
    spiked_EPA_pass Real.sqrt Real.sqrt_one Real_sqrt_four Real_sqrt_nine, ?_, rfl,
    by simp [tetraSimplex]⟩
  unfold EPA
  rw [EPA_loop_pass, spiked_EPA_pass Real.sqrt Real.sqrt_one Real_sqrt_four Real_sqrt_nine]

/-- The first pass of the loop of `GJK` on `spikedVertices`: a second support pair is pushed and
case 2 of `evaluateAndChangeDir` turns `dir`. -/
theorem spiked_GJK_pass (sqrt : K → K) :
    GJK.pass sqrt spikedVertices [(⟨0, 0, 0⟩ : Vector3 K)]
        [(⟨-1 / 8, -1 / 4, 7 / 4⟩, ⟨-1 / 8, -1 / 4, 7 / 4⟩)] ⟨-1 / 8, 0, -1 / 4⟩ =
      Pass.next ([(⟨-1 / 8, -1 / 4, 7 / 4⟩, ⟨-1 / 8, -1 / 4, 7 / 4⟩),
        (⟨-1 / 8, -1 / 4, -1 / 4⟩, ⟨-1 / 8, -1 / 4, -1 / 4⟩)], ⟨1 / 2, 1, 0⟩) := by
  norm_num [GJK.pass, support, getFurthestPointInDirection,
    getFurthestPointInDirection.loop, exceeds, spikedVertices, tetraVertices,
    Vector3.dot, Vector3.negate, Vector3.sub, Vector3.cross, evaluateAndChangeDir]

theorem simplex_length_GJK_then_EPA_witness :
    (GJK.pass Real.sqrt spikedVertices [(⟨0, 0, 0⟩ : Vector3 ℝ)]
        [(⟨-1 / 8, -1 / 4, 7 / 4⟩, ⟨-1 / 8, -1 / 4, 7 / 4⟩)] ⟨-1 / 8, 0, -1 / 4⟩ =
      Pass.next ([(⟨-1 / 8, -1 / 4, 7 / 4⟩, ⟨-1 / 8, -1 / 4, 7 / 4⟩),
        (⟨-1 / 8, -1 / 4, -1 / 4⟩, ⟨-1 / 8, -1 / 4, -1 / 4⟩)], ⟨1 / 2, 1, 0⟩) ∧
      2 ≤ ([(⟨-1 / 8, -1 / 4, 7 / 4⟩, ⟨-1 / 8, -1 / 4, 7 / 4⟩),
        (⟨-1 / 8, -1 / 4, -1 / 4⟩, ⟨-1 / 8, -1 / 4, -1 / 4⟩)] : Simplex ℝ).length ∧
      ([(⟨-1 / 8, -1 / 4, 7 / 4⟩, ⟨-1 / 8, -1 / 4, 7 / 4⟩),
        (⟨-1 / 8, -1 / 4, -1 / 4⟩, ⟨-1 / 8, -1 / 4, -1 / 4⟩)] : Simplex ℝ).length ≤ 3) ∧
    (GJK.intersects Real.sqrt 4 spikedVertices [(⟨0, 0, 0⟩ : Vector3 ℝ)] ⟨1 / 8, 0, 1 / 4⟩ =
        Run.ok (some tetraSimplex) ∧ (tetraSimplex (K := ℝ)).length = 4) ∧
    (EPA.pass Real.sqrt spikedVertices [(⟨0, 0, 0⟩ : Vector3 ℝ)] tetraSimplex EPA.seedFaces =
        Pass.next (tetraSimplex ++ [(⟨-1 / 2, 0, 0⟩, ⟨-1 / 2, 0, 0⟩)], spikedFaces) ∧
      (∃ point : SupportPair ℝ,
        tetraSimplex ++ [(⟨-1 / 2, 0, 0⟩, ⟨-1 / 2, 0, 0⟩)] = tetraSimplex ++ [point]) ∧
      (tetraSimplex ++ [((⟨-1 / 2, 0, 0⟩ : Vector3 ℝ), (⟨-1 / 2, 0, 0⟩ : Vector3 ℝ))]).length =
        (tetraSimplex (K := ℝ)).length + 1) :=
  ⟨⟨spiked_GJK_pass Real.sqrt,
      ((simplex_length_GJK_then_EPA Real.sqrt spikedVertices
        [(⟨0, 0, 0⟩ : Vector3 ℝ)]).2.2.1
        [(⟨-1 / 8, -1 / 4, 7 / 4⟩, ⟨-1 / 8, -1 / 4, 7 / 4⟩)] ⟨-1 / 8, 0, -1 / 4⟩ (le_refl 1)
        (by decide)).1 _ _
        (spiked_GJK_pass Real.sqrt)⟩,
    ⟨spiked_intersects Real.sqrt Real.sqrt_one Real_sqrt_four Real_sqrt_nine 1,
      (simplex_length_GJK_then_EPA Real.sqrt spikedVertices [(⟨0, 0, 0⟩ : Vector3 ℝ)]).2.2.2.1
        4 _ _ (spiked_intersects Real.sqrt Real.sqrt_one Real_sqrt_four Real_sqrt_nine 1)⟩,
    ⟨spiked_EPA_pass Real.sqrt Real.sqrt_one Real_sqrt_four Real_sqrt_nine,
      (simplex_length_GJK_then_EPA Real.sqrt spikedVertices [(⟨0, 0, 0⟩ : Vector3 ℝ)]).2.2.2.2.2
        _ _ _ _ (spiked_EPA_pass Real.sqrt Real.sqrt_one Real_sqrt_four Real_sqrt_nine)⟩⟩

/-! ### Claim C11: the broad phase -/

/-- No resolver call touches the bounding boxes. -/
theorem ResolverCall_run_worldAABB (colA colB : Collider K) (call : ResolverCall K) :
    (call.run colA colB).1.worldAABB = colA.worldAABB ∧
      (call.run colA colB).2.worldAABB = colB.worldAABB := by
  cases call <;> exact ⟨rfl, rfl⟩

/-- A `GJK` call leaves the bounding boxes of its two colliders as they are. -/
theorem GJK_worldAABB (sqrt : K → K) (fuel : Nat) (colA colB colA1 colB1 : Collider K)
    (dir : Vector3 K) (h : GJK sqrt fuel colA colB dir = Run.ok (colA1, colB1)) :
    colA1.worldAABB = colA.worldAABB ∧ colB1.worldAABB = colB.worldAABB := by
  unfold GJK at h
  cases hc : GJK.call sqrt fuel colA colB dir with
  | typeError => rw [hc] at h; simp at h
  | outOfFuel => rw [hc] at h; simp at h
  | ok call =>
    rw [hc] at h
    simp only [Run.ok.injEq] at h
    have := ResolverCall_run_worldAABB colA colB call
    rw [h] at this
    exact this

/-- Writing back two colliders with their old boxes keeps the list of boxes. -/
theorem map_worldAABB_set (cs : List (Collider K)) (i j : Nat) (a b a1 b1 : Collider K)
    (hi : cs[i]? = some a) (hj : cs[j]? = some b) (ha : a1.worldAABB = a.worldAABB)
    (hb : b1.worldAABB = b.worldAABB) :
    ((cs.set i a1).set j b1).map Collider.worldAABB = cs.map Collider.worldAABB := by
  apply List.ext_getElem?
  intro n
  simp only [List.getElem?_map, List.getElem?_set]
  by_cases hjn : j = n
  · subst hjn
    rw [if_pos rfl]
    simp only [List.length_set]
    have hlt : j < cs.length := by
      rcases Nat.lt_or_ge j cs.length with h | h
      · exact h
      · rw [List.getElem?_eq_none h] at hj
        simp at hj
    rw [if_pos hlt, hj]
    simp [hb]
  · rw [if_neg hjn]
    by_cases hin : i = n
    · subst hin
      rw [if_pos rfl]
      have hlt : i < cs.length := by
        rcases Nat.lt_or_ge i cs.length with h | h
        · exact h
        · rw [List.getElem?_eq_none h] at hi
          simp at hi
      rw [if_pos hlt, hi]
      simp [ha]
    · rw [if_neg hin]

theorem intersectingPairs_inner_congr (cs cs1 : List (Collider K))
    (h : cs1.map Collider.worldAABB = cs.map Collider.worldAABB) (i : Nat) :
    ∀ count j, intersectingPairs.inner cs1 i count j = intersectingPairs.inner cs i count j := by
  have hget : ∀ n : Nat, cs1[n]?.map Collider.worldAABB = cs[n]?.map Collider.worldAABB := by
    intro n
    rw [← List.getElem?_map, ← List.getElem?_map, h]
  intro count
  induction count with
  | zero => intro j; rfl
  | succ count ih =>
    intro j
    unfold intersectingPairs.inner
    have hi := hget i
    have hj := hget j
    rcases hA : cs[i]? with _ | a <;> rcases hB : cs[j]? with _ | b <;>
      rcases hA1 : cs1[i]? with _ | a1 <;> rcases hB1 : cs1[j]? with _ | b1 <;>
      simp only [hA, hB, hA1, hB1, Option.map_none', Option.map_some', Option.some.injEq,
        reduceCtorEq] at hi hj <;>
      simp only [ih, hi, hj]

theorem intersectingPairs_outer_congr (cs cs1 : List (Collider K))
    (h : cs1.map Collider.worldAABB = cs.map Collider.worldAABB) :
    ∀ count i, intersectingPairs.outer cs1 count i = intersectingPairs.outer cs count i := by
  have hlen : cs1.length = cs.length := by
    have := congrArg List.length h
    simpa using this
  intro count
  induction count with
  | zero => intro i; rfl
  | succ count ih =>
    intro i
    unfold intersectingPairs.outer
    rw [ih, hlen, intersectingPairs_inner_congr cs cs1 h]

/-- The inner loop of `collision.update` calls `GJK` on an initial segment of the intersecting
pairs of its row, on all of them when it comes to its end, and keeps the boxes. -/
theorem update_inner_spec (sqrt : K → K) (fuel : Nat) (i : Nat) :
    ∀ (count j : Nat) (cs : List (Collider K)) (calls : List (Nat × Nat)),
      ∃ done, (collision.update.inner sqrt fuel i count j cs calls).calls = calls ++ done ∧
        done <+: intersectingPairs.inner cs i count j ∧
        ∀ cs1, (collision.update.inner sqrt fuel i count j cs calls).result = Run.ok cs1 →
          done = intersectingPairs.inner cs i count j ∧
          cs1.map Collider.worldAABB = cs.map Collider.worldAABB := by
  intro count
  induction count with
  | zero =>
    intro j cs calls
    refine ⟨[], by simp [collision.update.inner], List.nil_prefix, ?_⟩
    intro cs1 h
    simp only [collision.update.inner, Run.ok.injEq] at h
    exact ⟨rfl, by rw [h]⟩
  | succ count ih =>
    intro j cs calls
    unfold collision.update.inner intersectingPairs.inner
    rcases hA : cs[i]? with _ | a
    · exact ⟨[], by simp, List.nil_prefix, fun _ h => by simp at h⟩
    rcases hB : cs[j]? with _ | b
    · exact ⟨[], by simp, List.nil_prefix, fun _ h => by simp at h⟩
    simp only []
    by_cases hint : a.worldAABB.intersectsBox b.worldAABB = true
    · rw [if_pos hint, if_pos hint]
      rcases hG : GJK sqrt fuel a b (a.worldCentroid.sub b.worldCentroid) with ⟨a1, b1⟩ | _ | _
      · simp only []
        obtain ⟨hab1, hab2⟩ := GJK_worldAABB sqrt fuel a b a1 b1 _ hG
        have hbox := map_worldAABB_set cs i j a b a1 b1 hA hB hab1 hab2
        obtain ⟨done, hcalls, hpre, hok⟩ :=
          ih (j + 1) ((cs.set i a1).set j b1) (calls ++ [(i, j)])
        rw [intersectingPairs_inner_congr cs _ hbox] at hpre hok
        refine ⟨(i, j) :: done, ?_, ?_, ?_⟩
        · rw [hcalls, List.append_assoc]
          rfl
        · exact (List.prefix_cons_inj _).mpr hpre
        · intro cs1 h
          obtain ⟨h1, h2⟩ := hok cs1 h
          exact ⟨by rw [h1], h2.trans hbox⟩
      · exact ⟨[(i, j)], rfl, by simp, fun _ h => by simp at h⟩
      · exact ⟨[(i, j)], rfl, by simp, fun _ h => by simp at h⟩
    · rw [if_neg hint, if_neg hint]
      exact ih (j + 1) cs calls

/-- The outer loop of `collision.update` calls `GJK` on an initial segment of the intersecting
pairs, on all of them when it comes to its end, and keeps the boxes. -/
theorem update_outer_spec (sqrt : K → K) (fuel : Nat) :
    ∀ (count i : Nat) (cs : List (Collider K)) (calls : List (Nat × Nat)),
      ∃ done, (collision.update.outer sqrt fuel count i cs calls).calls = calls ++ done ∧
        done <+: intersectingPairs.outer cs count i ∧
        ∀ cs1, (collision.update.outer sqrt fuel count i cs calls).result = Run.ok cs1 →
          done = intersectingPairs.outer cs count i ∧
          cs1.map Collider.worldAABB = cs.map Collider.worldAABB := by
  intro count
  induction count with
  | zero =>
    intro i cs calls
    refine ⟨[], by simp [collision.update.outer], List.nil_prefix, ?_⟩
    intro cs1 h
    simp only [collision.update.outer, Run.ok.injEq] at h
    exact ⟨rfl, by rw [h]⟩
  | succ count ih =>
    intro i cs calls
    unfold collision.update.outer intersectingPairs.outer
    obtain ⟨done, hcalls, hpre, hok⟩ :=
      update_inner_spec sqrt fuel i (cs.length - (i + 1)) (i + 1) cs calls
    rcases hin : collision.update.inner sqrt fuel i (cs.length - (i + 1)) (i + 1) cs calls
      with ⟨calls1, cs1 | _ | _⟩
    · rw [hin] at hcalls hok
      simp only [] at hcalls hok ⊢
      obtain ⟨hdone, hbox⟩ := hok cs1 rfl
      obtain ⟨done1, hcalls1, hpre1, hok1⟩ := ih (i + 1) cs1 calls1
      rw [intersectingPairs_outer_congr cs cs1 hbox] at hpre1 hok1
      refine ⟨done ++ done1, ?_, ?_, ?_⟩
      · rw [hcalls1, hcalls, List.append_assoc]
      · rw [hdone]
        exact (List.prefix_append_right_inj _).mpr hpre1
      · intro cs2 h
        obtain ⟨h1, h2⟩ := hok1 cs2 h
        exact ⟨by rw [h1, hdone], h2.trans hbox⟩
    · rw [hin] at hcalls
      simp only [] at hcalls ⊢
      exact ⟨done, hcalls, hpre.trans (List.prefix_append _ _), fun _ h => by simp at h⟩
    · rw [hin] at hcalls
      simp only [] at hcalls ⊢
      exact ⟨done, hcalls, hpre.trans (List.prefix_append _ _), fun _ h => by simp at h⟩

theorem mem_intersectingPairs_inner (cs : List (Collider K)) (i : Nat) :
    ∀ (count j : Nat) (p : Nat × Nat), p ∈ intersectingPairs.inner cs i count j ↔
      p.1 = i ∧ j ≤ p.2 ∧ p.2 < j + count ∧
        ∃ a b, cs[i]? = some a ∧ cs[p.2]? = some b ∧
          a.worldAABB.intersectsBox b.worldAABB = true := by
  intro count
  induction count with
  | zero =>
    intro j p
    simp only [intersectingPairs.inner, List.not_mem_nil, false_iff]
    rintro ⟨_, h1, h2, _⟩
    omega
  | succ count ih =>
    intro j p
    have step : (p.1 = i ∧ j + 1 ≤ p.2 ∧ p.2 < j + 1 + count ∧
        ∃ a b, cs[i]? = some a ∧ cs[p.2]? = some b ∧
          a.worldAABB.intersectsBox b.worldAABB = true) →
        (p.1 = i ∧ j ≤ p.2 ∧ p.2 < j + (count + 1) ∧
        ∃ a b, cs[i]? = some a ∧ cs[p.2]? = some b ∧
          a.worldAABB.intersectsBox b.worldAABB = true) := by
      rintro ⟨h1, h2, h3, h4⟩
      exact ⟨h1, by omega, by omega, h4⟩
    have back : ¬ (∃ a b, cs[i]? = some a ∧ cs[j]? = some b ∧
          a.worldAABB.intersectsBox b.worldAABB = true) →
        (p.1 = i ∧ j ≤ p.2 ∧ p.2 < j + (count + 1) ∧
        ∃ a b, cs[i]? = some a ∧ cs[p.2]? = some b ∧
          a.worldAABB.intersectsBox b.worldAABB = true) →
        (p.1 = i ∧ j + 1 ≤ p.2 ∧ p.2 < j + 1 + count ∧
        ∃ a b, cs[i]? = some a ∧ cs[p.2]? = some b ∧
          a.worldAABB.intersectsBox b.worldAABB = true) := by
      rintro hno ⟨h1, h2, h3, h4⟩
      have hne : p.2 ≠ j := by
        intro he
        rw [he] at h4
        exact hno h4
      exact ⟨h1, by omega, by omega, h4⟩
    by_cases hex : ∃ a b, cs[i]? = some a ∧ cs[j]? = some b ∧
        a.worldAABB.intersectsBox b.worldAABB = true
    · have heq : intersectingPairs.inner cs i (count + 1) j =
          (i, j) :: intersectingPairs.inner cs i count (j + 1) := by
        obtain ⟨a, b, hA, hB, hint⟩ := hex
        conv_lhs => unfold intersectingPairs.inner
        rw [hA, hB]
        simp only []
        rw [if_pos hint]
      rw [heq, List.mem_cons, ih]
      constructor
      · rintro (rfl | h)
        · exact ⟨rfl, le_refl _, by omega, hex⟩
        · exact step h
      · rintro ⟨h1, h2, h3, h4⟩
        by_cases he : p.2 = j
        · left
          exact Prod.ext h1 he
        · right
          exact ⟨h1, by omega, by omega, h4⟩
    · have heq : intersectingPairs.inner cs i (count + 1) j =
          intersectingPairs.inner cs i count (j + 1) := by
        conv_lhs => unfold intersectingPairs.inner
        rcases hA : cs[i]? with _ | a
        · rfl
        rcases hB : cs[j]? with _ | b
        · rfl
        simp only []
        by_cases hint : a.worldAABB.intersectsBox b.worldAABB = true
        · exact absurd ⟨a, b, hA, hB, hint⟩ hex
        · rw [if_neg hint]
      rw [heq, ih]
      exact ⟨step, back hex⟩

theorem mem_intersectingPairs_outer (cs : List (Collider K)) :
    ∀ (count i : Nat) (p : Nat × Nat), p ∈ intersectingPairs.outer cs count i ↔
      i ≤ p.1 ∧ p.1 < i + count ∧ p.1 < p.2 ∧
        ∃ a b, cs[p.1]? = some a ∧ cs[p.2]? = some b ∧
          a.worldAABB.intersectsBox b.worldAABB = true := by
  intro count
  induction count with
  | zero =>
    intro i p
    simp only [intersectingPairs.outer, List.not_mem_nil, false_iff]
    rintro ⟨h1, h2, _⟩
    omega
  | succ count ih =>
    intro i p
    unfold intersectingPairs.outer
    rw [List.mem_append, mem_intersectingPairs_inner, ih]
    constructor
    · rintro (⟨h1, h2, h3, h4⟩ | ⟨h1, h2, h3, h4⟩)
      · rw [← h1] at h4
        exact ⟨by omega, by omega, by omega, h4⟩
      · exact ⟨by omega, by omega, h3, h4⟩
    · rintro ⟨h1, h2, h3, a, b, ha, hb, hint⟩
      by_cases he : p.1 = i
      · left
        have hlt : p.2 < cs.length := by
          rcases Nat.lt_or_ge p.2 cs.length with h | h
          · exact h
          · rw [List.getElem?_eq_none h] at hb
            simp at hb
        rw [he] at ha
        exact ⟨he, by omega, by omega, a, b, ha, hb, hint⟩
      · right
        exact ⟨by omega, by omega, h3, a, b, ha, hb, hint⟩

/-- The pairs of `intersectingPairs` are the pairs of positions `i < j` of the array whose
boxes intersect. -/
theorem mem_intersectingPairs (cs : List (Collider K)) (p : Nat × Nat) :
    p ∈ intersectingPairs cs ↔
      p.1 < p.2 ∧ ∃ a b, cs[p.1]? = some a ∧ cs[p.2]? = some b ∧
        a.worldAABB.intersectsBox b.worldAABB = true := by
  unfold intersectingPairs
  rw [mem_intersectingPairs_outer]
  constructor
  · rintro ⟨_, _, h3, h4⟩
    exact ⟨h3, h4⟩
  · rintro ⟨h3, a, b, ha, hb, hint⟩
    have hlt : p.1 < cs.length := by
      rcases Nat.lt_or_ge p.1 cs.length with h | h
      · exact h
      · rw [List.getElem?_eq_none h] at ha
        simp at ha
    exact ⟨Nat.zero_le _, by omega, h3, a, b, ha, hb, hint⟩

theorem nodup_intersectingPairs_inner (cs : List (Collider K)) (i : Nat) :
    ∀ count j, (intersectingPairs.inner cs i count j).Nodup := by
  intro count
  induction count with
  | zero => intro j; exact List.nodup_nil
  | succ count ih =>
    intro j
    unfold intersectingPairs.inner
    rcases cs[i]? with _ | a
    · exact ih _
    rcases cs[j]? with _ | b
    · exact ih _
    simp only []
    by_cases hint : a.worldAABB.intersectsBox b.worldAABB = true
    · rw [if_pos hint, List.nodup_cons]
      refine ⟨?_, ih _⟩
      rw [mem_intersectingPairs_inner]
      rintro ⟨_, h, _⟩
      simp only at h
      omega
    · rw [if_neg hint]
      exact ih _

theorem nodup_intersectingPairs_outer (cs : List (Collider K)) :
    ∀ count i, (intersectingPairs.outer cs count i).Nodup := by
  intro count
  induction count with
  | zero => intro i; exact List.nodup_nil
  | succ count ih =>
    intro i
    unfold intersectingPairs.outer
    refine List.Nodup.append (nodup_intersectingPairs_inner cs i _ _) (ih _) ?_
    intro p h1 h2
    rw [mem_intersectingPairs_inner] at h1
    rw [mem_intersectingPairs_outer] at h2
    omega

theorem update_inner_none (sqrt : K → K) (fuel : Nat) (i : Nat) :
    ∀ (count j : Nat) (cs : List (Collider K)) (calls : List (Nat × Nat)),
      i < cs.length → j + count = cs.length → intersectingPairs.inner cs i count j = [] →
      collision.update.inner sqrt fuel i count j cs calls = ⟨calls, Run.ok cs⟩ := by
  intro count
  induction count with
  | zero => intro j cs calls _ _ _; rfl
  | succ count ih =>
    intro j cs calls hi hj hnone
    unfold intersectingPairs.inner at hnone
    unfold collision.update.inner
    rw [List.getElem?_eq_getElem hi, List.getElem?_eq_getElem (show j < cs.length by omega)]
      at hnone ⊢
    simp only [] at hnone ⊢
    by_cases hint : cs[i].worldAABB.intersectsBox cs[j].worldAABB = true
    · rw [if_pos hint] at hnone
      simp at hnone
    · rw [if_neg hint] at hnone ⊢
      exact ih (j + 1) cs calls hi (by omega) hnone

theorem update_outer_none (sqrt : K → K) (fuel : Nat) :
    ∀ (count i : Nat) (cs : List (Collider K)) (calls : List (Nat × Nat)),
      i + count = cs.length → intersectingPairs.outer cs count i = [] →
      collision.update.outer sqrt fuel count i cs calls = ⟨calls, Run.ok cs⟩ := by
  intro count
  induction count with
  | zero => intro i cs calls _ _; rfl
  | succ count ih =>
    intro i cs calls hi hnone
    unfold intersectingPairs.outer at hnone
    rw [List.append_eq_nil] at hnone
    unfold collision.update.outer
    rw [update_inner_none sqrt fuel i _ _ cs calls (by omega) (by omega) hnone.1]
    exact ih (i + 1) cs calls (by omega) hnone.2

theorem updates_none (sqrt : K → K) (fuel : Nat) (cs : List (Collider K))
    (h : intersectingPairs cs = []) :
    ∀ k, collision.updates sqrt fuel k cs = Run.ok cs := by
  intro k
  induction k with
  | zero => rfl
  | succ k ih =>
    unfold collision.updates
    rw [show collision.update sqrt fuel cs = ⟨[], Run.ok cs⟩ from
      update_outer_none sqrt fuel cs.length 0 cs [] (by omega) h]
    exact ih

/-- The calls of `collision.update`: it invokes `GJK` on the pairs of positions
`i < j` whose world boxes intersect, in lexicographic order, never on another pair and never
twice on one; it invokes it on each of them exactly once when the run comes to its end, and on
an initial segment of them when a `GJK` call does not come back.  When no two boxes intersect,
`collision.update` makes no call and leaves the array as it is, every velocity and angular
velocity with it, once or any number of times in a row, whatever the fuel. -/
theorem collision_update_pairs (sqrt : K → K) (fuel : Nat) (colliders : List (Collider K)) :
    (∀ p : Nat × Nat, p ∈ intersectingPairs colliders ↔
      p.1 < p.2 ∧ ∃ a b, colliders[p.1]? = some a ∧ colliders[p.2]? = some b ∧
        a.worldAABB.intersectsBox b.worldAABB = true) ∧
    (intersectingPairs colliders).Nodup ∧
    (collision.update sqrt fuel colliders).calls <+: intersectingPairs colliders ∧
    (∀ colliders1, (collision.update sqrt fuel colliders).result = Run.ok colliders1 →
      (collision.update sqrt fuel colliders).calls = intersectingPairs colliders) ∧
    (intersectingPairs colliders = [] →
      collision.update sqrt fuel colliders = ⟨[], Run.ok colliders⟩ ∧
      ∀ k, collision.updates sqrt fuel k colliders = Run.ok colliders) := by
  obtain ⟨done, hcalls, hpre, hok⟩ :=
    update_outer_spec sqrt fuel colliders.length 0 colliders []
  rw [List.nil_append] at hcalls
  refine ⟨mem_intersectingPairs colliders, nodup_intersectingPairs_outer colliders _ _, ?_, ?_, ?_⟩
  · unfold collision.update intersectingPairs
    rw [hcalls]
    exact hpre
  · intro cs1 h
    unfold collision.update at h ⊢
    unfold intersectingPairs
    rw [hcalls]
    exact (hok cs1 h).1
  · intro h
    exact ⟨update_outer_none sqrt fuel colliders.length 0 colliders [] (by omega) h,
      updates_none sqrt fuel colliders h⟩

/-- A run of `collision.update` on two colliders whose boxes intersect and on which `GJK`
comes back. -/
theorem update_pair (sqrt : K → K) (fuel : Nat) (colA colB colA1 colB1 : Collider K)
    (hint : colA.worldAABB.intersectsBox colB.worldAABB = true)
    (hG : GJK sqrt fuel colA colB (colA.worldCentroid.sub colB.worldCentroid) =
      Run.ok (colA1, colB1)) :
    collision.update sqrt fuel [colA, colB] = ⟨[(0, 1)], Run.ok [colA1, colB1]⟩ := by
  simp [collision.update, collision.update.outer, collision.update.inner, hint, hG]

/-- A run of `collision.update` whose first pair has intersecting boxes and a `GJK` call that
ends in a `TypeError`. -/
theorem update_first_typeError (sqrt : K → K) (fuel : Nat) (colA colB : Collider K)
    (rest : List (Collider K))
    (hint : colA.worldAABB.intersectsBox colB.worldAABB = true)
    (hG : GJK sqrt fuel colA colB (colA.worldCentroid.sub colB.worldCentroid) =
      Run.typeError) :
    collision.update sqrt fuel (colA :: colB :: rest) = ⟨[(0, 1)], Run.typeError⟩ := by
  simp [collision.update, collision.update.outer, collision.update.inner, hint, hG]

set_option maxHeartbeats 4000000 in
/-- The narrow-phase loop on `hullVertices` against the origin, for any square root that is
exact at 36, 64, 144 and 196: three passes, then case 4 answers `true`. -/
theorem hull_intersects (sqrt : K → K) (h36 : sqrt 36 = 6) (h64 : sqrt 64 = 8)
    (h144 : sqrt 144 = 12) (h196 : sqrt 196 = 14) (n : Nat) :
    GJK.intersects sqrt (n + 3) hullVertices [(⟨0, 0, 0⟩ : Vector3 K)] ⟨1 / 6, 1 / 2, 1⟩ =
      Run.ok (some hullSimplex) := by
  norm_num [GJK.intersects, GJK.loop, support, getFurthestPointInDirection,
    getFurthestPointInDirection.loop, exceeds, hullVertices, hullSimplex, Vector3.dot,
    Vector3.negate, Vector3.sub, Vector3.cross, Vector3.add, Vector3.multiplyScalar,
    evaluateAndChangeDir, Vector3.normalize, Vector3.length, Vector3.divideScalar,
    h36, h64, h144, h196]

set_option maxHeartbeats 4000000 in
/-- The first pass of the loop of `EPA` on `hullSimplex`: the closest face is the one through
the origin, the support point `(2, 0, 2)` lies beyond it, it is pushed, and `expand` finds
that all four faces see it, so that every edge is entered twice and no face is left. -/
theorem hull_EPA_pass (sqrt : K → K) (h36 : sqrt 36 = 6) (h64 : sqrt 64 = 8)
    (h144 : sqrt 144 = 12) (h196 : sqrt 196 = 14) :
    EPA.pass sqrt hullVertices [(⟨0, 0, 0⟩ : Vector3 K)] hullSimplex EPA.seedFaces =
      Pass.next (hullSimplex ++ [(⟨2, 0, 2⟩, ⟨2, 0, 2⟩)], []) := by
  norm_num [EPA.pass, EPA.seedFaces, findClosestFace, findClosestFace.loop, epsilon,
    expand, expand.removalFaces, expand.edges, expand.toggle, edgeInEdges, edgeInEdges.loop,
    support, getFurthestPointInDirection,
    getFurthestPointInDirection.loop, exceeds, hullVertices, hullSimplex,
    Vector3.dot, Vector3.zero,
    Vector3.negate, Vector3.sub, Vector3.cross, Vector3.add, Vector3.multiplyScalar,
    Vector3.normalize, Vector3.length, Vector3.divideScalar, h36, h64, h144, h196]

/-- With no face left, the next pass of `EPA` reads `face.normal` of the record that
holds only `dist: Infinity`, and `support` fails on the undefined direction. -/
theorem EPA_pass_no_faces (sqrt : K → K) (vertA vertB : List (Vector3 K))
    (simplex : Simplex K) :
    EPA.pass sqrt vertA vertB simplex [] = Pass.leave Run.typeError := rfl

theorem Real_sqrt_36 : Real.sqrt 36 = 6 := by
  rw [show (36 : ℝ) = 6 * 6 by norm_num]
  exact Real.sqrt_mul_self (by norm_num)

theorem Real_sqrt_64 : Real.sqrt 64 = 8 := by
  rw [show (64 : ℝ) = 8 * 8 by norm_num]
  exact Real.sqrt_mul_self (by norm_num)

theorem Real_sqrt_144 : Real.sqrt 144 = 12 := by
  rw [show (144 : ℝ) = 12 * 12 by norm_num]
  exact Real.sqrt_mul_self (by norm_num)

theorem Real_sqrt_196 : Real.sqrt 196 = 14 := by
  rw [show (196 : ℝ) = 14 * 14 by norm_num]
  exact Real.sqrt_mul_self (by norm_num)

/-- `EPA` on `hullSimplex` ends in a `TypeError` in its second pass, whatever the fuel from 2
on. -/
theorem hull_EPA (sqrt : K → K) (h36 : sqrt 36 = 6) (h64 : sqrt 64 = 8)
    (h144 : sqrt 144 = 12) (h196 : sqrt 196 = 14) (n : Nat) :
    EPA sqrt (n + 2) hullVertices [(⟨0, 0, 0⟩ : Vector3 K)] hullSimplex = Run.typeError := by
  unfold EPA
  rw [EPA_loop_pass, hull_EPA_pass sqrt h36 h64 h144 h196]
  simp only []
  rw [EPA_loop_pass, EPA_pass_no_faces]

/-- The call `GJK(colA, colB, dir)` that `collision.update` makes on the hull and the point at
the origin ends in a `TypeError`, whatever the bodies and the fuel from 3 on. -/
theorem hull_GJK (sqrt : K → K) (h36 : sqrt 36 = 6) (h64 : sqrt 64 = 8)
    (h144 : sqrt 144 = 12) (h196 : sqrt 196 = 14) (n : Nat) (physA physB : Option (Physics K)) :
    GJK sqrt (n + 3) (hullCollider physA) (pointCollider physB)
      ((hullCollider physA).worldCentroid.sub (pointCollider physB).worldCentroid) =
      Run.typeError := by
  have hdir : (hullCollider physA).worldCentroid.sub (pointCollider physB).worldCentroid =
      ⟨1 / 6, 1 / 2, 1⟩ := by
    simp [hullCollider, pointCollider, Vector3.sub]
  rw [hdir]
  unfold GJK GJK.call
  have h1 : GJK.intersects sqrt (n + 3) (hullCollider physA).worldVertices
      (pointCollider physB).worldVertices ⟨1 / 6, 1 / 2, 1⟩ = Run.ok (some hullSimplex) :=
    hull_intersects sqrt h36 h64 h144 h196 n
  have h2 : EPA sqrt (n + 3) (hullCollider physA).worldVertices
      (pointCollider physB).worldVertices hullSimplex = Run.typeError :=
    hull_EPA sqrt h36 h64 h144 h196 (n + 1)
  simp only [h1, h2]

/-- C11 (code defect): `collision.update` does not invoke `GJK` on every pair of colliders
whose world boxes intersect.  On the hull, the point at the origin and the unit cube, in real
arithmetic, all three pairs of boxes intersect; the call on the first pair ends in a
`TypeError` inside `EPA` (`expand` has removed every face), nothing catches it, so
`collision.update` ends with it and `GJK` is never invoked on the pairs `(0, 2)` and
`(1, 2)`. -/
theorem update_stops_at_TypeError :
    intersectingPairs [hullCollider none, pointCollider none, originCube ℝ] =
      [(0, 1), (0, 2), (1, 2)] ∧
    collision.update Real.sqrt 4 [hullCollider none, pointCollider none, originCube ℝ] =
      ⟨[(0, 1)], Run.typeError⟩ ∧
    (0, 2) ∉ (collision.update Real.sqrt 4
      [hullCollider none, pointCollider none, originCube ℝ]).calls ∧
    (1, 2) ∉ (collision.update Real.sqrt 4
      [hullCollider none, pointCollider none, originCube ℝ]).calls := by
  have hrun : collision.update Real.sqrt 4
      [hullCollider none, pointCollider none, originCube ℝ] = ⟨[(0, 1)], Run.typeError⟩ :=
    update_first_typeError Real.sqrt 4 (hullCollider none) (pointCollider none) [originCube ℝ]
      (by norm_num [Box3.intersectsBox, hullCollider, pointCollider])
      (hull_GJK Real.sqrt Real_sqrt_36 Real_sqrt_64 Real_sqrt_144 Real_sqrt_196 1 none none)
  refine ⟨?_, hrun, ?_, ?_⟩
  · norm_num [intersectingPairs, intersectingPairs.outer, intersectingPairs.inner,
      Box3.intersectsBox, hullCollider, pointCollider, originCube, boxCollider]
  · rw [hrun]
    decide
  · rw [hrun]
    decide

/-- The call `GJK(colA, colB, dir)` that `collision.update` makes on the tetrahedron and the
point at the origin, in real arithmetic. -/
theorem tetra_GJK (physA physB : Option (Physics ℝ)) :
    GJK Real.sqrt 4 (tetraCollider physA) (pointCollider physB)
      ((tetraCollider physA).worldCentroid.sub (pointCollider physB).worldCentroid) =
      Run.ok ((GJK.respond (tetraCollider physA) (pointCollider physB) tetraContact).run
        (tetraCollider physA) (pointCollider physB)) := by
  have hdir : (tetraCollider physA).worldCentroid.sub (pointCollider physB).worldCentroid =
      ⟨1 / 8, 0, 1 / 4⟩ := by
    simp [tetraCollider, pointCollider, Vector3.sub]
  rw [hdir]
  unfold GJK
  rw [GJK_call_of_contact Real.sqrt 4 _ _ _ tetraSimplex tetraContact tetra_intersects_real
    tetra_EPA_real]

theorem collision_update_pairs_witness :
    ((collision.update Real.sqrt 4
        [tetraCollider (some restingBody), pointCollider none]).result =
        Run.ok [((GJK.respond (tetraCollider (some restingBody)) (pointCollider none)
            tetraContact).run (tetraCollider (some restingBody)) (pointCollider none)).1,
          ((GJK.respond (tetraCollider (some restingBody)) (pointCollider none)
            tetraContact).run (tetraCollider (some restingBody)) (pointCollider none)).2] ∧
      (collision.update Real.sqrt 4
        [tetraCollider (some restingBody), pointCollider none]).calls =
        intersectingPairs [tetraCollider (some (restingBody (K := ℝ))), pointCollider none]) ∧
    (intersectingPairs [originCube ℚ, farCube ℚ] = [] ∧
      collision.update (fun _ => 1) 0 [originCube ℚ, farCube ℚ] =
        ⟨[], Run.ok [originCube ℚ, farCube ℚ]⟩ ∧
      ∀ k, collision.updates (fun _ => 1) 0 k [originCube ℚ, farCube ℚ] =
        Run.ok [originCube ℚ, farCube ℚ]) :=
  have hrun : collision.update Real.sqrt 4
      [tetraCollider (some restingBody), pointCollider none] = ⟨[(0, 1)], Run.ok _⟩ :=
    update_pair Real.sqrt 4 (tetraCollider (some restingBody)) (pointCollider none) _ _
      (by norm_num [Box3.intersectsBox, tetraCollider, pointCollider])
      (tetra_GJK (some restingBody) none)
  have hnone : intersectingPairs [originCube ℚ, farCube ℚ] = [] := by decide!
  ⟨⟨by rw [hrun]; rfl,
      (collision_update_pairs Real.sqrt 4
        [tetraCollider (some restingBody), pointCollider none]).2.2.2.1 _ (by rw [hrun])⟩,
    hnone,
    (collision_update_pairs (fun _ => 1) 0 [originCube ℚ, farCube ℚ]).2.2.2.2 hnone⟩

/-! ### Claim C13: termination -/

theorem findClosestFace_loop_cons (sqrt : K → K) (simplex : Simplex K) (g : Face)
    (rest : List Face) (i : Nat) (closest : Option (ClosestFace K)) (a b c : SupportPair K)
    (h : FaceAt simplex g a b c) :
    findClosestFace.loop sqrt simplex (g :: rest) i closest =
      if (match closest with
          | none => true
          | some cl => decide (a.1.dot (faceNormal sqrt a.1 b.1 c.1) < cl.dist)) = true then
        findClosestFace.loop sqrt simplex rest (i + 1)
          (some ⟨i, a.1.dot (faceNormal sqrt a.1 b.1 c.1), faceNormal sqrt a.1 b.1 c.1, a, b, c⟩)
      else findClosestFace.loop sqrt simplex rest (i + 1) closest := by
  obtain ⟨ha, hb, hc⟩ := h
  conv_lhs => unfold findClosestFace.loop
  simp only [ha, hb, hc]
  rfl

theorem removalFaces_cons (sqrt : K → K) (simplex : Simplex K) (p : Vector3 K) (g : Face)
    (rest : List Face) (i : Nat) (a b c : SupportPair K) (h : FaceAt simplex g a b c) :
    expand.removalFaces sqrt simplex p (g :: rest) i =
      match expand.removalFaces sqrt simplex p rest (i + 1) with
      | Run.ok later =>
        Run.ok (if (faceNormal sqrt a.1 b.1 c.1).dot (p.sub a.1) > 0 then i :: later else later)
      | Run.typeError => Run.typeError
      | Run.outOfFuel => Run.outOfFuel := by
  obtain ⟨ha, hb, hc⟩ := h
  conv_lhs => unfold expand.removalFaces
  simp only [ha, hb, hc]
  rfl

/-- With a positive square root, `faceNormal` is the cross product times `1 / |N|`, negated
when `a · N` is negative. -/
theorem faceNormal_eq (sqrt : K → K) (hpos : ∀ x : K, 0 < x → 0 < sqrt x) (a b c : Vector3 K)
    (hN : 0 < (faceCross a b c).dot (faceCross a b c)) :
    faceNormal sqrt a b c =
      (faceCross a b c).multiplyScalar
        (if a.dot (faceCross a b c) < 0 then -(1 / sqrt ((faceCross a b c).dot (faceCross a b c)))
         else 1 / sqrt ((faceCross a b c).dot (faceCross a b c))) := by
  have hlen : 0 < sqrt ((faceCross a b c).dot (faceCross a b c)) := hpos _ hN
  have hk : 0 < 1 / sqrt ((faceCross a b c).dot (faceCross a b c)) := one_div_pos.mpr hlen
  have hnorm : (faceCross a b c).normalize sqrt =
      (faceCross a b c).multiplyScalar (1 / sqrt ((faceCross a b c).dot (faceCross a b c))) := by
    unfold Vector3.normalize Vector3.divideScalar
    have : (faceCross a b c).length sqrt = sqrt ((faceCross a b c).dot (faceCross a b c)) := rfl
    rw [this, if_neg (ne_of_gt hlen)]
  unfold faceNormal
  simp only [hnorm]
  have hdot : (Vector3.zero.sub a).dot ((faceCross a b c).multiplyScalar
      (1 / sqrt ((faceCross a b c).dot (faceCross a b c)))) =
      -(1 / sqrt ((faceCross a b c).dot (faceCross a b c)) * a.dot (faceCross a b c)) := by
    simp only [Vector3.dot, Vector3.sub, Vector3.zero, Vector3.multiplyScalar]
    ring
  rw [hdot]
  by_cases h : a.dot (faceCross a b c) < 0
  · rw [if_pos h, if_pos (by nlinarith), Vector3.negate_multiplyScalar]
  · rw [if_neg h, if_neg (by nlinarith)]

theorem faceNormal_dist_nonneg (sqrt : K → K) (hpos : ∀ x : K, 0 < x → 0 < sqrt x)
    (a b c : Vector3 K) (hN : 0 < (faceCross a b c).dot (faceCross a b c)) :
    0 ≤ a.dot (faceNormal sqrt a b c) := by
  have hk : 0 < 1 / sqrt ((faceCross a b c).dot (faceCross a b c)) :=
    one_div_pos.mpr (hpos _ hN)
  rw [faceNormal_eq sqrt hpos a b c hN, Vector3.dot_multiplyScalar]
  by_cases h : a.dot (faceCross a b c) < 0
  · rw [if_pos h]; nlinarith
  · rw [if_neg h]; nlinarith

theorem faceNormal_dist_pos (sqrt : K → K) (hpos : ∀ x : K, 0 < x → 0 < sqrt x)
    (a b c : Vector3 K) (hN : 0 < (faceCross a b c).dot (faceCross a b c))
    (hD : a.dot (faceCross a b c) ≠ 0) :
    0 < a.dot (faceNormal sqrt a b c) := by
  have hk : 0 < 1 / sqrt ((faceCross a b c).dot (faceCross a b c)) :=
    one_div_pos.mpr (hpos _ hN)
  rw [faceNormal_eq sqrt hpos a b c hN, Vector3.dot_multiplyScalar]
  by_cases h : a.dot (faceCross a b c) < 0
  · rw [if_pos h]; nlinarith
  · rw [if_neg h]
    have : 0 < a.dot (faceCross a b c) := lt_of_le_of_ne (not_lt.mp h) (Ne.symm hD)
    positivity

theorem faceNormal_dist_zero (sqrt : K → K) (hpos : ∀ x : K, 0 < x → 0 < sqrt x)
    (a b c : Vector3 K) (hN : 0 < (faceCross a b c).dot (faceCross a b c))
    (hD : a.dot (faceCross a b c) = 0) :
    faceNormal sqrt a b c = (faceCross a b c).multiplyScalar
        (1 / sqrt ((faceCross a b c).dot (faceCross a b c))) ∧
      a.dot (faceNormal sqrt a b c) = 0 := by
  have h1 : faceNormal sqrt a b c = (faceCross a b c).multiplyScalar
      (1 / sqrt ((faceCross a b c).dot (faceCross a b c))) := by
    rw [faceNormal_eq sqrt hpos a b c hN, if_neg (by rw [hD]; exact lt_irrefl 0)]
  refine ⟨h1, ?_⟩
  rw [h1, Vector3.dot_multiplyScalar, hD, mul_zero]

theorem faceNormal_hidden (sqrt : K → K) (hpos : ∀ x : K, 0 < x → 0 < sqrt x)
    (a b c v : Vector3 K) (hN : 0 < (faceCross a b c).dot (faceCross a b c))
    (h : Hidden a b c v) :
    ¬ (faceNormal sqrt a b c).dot (v.sub a) > 0 := by
  have hk : 0 < 1 / sqrt ((faceCross a b c).dot (faceCross a b c)) :=
    one_div_pos.mpr (hpos _ hN)
  have hcomm : ∀ (n : Vector3 K) (k : K), (n.multiplyScalar k).dot (v.sub a) =
      k * n.dot (v.sub a) := by
    intro n k
    simp only [Vector3.dot, Vector3.multiplyScalar]
    ring
  rw [faceNormal_eq sqrt hpos a b c hN, hcomm]
  unfold Hidden at h
  by_cases h0 : a.dot (faceCross a b c) < 0
  · rw [if_pos h0] at h ⊢
    nlinarith
  · rw [if_neg h0] at h ⊢
    nlinarith

theorem FaceAt_append (simplex : Simplex K) (x : SupportPair K) (g : Face)
    (a b c : SupportPair K) (h : FaceAt simplex g a b c) :
    FaceAt (simplex ++ [x]) g a b c := by
  have key : ∀ (i : Nat) (y : SupportPair K), simplex[i]? = some y →
      (simplex ++ [x])[i]? = some y := by
    intro i y hy
    have hlt : i < simplex.length := by
      rcases Nat.lt_or_ge i simplex.length with h | h
      · exact h
      · rw [List.getElem?_eq_none h] at hy
        simp at hy
    rw [List.getElem?_append_left hlt, hy]
  exact ⟨key _ _ h.1, key _ _ h.2.1, key _ _ h.2.2⟩

theorem FaceAt_lt (simplex : Simplex K) (g : Face) (a b c : SupportPair K)
    (h : FaceAt simplex g a b c) : g.c < simplex.length := by
  rcases Nat.lt_or_ge g.c simplex.length with h1 | h1
  · exact h1
  · have := h.2.2
    rw [List.getElem?_eq_none h1] at this
    simp at this

/-- Once a face at distance 0 is the closest, no later face replaces it. -/
theorem findClosestFace_loop_after (sqrt : K → K) (hpos : ∀ x : K, 0 < x → 0 < sqrt x)
    (simplex : Simplex K) :
    ∀ (post : List Face) (i : Nat) (cl : ClosestFace K), cl.dist = 0 →
      (∀ g ∈ post, ∃ a b c, FaceAt simplex g a b c ∧
        0 < (faceCross a.1 b.1 c.1).dot (faceCross a.1 b.1 c.1)) →
      findClosestFace.loop sqrt simplex post i (some cl) = Run.ok (some cl) := by
  intro post
  induction post with
  | nil => intro i cl _ _; rfl
  | cons g post ih =>
    intro i cl hcl hpost
    obtain ⟨a, b, c, hat, hN⟩ := hpost g (List.mem_cons_self _ _)
    rw [findClosestFace_loop_cons sqrt simplex g post i _ a b c hat]
    have hnn := faceNormal_dist_nonneg sqrt hpos a.1 b.1 c.1 hN
    simp only [hcl, decide_eq_true_eq]
    rw [if_neg (not_lt.mpr hnn)]
    exact ih (i + 1) cl hcl (fun g1 hg1 => hpost g1 (List.mem_cons_of_mem _ hg1))

/-- The loop of `findClosestFace` returns the first face through the origin when the faces
before it do not pass through the origin. -/
theorem findClosestFace_loop_first_zero (sqrt : K → K) (hpos : ∀ x : K, 0 < x → 0 < sqrt x)
    (simplex : Simplex K) (f : Face) (post : List Face) (a b c : SupportPair K)
    (hf : FaceAt simplex f a b c)
    (hN : 0 < (faceCross a.1 b.1 c.1).dot (faceCross a.1 b.1 c.1))
    (hD : a.1.dot (faceCross a.1 b.1 c.1) = 0)
    (hpost : ∀ g ∈ post, ∃ a b c, FaceAt simplex g a b c ∧
      0 < (faceCross a.1 b.1 c.1).dot (faceCross a.1 b.1 c.1)) :
    ∀ (pre : List Face) (i : Nat) (closest : Option (ClosestFace K)),
      (∀ cl, closest = some cl → 0 < cl.dist) →
      (∀ g ∈ pre, ∃ a b c, FaceAt simplex g a b c ∧
        0 < (faceCross a.1 b.1 c.1).dot (faceCross a.1 b.1 c.1) ∧
        a.1.dot (faceCross a.1 b.1 c.1) ≠ 0) →
      findClosestFace.loop sqrt simplex (pre ++ f :: post) i closest =
        Run.ok (some ⟨i + pre.length, a.1.dot (faceNormal sqrt a.1 b.1 c.1),
          faceNormal sqrt a.1 b.1 c.1, a, b, c⟩) := by
  have hzero := (faceNormal_dist_zero sqrt hpos a.1 b.1 c.1 hN hD).2
  intro pre
  induction pre with
  | nil =>
    intro i closest hcl _
    rw [List.nil_append, findClosestFace_loop_cons sqrt simplex f post i _ a b c hf]
    cases closest with
    | none =>
      simp only []
      rw [if_pos trivial]
      exact findClosestFace_loop_after sqrt hpos simplex post (i + 1) _ hzero hpost
    | some cl =>
      simp only [decide_eq_true_eq]
      rw [if_pos (by rw [hzero]; exact hcl cl rfl)]
      exact findClosestFace_loop_after sqrt hpos simplex post (i + 1) _ hzero hpost
  | cons g pre ih =>
    intro i closest hcl hpre
    obtain ⟨ga, gb, gc, hat, hgN, hgD⟩ := hpre g (List.mem_cons_self _ _)
    have hrest : ∀ g1 ∈ pre, ∃ a b c, FaceAt simplex g1 a b c ∧
        0 < (faceCross a.1 b.1 c.1).dot (faceCross a.1 b.1 c.1) ∧
        a.1.dot (faceCross a.1 b.1 c.1) ≠ 0 :=
      fun g1 hg1 => hpre g1 (List.mem_cons_of_mem _ hg1)
    have hidx : i + 1 + pre.length = i + (g :: pre).length := by
      rw [List.length_cons]; omega
    rw [List.cons_append, findClosestFace_loop_cons sqrt simplex g _ i _ ga gb gc hat]
    split_ifs
    · rw [ih (i + 1) _ ?_ hrest, hidx]
      intro cl h
      simp only [Option.some.injEq] at h
      rw [← h]
      exact faceNormal_dist_pos sqrt hpos ga.1 gb.1 gc.1 hgN hgD
    · rw [ih (i + 1) closest hcl hrest, hidx]

/-- The first loop of `expand` on faces that do not see the point. -/
theorem removalFaces_hidden (sqrt : K → K) (hpos : ∀ x : K, 0 < x → 0 < sqrt x)
    (simplex : Simplex K) (p : Vector3 K) :
    ∀ (faces : List Face) (i : Nat),
      (∀ g ∈ faces, ∃ a b c, FaceAt simplex g a b c ∧
        0 < (faceCross a.1 b.1 c.1).dot (faceCross a.1 b.1 c.1) ∧ Hidden a.1 b.1 c.1 p) →
      expand.removalFaces sqrt simplex p faces i = Run.ok [] := by
  intro faces
  induction faces with
  | nil => intro i _; rfl
  | cons g faces ih =>
    intro i h
    obtain ⟨a, b, c, hat, hN, hh⟩ := h g (List.mem_cons_self _ _)
    rw [removalFaces_cons sqrt simplex p g faces i a b c hat,
      ih (i + 1) (fun g1 hg1 => h g1 (List.mem_cons_of_mem _ hg1))]
    simp only []
    rw [if_neg (faceNormal_hidden sqrt hpos a.1 b.1 c.1 p hN hh)]

/-- The first loop of `expand` when exactly one face sees the point. -/
theorem removalFaces_one (sqrt : K → K) (hpos : ∀ x : K, 0 < x → 0 < sqrt x)
    (simplex : Simplex K) (p : Vector3 K) (f : Face) (post : List Face) (a b c : SupportPair K)
    (hf : FaceAt simplex f a b c)
    (hsee : (faceNormal sqrt a.1 b.1 c.1).dot (p.sub a.1) > 0)
    (hpost : ∀ g ∈ post, ∃ a b c, FaceAt simplex g a b c ∧
      0 < (faceCross a.1 b.1 c.1).dot (faceCross a.1 b.1 c.1) ∧ Hidden a.1 b.1 c.1 p) :
    ∀ (pre : List Face) (i : Nat),
      (∀ g ∈ pre, ∃ a b c, FaceAt simplex g a b c ∧
        0 < (faceCross a.1 b.1 c.1).dot (faceCross a.1 b.1 c.1) ∧ Hidden a.1 b.1 c.1 p) →
      expand.removalFaces sqrt simplex p (pre ++ f :: post) i = Run.ok [i + pre.length] := by
  intro pre
  induction pre with
  | nil =>
    intro i _
    rw [List.nil_append, removalFaces_cons sqrt simplex p f post i a b c hf,
      removalFaces_hidden sqrt hpos simplex p post (i + 1) hpost]
    simp only []
    rw [if_pos hsee]
    rfl
  | cons g pre ih =>
    intro i h
    obtain ⟨ga, gb, gc, hat, hN, hh⟩ := h g (List.mem_cons_self _ _)
    rw [List.cons_append, removalFaces_cons sqrt simplex p g _ i ga gb gc hat,
      ih (i + 1) (fun g1 hg1 => h g1 (List.mem_cons_of_mem _ hg1))]
    simp only []
    rw [if_neg (faceNormal_hidden sqrt hpos ga.1 gb.1 gc.1 p hN hh), List.length_cons]
    congr 2
    omega

/-- The function `expand` when exactly one face is removed: its three edges give the three
new faces. -/
theorem expand_one (sqrt : K → K) (simplex : Simplex K) (p : Vector3 K) (pre post : List Face)
    (f : Face)
    (hrem : expand.removalFaces sqrt simplex p (pre ++ f :: post) 0 = Run.ok [pre.length])
    (hab : f.a ≠ f.b) (hbc : f.b ≠ f.c) :
    expand sqrt simplex (pre ++ f :: post) p =
      Run.ok (pre ++ post ++ [⟨f.a, f.b, simplex.length - 1⟩, ⟨f.a, f.c, simplex.length - 1⟩,
        ⟨f.b, f.c, simplex.length - 1⟩]) := by
  have hget : (pre ++ f :: post)[pre.length]? = some f := by
    rw [List.getElem?_append_right (le_refl _)]
    simp
  have hedges : expand.edges (pre ++ f :: post) [pre.length] [] =
      Run.ok [⟨f.a, f.b⟩, ⟨f.a, f.c⟩, ⟨f.b, f.c⟩] := by
    simp [expand.edges, hget, expand.toggle, edgeInEdges, edgeInEdges.loop, hab, hbc]
  have hkept : (pre ++ f :: post).eraseIdx pre.length = pre ++ post := by
    rw [List.eraseIdx_append_of_length_le (le_refl _)]
    simp
  unfold expand
  rw [hrem]
  simp only [hedges, List.foldr_cons, List.foldr_nil, hkept, List.map_cons, List.map_nil]

theorem Vector3.sub_origin (v : Vector3 K) : v.sub ⟨0, 0, 0⟩ = v := by
  cases v
  simp [Vector3.sub]

/-- Against the single point at the origin, `support` returns the vertex of `vertA` that is
strictly furthest along the direction. -/
theorem support_origin (vertA : List (Vector3 K)) (dir v : Vector3 K) (hv : v ∈ vertA)
    (hmax : ∀ w ∈ vertA, w ≠ v → w.dot dir < v.dot dir) :
    support vertA [(⟨0, 0, 0⟩ : Vector3 K)] dir = some (v, v) := by
  obtain ⟨w, hw, hwmem, hwmax⟩ :=
    getFurthestPointInDirection_max vertA dir (List.ne_nil_of_mem hv)
  have hwv : w = v := by
    by_contra hne
    have h1 := hmax w hwmem hne
    have h2 := hwmax v hv
    exact absurd h1 (not_lt.mpr h2)
  obtain ⟨o, ho, homem, _⟩ :=
    getFurthestPointInDirection_max [(⟨0, 0, 0⟩ : Vector3 K)] dir.negate (by simp)
  rw [List.mem_singleton] at homem
  unfold support
  rw [hw, ho, hwv, homem]
  simp only [Vector3.sub_origin]

/-- A pass of the loop of `EPA` against the point at the origin when the first face through
the origin is `f`, its support point `v` lies `epsilon` or more beyond it, and no other face
sees `v`: the pass pushes `v`, removes `f` and appends the three faces over the edges of `f`. -/
theorem EPA_pass_axis (sqrt : K → K) (hpos : ∀ x : K, 0 < x → 0 < sqrt x)
    (hsq : ∀ x : K, 0 ≤ x → sqrt x * sqrt x = x) (vertA : List (Vector3 K))
    (simplex : Simplex K) (pre post : List Face) (f : Face) (a b c : SupportPair K)
    (v : Vector3 K)
    (hpre : ∀ g ∈ pre, ∃ a b c, FaceAt simplex g a b c ∧
      0 < (faceCross a.1 b.1 c.1).dot (faceCross a.1 b.1 c.1) ∧
      a.1.dot (faceCross a.1 b.1 c.1) ≠ 0 ∧ Hidden a.1 b.1 c.1 v)
    (hpost : ∀ g ∈ post, ∃ a b c, FaceAt simplex g a b c ∧
      0 < (faceCross a.1 b.1 c.1).dot (faceCross a.1 b.1 c.1) ∧ Hidden a.1 b.1 c.1 v)
    (hf : FaceAt simplex f a b c)
    (hN : 0 < (faceCross a.1 b.1 c.1).dot (faceCross a.1 b.1 c.1))
    (hD : a.1.dot (faceCross a.1 b.1 c.1) = 0) (hab : f.a ≠ f.b) (hbc : f.b ≠ f.c)
    (hv : v ∈ vertA)
    (hmax : ∀ w ∈ vertA, w ≠ v → w.dot (faceCross a.1 b.1 c.1) < v.dot (faceCross a.1 b.1 c.1))
    (hfar : 0 < v.dot (faceCross a.1 b.1 c.1))
    (heps : (faceCross a.1 b.1 c.1).dot (faceCross a.1 b.1 c.1) * (epsilon * epsilon) ≤
      v.dot (faceCross a.1 b.1 c.1) * v.dot (faceCross a.1 b.1 c.1)) :
    EPA.pass sqrt vertA [(⟨0, 0, 0⟩ : Vector3 K)] simplex (pre ++ f :: post) =
      Pass.next (simplex ++ [(v, v)],
        pre ++ post ++ [⟨f.a, f.b, simplex.length⟩, ⟨f.a, f.c, simplex.length⟩,
          ⟨f.b, f.c, simplex.length⟩]) := by
  have hlen : 0 < sqrt ((faceCross a.1 b.1 c.1).dot (faceCross a.1 b.1 c.1)) := hpos _ hN
  have hk : 0 < 1 / sqrt ((faceCross a.1 b.1 c.1).dot (faceCross a.1 b.1 c.1)) :=
    one_div_pos.mpr hlen
  obtain ⟨hn, hzero⟩ := faceNormal_dist_zero sqrt hpos a.1 b.1 c.1 hN hD
  -- the closest face
  have hclosest : findClosestFace sqrt simplex (pre ++ f :: post) =
      Run.ok (some ⟨pre.length, a.1.dot (faceNormal sqrt a.1 b.1 c.1),
        faceNormal sqrt a.1 b.1 c.1, a, b, c⟩) := by
    unfold findClosestFace
    rw [findClosestFace_loop_first_zero sqrt hpos simplex f post a b c hf hN hD
      (fun g hg => by
        obtain ⟨ga, gb, gc, h1, h2, _⟩ := hpost g hg
        exact ⟨ga, gb, gc, h1, h2⟩)
      pre 0 none (fun cl h => by simp at h)
      (fun g hg => by
        obtain ⟨ga, gb, gc, h1, h2, h3, _⟩ := hpre g hg
        exact ⟨ga, gb, gc, h1, h2, h3⟩), Nat.zero_add]
  -- the support point
  have hsup : support vertA [(⟨0, 0, 0⟩ : Vector3 K)] (faceNormal sqrt a.1 b.1 c.1) =
      some (v, v) := by
    apply support_origin vertA _ v hv
    intro w hw hne
    rw [hn, Vector3.dot_multiplyScalar, Vector3.dot_multiplyScalar]
    exact mul_lt_mul_of_pos_left (hmax w hw hne) hk
  -- it lies beyond the face by `epsilon` or more
  have hdist : ¬ v.dot (faceNormal sqrt a.1 b.1 c.1) - a.1.dot (faceNormal sqrt a.1 b.1 c.1) <
      epsilon := by
    rw [hzero, sub_zero, hn, Vector3.dot_multiplyScalar, not_lt]
    have hs := hsq _ (le_of_lt hN)
    have heps0 : (0 : K) < epsilon := by unfold epsilon; norm_num
    have hle : epsilon * sqrt ((faceCross a.1 b.1 c.1).dot (faceCross a.1 b.1 c.1)) ≤
        v.dot (faceCross a.1 b.1 c.1) := by
      by_contra hlt
      rw [not_le] at hlt
      have := mul_lt_mul'' hlt hlt (le_of_lt hfar) (le_of_lt hfar)
      nlinarith
    rw [one_div, inv_mul_eq_div, le_div_iff₀ hlen]
    exact hle
  -- the face sees the point
  have hsee : (faceNormal sqrt a.1 b.1 c.1).dot (v.sub a.1) > 0 := by
    have hcomm : ((faceCross a.1 b.1 c.1).multiplyScalar
        (1 / sqrt ((faceCross a.1 b.1 c.1).dot (faceCross a.1 b.1 c.1)))).dot (v.sub a.1) =
        1 / sqrt ((faceCross a.1 b.1 c.1).dot (faceCross a.1 b.1 c.1)) *
          (v.dot (faceCross a.1 b.1 c.1) - a.1.dot (faceCross a.1 b.1 c.1)) := by
      simp only [Vector3.dot, Vector3.multiplyScalar, Vector3.sub]
      ring
    rw [hn, hcomm, hD, sub_zero]
    exact mul_pos hk hfar
  have hrem : expand.removalFaces sqrt (simplex ++ [(v, v)]) v (pre ++ f :: post) 0 =
      Run.ok [pre.length] := by
    rw [removalFaces_one sqrt hpos (simplex ++ [(v, v)]) v f post a b c
      (FaceAt_append simplex _ f a b c hf) hsee
      (fun g hg => by
        obtain ⟨ga, gb, gc, h1, h2, h3⟩ := hpost g hg
        exact ⟨ga, gb, gc, FaceAt_append simplex _ g ga gb gc h1, h2, h3⟩)
      pre 0
      (fun g hg => by
        obtain ⟨ga, gb, gc, h1, h2, _, h3⟩ := hpre g hg
        exact ⟨ga, gb, gc, FaceAt_append simplex _ g ga gb gc h1, h2, h3⟩), Nat.zero_add]
  have hexp := expand_one sqrt (simplex ++ [(v, v)]) v pre post f hrem hab hbc
  rw [List.length_append, List.length_singleton, Nat.add_sub_cancel] at hexp
  unfold EPA.pass
  rw [hclosest]
  simp only [hsup, if_neg hdist, hexp]

set_option maxHeartbeats 4000000 in
theorem wedge_phase_sound (phase : WedgePhase) : WedgePhase.Sound (K := K) phase := by
  cases phase <;>
    norm_num [WedgePhase.Sound, WedgePhase.first, WedgePhase.other, WedgePhase.point,
      WedgePhase.next, WedgeInert, Hidden, faceCross, wedgeVertices, epsilon, Vector3.dot,
      Vector3.sub, Vector3.cross]

theorem WedgeInertFace_append (simplex : Simplex K) (x : SupportPair K) (g : Face)
    (h : WedgeInertFace simplex g) : WedgeInertFace (simplex ++ [x]) g := by
  obtain ⟨h1, h2, a, b, c, hat, hi⟩ := h
  exact ⟨h1, h2, a, b, c, FaceAt_append simplex x g a b c hat, hi⟩

/-- One pass of the loop of `EPA` on `wedgeVertices` against the origin from a state with the
invariant: the pass goes on, and the invariant holds for the next state. -/
theorem wedge_step (sqrt : K → K) (hpos : ∀ x : K, 0 < x → 0 < sqrt x)
    (hsq : ∀ x : K, 0 ≤ x → sqrt x * sqrt x = x) (phase : WedgePhase) (simplex : Simplex K)
    (faces : List Face) (h : WedgeInv phase simplex faces) :
    ∃ simplex1 faces1,
      EPA.pass sqrt wedgeVertices [(⟨0, 0, 0⟩ : Vector3 K)] simplex faces =
        Pass.next (simplex1, faces1) ∧
      WedgeInv (WedgePhase.next phase) simplex1 faces1 := by
  obtain ⟨pre, mid, post, f1, f2, rfl, hpre, hmid, hpost, hf1, hf2⟩ := h
  obtain ⟨hab, hbc, a, b, c, hat, ha, hb, hc⟩ := hf1
  obtain ⟨hab2, hbc2, a2, b2, c2, hat2, ha2, hb2, hc2⟩ := hf2
  have hs := wedge_phase_sound (K := K) phase
  unfold WedgePhase.Sound at hs
  simp only [] at hs
  rw [← ha, ← hb, ← hc, ← ha2, ← hb2, ← hc2] at hs
  obtain ⟨⟨hN, hD, hfar, heps, hv, hmax⟩, ⟨hN2, hH2⟩, hvcase, hnext, hnew⟩ := hs
  have hidden : ∀ x y z : Vector3 K, WedgeInert x y z → Hidden x y z (WedgePhase.point phase) := by
    intro x y z hi
    rcases hvcase with h | h | h <;> rw [h]
    · exact hi.2.2.1
    · exact hi.2.2.2.1
    · exact hi.2.2.2.2
  have hpass := EPA_pass_axis sqrt hpos hsq wedgeVertices simplex pre (mid ++ f2 :: post) f1
    a b c (WedgePhase.point phase)
    (fun g hg => by
      obtain ⟨_, _, ga, gb, gc, h1, h2⟩ := hpre g hg
      exact ⟨ga, gb, gc, h1, h2.1, h2.2.1, hidden _ _ _ h2⟩)
    (fun g hg => by
      rw [List.mem_append, List.mem_cons] at hg
      rcases hg with hg | rfl | hg
      · obtain ⟨_, _, ga, gb, gc, h1, h2⟩ := hmid g hg
        exact ⟨ga, gb, gc, h1, h2.1, hidden _ _ _ h2⟩
      · exact ⟨a2, b2, c2, hat2, hN2, hH2⟩
      · obtain ⟨_, _, ga, gb, gc, h1, h2⟩ := hpost g hg
        exact ⟨ga, gb, gc, h1, h2.1, hidden _ _ _ h2⟩)
    hat hN hD (ne_of_lt hab) (ne_of_lt hbc) hv hmax hfar heps
  refine ⟨_, _, hpass, ?_⟩
  have hL : f1.c < simplex.length := FaceAt_lt simplex f1 a b c hat
  have hx : (simplex ++ [(WedgePhase.point phase, WedgePhase.point phase)])[simplex.length]? =
      some (WedgePhase.point phase, WedgePhase.point phase) := List.getElem?_concat_length _ _
  have hat1 := FaceAt_append simplex (WedgePhase.point phase, WedgePhase.point phase) f1 a b c hat
  have hf2new : FaceWith (simplex ++ [(WedgePhase.point phase, WedgePhase.point phase)]) f2
      (WedgePhase.first (WedgePhase.next phase)) := by
    rw [hnext]
    exact ⟨hab2, hbc2, a2, b2, c2, FaceAt_append simplex _ f2 a2 b2 c2 hat2, ha2, hb2, hc2⟩
  have hpre1 : ∀ g ∈ pre ++ mid,
      WedgeInertFace (simplex ++ [(WedgePhase.point phase, WedgePhase.point phase)]) g := by
    intro g hg
    rw [List.mem_append] at hg
    rcases hg with hg | hg
    · exact WedgeInertFace_append simplex _ g (hpre g hg)
    · exact WedgeInertFace_append simplex _ g (hmid g hg)
  have hpost1 : ∀ g ∈ post,
      WedgeInertFace (simplex ++ [(WedgePhase.point phase, WedgePhase.point phase)]) g :=
    fun g hg => WedgeInertFace_append simplex _ g (hpost g hg)
  rcases hnew with ⟨hax, hi2, hi3⟩ | ⟨hi1, hax, hi3⟩ | ⟨hi1, hi2, hax⟩
  · refine ⟨pre ++ mid, post, [⟨f1.a, f1.c, simplex.length⟩, ⟨f1.b, f1.c, simplex.length⟩], f2,
      ⟨f1.a, f1.b, simplex.length⟩, by simp, hpre1, hpost1, ?_, hf2new, ?_⟩
    · intro g hg
      simp only [List.mem_cons, List.mem_singleton, List.not_mem_nil, or_false] at hg
      rcases hg with rfl | rfl
      · exact ⟨lt_trans hab hbc, hL, a, c, _, ⟨hat1.1, hat1.2.2, hx⟩, hi2⟩
      · exact ⟨hbc, hL, b, c, _, ⟨hat1.2.1, hat1.2.2, hx⟩, hi3⟩
    · rw [← hax]
      exact ⟨hab, lt_trans hbc hL, a, b, _, ⟨hat1.1, hat1.2.1, hx⟩, rfl, rfl, rfl⟩
  · refine ⟨pre ++ mid, post ++ [⟨f1.a, f1.b, simplex.length⟩],
      [⟨f1.b, f1.c, simplex.length⟩], f2, ⟨f1.a, f1.c, simplex.length⟩, by simp, hpre1, ?_, ?_,
      hf2new, ?_⟩
    · intro g hg
      rw [List.mem_append, List.mem_singleton] at hg
      rcases hg with hg | rfl
      · exact hpost1 g hg
      · exact ⟨hab, lt_trans hbc hL, a, b, _, ⟨hat1.1, hat1.2.1, hx⟩, hi1⟩
    · intro g hg
      rw [List.mem_singleton] at hg
      rw [hg]
      exact ⟨hbc, hL, b, c, _, ⟨hat1.2.1, hat1.2.2, hx⟩, hi3⟩
    · rw [← hax]
      exact ⟨lt_trans hab hbc, hL, a, c, _, ⟨hat1.1, hat1.2.2, hx⟩, rfl, rfl, rfl⟩
  · refine ⟨pre ++ mid,
      post ++ [⟨f1.a, f1.b, simplex.length⟩, ⟨f1.a, f1.c, simplex.length⟩], [], f2,
      ⟨f1.b, f1.c, simplex.length⟩, by simp, hpre1, ?_, ?_, hf2new, ?_⟩
    · intro g hg
      simp only [List.mem_append, List.mem_cons, List.mem_singleton, List.not_mem_nil,
        or_false] at hg
      rcases hg with hg | rfl | rfl
      · exact hpost1 g hg
      · exact ⟨hab, lt_trans hbc hL, a, b, _, ⟨hat1.1, hat1.2.1, hx⟩, hi1⟩
      · exact ⟨lt_trans hab hbc, hL, a, c, _, ⟨hat1.1, hat1.2.2, hx⟩, hi2⟩
    · intro g hg
      simp at hg
    · rw [← hax]
      exact ⟨hbc, hL, b, c, _, ⟨hat1.2.1, hat1.2.2, hx⟩, rfl, rfl, rfl⟩

/-- The loop of `EPA` on `wedgeVertices` against the origin never returns from a state with
the invariant: every step budget runs out. -/
theorem wedge_EPA_loop (sqrt : K → K) (hpos : ∀ x : K, 0 < x → 0 < sqrt x)
    (hsq : ∀ x : K, 0 ≤ x → sqrt x * sqrt x = x) :
    ∀ (fuel : Nat) (phase : WedgePhase) (simplex : Simplex K) (faces : List Face),
      WedgeInv phase simplex faces →
      EPA.loop sqrt wedgeVertices [(⟨0, 0, 0⟩ : Vector3 K)] fuel simplex faces =
        Run.outOfFuel := by
  intro fuel
  induction fuel with
  | zero => intro phase simplex faces _; rfl
  | succ fuel ih =>
    intro phase simplex faces h
    obtain ⟨simplex1, faces1, hpass, hinv⟩ := wedge_step sqrt hpos hsq phase simplex faces h
    rw [EPA_loop_pass, hpass]
    exact ih _ simplex1 faces1 hinv

theorem wedge_start : WedgeInv (K := K) WedgePhase.start wedgeSimplex EPA.seedFaces := by
  refine ⟨[⟨0, 1, 2⟩], [⟨0, 2, 3⟩], [], ⟨0, 1, 3⟩, ⟨1, 2, 3⟩, rfl, ?_, ?_, ?_, ?_, ?_⟩
  · intro g hg
    rw [List.mem_singleton] at hg
    rw [hg]
    refine ⟨by decide, by decide, (⟨1, 0, 1⟩, ⟨1, 0, 1⟩), (⟨-1, -1, 0⟩, ⟨-1, -1, 0⟩),
      (⟨1, 0, -1⟩, ⟨1, 0, -1⟩), ⟨rfl, rfl, rfl⟩, ?_⟩
    norm_num [WedgeInert, Hidden, faceCross, Vector3.dot, Vector3.sub, Vector3.cross]
  · intro g hg
    rw [List.mem_singleton] at hg
    rw [hg]
    refine ⟨by decide, by decide, (⟨1, 0, 1⟩, ⟨1, 0, 1⟩), (⟨1, 0, -1⟩, ⟨1, 0, -1⟩),
      (⟨1, 1, 0⟩, ⟨1, 1, 0⟩), ⟨rfl, rfl, rfl⟩, ?_⟩
    norm_num [WedgeInert, Hidden, faceCross, Vector3.dot, Vector3.sub, Vector3.cross]
  · intro g hg
    simp at hg
  · exact ⟨by decide, by decide, (⟨1, 0, 1⟩, ⟨1, 0, 1⟩), (⟨-1, -1, 0⟩, ⟨-1, -1, 0⟩),
      (⟨1, 1, 0⟩, ⟨1, 1, 0⟩), ⟨rfl, rfl, rfl⟩, rfl, rfl, rfl⟩
  · exact ⟨by decide, by decide, (⟨-1, -1, 0⟩, ⟨-1, -1, 0⟩), (⟨1, 0, -1⟩, ⟨1, 0, -1⟩),
      (⟨1, 1, 0⟩, ⟨1, 1, 0⟩), ⟨rfl, rfl, rfl⟩, rfl, rfl, rfl⟩

/-- `EPA` on `wedgeSimplex` does not return, whatever the step budget. -/
theorem wedge_EPA (sqrt : K → K) (hpos : ∀ x : K, 0 < x → 0 < sqrt x)
    (hsq : ∀ x : K, 0 ≤ x → sqrt x * sqrt x = x) (fuel : Nat) :
    EPA sqrt fuel wedgeVertices [(⟨0, 0, 0⟩ : Vector3 K)] wedgeSimplex = Run.outOfFuel :=
  wedge_EPA_loop sqrt hpos hsq fuel WedgePhase.start wedgeSimplex EPA.seedFaces wedge_start

/-- A face test of case 4 fails when the origin is not strictly on the side of the face away
from the opposite vertex, whatever the square root. -/
theorem awayNormal_fails (sqrt : K → K) (p q r opp : Vector3 K)
    (hV : (opp.sub p).dot ((q.sub p).cross (r.sub p)) ≠ 0)
    (h : (opp.sub p).dot ((q.sub p).cross (r.sub p)) * p.dot ((q.sub p).cross (r.sub p)) ≤ 0) :
    ¬ p.negate.dot (awayNormal sqrt p q r opp) > 0 := by
  obtain ⟨k, hk, hn, hle⟩ := awayNormal_spec sqrt p q r opp
  rw [hn] at hle ⊢
  rw [Vector3.negate_dot, Vector3.dot_multiplyScalar]
  rw [Vector3.dot_multiplyScalar] at hle
  intro hpos
  have h2 : k * (opp.sub p).dot ((q.sub p).cross (r.sub p)) < 0 :=
    lt_of_le_of_ne hle (mul_ne_zero hk hV)
  have h1 : k * p.dot ((q.sub p).cross (r.sub p)) < 0 := by linarith
  have h3 := mul_pos_of_neg_of_neg h2 h1
  have h4 : 0 < k * k := mul_self_pos.mpr hk
  have h5 : (k * (opp.sub p).dot ((q.sub p).cross (r.sub p))) *
      (k * p.dot ((q.sub p).cross (r.sub p))) =
      (k * k) * ((opp.sub p).dot ((q.sub p).cross (r.sub p)) *
        p.dot ((q.sub p).cross (r.sub p))) := by ring
  rw [h5] at h3
  have := mul_nonpos_of_nonneg_of_nonpos (le_of_lt h4) h
  linarith

/-- Case 4 on `wedgeSimplex`: none of the four face tests passes, whatever the square
root. -/
theorem wedge_evaluate (sqrt : K → K) (dir : Vector3 K) :
    ∃ dir1, evaluateAndChangeDir sqrt
      [((⟨1, 0, 1⟩ : Vector3 K), (⟨1, 0, 1⟩ : Vector3 K)), (⟨-1, -1, 0⟩, ⟨-1, -1, 0⟩),
        (⟨1, 0, -1⟩, ⟨1, 0, -1⟩), (⟨1, 1, 0⟩, ⟨1, 1, 0⟩)] dir =
      (true, wedgeSimplex, dir1) := by
  rw [evaluateAndChangeDir_four]
  rw [if_neg (awayNormal_fails sqrt _ _ _ _
      (by norm_num [Vector3.dot, Vector3.sub, Vector3.cross])
      (by norm_num [Vector3.dot, Vector3.sub, Vector3.cross])),
    if_neg (awayNormal_fails sqrt _ _ _ _
      (by norm_num [Vector3.dot, Vector3.sub, Vector3.cross])
      (by norm_num [Vector3.dot, Vector3.sub, Vector3.cross])),
    if_neg (awayNormal_fails sqrt _ _ _ _
      (by norm_num [Vector3.dot, Vector3.sub, Vector3.cross])
      (by norm_num [Vector3.dot, Vector3.sub, Vector3.cross])),
    if_neg (awayNormal_fails sqrt _ _ _ _
      (by norm_num [Vector3.dot, Vector3.sub, Vector3.cross])
      (by norm_num [Vector3.dot, Vector3.sub, Vector3.cross]))]
  exact ⟨_, rfl⟩

theorem wedge_support :
    support wedgeVertices [(⟨0, 0, 0⟩ : Vector3 K)] ⟨1 / 5, 0, 0⟩ =
      some (⟨1, 0, 1⟩, ⟨1, 0, 1⟩) := by
  norm_num [support, getFurthestPointInDirection, getFurthestPointInDirection.loop, exceeds,
    wedgeVertices, Vector3.dot, Vector3.negate, Vector3.sub]

theorem wedge_pass1 (sqrt : K → K) :
    GJK.pass sqrt wedgeVertices [(⟨0, 0, 0⟩ : Vector3 K)] [(⟨1, 0, 1⟩, ⟨1, 0, 1⟩)]
        (Vector3.negate ⟨1 / 5, 0, 0⟩) =
      Pass.next ([(⟨1, 0, 1⟩, ⟨1, 0, 1⟩), (⟨-1, -1, 0⟩, ⟨-1, -1, 0⟩)], ⟨0, 3, -3⟩) := by
  norm_num [GJK.pass, support, getFurthestPointInDirection,
    getFurthestPointInDirection.loop, exceeds, wedgeVertices,
    Vector3.dot, Vector3.negate, Vector3.sub, Vector3.cross, evaluateAndChangeDir]

theorem wedge_pass2 (sqrt : K → K) :
    GJK.pass sqrt wedgeVertices [(⟨0, 0, 0⟩ : Vector3 K)]
        [(⟨1, 0, 1⟩, ⟨1, 0, 1⟩), (⟨-1, -1, 0⟩, ⟨-1, -1, 0⟩)] ⟨0, 3, -3⟩ =
      Pass.next ([(⟨1, 0, 1⟩, ⟨1, 0, 1⟩), (⟨-1, -1, 0⟩, ⟨-1, -1, 0⟩),
        (⟨1, 0, -1⟩, ⟨1, 0, -1⟩)], ⟨-2, 4, 0⟩) := by
  norm_num [GJK.pass, support, getFurthestPointInDirection,
    getFurthestPointInDirection.loop, exceeds, wedgeVertices,
    Vector3.dot, Vector3.negate, Vector3.sub, Vector3.cross, evaluateAndChangeDir]

theorem wedge_pass3 (sqrt : K → K) :
    GJK.pass sqrt wedgeVertices [(⟨0, 0, 0⟩ : Vector3 K)]
        [(⟨1, 0, 1⟩, ⟨1, 0, 1⟩), (⟨-1, -1, 0⟩, ⟨-1, -1, 0⟩), (⟨1, 0, -1⟩, ⟨1, 0, -1⟩)]
        ⟨-2, 4, 0⟩ =
      Pass.leave (Run.ok (some wedgeSimplex)) := by
  have hsup : support wedgeVertices [(⟨0, 0, 0⟩ : Vector3 K)] ⟨-2, 4, 0⟩ =
      some (⟨1, 1, 0⟩, ⟨1, 1, 0⟩) := by
    norm_num [support, getFurthestPointInDirection, getFurthestPointInDirection.loop, exceeds,
      wedgeVertices, Vector3.dot, Vector3.negate, Vector3.sub]
  obtain ⟨dir1, hev⟩ := wedge_evaluate sqrt (⟨-2, 4, 0⟩ : Vector3 K)
  unfold GJK.pass
  rw [hsup]
  simp only [List.cons_append, List.nil_append]
  rw [if_neg (by norm_num [Vector3.dot]), hev]

/-- The loop of `GJK` on `wedgeVertices` against the origin, whatever the square root: three
passes, then case 4 answers `true`; with a step budget below 3 the budget runs out. -/
theorem wedge_intersects (sqrt : K → K) (fuel : Nat) :
    GJK.intersects sqrt fuel wedgeVertices [(⟨0, 0, 0⟩ : Vector3 K)] ⟨1 / 5, 0, 0⟩ =
      if fuel < 3 then Run.outOfFuel else Run.ok (some wedgeSimplex) := by
  unfold GJK.intersects
  rw [wedge_support]
  simp only []
  match fuel with
  | 0 => rfl
  | 1 =>
    rw [GJK_loop_pass, wedge_pass1]
    rfl
  | 2 =>
    rw [GJK_loop_pass, wedge_pass1]
    simp only []
    rw [GJK_loop_pass, wedge_pass2]
    rfl
  | n + 3 =>
    rw [GJK_loop_pass, wedge_pass1]
    simp only []
    rw [GJK_loop_pass, wedge_pass2]
    simp only []
    rw [GJK_loop_pass, wedge_pass3]
    simp

/-- The call `GJK(colA, colB, dir)` that `collision.update` makes on the wedge and the point
at the origin does not return, whatever the bodies and the step budget: the loop of `GJK`
hands `wedgeSimplex` to `EPA` after three passes, and the loop of `EPA` never leaves. -/
theorem wedge_GJK (sqrt : K → K) (hpos : ∀ x : K, 0 < x → 0 < sqrt x)
    (hsq : ∀ x : K, 0 ≤ x → sqrt x * sqrt x = x) (fuel : Nat)
    (physA physB : Option (Physics K)) :
    GJK sqrt fuel (wedgeCollider physA) (pointCollider physB)
      ((wedgeCollider physA).worldCentroid.sub (pointCollider physB).worldCentroid) =
      Run.outOfFuel := by
  have hdir : (wedgeCollider physA).worldCentroid.sub (pointCollider physB).worldCentroid =
      ⟨1 / 5, 0, 0⟩ := by
    simp [wedgeCollider, pointCollider, Vector3.sub]
  rw [hdir]
  unfold GJK GJK.call
  have h1 : GJK.intersects sqrt fuel (wedgeCollider physA).worldVertices
      (pointCollider physB).worldVertices ⟨1 / 5, 0, 0⟩ =
      if fuel < 3 then Run.outOfFuel else Run.ok (some wedgeSimplex) :=
    wedge_intersects sqrt fuel
  have h2 : EPA sqrt fuel (wedgeCollider physA).worldVertices
      (pointCollider physB).worldVertices wedgeSimplex = Run.outOfFuel :=
    wedge_EPA sqrt hpos hsq fuel
  rw [h1]
  by_cases hf : fuel < 3
  · rw [if_pos hf]
  · rw [if_neg hf]
    simp only [h2]

/-- C13 (code defect): `GJK` with its `EPA` call does not terminate on the five vertices
`(1,0,1)`, `(1,0,-1)`, `(1,1,0)`, `(-1,-1,0)`, `(-1,0,0)` against the single point at the
origin, started with the direction `centroid(A) - centroid(B) = (1/5, 0, 0)`, in real
arithmetic with the real square root.  The loop of `GJK` leaves after three passes with a
simplex that has the origin on an edge; the loop of `EPA` then pushes the support points
`(1,0,-1)`, `(1,0,1)`, `(-1,0,0)`, `(1,0,-1)`, ... for ever: whatever the step budget, the
run has not returned. -/
theorem GJK_EPA_never_returns (fuel : Nat) :
    GJK.intersects Real.sqrt (fuel + 3) wedgeVertices [(⟨0, 0, 0⟩ : Vector3 ℝ)] ⟨1 / 5, 0, 0⟩ =
      Run.ok (some wedgeSimplex) ∧
    EPA Real.sqrt fuel wedgeVertices [(⟨0, 0, 0⟩ : Vector3 ℝ)] wedgeSimplex = Run.outOfFuel ∧
    GJK Real.sqrt fuel (wedgeCollider none) (pointCollider none)
      ((wedgeCollider (K := ℝ) none).worldCentroid.sub
        (pointCollider (K := ℝ) none).worldCentroid) = Run.outOfFuel := by
  refine ⟨?_, wedge_EPA Real.sqrt (fun _ h => Real.sqrt_pos.mpr h)
      (fun _ h => Real.mul_self_sqrt h) fuel,
    wedge_GJK Real.sqrt (fun _ h => Real.sqrt_pos.mpr h) (fun _ h => Real.mul_self_sqrt h)
      fuel none none⟩
  rw [wedge_intersects Real.sqrt (fuel + 3), if_neg (by omega)]

/-! ### Claim C22: the closest face -/

/-- Whatever the square root, `faceNormal` has a non-negative dot product with the first
vertex of the face: the normal points away from the origin. -/
theorem faceNormal_dot_nonneg (sqrt : K → K) (a b c : Vector3 K) :
    0 ≤ a.dot (faceNormal sqrt a b c) := by
  have h : ∀ n : Vector3 K, (Vector3.zero.sub a).dot n = -(a.dot n) := by
    intro n
    simp only [Vector3.dot, Vector3.sub, Vector3.zero]
    ring
  unfold faceNormal
  simp only []
  by_cases hc : (Vector3.zero.sub a).dot ((faceCross a b c).normalize sqrt) > 0
  · rw [if_pos hc, Vector3.dot_negate]
    rw [h] at hc
    linarith
  · rw [if_neg hc]
    rw [h] at hc
    linarith

/-- The normal of a face is the normalised cross product of two edges or its negation. -/
theorem faceNormal_cases (sqrt : K → K) (a b c : Vector3 K) :
    faceNormal sqrt a b c = ((b.sub a).cross (c.sub a)).normalize sqrt ∨
      faceNormal sqrt a b c = (((b.sub a).cross (c.sub a)).normalize sqrt).negate := by
  unfold faceNormal faceCross
  simp only []
  split_ifs
  · exact Or.inr rfl
  · exact Or.inl rfl

theorem FaceAt_unique (simplex : Simplex K) (g : Face) (a b c a1 b1 c1 : SupportPair K)
    (h : FaceAt simplex g a b c) (h1 : FaceAt simplex g a1 b1 c1) :
    a = a1 ∧ b = b1 ∧ c = c1 := by
  obtain ⟨ha, hb, hc⟩ := h
  obtain ⟨ha1, hb1, hc1⟩ := h1
  rw [ha] at ha1
  rw [hb] at hb1
  rw [hc] at hc1
  exact ⟨Option.some.inj ha1, Option.some.inj hb1, Option.some.inj hc1⟩

/-- The loop of `findClosestFace` from face number `i` on: either no face beats the current
record, or the result is the record of the first face of least distance, which beats the
current record. -/
theorem findClosestFace_loop_spec (sqrt : K → K) (simplex : Simplex K) :
    ∀ (faces : List Face) (i : Nat) (closest : Option (ClosestFace K)),
      (∀ g ∈ faces, ∃ a b c, FaceAt simplex g a b c) →
      (findClosestFace.loop sqrt simplex faces i closest = Run.ok closest ∧
        ∀ (j : Nat) (h : Face) (a b c : SupportPair K), faces[j]? = some h →
          FaceAt simplex h a b c →
          ∃ cl, closest = some cl ∧ cl.dist ≤ a.1.dot (faceNormal sqrt a.1 b.1 c.1)) ∨
      (∃ (k : Nat) (g : Face) (a b c : SupportPair K), faces[k]? = some g ∧
        FaceAt simplex g a b c ∧
        findClosestFace.loop sqrt simplex faces i closest =
          Run.ok (some ⟨i + k, a.1.dot (faceNormal sqrt a.1 b.1 c.1),
            faceNormal sqrt a.1 b.1 c.1, a, b, c⟩) ∧
        (∀ cl, closest = some cl → a.1.dot (faceNormal sqrt a.1 b.1 c.1) < cl.dist) ∧
        (∀ (j : Nat) (h : Face) (a1 b1 c1 : SupportPair K), faces[j]? = some h →
          FaceAt simplex h a1 b1 c1 →
          a.1.dot (faceNormal sqrt a.1 b.1 c.1) ≤ a1.1.dot (faceNormal sqrt a1.1 b1.1 c1.1)) ∧
        (∀ (j : Nat) (h : Face) (a1 b1 c1 : SupportPair K), j < k → faces[j]? = some h →
          FaceAt simplex h a1 b1 c1 →
          a.1.dot (faceNormal sqrt a.1 b.1 c.1) < a1.1.dot (faceNormal sqrt a1.1 b1.1 c1.1))) := by
  intro faces
  induction faces with
  | nil =>
    intro i closest _
    left
    refine ⟨rfl, ?_⟩
    intro j h a b c hj
    simp at hj
  | cons g rest ih =>
    intro i closest hvalid
    obtain ⟨a, b, c, hat⟩ := hvalid g (List.mem_cons_self _ _)
    have hrest : ∀ g1 ∈ rest, ∃ a b c, FaceAt simplex g1 a b c :=
      fun g1 hg1 => hvalid g1 (List.mem_cons_of_mem _ hg1)
    have hself : ∀ (h : Face) (a1 b1 c1 : SupportPair K), (g :: rest)[0]? = some h →
        FaceAt simplex h a1 b1 c1 → a1 = a ∧ b1 = b ∧ c1 = c := by
      intro h a1 b1 c1 hj hat1
      simp only [List.getElem?_cons_zero, Option.some.injEq] at hj
      rw [← hj] at hat1
      exact FaceAt_unique simplex g a1 b1 c1 a b c hat1 hat
    rw [findClosestFace_loop_cons sqrt simplex g rest i closest a b c hat]
    -- the record of `g` replaces the current one
    have taken : (∀ cl, closest = some cl → a.1.dot (faceNormal sqrt a.1 b.1 c.1) < cl.dist) →
        ∃ (k : Nat) (g1 : Face) (a1 b1 c1 : SupportPair K), (g :: rest)[k]? = some g1 ∧
          FaceAt simplex g1 a1 b1 c1 ∧
          findClosestFace.loop sqrt simplex rest (i + 1)
            (some ⟨i, a.1.dot (faceNormal sqrt a.1 b.1 c.1), faceNormal sqrt a.1 b.1 c.1,
              a, b, c⟩) =
            Run.ok (some ⟨i + k, a1.1.dot (faceNormal sqrt a1.1 b1.1 c1.1),
              faceNormal sqrt a1.1 b1.1 c1.1, a1, b1, c1⟩) ∧
          (∀ cl, closest = some cl → a1.1.dot (faceNormal sqrt a1.1 b1.1 c1.1) < cl.dist) ∧
          (∀ (j : Nat) (h : Face) (a2 b2 c2 : SupportPair K), (g :: rest)[j]? = some h →
            FaceAt simplex h a2 b2 c2 →
            a1.1.dot (faceNormal sqrt a1.1 b1.1 c1.1) ≤
              a2.1.dot (faceNormal sqrt a2.1 b2.1 c2.1)) ∧
          (∀ (j : Nat) (h : Face) (a2 b2 c2 : SupportPair K), j < k →
            (g :: rest)[j]? = some h → FaceAt simplex h a2 b2 c2 →
            a1.1.dot (faceNormal sqrt a1.1 b1.1 c1.1) <
              a2.1.dot (faceNormal sqrt a2.1 b2.1 c2.1)) := by
      intro hbeat
      rcases ih (i + 1) (some ⟨i, a.1.dot (faceNormal sqrt a.1 b.1 c.1),
          faceNormal sqrt a.1 b.1 c.1, a, b, c⟩) hrest with ⟨hres, hno⟩ |
        ⟨k, g1, a1, b1, c1, hk, hat1, hres, hlt, hmin, hfirst⟩
      · refine ⟨0, g, a, b, c, List.getElem?_cons_zero, hat, hres, hbeat, ?_, ?_⟩
        · intro j h a2 b2 c2 hj hat2
          cases j with
          | zero =>
            obtain ⟨e1, e2, e3⟩ := hself h a2 b2 c2 hj hat2
            rw [e1, e2, e3]
          | succ j =>
            rw [List.getElem?_cons_succ] at hj
            obtain ⟨cl, hcl, hle⟩ := hno j h a2 b2 c2 hj hat2
            simp only [Option.some.injEq] at hcl
            rw [← hcl] at hle
            exact hle
        · intro j h a2 b2 c2 hj
          exact absurd hj (Nat.not_lt_zero _)
      · have hd := hlt _ rfl
        simp only [] at hd
        have hidx : i + 1 + k = i + (k + 1) := by omega
        rw [hidx] at hres
        refine ⟨k + 1, g1, a1, b1, c1, by rw [List.getElem?_cons_succ]; exact hk, hat1, hres,
          fun cl hcl => lt_trans hd (hbeat cl hcl), ?_, ?_⟩
        · intro j h a2 b2 c2 hj hat2
          cases j with
          | zero =>
            obtain ⟨e1, e2, e3⟩ := hself h a2 b2 c2 hj hat2
            rw [e1, e2, e3]
            exact le_of_lt hd
          | succ j =>
            rw [List.getElem?_cons_succ] at hj
            exact hmin j h a2 b2 c2 hj hat2
        · intro j h a2 b2 c2 hjk hj hat2
          cases j with
          | zero =>
            obtain ⟨e1, e2, e3⟩ := hself h a2 b2 c2 hj hat2
            rw [e1, e2, e3]
            exact hd
          | succ j =>
            rw [List.getElem?_cons_succ] at hj
            exact hfirst j h a2 b2 c2 (by omega) hj hat2
    cases closest with
    | none =>
      simp only []
      rw [if_pos trivial]
      right
      exact taken (fun cl hcl => absurd hcl (by simp))
    | some cl0 =>
      simp only [decide_eq_true_eq]
      by_cases hd : a.1.dot (faceNormal sqrt a.1 b.1 c.1) < cl0.dist
      · rw [if_pos hd]
        right
        exact taken (fun cl hcl => by
          simp only [Option.some.injEq] at hcl
          rw [← hcl]
          exact hd)
      · rw [if_neg hd]
        rcases ih (i + 1) (some cl0) hrest with ⟨hres, hno⟩ |
          ⟨k, g1, a1, b1, c1, hk, hat1, hres, hlt, hmin, hfirst⟩
        · left
          refine ⟨hres, ?_⟩
          intro j h a2 b2 c2 hj hat2
          cases j with
          | zero =>
            obtain ⟨e1, e2, e3⟩ := hself h a2 b2 c2 hj hat2
            rw [e1, e2, e3]
            exact ⟨cl0, rfl, not_lt.mp hd⟩
          | succ j =>
            rw [List.getElem?_cons_succ] at hj
            exact hno j h a2 b2 c2 hj hat2
        · right
          have hd1 := hlt cl0 rfl
          have hidx : i + 1 + k = i + (k + 1) := by omega
          rw [hidx] at hres
          refine ⟨k + 1, g1, a1, b1, c1, by rw [List.getElem?_cons_succ]; exact hk, hat1,
            hres, hlt, ?_, ?_⟩
          · intro j h a2 b2 c2 hj hat2
            cases j with
            | zero =>
              obtain ⟨e1, e2, e3⟩ := hself h a2 b2 c2 hj hat2
              rw [e1, e2, e3]
              exact le_of_lt (lt_of_lt_of_le hd1 (not_lt.mp hd))
            | succ j =>
              rw [List.getElem?_cons_succ] at hj
              exact hmin j h a2 b2 c2 hj hat2
          · intro j h a2 b2 c2 hjk hj hat2
            cases j with
            | zero =>
              obtain ⟨e1, e2, e3⟩ := hself h a2 b2 c2 hj hat2
              rw [e1, e2, e3]
              exact lt_of_lt_of_le hd1 (not_lt.mp hd)
            | succ j =>
              rw [List.getElem?_cons_succ] at hj
              exact hfirst j h a2 b2 c2 (by omega) hj hat2

/-- C22: for every non-empty face list whose indices point into the simplex,
`findClosestFace` returns the record of the first face of least distance.  The normal of
every face is the normalised cross product of two of its edges or the negation of it, turned
so that `a · normal ≥ 0` for its vertex `a`, and its distance is `a · normal`; the returned
`dist` is non-negative, no face has a smaller distance, and every face before the returned
one has a larger distance. -/
theorem findClosestFace_first_minimum (sqrt : K → K) (simplex : Simplex K)
    (faces : List Face) (hne : faces ≠ [])
    (hvalid : ∀ g ∈ faces, ∃ a b c, FaceAt simplex g a b c) :
    ∃ (k : Nat) (g : Face) (a b c : SupportPair K), faces[k]? = some g ∧
      FaceAt simplex g a b c ∧
      findClosestFace sqrt simplex faces =
        Run.ok (some ⟨k, a.1.dot (faceNormal sqrt a.1 b.1 c.1), faceNormal sqrt a.1 b.1 c.1,
          a, b, c⟩) ∧
      (faceNormal sqrt a.1 b.1 c.1 = ((b.1.sub a.1).cross (c.1.sub a.1)).normalize sqrt ∨
        faceNormal sqrt a.1 b.1 c.1 =
          (((b.1.sub a.1).cross (c.1.sub a.1)).normalize sqrt).negate) ∧
      0 ≤ a.1.dot (faceNormal sqrt a.1 b.1 c.1) ∧
      (∀ (j : Nat) (h : Face) (a1 b1 c1 : SupportPair K), faces[j]? = some h →
        FaceAt simplex h a1 b1 c1 →
        0 ≤ a1.1.dot (faceNormal sqrt a1.1 b1.1 c1.1) ∧
        a.1.dot (faceNormal sqrt a.1 b.1 c.1) ≤ a1.1.dot (faceNormal sqrt a1.1 b1.1 c1.1)) ∧
      (∀ (j : Nat) (h : Face) (a1 b1 c1 : SupportPair K), j < k → faces[j]? = some h →
        FaceAt simplex h a1 b1 c1 →
        a.1.dot (faceNormal sqrt a.1 b.1 c.1) < a1.1.dot (faceNormal sqrt a1.1 b1.1 c1.1)) := by
  rcases findClosestFace_loop_spec sqrt simplex faces 0 none hvalid with ⟨_, hno⟩ |
    ⟨k, g, a, b, c, hk, hat, hres, _, hmin, hfirst⟩
  · exfalso
    obtain ⟨g, rest, rfl⟩ := List.exists_cons_of_ne_nil hne
    obtain ⟨a, b, c, hat⟩ := hvalid g (List.mem_cons_self _ _)
    obtain ⟨cl, hcl, _⟩ := hno 0 g a b c List.getElem?_cons_zero hat
    simp at hcl
  · rw [Nat.zero_add] at hres
    exact ⟨k, g, a, b, c, hk, hat, hres, faceNormal_cases sqrt a.1 b.1 c.1,
      faceNormal_dot_nonneg sqrt a.1 b.1 c.1,
      fun j h a1 b1 c1 hj hat1 =>
        ⟨faceNormal_dot_nonneg sqrt a1.1 b1.1 c1.1, hmin j h a1 b1 c1 hj hat1⟩,
      hfirst⟩

theorem seedFaces_tetraSimplex (g : Face) (hg : g ∈ EPA.seedFaces) :
    ∃ a b c, FaceAt (tetraSimplex (K := K)) g a b c := by
  simp only [EPA.seedFaces, List.mem_cons, List.mem_singleton, List.not_mem_nil,
    or_false] at hg
  rcases hg with rfl | rfl | rfl | rfl <;> exact ⟨_, _, _, rfl, rfl, rfl⟩

theorem findClosestFace_first_minimum_witness :
    EPA.seedFaces ≠ [] ∧ (∀ g ∈ EPA.seedFaces, ∃ a b c, FaceAt (tetraSimplex (K := ℝ)) g a b c) ∧
    ∃ (k : Nat) (g : Face) (a b c : SupportPair ℝ), EPA.seedFaces[k]? = some g ∧
      FaceAt tetraSimplex g a b c ∧
      findClosestFace Real.sqrt tetraSimplex EPA.seedFaces =
        Run.ok (some ⟨k, a.1.dot (faceNormal Real.sqrt a.1 b.1 c.1),
          faceNormal Real.sqrt a.1 b.1 c.1, a, b, c⟩) ∧
      0 ≤ a.1.dot (faceNormal Real.sqrt a.1 b.1 c.1) :=
  ⟨by decide, seedFaces_tetraSimplex,
    (findClosestFace_first_minimum Real.sqrt tetraSimplex EPA.seedFaces (by decide)
      seedFaces_tetraSimplex).imp fun _ h => h.imp fun _ h => h.imp fun _ h =>
        h.imp fun _ h => h.imp fun _ h => ⟨h.1, h.2.1, h.2.2.1, h.2.2.2.2.1⟩⟩

/-- The support point is furthest along the direction among all differences of a vertex of
the first list and a vertex of the second. -/
theorem support_max (aVerts bVerts : List (Vector3 K)) (dir : Vector3 K)
    (point : SupportPair K) (h : support aVerts bVerts dir = some point) :
    ∀ x ∈ aVerts, ∀ y ∈ bVerts, (x.sub y).dot dir ≤ point.1.dot dir := by
  obtain ⟨a0, ha0, b0, hb0, _⟩ := support_mem aVerts bVerts dir point h
  obtain ⟨a, ha, _, hamax⟩ :=
    getFurthestPointInDirection_max aVerts dir (List.ne_nil_of_mem ha0)
  obtain ⟨b, hb, _, hbmax⟩ :=
    getFurthestPointInDirection_max bVerts dir.negate (List.ne_nil_of_mem hb0)
  unfold support at h
  rw [ha, hb] at h
  simp only [Option.some.injEq] at h
  rw [← h]
  intro x hx y hy
  have h1 := hamax x hx
  have h2 := hbmax y hy
  rw [Vector3.dot_negate, Vector3.dot_negate] at h2
  simp only []
  rw [Vector3.sub_dot, Vector3.sub_dot]
  linarith

/-- The points of `tetraSimplex` are differences of a vertex of `tetraVertices` and the
origin. -/
theorem tetraSimplex_minkowski (q : SupportPair ℝ) (hq : q ∈ tetraSimplex (K := ℝ)) :
    ∃ x ∈ tetraVertices (K := ℝ), ∃ y ∈ [(⟨0, 0, 0⟩ : Vector3 ℝ)], q.1 = x.sub y := by
  simp only [tetraSimplex, List.mem_cons, List.mem_singleton, List.not_mem_nil,
    or_false] at hq
  rcases hq with rfl | rfl | rfl | rfl
  · exact ⟨⟨-1 / 8, -1 / 4, 7 / 4⟩, by simp [tetraVertices], ⟨0, 0, 0⟩, by simp,
      by simp [Vector3.sub]⟩
  · exact ⟨⟨-1 / 8, -1 / 4, -1 / 4⟩, by simp [tetraVertices], ⟨0, 0, 0⟩, by simp,
      by simp [Vector3.sub]⟩
  · exact ⟨⟨-1 / 8, 3 / 4, -1 / 4⟩, by simp [tetraVertices], ⟨0, 0, 0⟩, by simp,
      by simp [Vector3.sub]⟩
  · exact ⟨⟨7 / 8, -1 / 4, -1 / 4⟩, by simp [tetraVertices], ⟨0, 0, 0⟩, by simp,
      by simp [Vector3.sub]⟩

/-! ### Claim C24: the contact point -/

/-- The identity of Lagrange: the `denom` of `getContactPoint` is the squared length of the
cross product of the two edges. -/
theorem denom_eq_cross (x y : Vector3 K) :
    x.dot x * y.dot y - x.dot y * x.dot y = (x.cross y).dot (x.cross y) := by
  simp only [Vector3.dot, Vector3.cross]
  ring

theorem Vector3.dot_self_pos (n : Vector3 K) (h : n ≠ ⟨0, 0, 0⟩) : 0 < n.dot n := by
  obtain ⟨x, y, z⟩ := n
  simp only [Vector3.dot]
  have hne : x ≠ 0 ∨ y ≠ 0 ∨ z ≠ 0 := by
    by_contra hcon
    push_neg at hcon
    apply h
    rw [hcon.1, hcon.2.1, hcon.2.2]
  rcases hne with h1 | h1 | h1
  · have := mul_self_pos.mpr h1
    nlinarith [mul_self_nonneg y, mul_self_nonneg z]
  · have := mul_self_pos.mpr h1
    nlinarith [mul_self_nonneg x, mul_self_nonneg z]
  · have := mul_self_pos.mpr h1
    nlinarith [mul_self_nonneg x, mul_self_nonneg y]

theorem getContactPoint_eq (p : Vector3 K) (a b c : SupportPair K) :
    getContactPoint p a b c = combine (getContactPoint.weights p a.1 b.1 c.1) a.2 b.2 c.2 := rfl

theorem weights_along_normal (p a b c : Vector3 K) (t : K) :
    getContactPoint.weights (p.add ((faceCross a b c).multiplyScalar t)) a b c =
      getContactPoint.weights p a b c := by
  have h0 : ((p.add ((faceCross a b c).multiplyScalar t)).sub a).dot (b.sub a) =
      (p.sub a).dot (b.sub a) := by
    simp only [Vector3.dot, Vector3.sub, Vector3.cross, Vector3.add, Vector3.multiplyScalar,
      faceCross]
    ring
  have h1 : ((p.add ((faceCross a b c).multiplyScalar t)).sub a).dot (c.sub a) =
      (p.sub a).dot (c.sub a) := by
    simp only [Vector3.dot, Vector3.sub, Vector3.cross, Vector3.add, Vector3.multiplyScalar,
      faceCross]
    ring
  simp only [getContactPoint.weights, h0, h1]

/-- The combination with weights `(1 - v - w, v, w)` is `a + v (b - a) + w (c - a)`. -/
theorem combine_eq (v w : K) (a b c : Vector3 K) :
    combine (1 - v - w, v, w) a b c =
      (a.add ((b.sub a).multiplyScalar v)).add ((c.sub a).multiplyScalar w) := by
  simp only [combine, Vector3.add, Vector3.sub, Vector3.multiplyScalar, Vector3.mk.injEq]
  refine ⟨?_, ?_, ?_⟩ <;> ring

/-- The vector identity behind the barycentric formula: with `n = x × y`,
`|n|² z - (d11 d20 - d01 d21) x - (d00 d21 - d01 d20) y = (z · n) n`. -/
theorem barycentric_identity (x y z : Vector3 K) :
    ((z.multiplyScalar ((x.cross y).dot (x.cross y))).sub
        (x.multiplyScalar (y.dot y * z.dot x - x.dot y * z.dot y))).sub
        (y.multiplyScalar (x.dot x * z.dot y - x.dot y * z.dot x)) =
      (x.cross y).multiplyScalar (z.dot (x.cross y)) := by
  simp only [Vector3.dot, Vector3.cross, Vector3.sub, Vector3.multiplyScalar,
    Vector3.mk.injEq]
  refine ⟨?_, ?_, ?_⟩ <;> ring

/-- What the weights `v`, `w` of `getContactPoint` do, from their defining equations: the
point `q = a + v x + w y` has `z - (q - a)` along the normal. -/
theorem barycentric_residual (x y z : Vector3 K) (v w : K)
    (hD : (x.cross y).dot (x.cross y) ≠ 0)
    (hv : v * (x.cross y).dot (x.cross y) = y.dot y * z.dot x - x.dot y * z.dot y)
    (hw : w * (x.cross y).dot (x.cross y) = x.dot x * z.dot y - x.dot y * z.dot x) :
    (z.sub (x.multiplyScalar v)).sub (y.multiplyScalar w) =
      (x.cross y).multiplyScalar (z.dot (x.cross y) / (x.cross y).dot (x.cross y)) := by
  have key := barycentric_identity x y z
  rw [← hv, ← hw] at key
  generalize (x.cross y).dot (x.cross y) = D at hD key ⊢
  generalize z.dot (x.cross y) = s at key ⊢
  generalize x.cross y = n at key ⊢
  have hx : ∀ l r : K, l * D = r → l = r / D := fun l r h => by
    rw [eq_div_iff hD]; exact h
  simp only [Vector3.sub, Vector3.multiplyScalar, Vector3.mk.injEq] at key ⊢
  refine ⟨?_, ?_, ?_⟩
  · rw [mul_div_assoc']
    apply hx
    linear_combination key.1
  · rw [mul_div_assoc']
    apply hx
    linear_combination key.2.1
  · rw [mul_div_assoc']
    apply hx
    linear_combination key.2.2

/-- C24: for three support pairs whose Minkowski points form a non-degenerate triangle and
every point `p`, the weights `u`, `v`, `w` of `getContactPoint` add up to 1, the combination
`u·a[0] + v·b[0] + w·c[0]` is the orthogonal projection of `p` onto the plane of the triangle
(it lies in the plane, `p` minus it is orthogonal to both edges and is the component of
`p - a[0]` along the face normal; it is `p` itself when `p` lies in the plane), the function
returns the same combination of the hull-A points, and the result does not depend on the
component of `p` along the face normal. -/
theorem getContactPoint_projection (p : Vector3 K) (a b c : SupportPair K)
    (hnd : faceCross a.1 b.1 c.1 ≠ ⟨0, 0, 0⟩) :
    (getContactPoint.weights p a.1 b.1 c.1).1 + (getContactPoint.weights p a.1 b.1 c.1).2.1 +
      (getContactPoint.weights p a.1 b.1 c.1).2.2 = 1 ∧
    getContactPoint p a b c = combine (getContactPoint.weights p a.1 b.1 c.1) a.2 b.2 c.2 ∧
    ((combine (getContactPoint.weights p a.1 b.1 c.1) a.1 b.1 c.1).sub a.1).dot
      (faceCross a.1 b.1 c.1) = 0 ∧
    (p.sub (combine (getContactPoint.weights p a.1 b.1 c.1) a.1 b.1 c.1)).dot (b.1.sub a.1) =
      0 ∧
    (p.sub (combine (getContactPoint.weights p a.1 b.1 c.1) a.1 b.1 c.1)).dot (c.1.sub a.1) =
      0 ∧
    p.sub (combine (getContactPoint.weights p a.1 b.1 c.1) a.1 b.1 c.1) =
      (faceCross a.1 b.1 c.1).multiplyScalar
        ((p.sub a.1).dot (faceCross a.1 b.1 c.1) /
          (faceCross a.1 b.1 c.1).dot (faceCross a.1 b.1 c.1)) ∧
    ((p.sub a.1).dot (faceCross a.1 b.1 c.1) = 0 →
      combine (getContactPoint.weights p a.1 b.1 c.1) a.1 b.1 c.1 = p) ∧
    ∀ t : K, getContactPoint (p.add ((faceCross a.1 b.1 c.1).multiplyScalar t)) a b c =
      getContactPoint p a b c := by
  have hN : 0 < (faceCross a.1 b.1 c.1).dot (faceCross a.1 b.1 c.1) :=
    Vector3.dot_self_pos _ hnd
  have hD : ((b.1.sub a.1).cross (c.1.sub a.1)).dot ((b.1.sub a.1).cross (c.1.sub a.1)) ≠ 0 :=
    ne_of_gt hN
  obtain ⟨v, w, hweights, hv, hw⟩ : ∃ v w : K,
      getContactPoint.weights p a.1 b.1 c.1 = (1 - v - w, v, w) ∧
      v * ((b.1.sub a.1).cross (c.1.sub a.1)).dot ((b.1.sub a.1).cross (c.1.sub a.1)) =
        (c.1.sub a.1).dot (c.1.sub a.1) * (p.sub a.1).dot (b.1.sub a.1) -
          (b.1.sub a.1).dot (c.1.sub a.1) * (p.sub a.1).dot (c.1.sub a.1) ∧
      w * ((b.1.sub a.1).cross (c.1.sub a.1)).dot ((b.1.sub a.1).cross (c.1.sub a.1)) =
        (b.1.sub a.1).dot (b.1.sub a.1) * (p.sub a.1).dot (c.1.sub a.1) -
          (b.1.sub a.1).dot (c.1.sub a.1) * (p.sub a.1).dot (b.1.sub a.1) := by
    refine ⟨_, _, rfl, ?_, ?_⟩
    · rw [← denom_eq_cross] at hD ⊢
      exact div_mul_cancel₀ _ hD
    · rw [← denom_eq_cross] at hD ⊢
      exact div_mul_cancel₀ _ hD
  have hres := barycentric_residual (b.1.sub a.1) (c.1.sub a.1) (p.sub a.1) v w hD hv hw
  have hpq : p.sub (combine (getContactPoint.weights p a.1 b.1 c.1) a.1 b.1 c.1) =
      ((p.sub a.1).sub ((b.1.sub a.1).multiplyScalar v)).sub
        ((c.1.sub a.1).multiplyScalar w) := by
    rw [hweights, combine_eq]
    simp only [Vector3.add, Vector3.sub, Vector3.multiplyScalar, Vector3.mk.injEq]
    refine ⟨?_, ?_, ?_⟩ <;> ring
  have hexplicit : p.sub (combine (getContactPoint.weights p a.1 b.1 c.1) a.1 b.1 c.1) =
      (faceCross a.1 b.1 c.1).multiplyScalar
        ((p.sub a.1).dot (faceCross a.1 b.1 c.1) /
          (faceCross a.1 b.1 c.1).dot (faceCross a.1 b.1 c.1)) := by
    rw [hpq, hres]
    rfl
  have hortho : ∀ e : Vector3 K, (faceCross a.1 b.1 c.1).dot e = 0 →
      (p.sub (combine (getContactPoint.weights p a.1 b.1 c.1) a.1 b.1 c.1)).dot e = 0 := by
    intro e he
    rw [hexplicit]
    have : ∀ (n : Vector3 K) (k : K), (n.multiplyScalar k).dot e = k * n.dot e := by
      intro n k
      simp only [Vector3.dot, Vector3.multiplyScalar]
      ring
    rw [this, he, mul_zero]
  refine ⟨?_, rfl, ?_, ?_, ?_, hexplicit, ?_, ?_⟩
  · rw [hweights]
    ring
  · rw [hweights, combine_eq]
    simp only [Vector3.dot, Vector3.cross, Vector3.add, Vector3.sub, Vector3.multiplyScalar,
      faceCross]
    ring
  · apply hortho
    simp only [Vector3.dot, Vector3.cross, Vector3.sub, faceCross]
    ring
  · apply hortho
    simp only [Vector3.dot, Vector3.cross, Vector3.sub, faceCross]
    ring
  · intro h0
    have h7 := hexplicit
    rw [h0, zero_div] at h7
    generalize combine (getContactPoint.weights p a.1 b.1 c.1) a.1 b.1 c.1 = q at h7 ⊢
    obtain ⟨qx, qy, qz⟩ := q
    obtain ⟨px, py, pz⟩ := p
    simp only [Vector3.sub, Vector3.multiplyScalar, mul_zero, Vector3.mk.injEq] at h7 ⊢
    exact ⟨by linarith [h7.1], by linarith [h7.2.1], by linarith [h7.2.2]⟩
  · intro t
    rw [getContactPoint_eq, getContactPoint_eq]
    exact congrArg (fun w => combine w a.2 b.2 c.2) (weights_along_normal _ _ _ _ t)

theorem getContactPoint_projection_witness :
    faceCross (⟨0, 0, 0⟩ : Vector3 ℚ) ⟨1, 0, 0⟩ ⟨0, 1, 0⟩ ≠ ⟨0, 0, 0⟩ ∧
    getContactPoint.weights (⟨1, 2, 3⟩ : Vector3 ℚ) ⟨0, 0, 0⟩ ⟨1, 0, 0⟩ ⟨0, 1, 0⟩ =
      (-2, 1, 2) ∧
    (∀ t : ℚ, getContactPoint
        ((⟨1, 2, 3⟩ : Vector3 ℚ).add
          ((faceCross (⟨0, 0, 0⟩ : Vector3 ℚ) ⟨1, 0, 0⟩ ⟨0, 1, 0⟩).multiplyScalar t))
        ((⟨0, 0, 0⟩, ⟨5, 0, 0⟩) : SupportPair ℚ) (⟨1, 0, 0⟩, ⟨0, 5, 0⟩)
        (⟨0, 1, 0⟩, ⟨0, 0, 5⟩) =
      getContactPoint ⟨1, 2, 3⟩ (⟨0, 0, 0⟩, ⟨5, 0, 0⟩) (⟨1, 0, 0⟩, ⟨0, 5, 0⟩)
        (⟨0, 1, 0⟩, ⟨0, 0, 5⟩)) :=
  ⟨by decide!, by decide!,
    (getContactPoint_projection (⟨1, 2, 3⟩ : Vector3 ℚ)
      ((⟨0, 0, 0⟩, ⟨5, 0, 0⟩) : SupportPair ℚ) (⟨1, 0, 0⟩, ⟨0, 5, 0⟩) (⟨0, 1, 0⟩, ⟨0, 0, 5⟩)
      (by decide!)).2.2.2.2.2.2.2⟩

/-! ### Claims C23 and C25: `expand` and the invariant of the face list -/

theorem sees_eq (sqrt : K → K) (simplex : Simplex K) (p : Vector3 K) (g : Face)
    (a b c : SupportPair K) (h : FaceAt simplex g a b c) :
    sees sqrt simplex p g = decide ((faceNormal sqrt a.1 b.1 c.1).dot (p.sub a.1) > 0) := by
  obtain ⟨ha, hb, hc⟩ := h
  unfold sees
  simp only [ha, hb, hc]
  rfl

theorem FacesOrdered_faceAt (simplex : Simplex K) (faces : List Face)
    (h : FacesOrdered simplex.length faces) :
    ∀ g ∈ faces, ∃ a b c, FaceAt simplex g a b c := by
  intro g hg
  obtain ⟨hab, hbc, hc⟩ := h g hg
  have hb : g.b < simplex.length := lt_trans hbc hc
  have ha : g.a < simplex.length := lt_trans hab hb
  exact ⟨simplex[g.a], simplex[g.b], simplex[g.c], List.getElem?_eq_getElem ha,
    List.getElem?_eq_getElem hb, List.getElem?_eq_getElem hc⟩

/-- What `edgeInEdges` finds: nothing when the edge is not in the list, and otherwise the
position whose removal removes the first occurrence of the edge. -/
theorem edgeInEdges_loop_spec (edge : Edge) :
    ∀ (l : List Edge) (i : Nat),
      (edge ∉ l ∧ edgeInEdges.loop edge l i = none) ∨
      (edge ∈ l ∧ ∃ j, edgeInEdges.loop edge l i = some (i + j) ∧
        l[j]? = some edge ∧ l.eraseIdx j = l.erase edge) := by
  intro l
  induction l with
  | nil =>
    intro i
    left
    exact ⟨List.not_mem_nil _, rfl⟩
  | cons e rest ih =>
    intro i
    by_cases h : e.a = edge.a ∧ e.b = edge.b
    · have he : e = edge := by
        cases e
        cases edge
        simp only [Edge.mk.injEq]
        exact h
      right
      refine ⟨by rw [he]; exact List.mem_cons_self _ _, 0, ?_, ?_, ?_⟩
      · unfold edgeInEdges.loop
        rw [if_pos h]
        rfl
      · rw [he]
        exact List.getElem?_cons_zero
      · rw [he, List.erase_cons_head]
        rfl
    · have hne : e ≠ edge := by
        intro he
        apply h
        rw [he]
        exact ⟨rfl, rfl⟩
      have hloop : edgeInEdges.loop edge (e :: rest) i = edgeInEdges.loop edge rest (i + 1) := by
        conv_lhs => unfold edgeInEdges.loop
        rw [if_neg h]
      rcases ih (i + 1) with ⟨hno, hres⟩ | ⟨hmem, j, hres, hget, herase⟩
      · left
        refine ⟨?_, by rw [hloop, hres]⟩
        intro hmem
        rcases List.mem_cons.mp hmem with h1 | h1
        · exact hne h1.symm
        · exact hno h1
      · right
        refine ⟨List.mem_cons_of_mem _ hmem, j + 1, ?_, ?_, ?_⟩
        · rw [hloop, hres]
          congr 1
          omega
        · rw [List.getElem?_cons_succ]
          exact hget
        · rw [List.eraseIdx_cons_succ, herase, List.erase_cons_tail]
          simpa using hne

/-- Lines 348-350 of `expand`: an edge that is in the list is removed, once, and one that is
not is pushed. -/
theorem toggle_eq (acc : List Edge) (e : Edge) :
    expand.toggle acc e = if e ∈ acc then acc.erase e else acc ++ [e] := by
  unfold expand.toggle edgeInEdges
  rcases edgeInEdges_loop_spec e acc 0 with ⟨hno, hres⟩ | ⟨hmem, j, hres, _, herase⟩
  · rw [hres, if_neg hno]
  · rw [hres, if_pos hmem, Nat.zero_add]
    exact herase

theorem toggle_subset (acc : List Edge) (e x : Edge) (h : x ∈ expand.toggle acc e) :
    x ∈ acc ∨ x = e := by
  rw [toggle_eq] at h
  split_ifs at h
  · exact Or.inl (List.mem_of_mem_erase h)
  · rcases List.mem_append.mp h with h1 | h1
    · exact Or.inl h1
    · exact Or.inr (List.mem_singleton.mp h1)

theorem foldl_toggle_subset :
    ∀ (S acc : List Edge) (x : Edge), x ∈ S.foldl expand.toggle acc → x ∈ acc ∨ x ∈ S := by
  intro S
  induction S with
  | nil =>
    intro acc x h
    exact Or.inl h
  | cons e rest ih =>
    intro acc x h
    rw [List.foldl_cons] at h
    rcases ih _ x h with h1 | h1
    · rcases toggle_subset acc e x h1 with h2 | h2
      · exact Or.inl h2
      · right
        rw [h2]
        exact List.mem_cons_self _ _
    · exact Or.inr (List.mem_cons_of_mem _ h1)

/-- One toggle, on a list that holds the edges met exactly once so far. -/
theorem toggle_once (S : List Edge) (e : Edge) (h2 : (S ++ [e]).count e ≤ 2) :
    expand.toggle (S.filter (fun x => decide (S.count x = 1))) e =
      (S ++ [e]).filter (fun x => decide ((S ++ [e]).count x = 1)) := by
  have hcount : ∀ x, (S ++ [e]).count x = S.count x + if x = e then 1 else 0 := by
    intro x
    rw [List.count_append, List.count_singleton]
    by_cases hx : x = e
    · simp [hx]
    · have : ¬ (e = x) := fun h => hx h.symm
      simp [hx, this]
  have hle : S.count e ≤ 1 := by
    have := hcount e
    rw [if_pos rfl] at this
    omega
  rw [toggle_eq, List.filter_append]
  by_cases hmem : e ∈ S
  · have h1 : S.count e = 1 := by
      have := List.count_pos_iff.mpr hmem
      omega
    have hin : e ∈ S.filter (fun x => decide (S.count x = 1)) := by
      rw [List.mem_filter]
      exact ⟨hmem, by simp [h1]⟩
    rw [if_pos hin]
    have hnodup : (S.filter (fun x => decide (S.count x = 1))).Nodup := by
      rw [List.nodup_iff_count_le_one]
      intro x
      by_cases hx : S.count x = 1
      · rw [List.count_filter (by simp [hx]), hx]
      · rw [List.count_eq_zero_of_not_mem]
        · exact Nat.zero_le _
        · intro hin
          rw [List.mem_filter] at hin
          simp [hx] at hin
    rw [hnodup.erase_eq_filter, List.filter_filter]
    have hlast : [e].filter (fun x => decide ((S ++ [e]).count x = 1)) = [] := by
      rw [List.filter_singleton, hcount e, if_pos rfl, h1]
      rfl
    rw [hlast, List.append_nil]
    apply List.filter_congr
    intro x _
    rw [hcount x]
    by_cases hx : x = e
    · rw [if_pos hx, hx, h1]
      simp
    · rw [if_neg hx]
      simp [hx]
  · have h0 : S.count e = 0 := List.count_eq_zero_of_not_mem hmem
    have hnin : e ∉ S.filter (fun x => decide (S.count x = 1)) := by
      intro hin
      exact hmem (List.mem_filter.mp hin).1
    rw [if_neg hnin]
    have hlast : [e].filter (fun x => decide ((S ++ [e]).count x = 1)) = [e] := by
      rw [List.filter_singleton, hcount e, if_pos rfl, h0]
      rfl
    rw [hlast]
    congr 1
    apply List.filter_congr
    intro x hx
    rw [hcount x]
    have hne : x ≠ e := by
      intro h
      rw [h] at hx
      exact hmem hx
    rw [if_neg hne, Nat.add_zero]

/-- The edge list after the toggles of a sequence of edges in which no edge occurs more than
twice: the edges that occur exactly once, in the order of the sequence. -/
theorem foldl_toggle_once :
    ∀ (T S : List Edge), (∀ e, (S ++ T).count e ≤ 2) →
      T.foldl expand.toggle (S.filter (fun x => decide (S.count x = 1))) =
        (S ++ T).filter (fun x => decide ((S ++ T).count x = 1)) := by
  intro T
  induction T with
  | nil =>
    intro S _
    rw [List.append_nil]
    rfl
  | cons e rest ih =>
    intro S h
    have hassoc : S ++ e :: rest = (S ++ [e]) ++ rest := by simp
    rw [List.foldl_cons, toggle_once S e, hassoc]
    · apply ih
      intro x
      rw [← hassoc]
      exact h x
    · have := h e
      rw [hassoc, List.count_append] at this
      omega

theorem mem_edges_iff (g : Face) (e : Edge) (hab : g.a < g.b) (hbc : g.b < g.c) :
    e ∈ g.edges ↔ e.a < e.b ∧ g.hasEdge e.a e.b = true := by
  cases e with
  | mk i j =>
    simp only [Face.edges, Face.hasEdge, List.mem_cons, List.mem_singleton, Edge.mk.injEq,
      List.not_mem_nil, or_false, decide_eq_true_eq]
    constructor
    · rintro (⟨h1, h2⟩ | ⟨h1, h2⟩ | ⟨h1, h2⟩) <;> subst h1 <;> subst h2 <;> omega
    · rintro ⟨hlt, hne, hi, hj⟩
      omega

theorem hasEdge_symm (g : Face) (i j : Nat) : g.hasEdge i j = g.hasEdge j i := by
  unfold Face.hasEdge
  apply decide_eq_decide.mpr
  constructor
  · rintro ⟨h1, h2, h3⟩
    exact ⟨fun h => h1 h.symm, h3, h2⟩
  · rintro ⟨h1, h2, h3⟩
    exact ⟨fun h => h1 h.symm, h3, h2⟩

theorem edges_nodup (g : Face) (hab : g.a < g.b) (hbc : g.b < g.c) : g.edges.Nodup := by
  simp only [Face.edges, List.nodup_cons, List.mem_cons, List.mem_singleton, Edge.mk.injEq,
    List.not_mem_nil, not_false_eq_true, List.nodup_nil, and_true, not_or, not_and]
  omega

/-- The number of times an edge is toggled for a list of faces with increasing indices: the
number of the faces that have it. -/
theorem count_edgesOf (n : Nat) (e : Edge) :
    ∀ (L : List Face), FacesOrdered n L →
      (edgesOf L).count e = (L.filter (fun g => decide (e ∈ g.edges))).length := by
  intro L
  induction L with
  | nil =>
    intro _
    rfl
  | cons g rest ih =>
    intro h
    have hg := h g (List.mem_cons_self _ _)
    have hrest : FacesOrdered n rest := fun x hx => h x (List.mem_cons_of_mem _ hx)
    have hnd := edges_nodup g hg.1 hg.2.1
    rw [edgesOf, List.count_append, ih hrest, List.filter_cons]
    by_cases hmem : e ∈ g.edges
    · rw [List.count_eq_one_of_mem hnd hmem]
      simp [hmem]
      omega
    · rw [List.count_eq_zero_of_not_mem hmem]
      simp [hmem]

theorem mem_edgesOf (e : Edge) :
    ∀ (L : List Face), e ∈ edgesOf L → ∃ g ∈ L, e ∈ g.edges := by
  intro L
  induction L with
  | nil =>
    intro h
    simp [edgesOf] at h
  | cons g rest ih =>
    intro h
    rw [edgesOf, List.mem_append] at h
    rcases h with h | h
    · exact ⟨g, List.mem_cons_self _ _, h⟩
    · obtain ⟨g1, hg1, he⟩ := ih h
      exact ⟨g1, List.mem_cons_of_mem _ hg1, he⟩

/-- The three parts of `expand` on a face list with valid indices: the removal indices, what
the splices of lines 361-363 leave, and the edge list of lines 333-359. -/
theorem expand_parts (sqrt : K → K) (simplex : Simplex K) (p : Vector3 K) :
    ∀ (rest pre : List Face), (∀ g ∈ rest, ∃ a b c, FaceAt simplex g a b c) →
      ∃ idx : List Nat,
        expand.removalFaces sqrt simplex p rest pre.length = Run.ok idx ∧
        idx.foldr (fun k faces => faces.eraseIdx k) (pre ++ rest) =
          pre ++ rest.filter (fun g => !sees sqrt simplex p g) ∧
        ∀ acc : List Edge, expand.edges (pre ++ rest) idx acc =
          Run.ok ((edgesOf (rest.filter (sees sqrt simplex p))).foldl expand.toggle acc) := by
  intro rest
  induction rest with
  | nil =>
    intro pre _
    refine ⟨[], rfl, ?_, fun acc => ?_⟩
    · simp
    · rfl
  | cons g rest ih =>
    intro pre hvalid
    obtain ⟨a, b, c, hat⟩ := hvalid g (List.mem_cons_self _ _)
    obtain ⟨later, hlater, hfold, hedges⟩ :=
      ih (pre ++ [g]) (fun x hx => hvalid x (List.mem_cons_of_mem _ hx))
    have hlen : (pre ++ [g]).length = pre.length + 1 := by simp
    have hassoc : pre ++ [g] ++ rest = pre ++ g :: rest := by simp
    rw [hlen] at hlater
    rw [hassoc] at hfold hedges
    have hsees := sees_eq sqrt simplex p g a b c hat
    have hrem := removalFaces_cons sqrt simplex p g rest pre.length a b c hat
    rw [hlater] at hrem
    simp only [] at hrem
    by_cases hcond : (faceNormal sqrt a.1 b.1 c.1).dot (p.sub a.1) > 0
    · rw [if_pos hcond] at hrem
      have hs : sees sqrt simplex p g = true := by
        rw [hsees]
        exact decide_eq_true hcond
      refine ⟨pre.length :: later, hrem, ?_, fun acc => ?_⟩
      · rw [List.foldr_cons, hfold, List.append_assoc,
          List.eraseIdx_append_of_length_le (le_refl _), Nat.sub_self]
        simp [hs]
      · have hget : (pre ++ g :: rest)[pre.length]? = some g := by
          rw [List.getElem?_append_right (le_refl _)]
          simp
        conv_lhs => unfold expand.edges
        simp only [hget]
        rw [hedges]
        simp only [List.filter_cons, hs, if_true, edgesOf, List.foldl_append]
        rfl
    · rw [if_neg hcond] at hrem
      have hs : sees sqrt simplex p g = false := by
        rw [hsees]
        exact decide_eq_false hcond
      refine ⟨later, hrem, ?_, fun acc => ?_⟩
      · rw [hfold]
        simp [hs]
      · rw [hedges]
        simp [hs]

/-- What `expand` returns on a face list with valid indices: the faces that do not see the
point, in their order, and then one face for every edge that the toggles leave. -/
theorem expand_eq (sqrt : K → K) (simplex : Simplex K) (faces : List Face) (p : Vector3 K)
    (hvalid : ∀ g ∈ faces, ∃ a b c, FaceAt simplex g a b c) :
    expand sqrt simplex faces p =
      Run.ok (faces.filter (fun g => !sees sqrt simplex p g) ++
        ((edgesOf (faces.filter (sees sqrt simplex p))).foldl expand.toggle []).map
          (fun e => ⟨e.a, e.b, simplex.length - 1⟩)) := by
  obtain ⟨idx, hidx, hfold, hedges⟩ := expand_parts sqrt simplex p faces [] hvalid
  unfold expand
  rw [List.length_nil] at hidx
  rw [List.nil_append] at hfold hedges
  rw [hidx]
  simp only []
  rw [hedges []]
  simp only []
  rw [hfold, List.nil_append]

theorem filter_count_one_nodup (S : List Edge) :
    (S.filter (fun x => decide (S.count x = 1))).Nodup := by
  rw [List.nodup_iff_count_le_one]
  intro x
  by_cases hx : S.count x = 1
  · rw [List.count_filter (by simp [hx]), hx]
  · rw [List.count_eq_zero_of_not_mem]
    · exact Nat.zero_le _
    · intro hin
      rw [List.mem_filter] at hin
      simp [hx] at hin

/-- The number of times an edge is toggled for a list of faces with increasing indices, in
terms of the vertices of the faces. -/
theorem count_edgesOf_hasEdge (n : Nat) (e : Edge) (L : List Face) (h : FacesOrdered n L) :
    (edgesOf L).count e =
      if e.a < e.b then (L.filter (fun g => g.hasEdge e.a e.b)).length else 0 := by
  rw [count_edgesOf n e L h]
  by_cases hlt : e.a < e.b
  · rw [if_pos hlt]
    congr 1
    apply List.filter_congr
    intro g hg
    have hg1 := h g hg
    have := mem_edges_iff g e hg1.1 hg1.2.1
    by_cases hmem : e ∈ g.edges
    · rw [decide_eq_true hmem, (this.mp hmem).2]
    · rw [decide_eq_false hmem]
      cases hh : g.hasEdge e.a e.b
      · rfl
      · exact absurd (this.mpr ⟨hlt, hh⟩) hmem
  · rw [if_neg hlt, List.length_eq_zero, List.filter_eq_nil_iff]
    intro g hg
    have hg1 := h g hg
    have := mem_edges_iff g e hg1.1 hg1.2.1
    intro hmem
    exact hlt (this.mp (of_decide_eq_true hmem)).1

/-- C23: for a face list in which the indices of every face increase and point into the
simplex and in which no edge belongs to more than two faces, `expand` with the last simplex
point `p` returns the faces that do not see `p` (the normal of the face, turned away from the
origin, dotted with `p - a` is not positive), in their order, followed by one new face
`(e.a, e.b, index of p)` for each edge `e` that belongs to exactly one face that sees `p`;
an edge that two such faces share gives no new face. -/
theorem expand_visible (sqrt : K → K) (simplex : Simplex K) (p : SupportPair K)
    (faces : List Face) (hord : FacesOrdered (simplex ++ [p]).length faces)
    (htwo : ∀ i j : Nat, (faces.filter (fun g => g.hasEdge i j)).length ≤ 2) :
    ∃ newEdges : List Edge,
      expand sqrt (simplex ++ [p]) faces p.1 =
        Run.ok (faces.filter (fun g => !sees sqrt (simplex ++ [p]) p.1 g) ++
          newEdges.map (fun e => ⟨e.a, e.b, simplex.length⟩)) ∧
      (simplex ++ [p])[simplex.length]? = some p ∧
      (∀ g ∈ faces, ∃ a b c, FaceAt (simplex ++ [p]) g a b c ∧
        (sees sqrt (simplex ++ [p]) p.1 g = true ↔
          0 < (faceNormal sqrt a.1 b.1 c.1).dot (p.1.sub a.1))) ∧
      newEdges.Nodup ∧
      (∀ e : Edge, e ∈ newEdges ↔ e.a < e.b ∧
        ((faces.filter (sees sqrt (simplex ++ [p]) p.1)).filter
          (fun g => g.hasEdge e.a e.b)).length = 1) ∧
      (∀ i j : Nat,
        ((faces.filter (sees sqrt (simplex ++ [p]) p.1)).filter
          (fun g => g.hasEdge i j)).length = 2 →
        ∀ e ∈ newEdges, ¬ (e.a = i ∧ e.b = j) ∧ ¬ (e.a = j ∧ e.b = i)) := by
  have hvalid := FacesOrdered_faceAt (simplex ++ [p]) faces hord
  have hordV : FacesOrdered (simplex ++ [p]).length
      (faces.filter (sees sqrt (simplex ++ [p]) p.1)) :=
    fun g hg => hord g (List.mem_filter.mp hg).1
  have hcount := fun e : Edge => count_edgesOf_hasEdge (simplex ++ [p]).length e
    (faces.filter (sees sqrt (simplex ++ [p]) p.1)) hordV
  have hle : ∀ i j : Nat, ((faces.filter (sees sqrt (simplex ++ [p]) p.1)).filter
      (fun g => g.hasEdge i j)).length ≤ 2 := by
    intro i j
    refine le_trans ?_ (htwo i j)
    exact ((List.filter_sublist faces).filter _).length_le
  have hcount2 : ∀ e : Edge,
      (edgesOf (faces.filter (sees sqrt (simplex ++ [p]) p.1))).count e ≤ 2 := by
    intro e
    rw [hcount e]
    split_ifs
    · exact hle e.a e.b
    · exact Nat.zero_le _
  have hmem : ∀ e : Edge,
      e ∈ (edgesOf (faces.filter (sees sqrt (simplex ++ [p]) p.1))).filter
        (fun x => decide
          ((edgesOf (faces.filter (sees sqrt (simplex ++ [p]) p.1))).count x = 1)) ↔
      e.a < e.b ∧ ((faces.filter (sees sqrt (simplex ++ [p]) p.1)).filter
        (fun g => g.hasEdge e.a e.b)).length = 1 := by
    intro e
    rw [List.mem_filter, decide_eq_true_eq]
    constructor
    · rintro ⟨_, h1⟩
      rw [hcount e] at h1
      split_ifs at h1 with hlt
      exact ⟨hlt, h1⟩
    · rintro ⟨hlt, h1⟩
      have h2 : (edgesOf (faces.filter (sees sqrt (simplex ++ [p]) p.1))).count e = 1 := by
        rw [hcount e, if_pos hlt, h1]
      exact ⟨List.count_pos_iff.mp (by rw [h2]; exact Nat.one_pos), h2⟩
  refine ⟨(edgesOf (faces.filter (sees sqrt (simplex ++ [p]) p.1))).filter
    (fun x => decide ((edgesOf (faces.filter (sees sqrt (simplex ++ [p]) p.1))).count x = 1)),
    ?_, ?_, ?_, filter_count_one_nodup _, hmem, ?_⟩
  · rw [expand_eq sqrt (simplex ++ [p]) faces p.1 hvalid]
    have h := foldl_toggle_once (edgesOf (faces.filter (sees sqrt (simplex ++ [p]) p.1))) []
      (by simpa using hcount2)
    rw [List.nil_append] at h
    have h0 : ([] : List Edge).filter (fun x => decide (([] : List Edge).count x = 1)) = [] :=
      rfl
    rw [h0] at h
    rw [h]
    simp
  · rw [List.getElem?_append_right (le_refl _)]
    simp
  · intro g hg
    obtain ⟨a, b, c, hat⟩ := hvalid g hg
    refine ⟨a, b, c, hat, ?_⟩
    rw [sees_eq sqrt (simplex ++ [p]) p.1 g a b c hat, decide_eq_true_eq]
  · intro i j hlen e he
    have h1 := ((hmem e).mp he).2
    constructor
    · rintro ⟨rfl, rfl⟩
      rw [h1] at hlen
      exact absurd hlen (by decide)
    · rintro ⟨rfl, rfl⟩
      have hsymm : (fun g : Face => g.hasEdge e.b e.a) = fun g => g.hasEdge e.a e.b := by
        funext g
        exact hasEdge_symm g e.b e.a
      rw [hsymm, h1] at hlen
      exact absurd hlen (by decide)

/-- Every edge of the tetrahedron of the seed faces belongs to two of them. -/
theorem seedFaces_two (i j : Nat) :
    (EPA.seedFaces.filter (fun g => g.hasEdge i j)).length ≤ 2 := by
  by_cases h : i < 4 ∧ j < 4
  · obtain ⟨hi, hj⟩ := h
    interval_cases i <;> interval_cases j <;> decide
  · have hnil : EPA.seedFaces.filter (fun g => g.hasEdge i j) = [] := by
      rw [List.filter_eq_nil_iff]
      intro g hg
      simp only [EPA.seedFaces, List.mem_cons, List.mem_singleton, List.not_mem_nil,
        or_false] at hg
      rcases hg with rfl | rfl | rfl | rfl <;> simp [Face.hasEdge] <;> omega
    rw [hnil]
    exact Nat.zero_le _

theorem seedFaces_ordered (n : Nat) (h4 : 4 ≤ n) : FacesOrdered n EPA.seedFaces := by
  intro g hg
  simp only [EPA.seedFaces, List.mem_cons, List.mem_singleton, List.not_mem_nil,
    or_false] at hg
  rcases hg with rfl | rfl | rfl | rfl <;> simp <;> omega

theorem expand_visible_witness :
    FacesOrdered
      (tetraSimplex ++ [((⟨-1 / 2, 0, 0⟩ : Vector3 ℝ), (⟨-1 / 2, 0, 0⟩ : Vector3 ℝ))]).length
      EPA.seedFaces ∧
    (∀ i j : Nat, (EPA.seedFaces.filter (fun g => g.hasEdge i j)).length ≤ 2) ∧
    ∃ newEdges : List Edge,
      expand Real.sqrt
          (tetraSimplex ++ [((⟨-1 / 2, 0, 0⟩ : Vector3 ℝ), (⟨-1 / 2, 0, 0⟩ : Vector3 ℝ))])
          EPA.seedFaces (⟨-1 / 2, 0, 0⟩ : Vector3 ℝ) =
        Run.ok (EPA.seedFaces.filter (fun g => !sees Real.sqrt
            (tetraSimplex ++ [((⟨-1 / 2, 0, 0⟩ : Vector3 ℝ), (⟨-1 / 2, 0, 0⟩ : Vector3 ℝ))])
            ⟨-1 / 2, 0, 0⟩ g) ++
          newEdges.map (fun e => ⟨e.a, e.b, (tetraSimplex (K := ℝ)).length⟩)) ∧
      newEdges.Nodup :=
  ⟨seedFaces_ordered _ (by simp [tetraSimplex]), seedFaces_two,
    (expand_visible Real.sqrt tetraSimplex
      ((⟨-1 / 2, 0, 0⟩ : Vector3 ℝ), (⟨-1 / 2, 0, 0⟩ : Vector3 ℝ)) EPA.seedFaces
      (seedFaces_ordered _ (by simp [tetraSimplex])) seedFaces_two).imp
      fun _ h => ⟨h.1, h.2.2.2.1⟩⟩

/-- A pass of the loop of `EPA` that goes on has pushed a support pair and called `expand`
with it. -/
theorem EPA_pass_next (sqrt : K → K) (vertA vertB : List (Vector3 K)) (simplex : Simplex K)
    (faces : List Face) (simplex1 : Simplex K) (faces1 : List Face)
    (h : EPA.pass sqrt vertA vertB simplex faces = Pass.next (simplex1, faces1)) :
    ∃ point : SupportPair K, simplex1 = simplex ++ [point] ∧
      expand sqrt (simplex ++ [point]) faces point.1 = Run.ok faces1 := by
  unfold EPA.pass at h
  rcases hcl : findClosestFace sqrt simplex faces with (_ | face) | _ | _
  · rw [hcl] at h
    simp at h
  · rw [hcl] at h
    simp only [] at h
    cases hsup : support vertA vertB face.normal with
    | none =>
      rw [hsup] at h
      simp at h
    | some point =>
      rw [hsup] at h
      simp only [] at h
      by_cases hd : point.1.dot face.normal - face.dist < epsilon
      · rw [if_pos hd] at h
        simp at h
      · rw [if_neg hd] at h
        rcases hex : expand sqrt (simplex ++ [point]) faces point.1 with f | _ | _
        · rw [hex] at h
          simp only [Pass.next.injEq, Prod.mk.injEq] at h
          exact ⟨point, h.1.symm, by rw [← h.2]; exact hex⟩
        · rw [hex] at h
          simp at h
        · rw [hex] at h
          simp at h
  · rw [hcl] at h
    simp at h
  · rw [hcl] at h
    simp at h

/-- The call of `expand` keeps the invariant of the face list: it returns, and the indices of
every face it returns increase and stay below the length of the simplex. -/
theorem expand_ordered (sqrt : K → K) (s : Simplex K) (p : SupportPair K) (v : Vector3 K)
    (faces : List Face) (h : FacesOrdered s.length faces) :
    ∃ faces1, expand sqrt (s ++ [p]) faces v = Run.ok faces1 ∧
      FacesOrdered (s ++ [p]).length faces1 := by
  have hlen : (s ++ [p]).length = s.length + 1 := by simp
  have hord : FacesOrdered (s ++ [p]).length faces := by
    intro g hg
    obtain ⟨h1, h2, h3⟩ := h g hg
    exact ⟨h1, h2, by rw [hlen]; exact Nat.lt_succ_of_lt h3⟩
  refine ⟨_, expand_eq sqrt (s ++ [p]) faces v (FacesOrdered_faceAt (s ++ [p]) faces hord), ?_⟩
  intro g hg
  rcases List.mem_append.mp hg with hg | hg
  · exact hord g (List.mem_filter.mp hg).1
  · obtain ⟨e, he, rfl⟩ := List.mem_map.mp hg
    rcases foldl_toggle_subset _ [] e he with h0 | h0
    · exact absurd h0 (List.not_mem_nil _)
    · obtain ⟨g1, hg1, he1⟩ := mem_edgesOf e _ h0
      obtain ⟨h1, h2, h3⟩ := h g1 (List.mem_filter.mp hg1).1
      have := (mem_edges_iff g1 e h1 h2).mp he1
      simp only [Face.edges, List.mem_cons, List.mem_singleton, List.not_mem_nil,
        or_false] at he1
      rw [hlen]
      rcases he1 with rfl | rfl | rfl <;> simp only [] <;> omega

theorem EPA_state_ordered (sqrt : K → K) (vertA vertB : List (Vector3 K)) :
    ∀ (n : Nat) (s : Simplex K) (f : List Face) (s1 : Simplex K) (f1 : List Face),
      FacesOrdered s.length f → EPA.state sqrt vertA vertB n s f = some (s1, f1) →
      FacesOrdered s1.length f1 := by
  intro n
  induction n with
  | zero =>
    intro s f s1 f1 hord h
    simp only [EPA.state, Option.some.injEq, Prod.mk.injEq] at h
    rw [← h.1, ← h.2]
    exact hord
  | succ n ih =>
    intro s f s1 f1 hord h
    unfold EPA.state at h
    rcases hp : EPA.pass sqrt vertA vertB s f with ⟨s2, f2⟩ | r
    · rw [hp] at h
      simp only [] at h
      obtain ⟨point, hs2, hex⟩ := EPA_pass_next sqrt vertA vertB s f s2 f2 hp
      obtain ⟨f3, hex3, hord3⟩ := expand_ordered sqrt s point point.1 f hord
      rw [hex] at hex3
      simp only [Run.ok.injEq] at hex3
      apply ih s2 f2 s1 f1 ?_ h
      rw [hs2, hex3]
      exact hord3
    · rw [hp] at h
      simp at h

/-- On a face list with valid indices `findClosestFace` returns. -/
theorem findClosestFace_ok (sqrt : K → K) (simplex : Simplex K) (faces : List Face)
    (hvalid : ∀ g ∈ faces, ∃ a b c, FaceAt simplex g a b c) :
    ∃ r, findClosestFace sqrt simplex faces = Run.ok r := by
  rcases findClosestFace_loop_spec sqrt simplex faces 0 none hvalid with ⟨h, _⟩ |
    ⟨k, g, a, b, c, _, _, h, _⟩
  · exact ⟨_, h⟩
  · exact ⟨_, h⟩

/-- C25: throughout `EPA` every face `(a, b, c)` of the face list has `a < b < c <
simplex.length`.  The four seed faces have it for a simplex of at least 4 entries, `expand`
with the pushed point returns and keeps it, so the face list at the head of the loop has it
after any number of passes.  Then the indices of the faces point into the simplex:
`findClosestFace` and `expand` return; every edge that `expand` builds has its smaller index
first; and two faces that have the vertices `i ≠ j` in common build the same edge record
for them, which `edgeInEdges` finds in any list that holds it. -/
theorem EPA_faces_ordered (sqrt : K → K) (vertA vertB : List (Vector3 K))
    (simplex : Simplex K) (h4 : 4 ≤ simplex.length) :
    FacesOrdered simplex.length EPA.seedFaces ∧
    (∀ (s : Simplex K) (faces : List Face) (p : SupportPair K),
      FacesOrdered s.length faces →
      ∃ faces1, expand sqrt (s ++ [p]) faces p.1 = Run.ok faces1 ∧
        FacesOrdered (s ++ [p]).length faces1) ∧
    (∀ (n : Nat) (s : Simplex K) (faces : List Face),
      EPA.state sqrt vertA vertB n simplex EPA.seedFaces = some (s, faces) →
      FacesOrdered s.length faces ∧
      (∀ g ∈ faces, ∃ a b c, FaceAt s g a b c) ∧
      (∃ r, findClosestFace sqrt s faces = Run.ok r) ∧
      (∀ p : SupportPair K, ∃ faces1, expand sqrt (s ++ [p]) faces p.1 = Run.ok faces1) ∧
      (∀ g ∈ faces, ∀ e ∈ g.edges, e.a < e.b)) ∧
    (∀ (g h : Face) (i j : Nat), g.a < g.b → g.b < g.c → h.a < h.b → h.b < h.c →
      g.hasEdge i j = true → h.hasEdge i j = true →
      (⟨min i j, max i j⟩ : Edge) ∈ g.edges ∧ (⟨min i j, max i j⟩ : Edge) ∈ h.edges ∧
      ∀ edges : List Edge, (⟨min i j, max i j⟩ : Edge) ∈ edges →
        ∃ k, edgeInEdges edges ⟨min i j, max i j⟩ = some k ∧
          edges[k]? = some ⟨min i j, max i j⟩) := by
  refine ⟨seedFaces_ordered _ h4, fun s faces p h => expand_ordered sqrt s p p.1 faces h,
    ?_, ?_⟩
  · intro n s faces hstate
    have hord := EPA_state_ordered sqrt vertA vertB n simplex EPA.seedFaces s faces
      (seedFaces_ordered _ h4) hstate
    have hvalid := FacesOrdered_faceAt s faces hord
    refine ⟨hord, hvalid, findClosestFace_ok sqrt s faces hvalid, ?_, ?_⟩
    · intro p
      obtain ⟨faces1, h1, _⟩ := expand_ordered sqrt s p p.1 faces hord
      exact ⟨faces1, h1⟩
    · intro g hg e he
      obtain ⟨h1, h2, _⟩ := hord g hg
      exact ((mem_edges_iff g e h1 h2).mp he).1
  · intro g h i j hg1 hg2 hh1 hh2 hgi hhi
    have hne : i ≠ j := by
      unfold Face.hasEdge at hgi
      exact (of_decide_eq_true hgi).1
    have hlt : min i j < max i j := by
      rcases Nat.lt_or_gt_of_ne hne with h1 | h1
      · rw [min_eq_left (le_of_lt h1), max_eq_right (le_of_lt h1)]
        exact h1
      · rw [min_eq_right (le_of_lt h1), max_eq_left (le_of_lt h1)]
        exact h1
    have key : ∀ f : Face, f.hasEdge i j = true → f.hasEdge (min i j) (max i j) = true := by
      intro f hf
      rcases Nat.lt_or_gt_of_ne hne with h1 | h1
      · rw [min_eq_left (le_of_lt h1), max_eq_right (le_of_lt h1)]
        exact hf
      · rw [min_eq_right (le_of_lt h1), max_eq_left (le_of_lt h1), hasEdge_symm]
        exact hf
    refine ⟨(mem_edges_iff g _ hg1 hg2).mpr ⟨hlt, key g hgi⟩,
      (mem_edges_iff h _ hh1 hh2).mpr ⟨hlt, key h hhi⟩, ?_⟩
    intro edges hmem
    rcases edgeInEdges_loop_spec ⟨min i j, max i j⟩ edges 0 with ⟨hno, _⟩ |
      ⟨_, k, hres, hget, _⟩
    · exact absurd hmem hno
    · rw [Nat.zero_add] at hres
      exact ⟨k, hres, hget⟩

theorem spiked_EPA_state :
    EPA.state Real.sqrt spikedVertices [(⟨0, 0, 0⟩ : Vector3 ℝ)] 1 tetraSimplex EPA.seedFaces =
      some (tetraSimplex ++ [(⟨-1 / 2, 0, 0⟩, ⟨-1 / 2, 0, 0⟩)], spikedFaces) := by
  unfold EPA.state
  rw [spiked_EPA_pass Real.sqrt Real.sqrt_one Real_sqrt_four Real_sqrt_nine]
  rfl

theorem EPA_faces_ordered_witness :
    4 ≤ (tetraSimplex (K := ℝ)).length ∧
    EPA.state Real.sqrt spikedVertices [(⟨0, 0, 0⟩ : Vector3 ℝ)] 1 tetraSimplex EPA.seedFaces =
      some (tetraSimplex ++ [(⟨-1 / 2, 0, 0⟩, ⟨-1 / 2, 0, 0⟩)], spikedFaces) ∧
    FacesOrdered
      (tetraSimplex ++ [((⟨-1 / 2, 0, 0⟩ : Vector3 ℝ), (⟨-1 / 2, 0, 0⟩ : Vector3 ℝ))]).length
      spikedFaces :=
  ⟨by simp [tetraSimplex], spiked_EPA_state,
    ((EPA_faces_ordered Real.sqrt spikedVertices [(⟨0, 0, 0⟩ : Vector3 ℝ)] tetraSimplex
      (by simp [tetraSimplex])).2.2.1 1 _ _ spiked_EPA_state).1⟩

/-! ### Claim C21: the contact of `EPA` -/

/-- A pass of the loop of `EPA` that returns a contact: the closest face of the polytope at the
head of the loop, the support point along its normal within the tolerance, and the contact
made of them (lines 202-217). -/
theorem EPA_pass_leave (sqrt : K → K) (vertA vertB : List (Vector3 K)) (simplex : Simplex K)
    (faces : List Face) (contact : Contact K)
    (h : EPA.pass sqrt vertA vertB simplex faces = Pass.leave (Run.ok contact)) :
    ∃ (face : ClosestFace K) (point : SupportPair K),
      findClosestFace sqrt simplex faces = Run.ok (some face) ∧
      support vertA vertB face.normal = some point ∧
      point.1.dot face.normal - face.dist < epsilon ∧
      contact.dist = point.1.dot face.normal ∧
      contact.point = getContactPoint
        (face.normal.negate.multiplyScalar (point.1.dot face.normal)) face.a face.b face.c ∧
      contact.normal = face.normal := by
  have hpass : EPA.pass sqrt vertA vertB simplex faces =
      match findClosestFace sqrt simplex faces with
      | Run.typeError => Pass.leave Run.typeError
      | Run.outOfFuel => Pass.leave Run.outOfFuel
      | Run.ok none => Pass.leave Run.typeError
      | Run.ok (some face) =>
        match support vertA vertB face.normal with
        | none => Pass.leave Run.typeError
        | some point =>
          let dist := point.1.dot face.normal
          if dist - face.dist < epsilon then
            Pass.leave (Run.ok
              { dist := dist
                point := getContactPoint (face.normal.negate.multiplyScalar dist)
                  face.a face.b face.c
                normal := face.normal })
          else
            let simplex := simplex ++ [point]
            match expand sqrt simplex faces point.1 with
            | Run.typeError => Pass.leave Run.typeError
            | Run.outOfFuel => Pass.leave Run.outOfFuel
            | Run.ok simplexFaces => Pass.next (simplex, simplexFaces) := rfl
  rw [hpass] at h
  cases hcl : findClosestFace sqrt simplex faces with
  | typeError =>
    rw [hcl] at h
    simp at h
  | outOfFuel =>
    rw [hcl] at h
    simp at h
  | ok r =>
    cases r with
    | none =>
      rw [hcl] at h
      simp at h
    | some face =>
      rw [hcl] at h
      simp only [] at h
      cases hsup : support vertA vertB face.normal with
      | none =>
        rw [hsup] at h
        simp at h
      | some point =>
        rw [hsup] at h
        simp only [] at h
        by_cases hd : point.1.dot face.normal - face.dist < epsilon
        · rw [if_pos hd] at h
          simp only [Pass.leave.injEq, Run.ok.injEq] at h
          exact ⟨face, point, rfl, hsup, hd, by rw [← h], by rw [← h], by rw [← h]⟩
        · rw [if_neg hd] at h
          rcases hex : expand sqrt (simplex ++ [point]) faces point.1 with f | _ | _
          · rw [hex] at h
            simp at h
          · rw [hex] at h
            simp at h
          · rw [hex] at h
            simp at h

/-- A pass of the loop of `EPA` that goes on has pushed the support point along the normal of
the closest face. -/
theorem EPA_pass_next_support (sqrt : K → K) (vertA vertB : List (Vector3 K))
    (simplex : Simplex K) (faces : List Face) (simplex1 : Simplex K) (faces1 : List Face)
    (h : EPA.pass sqrt vertA vertB simplex faces = Pass.next (simplex1, faces1)) :
    ∃ (dir : Vector3 K) (point : SupportPair K),
      support vertA vertB dir = some point ∧ simplex1 = simplex ++ [point] := by
  unfold EPA.pass at h
  cases hcl : findClosestFace sqrt simplex faces with
  | typeError =>
    rw [hcl] at h
    simp at h
  | outOfFuel =>
    rw [hcl] at h
    simp at h
  | ok r =>
    cases r with
    | none =>
      rw [hcl] at h
      simp at h
    | some face =>
      rw [hcl] at h
      simp only [] at h
      cases hsup : support vertA vertB face.normal with
      | none =>
        rw [hsup] at h
        simp at h
      | some point =>
        rw [hsup] at h
        simp only [] at h
        by_cases hd : point.1.dot face.normal - face.dist < epsilon
        · rw [if_pos hd] at h
          simp at h
        · rw [if_neg hd] at h
          rcases hex : expand sqrt (simplex ++ [point]) faces point.1 with f | _ | _
          · rw [hex] at h
            simp only [Pass.next.injEq, Prod.mk.injEq] at h
            exact ⟨face.normal, point, hsup, h.1.symm⟩
          · rw [hex] at h
            simp at h
          · rw [hex] at h
            simp at h

/-- A run of the loop of `EPA` that returns a contact returns it from the pass at the head of
which the loop holds the simplex and the face list of `EPA.state` after some number of
passes. -/
theorem EPA_loop_state (sqrt : K → K) (vertA vertB : List (Vector3 K)) :
    ∀ (fuel : Nat) (simplex : Simplex K) (faces : List Face) (contact : Contact K),
      EPA.loop sqrt vertA vertB fuel simplex faces = Run.ok contact →
      ∃ (n : Nat) (simplex1 : Simplex K) (faces1 : List Face), n < fuel ∧
        EPA.state sqrt vertA vertB n simplex faces = some (simplex1, faces1) ∧
        EPA.pass sqrt vertA vertB simplex1 faces1 = Pass.leave (Run.ok contact) := by
  intro fuel
  induction fuel with
  | zero =>
    intro simplex faces contact h
    simp [EPA.loop] at h
  | succ fuel ih =>
    intro simplex faces contact h
    rw [EPA_loop_pass] at h
    cases hp : EPA.pass sqrt vertA vertB simplex faces with
    | next st =>
      rw [hp] at h
      simp only [] at h
      obtain ⟨n, s1, f1, hn, hstate, hpass⟩ := ih st.1 st.2 contact h
      refine ⟨n + 1, s1, f1, Nat.succ_lt_succ hn, ?_, hpass⟩
      conv_lhs => unfold EPA.state
      rw [hp]
      exact hstate
    | leave r =>
      rw [hp] at h
      simp only [] at h
      rw [h] at hp
      exact ⟨0, simplex, faces, Nat.succ_pos _, rfl, hp⟩

/-- The points of the simplex of `EPA` stay differences of a vertex of `vertA` and a vertex of
`vertB`. -/
theorem EPA_state_minkowski (sqrt : K → K) (vertA vertB : List (Vector3 K)) :
    ∀ (n : Nat) (s : Simplex K) (f : List Face) (s1 : Simplex K) (f1 : List Face),
      (∀ q ∈ s, ∃ x ∈ vertA, ∃ y ∈ vertB, q.1 = x.sub y) →
      EPA.state sqrt vertA vertB n s f = some (s1, f1) →
      ∀ q ∈ s1, ∃ x ∈ vertA, ∃ y ∈ vertB, q.1 = x.sub y := by
  intro n
  induction n with
  | zero =>
    intro s f s1 f1 hmink h
    simp only [EPA.state, Option.some.injEq, Prod.mk.injEq] at h
    rw [← h.1]
    exact hmink
  | succ n ih =>
    intro s f s1 f1 hmink h
    unfold EPA.state at h
    rcases hp : EPA.pass sqrt vertA vertB s f with ⟨s2, f2⟩ | r
    · rw [hp] at h
      simp only [] at h
      obtain ⟨dir, point, hsup, hs2⟩ := EPA_pass_next_support sqrt vertA vertB s f s2 f2 hp
      apply ih s2 f2 s1 f1 ?_ h
      intro q hq
      rw [hs2, List.mem_append, List.mem_singleton] at hq
      rcases hq with hq | rfl
      · exact hmink q hq
      · obtain ⟨x, hx, y, hy, hp1⟩ := support_mem vertA vertB dir q hsup
        exact ⟨x, hx, y, hy, by rw [hp1]⟩
    · rw [hp] at h
      simp at h

/-- When `findClosestFace` returns, every face of the list had its three indices in the
simplex. -/
theorem findClosestFace_loop_valid (sqrt : K → K) (simplex : Simplex K) :
    ∀ (faces : List Face) (i : Nat) (closest r : Option (ClosestFace K)),
      findClosestFace.loop sqrt simplex faces i closest = Run.ok r →
      ∀ g ∈ faces, ∃ a b c, FaceAt simplex g a b c := by
  intro faces
  induction faces with
  | nil =>
    intro i closest r _ g hg
    exact absurd hg (List.not_mem_nil _)
  | cons g rest ih =>
    intro i closest r h
    rcases ha : simplex[g.a]? with _ | a
    · unfold findClosestFace.loop at h
      simp [ha] at h
    rcases hb : simplex[g.b]? with _ | b
    · unfold findClosestFace.loop at h
      simp [hb] at h
    rcases hc : simplex[g.c]? with _ | c
    · unfold findClosestFace.loop at h
      simp [hc] at h
    have hat : FaceAt simplex g a b c := ⟨ha, hb, hc⟩
    rw [findClosestFace_loop_cons sqrt simplex g rest i closest a b c hat] at h
    have hrest : ∀ g1 ∈ rest, ∃ a b c, FaceAt simplex g1 a b c := by
      split_ifs at h
      · exact ih (i + 1) _ r h
      · exact ih (i + 1) closest r h
    intro g1 hg1
    rcases List.mem_cons.mp hg1 with rfl | hg1
    · exact ⟨a, b, c, hat⟩
    · exact hrest g1 hg1

/-- C21: whenever `EPA` returns a contact for a simplex whose points are differences of a
vertex of `vertA` and a vertex of `vertB`, it returns it from the pass that starts with the
simplex and the face list that the loop holds after some number `n` of passes, and there:
`findClosestFace` returns the record of a face of that list, no face of the list is nearer to
the origin than it, the contact normal is the normal of that face, the contact `dist` is the
projection onto that normal of the support point in the direction of the normal, the contact
point is `getContactPoint` of that face, and
`0 ≤ face.dist ≤ contact.dist < face.dist + epsilon`. -/
theorem EPA_contact (sqrt : K → K) (fuel : Nat) (vertA vertB : List (Vector3 K))
    (simplex : Simplex K) (contact : Contact K)
    (hmink : ∀ q ∈ simplex, ∃ x ∈ vertA, ∃ y ∈ vertB, q.1 = x.sub y)
    (h : EPA sqrt fuel vertA vertB simplex = Run.ok contact) :
    ∃ (n : Nat) (simplex1 : Simplex K) (faces1 : List Face) (face : ClosestFace K)
      (point : SupportPair K),
      n < fuel ∧
      EPA.state sqrt vertA vertB n simplex EPA.seedFaces = some (simplex1, faces1) ∧
      (∀ q ∈ simplex1, ∃ x ∈ vertA, ∃ y ∈ vertB, q.1 = x.sub y) ∧
      findClosestFace sqrt simplex1 faces1 = Run.ok (some face) ∧
      (∃ (g : Face) (a b c : SupportPair K), faces1[face.index]? = some g ∧
        FaceAt simplex1 g a b c ∧ face.a = a ∧ face.b = b ∧ face.c = c ∧
        face.normal = faceNormal sqrt a.1 b.1 c.1 ∧ face.dist = a.1.dot face.normal) ∧
      (∀ (j : Nat) (g : Face) (a b c : SupportPair K), faces1[j]? = some g →
        FaceAt simplex1 g a b c → face.dist ≤ a.1.dot (faceNormal sqrt a.1 b.1 c.1)) ∧
      support vertA vertB face.normal = some point ∧
      contact.normal = face.normal ∧
      contact.dist = point.1.dot face.normal ∧
      contact.point = getContactPoint (face.normal.negate.multiplyScalar contact.dist)
        face.a face.b face.c ∧
      0 ≤ face.dist ∧ face.dist ≤ contact.dist ∧ contact.dist < face.dist + epsilon := by
  obtain ⟨n, s1, f1, hn, hstate, hpass⟩ :=
    EPA_loop_state sqrt vertA vertB fuel simplex EPA.seedFaces contact h
  obtain ⟨face, point, hcl, hsup, hd, hdist, hpoint, hnormal⟩ :=
    EPA_pass_leave sqrt vertA vertB s1 f1 contact hpass
  have hmink1 := EPA_state_minkowski sqrt vertA vertB n simplex EPA.seedFaces s1 f1 hmink hstate
  have hvalid := findClosestFace_loop_valid sqrt s1 f1 0 none (some face) hcl
  rcases findClosestFace_loop_spec sqrt s1 f1 0 none hvalid with ⟨h0, _⟩ |
    ⟨k, g, a, b, c, hk, hat, hres, _, hmin, _⟩
  · have h1 := h0.symm.trans hcl
    simp at h1
  · have hface := hres.symm.trans hcl
    simp only [Run.ok.injEq, Option.some.injEq] at hface
    obtain ⟨x, hx, y, hy, hxy⟩ := hmink1 a (List.getElem?_mem hat.1)
    have hmax := support_max vertA vertB face.normal point hsup x hx y hy
    have hfn : face.normal = faceNormal sqrt a.1 b.1 c.1 := by rw [← hface]
    have hfd : face.dist = a.1.dot (faceNormal sqrt a.1 b.1 c.1) := by rw [← hface]
    have hfi : face.index = k := by rw [← hface, Nat.zero_add]
    rw [← hxy] at hmax
    refine ⟨n, s1, f1, face, point, hn, hstate, hmink1, hcl, ?_, ?_, hsup, hnormal, hdist,
      ?_, ?_, ?_, ?_⟩
    · refine ⟨g, a, b, c, ?_, hat, ?_, ?_, ?_, hfn, ?_⟩
      · rw [hfi]
        exact hk
      · rw [← hface]
      · rw [← hface]
      · rw [← hface]
      · rw [hfd, hfn]
    · intro j g1 a1 b1 c1 hj hat1
      rw [hfd]
      exact hmin j g1 a1 b1 c1 hj hat1
    · rw [hpoint, hdist]
    · rw [hfd]
      exact faceNormal_dot_nonneg sqrt a.1 b.1 c.1
    · rw [hdist, hfd, ← hfn]
      exact hmax
    · rw [hdist]
      linarith

/-- C21 holds on the run of `EPA` on the tetrahedron against the origin, in real
arithmetic. -/
theorem EPA_contact_witness :
    (∀ q ∈ tetraSimplex (K := ℝ), ∃ x ∈ tetraVertices (K := ℝ),
      ∃ y ∈ [(⟨0, 0, 0⟩ : Vector3 ℝ)], q.1 = x.sub y) ∧
    EPA Real.sqrt 4 tetraVertices [(⟨0, 0, 0⟩ : Vector3 ℝ)] tetraSimplex =
      Run.ok tetraContact ∧
    ∃ (n : Nat) (simplex1 : Simplex ℝ) (faces1 : List Face) (face : ClosestFace ℝ)
      (point : SupportPair ℝ),
      n < 4 ∧
      EPA.state Real.sqrt tetraVertices [(⟨0, 0, 0⟩ : Vector3 ℝ)] n tetraSimplex
        EPA.seedFaces = some (simplex1, faces1) ∧
      findClosestFace Real.sqrt simplex1 faces1 = Run.ok (some face) ∧
      (∀ (j : Nat) (g : Face) (a b c : SupportPair ℝ), faces1[j]? = some g →
        FaceAt simplex1 g a b c → face.dist ≤ a.1.dot (faceNormal Real.sqrt a.1 b.1 c.1)) ∧
      support tetraVertices [(⟨0, 0, 0⟩ : Vector3 ℝ)] face.normal = some point ∧
      (tetraContact (K := ℝ)).normal = face.normal ∧
      (tetraContact (K := ℝ)).dist = point.1.dot face.normal ∧
      0 ≤ face.dist ∧ face.dist ≤ (tetraContact (K := ℝ)).dist ∧
      (tetraContact (K := ℝ)).dist < face.dist + epsilon :=
  ⟨tetraSimplex_minkowski, tetra_EPA_real,
    (EPA_contact Real.sqrt 4 tetraVertices [(⟨0, 0, 0⟩ : Vector3 ℝ)] tetraSimplex
      tetraContact tetraSimplex_minkowski tetra_EPA_real).imp fun _ h => h.imp fun _ h =>
        h.imp fun _ h => h.imp fun _ h => h.imp fun _ h =>
          ⟨h.1, h.2.1, h.2.2.2.1, h.2.2.2.2.2.1, h.2.2.2.2.2.2.1, h.2.2.2.2.2.2.2.1,
            h.2.2.2.2.2.2.2.2.1, h.2.2.2.2.2.2.2.2.2.2⟩⟩

end Taro
